import Mathlib

/-!
# Cluster::Multiplexer

A shallow embedding of `Cluster/Multiplexer.cpp`: the per-pipe flow-control state, the
master's and the slaves' packet handling threads, and the public pipe operations, followed by
theorems about them.

Conventions of the embedding:

* `unsigned int` values are natural numbers; every arithmetic operation of the source that can
  wrap is written with `add32`, `sub32` or `mul32`.
* A singly linked chain of packets (`head`, `succ`, ..., null) is the `List` of its packets in
  chain order; `PacketList` keeps the source's separate `numPackets` counter next to it.
  `LinkedPacketList` is the same list with its pointers (`head`, `tail`, the `succ` field of
  each packet); the methods of the list and the relinking of `processAcknowledgment` are shown
  on the pointers to do what they do on the `List`.
* The per-slave arrays of a pipe are lists; `openPipe` allocates them with `numSlaves` entries,
  and a loop of the source over `i<numSlaves` ranges over the list.  An access with an index
  taken from a message is checked, and an access outside the array is the fault
  `Fault.outOfBounds`.
* Condition variables are not state: a caller that has to wait yields the status
  `Status.blocked` and leaves the state as it is.
-/

namespace Cluster

/-! ## Machine arithmetic -/

/-- The modulus of `unsigned int` arithmetic, 2^32. -/
def wordSize : Nat := 4294967296

/-- Wrapping addition of `unsigned int`. -/
def add32 (a b : Nat) : Nat := (a + b) % wordSize

/-- Wrapping subtraction of `unsigned int`. -/
def sub32 (a b : Nat) : Nat := (a + (wordSize - b % wordSize)) % wordSize

/-- Wrapping multiplication of `unsigned int`. -/
def mul32 (a b : Nat) : Nat := (a * b) % wordSize

/-! ## Packets and wire messages -/

/-- Modelled from the spec: the class `Packet` is declared in `Cluster/Packet.h`, which is not
among the sources.  A packet carries its pipe id, the stream position of its first payload
byte, its payload size and its payload buffer; the `succ` link is the position of the packet in
the list that holds it. -/
structure Packet where
  pipeId : Nat
  streamPos : Nat
  packetSize : Nat
  packet : List Nat
  deriving DecidableEq, Repr

/-- Message ids of `MasterMessage` (declared in `Cluster/Multiplexer.h`). -/
inductive MasterMessageId
  | CONNECTION | PING | CREATEPIPE | BARRIER | GATHER
  deriving DecidableEq, Repr

/-- Message ids of `SlaveMessage` (declared in `Cluster/Multiplexer.h`). -/
inductive SlaveMessageId
  | CONNECTION | PING | CREATEPIPE | ACKNOWLEDGMENT | PACKETLOSS | BARRIER | GATHER
  deriving DecidableEq, Repr

/-- Modelled from the spec: `MasterMessage` is declared in `Cluster/Multiplexer.h`, which is not
among the sources.  Fields the sender does not assign are zero. -/
structure MasterMessage where
  messageId : MasterMessageId
  pipeId : Nat := 0
  barrierId : Nat := 0
  masterValue : Nat := 0
  deriving DecidableEq, Repr

/-- Modelled from the spec: `SlaveMessage` is declared in `Cluster/Multiplexer.h`, which is not
among the sources.  Fields the sender does not assign are zero. -/
structure SlaveMessage where
  nodeIndex : Nat
  messageId : SlaveMessageId
  pipeId : Nat := 0
  barrierId : Nat := 0
  streamPos : Nat := 0
  packetPos : Nat := 0
  slaveValue : Nat := 0
  deriving DecidableEq, Repr

/-- One datagram on the socket: a data packet (`pipeId`, `streamPos`, payload bytes), a master
control message or a slave control message. -/
inductive Datagram
  | data (pipeId streamPos : Nat) (payload : List Nat)
  | master (msg : MasterMessage)
  | slave (msg : SlaveMessage)
  deriving DecidableEq, Repr

/-- The `packetSize` payload bytes `sendto` reads from the packet's buffer; a byte of the buffer
that was never written reads as 0. -/
def Packet.wireBytes (p : Packet) : List Nat :=
  (List.range p.packetSize).map (fun i => p.packet.getD i 0)

/-- The datagram `sendto(socketFd,&packet->pipeId,packet->packetSize+2*sizeof(unsigned int),...)`
puts on the wire. -/
def Packet.toDatagram (p : Packet) : Datagram :=
  Datagram.data p.pipeId p.streamPos p.wireBytes

/-- The scratch packet after `recv` has read a data datagram into it and the slave thread has
set `packetSize` to the number of payload bytes received. -/
def Packet.received (pipeId streamPos : Nat) (payload : List Nat) : Packet :=
  { pipeId := pipeId, streamPos := streamPos, packetSize := payload.length, packet := payload }

/-- What a slave holds after receiving the datagram of `p`. -/
def Packet.delivered (p : Packet) : Packet :=
  Packet.received p.pipeId p.streamPos p.wireBytes

/-! ## Faults and statuses -/

/-- Ways in which an operation does not return normally. -/
inductive Fault
  | closedPipe        -- `Misc::throwStdErr`: the pipe id is not in the pipe table
  | fatalPacketLoss   -- `Misc::throwStdErr`: "Fatal packet loss detected"
  | nullPointer       -- a null pointer is dereferenced
  | outOfBounds       -- an array is indexed outside its allocation
  deriving DecidableEq, Repr

/-- How a call ends: it returns a value, it waits on a condition variable, or it fails. -/
inductive Status (α : Type)
  | returned (a : α)
  | blocked
  | failed (f : Fault)
  deriving DecidableEq, Repr

/-- The call or the handler failed. -/
def Status.isFailure {α : Type} : Status α → Bool
  | Status.failed _ => true
  | _ => false

/-! ## PacketList -/

/-- The class `PipeState::PacketList`: the counter `numPackets` and the chain of packets from
`head` to `tail`. -/
structure PacketList where
  numPackets : Nat := 0
  packets : List Packet := []
  deriving DecidableEq, Repr

/-- The pointer `head`: the first packet of the chain, or null. -/
def PacketList.head (l : PacketList) : Option Packet := l.packets.head?

/-- The pointer `tail`: the last packet of the chain, or null. -/
def PacketList.tail (l : PacketList) : Option Packet := l.packets.getLast?

/-- Modelled from the spec: `size()` is declared in the header; it is the stored length. -/
def PacketList.size (l : PacketList) : Nat := l.numPackets

/-- Modelled from the spec: `empty()` is declared in the header; it tests the stored length. -/
def PacketList.empty (l : PacketList) : Bool := l.numPackets == 0

/-- The method `PacketList::push_back`. -/
def PacketList.push_back (l : PacketList) (packet : Packet) : PacketList :=
  { numPackets := l.numPackets + 1, packets := l.packets ++ [packet] }

/-- The method `PacketList::pop_front`: the detached head and the remaining list; on an empty
chain `head->succ` dereferences null. -/
def PacketList.pop_front (l : PacketList) : Except Fault (Packet × PacketList) :=
  match l.packets with
  | [] => Except.error Fault.nullPointer
  | result :: rest => Except.ok (result, { numPackets := l.numPackets - 1, packets := rest })

/-- The counter of a packet list agrees with its chain. -/
def PacketList.Consistent (l : PacketList) : Prop := l.numPackets = l.packets.length

instance (l : PacketList) : Decidable l.Consistent := by
  unfold PacketList.Consistent; infer_instance

/-! ## PipeState -/

/-- The class `PipeState`.  The arrays are null (empty) until `openPipe` allocates them on the
master.  The constructor leaves `masterGatherValue` unassigned; nothing reads it before `gather`
or a `GATHER` message has assigned it, and a fresh state holds 0 there. -/
structure PipeState where
  streamPos : Nat := 0
  packetLossMode : Bool := false
  packetList : PacketList := {}
  headStreamPos : Nat := 0
  slaveStreamPosOffsets : List Nat := []
  numHeadSlaves : Nat := 0
  barrierId : Nat := 0
  slaveBarrierIds : List Nat := []
  minSlaveBarrierId : Nat := 0
  slaveGatherValues : List Nat := []
  masterGatherValue : Nat := 0
  deriving DecidableEq, Repr

/-! ## The slave's packet handling thread: data packets -/

/-- What the slave thread did with one data packet: the pipe state, the thread's local counter
`sendAckIn`, the messages sent to the master, and whether the scratch packet went into the
delivery queue (so that `newPacket()` replaced it). -/
structure DataResult where
  pipeState : PipeState
  sendAckIn : Nat
  sent : List SlaveMessage
  queued : Bool
  deriving DecidableEq, Repr

/-- The data branch of `packetHandlingThreadSlave` (the `else` of `pipeId==0`) on a valid pipe:
`slaveThreadPacket` is the scratch packet `recv` has filled. -/
def handleDataPacket (numSlaves nodeIndex slaveMessageBurstSize : Nat) (pipeState : PipeState)
    (sendAckIn : Nat) (slaveThreadPacket : Packet) : DataResult :=
  if pipeState.streamPos ≠ slaveThreadPacket.streamPos then
    if pipeState.streamPos < slaveThreadPacket.streamPos ∧ pipeState.packetLossMode = false then
      let msg : SlaveMessage :=
        { nodeIndex := nodeIndex, messageId := SlaveMessageId.PACKETLOSS,
          pipeId := slaveThreadPacket.pipeId,
          streamPos := pipeState.streamPos, packetPos := slaveThreadPacket.streamPos }
      { pipeState := { pipeState with packetLossMode := true },
        sendAckIn := sendAckIn,
        sent := List.replicate slaveMessageBurstSize msg,
        queued := false }
    else
      { pipeState := pipeState, sendAckIn := sendAckIn, sent := [], queued := false }
  else
    let sendAckIn1 := add32 sendAckIn 1
    let msg : SlaveMessage :=
      { nodeIndex := nodeIndex, messageId := SlaveMessageId.ACKNOWLEDGMENT,
        pipeId := slaveThreadPacket.pipeId,
        streamPos := pipeState.streamPos, packetPos := slaveThreadPacket.streamPos }
    { pipeState :=
        { pipeState with
          packetLossMode := false
          streamPos := add32 pipeState.streamPos slaveThreadPacket.packetSize
          packetList := pipeState.packetList.push_back slaveThreadPacket },
      sendAckIn := if sendAckIn1 = numSlaves then 0 else sendAckIn1,
      sent := if sendAckIn1 = numSlaves then [msg] else [],
      queued := true }

/-- One pass of `receivePacket` on a valid pipe.  While the delivery queue is empty the caller
waits; `timedOut` says whether the timed wait expired, in which case a burst of `PACKETLOSS`
probes goes to the master.  Otherwise the front packet is popped and returned. -/
def receivePacketOn (nodeIndex slaveMessageBurstSize pipeId : Nat) (pipeState : PipeState)
    (timedOut : Bool) : PipeState × List SlaveMessage × Status Packet :=
  if pipeState.packetList.empty then
    let msg : SlaveMessage :=
      { nodeIndex := nodeIndex, messageId := SlaveMessageId.PACKETLOSS, pipeId := pipeId,
        streamPos := pipeState.streamPos, packetPos := pipeState.streamPos }
    (pipeState, if timedOut then List.replicate slaveMessageBurstSize msg else [], Status.blocked)
  else
    match pipeState.packetList.pop_front with
    | Except.error f => (pipeState, [], Status.failed f)
    | Except.ok (result, rest) => ({ pipeState with packetList := rest }, [], Status.returned result)

/-- Stamping of `sendPacket`: each packet gets the pipe id and the pipe's stream position, and
the stream position advances by the packet's size. -/
def stampPackets (pipeId : Nat) : Nat → List Packet → List Packet
  | _, [] => []
  | streamPos, packet :: rest =>
    { packet with pipeId := pipeId, streamPos := streamPos } ::
      stampPackets pipeId (add32 streamPos packet.packetSize) rest

/-- What happens at a slave: a data datagram arrives (it is handled on the pipe it names), or
the application calls `receivePacket` on the pipe. -/
inductive SlaveEvent
  | arrival (pipeId streamPos : Nat) (payload : List Nat)
  | receive (timedOut : Bool)
  deriving DecidableEq, Repr

/-- The slave side of one pipe together with its history: the packets the receiver thread has
appended to the delivery queue and the packets `receivePacket` has returned, both in order. -/
structure SlaveTrace where
  pipeState : PipeState
  sendAckIn : Nat
  appended : List Packet
  returned : List Packet
  deriving DecidableEq, Repr

/-- One event at a slave. -/
def slaveStep (numSlaves nodeIndex slaveMessageBurstSize pipeId : Nat) (t : SlaveTrace) :
    SlaveEvent → SlaveTrace
  | SlaveEvent.arrival pid streamPos payload =>
    if pid = pipeId then
      let scratch := Packet.received pid streamPos payload
      let r := handleDataPacket numSlaves nodeIndex slaveMessageBurstSize t.pipeState t.sendAckIn
        scratch
      { pipeState := r.pipeState, sendAckIn := r.sendAckIn,
        appended := if r.queued then t.appended ++ [scratch] else t.appended,
        returned := t.returned }
    else t
  | SlaveEvent.receive timedOut =>
    match receivePacketOn nodeIndex slaveMessageBurstSize pipeId t.pipeState timedOut with
    | (ps, _, Status.returned result) =>
      { t with pipeState := ps, returned := t.returned ++ [result] }
    | (ps, _, _) => { t with pipeState := ps }

/-- A sequence of events at a slave. -/
def slaveRun (numSlaves nodeIndex slaveMessageBurstSize pipeId : Nat) (t : SlaveTrace)
    (events : List SlaveEvent) : SlaveTrace :=
  events.foldl (slaveStep numSlaves nodeIndex slaveMessageBurstSize pipeId) t

/-- The slave side of a pipe that `openPipe` has just created. -/
def SlaveTrace.start (nodeIndex : Nat) : SlaveTrace :=
  { pipeState := {}, sendAckIn := sub32 nodeIndex 1, appended := [], returned := [] }

/-- An arriving datagram is the datagram of one of the given packets. -/
def SlaveEvent.From (sentPackets : List Packet) : SlaveEvent → Prop
  | SlaveEvent.arrival pipeId streamPos payload =>
    Datagram.data pipeId streamPos payload ∈ sentPackets.map Packet.toDatagram
  | SlaveEvent.receive _ => True

instance (sentPackets : List Packet) (e : SlaveEvent) : Decidable (e.From sentPackets) := by
  cases e <;> unfold SlaveEvent.From <;> infer_instance

/-- Every datagram that arrives is the datagram of one of the given packets. -/
def ArrivalsFrom (sentPackets : List Packet) (events : List SlaveEvent) : Prop :=
  ∀ e ∈ events, e.From sentPackets

instance (sentPackets : List Packet) (events : List SlaveEvent) :
    Decidable (ArrivalsFrom sentPackets events) := by
  unfold ArrivalsFrom; infer_instance

/-! ## The master: acknowledgments and the send window -/

/-- The minimum loop of the source over an array: `m=a[0]; for(i=1;i<numSlaves;++i) if(m>a[i])
m=a[i];`.  Reading `a[0]` of an array without entries is out of bounds. -/
def minimumOf : List Nat → Except Fault Nat
  | [] => Except.error Fault.outOfBounds
  | first :: rest => Except.ok (rest.foldl (fun m x => if m > x then x else m) first)

/-- State of the discard loop of `processAcknowledgment` when it stops: the counter of the
packet list, the bytes discarded, what is left of the minimal offset, the chain from
`firstAcknowledged` to `lastAcknowledged`, and the chain from `lastAcknowledged->succ` on. -/
structure Discard where
  numPackets : Nat
  numDiscarded : Nat
  minStreamPosOffset : Nat
  acknowledged : List Packet
  remaining : List Packet
  deriving DecidableEq, Repr

/-- The discard loop of `processAcknowledgment`:
`for(pPtr=head;pPtr!=0&&minStreamPosOffset>=pPtr->packetSize;lastAcknowledged=pPtr,pPtr=pPtr->succ)`. -/
def discardAcknowledged (numPackets numDiscarded minStreamPosOffset : Nat) :
    List Packet → Discard
  | [] =>
    { numPackets := numPackets, numDiscarded := numDiscarded,
      minStreamPosOffset := minStreamPosOffset, acknowledged := [], remaining := [] }
  | pPtr :: succ =>
    if minStreamPosOffset ≥ pPtr.packetSize then
      let r := discardAcknowledged (numPackets - 1) (add32 numDiscarded pPtr.packetSize)
        (minStreamPosOffset - pPtr.packetSize) succ
      { r with acknowledged := pPtr :: r.acknowledged }
    else
      { numPackets := numPackets, numDiscarded := numDiscarded,
        minStreamPosOffset := minStreamPosOffset, acknowledged := [], remaining := pPtr :: succ }

/-- The method `Multiplexer::processAcknowledgment` on a pipe state and the packet pool.  The
acknowledged chain is linked in front of the pool (when `lastAcknowledged` is null the chain is
empty and nothing changes). -/
def processAcknowledgment (pipeState : PipeState) (packetPoolHead : List Packet)
    (slaveIndex streamPos : Nat) : Except Fault (PipeState × List Packet) :=
  let streamPosOffset := sub32 streamPos pipeState.headStreamPos
  if streamPosOffset > 0 then
    match pipeState.slaveStreamPosOffsets[slaveIndex]? with
    | none => Except.error Fault.outOfBounds
    | some slaveOffset =>
      let offsets := pipeState.slaveStreamPosOffsets.set slaveIndex streamPosOffset
      if slaveOffset = 0 then
        let numHeadSlaves := sub32 pipeState.numHeadSlaves 1
        if numHeadSlaves = 0 then
          match minimumOf offsets with
          | Except.error f => Except.error f
          | Except.ok minStreamPosOffset =>
            let d := discardAcknowledged pipeState.packetList.numPackets 0 minStreamPosOffset
              pipeState.packetList.packets
            let offsets2 := offsets.map (fun o => sub32 o d.numDiscarded)
            Except.ok
              ({ pipeState with
                  packetList := { numPackets := d.numPackets, packets := d.remaining }
                  headStreamPos := add32 pipeState.headStreamPos d.numDiscarded
                  slaveStreamPosOffsets := offsets2
                  numHeadSlaves := numHeadSlaves + offsets2.count 0 },
               d.acknowledged ++ packetPoolHead)
        else
          Except.ok
            ({ pipeState with slaveStreamPosOffsets := offsets, numHeadSlaves := numHeadSlaves },
             packetPoolHead)
      else
        Except.ok ({ pipeState with slaveStreamPosOffsets := offsets }, packetPoolHead)
  else
    Except.ok (pipeState, packetPoolHead)

/-- The packets `processAcknowledgment` detaches from the send window: the packets that were in
the window before and are not in it after. -/
def detachedBy (pipeState : PipeState) (packetPoolHead : List Packet)
    (slaveIndex streamPos : Nat) : List Packet :=
  match processAcknowledgment pipeState packetPoolHead slaveIndex streamPos with
  | Except.error _ => []
  | Except.ok (after, _) =>
    pipeState.packetList.packets.take
      (pipeState.packetList.packets.length - after.packetList.packets.length)

/-- What a handler or a pipe operation of the master did on one pipe: the pipe state, the
packet pool, the datagrams sent, and how it ended. -/
structure PipeResult (α : Type) where
  pipeState : PipeState
  packetPoolHead : List Packet
  sent : List Datagram
  status : Status α

/-- The case `SlaveMessage::ACKNOWLEDGMENT` of `packetHandlingThreadMaster` on a valid pipe. -/
def handleAcknowledgment (pipeState : PipeState) (packetPoolHead : List Packet)
    (msg : SlaveMessage) : PipeResult Unit :=
  match processAcknowledgment pipeState packetPoolHead (sub32 msg.nodeIndex 1) msg.streamPos with
  | Except.error f =>
    { pipeState := pipeState, packetPoolHead := packetPoolHead, sent := [],
      status := Status.failed f }
  | Except.ok (ps, pool) =>
    { pipeState := ps, packetPoolHead := pool, sent := [], status := Status.returned () }

/-- The case `SlaveMessage::PACKETLOSS` of `packetHandlingThreadMaster` on a valid pipe: the
reported position is processed as an acknowledgment; then, if the master has sent more, the
window is scanned for the first packet not before the reported position, `packet->streamPos`
is read (a null dereference when the scan ran off the list), and the packets from there to the
tail are sent again. -/
def handlePacketLoss (pipeState : PipeState) (packetPoolHead : List Packet)
    (msg : SlaveMessage) : PipeResult Unit :=
  match processAcknowledgment pipeState packetPoolHead (sub32 msg.nodeIndex 1) msg.streamPos with
  | Except.error f =>
    { pipeState := pipeState, packetPoolHead := packetPoolHead, sent := [],
      status := Status.failed f }
  | Except.ok (ps, pool) =>
    if msg.streamPos < ps.streamPos then
      match ps.packetList.packets.dropWhile (fun packet => packet.streamPos < msg.streamPos) with
      | [] =>
        { pipeState := ps, packetPoolHead := pool, sent := [],
          status := Status.failed Fault.nullPointer }
      | packet :: succ =>
        if packet.streamPos ≠ msg.streamPos then
          { pipeState := ps, packetPoolHead := pool, sent := [],
            status := Status.failed Fault.fatalPacketLoss }
        else
          { pipeState := ps, packetPoolHead := pool,
            sent := (packet :: succ).map Packet.toDatagram, status := Status.returned () }
    else
      { pipeState := ps, packetPoolHead := pool, sent := [], status := Status.returned () }

/-- Assignment `slaveBarrierIds[msg.nodeIndex-1]=barrierId` followed by the recomputation of
`minSlaveBarrierId`, as the `CREATEPIPE`, `BARRIER` and `GATHER` cases do it. -/
def recordBarrierId (pipeState : PipeState) (nodeIndex barrierId : Nat) :
    Except Fault PipeState :=
  let slaveIndex := sub32 nodeIndex 1
  if slaveIndex < pipeState.slaveBarrierIds.length then
    let ids := pipeState.slaveBarrierIds.set slaveIndex barrierId
    match minimumOf ids with
    | Except.error f => Except.error f
    | Except.ok m => Except.ok { pipeState with slaveBarrierIds := ids, minSlaveBarrierId := m }
  else
    Except.error Fault.outOfBounds

/-- Wrap a handler that sends nothing and does not touch the pool. -/
def PipeResult.ofExcept (pipeState : PipeState) (packetPoolHead : List Packet)
    (r : Except Fault PipeState) : PipeResult Unit :=
  match r with
  | Except.error f =>
    { pipeState := pipeState, packetPoolHead := packetPoolHead, sent := [],
      status := Status.failed f }
  | Except.ok ps =>
    { pipeState := ps, packetPoolHead := packetPoolHead, sent := [],
      status := Status.returned () }

/-- The case `SlaveMessage::CREATEPIPE` of `packetHandlingThreadMaster` on a valid pipe. -/
def handleCreatePipe (pipeState : PipeState) (packetPoolHead : List Packet)
    (msg : SlaveMessage) : PipeResult Unit :=
  if pipeState.barrierId ≥ 1 then
    { pipeState := pipeState, packetPoolHead := packetPoolHead,
      sent := [Datagram.master { messageId := MasterMessageId.CREATEPIPE, pipeId := msg.pipeId }],
      status := Status.returned () }
  else
    PipeResult.ofExcept pipeState packetPoolHead (recordBarrierId pipeState msg.nodeIndex 1)

/-- The case `SlaveMessage::BARRIER` of `packetHandlingThreadMaster` on a valid pipe. -/
def handleBarrier (pipeState : PipeState) (packetPoolHead : List Packet)
    (msg : SlaveMessage) : PipeResult Unit :=
  if msg.barrierId ≤ pipeState.barrierId then
    { pipeState := pipeState, packetPoolHead := packetPoolHead,
      sent := [Datagram.master
        { messageId := MasterMessageId.BARRIER, pipeId := msg.pipeId,
          barrierId := msg.barrierId }],
      status := Status.returned () }
  else
    PipeResult.ofExcept pipeState packetPoolHead
      (recordBarrierId pipeState msg.nodeIndex msg.barrierId)

/-- The case `SlaveMessage::GATHER` of `packetHandlingThreadMaster` on a valid pipe. -/
def handleGather (pipeState : PipeState) (packetPoolHead : List Packet)
    (msg : SlaveMessage) : PipeResult Unit :=
  if msg.barrierId ≤ pipeState.barrierId then
    { pipeState := pipeState, packetPoolHead := packetPoolHead,
      sent := [Datagram.master
        { messageId := MasterMessageId.GATHER, pipeId := msg.pipeId,
          barrierId := msg.barrierId, masterValue := pipeState.masterGatherValue }],
      status := Status.returned () }
  else
    let slaveIndex := sub32 msg.nodeIndex 1
    if slaveIndex < pipeState.slaveBarrierIds.length then
      let ids := pipeState.slaveBarrierIds.set slaveIndex msg.barrierId
      if slaveIndex < pipeState.slaveGatherValues.length then
        let values := pipeState.slaveGatherValues.set slaveIndex msg.slaveValue
        PipeResult.ofExcept pipeState packetPoolHead
          (match minimumOf ids with
            | Except.error f => Except.error f
            | Except.ok m =>
              Except.ok
                { pipeState with
                  slaveBarrierIds := ids, slaveGatherValues := values, minSlaveBarrierId := m })
      else
        PipeResult.ofExcept pipeState packetPoolHead (Except.error Fault.outOfBounds)
    else
      PipeResult.ofExcept pipeState packetPoolHead (Except.error Fault.outOfBounds)

/-- The body of `sendPacket` on a valid pipe: wait while the send queue is full, else stamp the
packet, append it to the "recently sent" list and send it. -/
def sendPacketOn (sendBufferSize pipeId : Nat) (pipeState : PipeState)
    (packetPoolHead : List Packet) (packet : Packet) : PipeResult Unit :=
  if pipeState.packetList.size = sendBufferSize then
    { pipeState := pipeState, packetPoolHead := packetPoolHead, sent := [],
      status := Status.blocked }
  else
    let stamped : Packet := { packet with pipeId := pipeId, streamPos := pipeState.streamPos }
    { pipeState :=
        { pipeState with
          streamPos := add32 pipeState.streamPos packet.packetSize
          packetList := pipeState.packetList.push_back stamped },
      packetPoolHead := packetPoolHead,
      sent := [stamped.toDatagram],
      status := Status.returned () }

/-- The block "Flush the list of sent packets" and "Reset the pipe's flow control state" of
`barrier` and `gather` on the master.  With `numPackets>0` the statement `tail->succ=...`
dereferences `tail`. -/
def flushSendWindow (numSlaves : Nat) (pipeState : PipeState) (packetPoolHead : List Packet) :
    Except Fault (PipeState × List Packet) :=
  let reset (ps : PipeState) : PipeState :=
    { ps with
      headStreamPos := ps.streamPos
      slaveStreamPosOffsets := ps.slaveStreamPosOffsets.map (fun _ => 0)
      numHeadSlaves := numSlaves }
  if pipeState.packetList.numPackets > 0 then
    match pipeState.packetList.tail with
    | none => Except.error Fault.nullPointer
    | some _ =>
      Except.ok
        (reset { pipeState with packetList := { numPackets := 0, packets := [] } },
         pipeState.packetList.packets ++ packetPoolHead)
  else
    Except.ok (reset pipeState, packetPoolHead)

/-- The master branch of `barrier` on a valid pipe. -/
def barrierMaster (numSlaves pipeId : Nat) (pipeState : PipeState)
    (packetPoolHead : List Packet) : PipeResult Unit :=
  let nextBarrierId := add32 pipeState.barrierId 1
  if pipeState.minSlaveBarrierId < nextBarrierId then
    { pipeState := pipeState, packetPoolHead := packetPoolHead, sent := [],
      status := Status.blocked }
  else
    match flushSendWindow numSlaves pipeState packetPoolHead with
    | Except.error f =>
      { pipeState := pipeState, packetPoolHead := packetPoolHead, sent := [],
        status := Status.failed f }
    | Except.ok (ps, pool) =>
      { pipeState := { ps with barrierId := nextBarrierId },
        packetPoolHead := pool,
        sent := [Datagram.master
          { messageId := MasterMessageId.BARRIER, pipeId := pipeId,
            barrierId := nextBarrierId }],
        status := Status.returned () }

/-- The enumeration `GatherOperation::OpCode`. -/
inductive OpCode
  | AND | OR | MIN | MAX | SUM | PRODUCT
  deriving DecidableEq, Repr

/-- One round of the loop "Calculate the final gather value" of `gather`. -/
def gatherStep (op : OpCode) (masterGatherValue slaveGatherValue : Nat) : Nat :=
  match op with
  | OpCode.AND => if masterGatherValue ≠ 0 ∧ slaveGatherValue ≠ 0 then 1 else 0
  | OpCode.OR => if masterGatherValue ≠ 0 ∨ slaveGatherValue ≠ 0 then 1 else 0
  | OpCode.MIN =>
    if masterGatherValue > slaveGatherValue then slaveGatherValue else masterGatherValue
  | OpCode.MAX =>
    if masterGatherValue < slaveGatherValue then slaveGatherValue else masterGatherValue
  | OpCode.SUM => add32 masterGatherValue slaveGatherValue
  | OpCode.PRODUCT => mul32 masterGatherValue slaveGatherValue

/-- The block "Calculate the final gather value" of `gather`: `masterGatherValue=value`, then
the loop of the chosen operation over `slaveGatherValues`. -/
def gatherValue (op : OpCode) (value : Nat) (slaveGatherValues : List Nat) : Nat :=
  slaveGatherValues.foldl (gatherStep op) value

/-- The master branch of `gather` on a valid pipe; it returns the master gather value. -/
def gatherMaster (numSlaves pipeId : Nat) (pipeState : PipeState)
    (packetPoolHead : List Packet) (value : Nat) (op : OpCode) : PipeResult Nat :=
  let nextBarrierId := add32 pipeState.barrierId 1
  if pipeState.minSlaveBarrierId < nextBarrierId then
    { pipeState := pipeState, packetPoolHead := packetPoolHead, sent := [],
      status := Status.blocked }
  else
    let ps1 := { pipeState with
      masterGatherValue := gatherValue op value pipeState.slaveGatherValues }
    match flushSendWindow numSlaves ps1 packetPoolHead with
    | Except.error f =>
      { pipeState := ps1, packetPoolHead := packetPoolHead, sent := [],
        status := Status.failed f }
    | Except.ok (ps, pool) =>
      { pipeState := { ps with barrierId := nextBarrierId },
        packetPoolHead := pool,
        sent := [Datagram.master
          { messageId := MasterMessageId.GATHER, pipeId := pipeId,
            barrierId := nextBarrierId, masterValue := ps.masterGatherValue }],
        status := Status.returned ps.masterGatherValue }

/-! ## The slave side of barrier and gather -/

/-- The message a slave sends in each round of the loop of `barrier`. -/
def barrierMessage (nodeIndex pipeId : Nat) (pipeState : PipeState) : SlaveMessage :=
  { nodeIndex := nodeIndex, messageId := SlaveMessageId.BARRIER, pipeId := pipeId,
    barrierId := add32 pipeState.barrierId 1 }

/-- The message a slave sends in each round of the loop of `gather`. -/
def gatherMessage (nodeIndex pipeId value : Nat) (pipeState : PipeState) : SlaveMessage :=
  { nodeIndex := nodeIndex, messageId := SlaveMessageId.GATHER, pipeId := pipeId,
    barrierId := add32 pipeState.barrierId 1, slaveValue := value }

/-- The statement "Mark the barrier as completed" that ends `barrier` and `gather`. -/
def completeBarrier (pipeState : PipeState) : PipeState :=
  { pipeState with barrierId := add32 pipeState.barrierId 1 }

/-- One round of the slave branch of `barrier` on a valid pipe: send the barrier message, then
`timedWait`; `signalled` says whether the wait was ended by `barrierCond.broadcast()`. -/
def barrierSlave (nodeIndex pipeId : Nat) (pipeState : PipeState)
    (packetPoolHead : List Packet) (signalled : Bool) : PipeResult Unit :=
  { pipeState := if signalled then completeBarrier pipeState else pipeState,
    packetPoolHead := packetPoolHead,
    sent := [Datagram.slave (barrierMessage nodeIndex pipeId pipeState)],
    status := if signalled then Status.returned () else Status.blocked }

/-- One round of the slave branch of `gather` on a valid pipe. -/
def gatherSlave (nodeIndex pipeId : Nat) (pipeState : PipeState)
    (packetPoolHead : List Packet) (value : Nat) (signalled : Bool) : PipeResult Nat :=
  { pipeState := if signalled then completeBarrier pipeState else pipeState,
    packetPoolHead := packetPoolHead,
    sent := [Datagram.slave (gatherMessage nodeIndex pipeId value pipeState)],
    status := if signalled then Status.returned pipeState.masterGatherValue else Status.blocked }

/-- The control branch of `packetHandlingThreadSlave` for a message that names a valid pipe: the
new pipe state and whether `barrierCond.broadcast()` is called. -/
def handleMasterMessage (pipeState : PipeState) (msg : MasterMessage) : PipeState × Bool :=
  match msg.messageId with
  | MasterMessageId.CONNECTION => (pipeState, false)
  | MasterMessageId.PING => (pipeState, false)
  | MasterMessageId.CREATEPIPE => (pipeState, pipeState.barrierId == 0)
  | MasterMessageId.BARRIER => (pipeState, decide (msg.barrierId > pipeState.barrierId))
  | MasterMessageId.GATHER =>
    if msg.barrierId > pipeState.barrierId then
      ({ pipeState with masterGatherValue := msg.masterValue }, true)
    else
      (pipeState, false)

/-! ## The multiplexer -/

/-- The members of `Multiplexer` the pipe operations use.  The pipe state table maps pipe ids
to pipe states; the packet pool is the chain from `packetPoolHead`. -/
structure Multiplexer where
  numSlaves : Nat
  nodeIndex : Nat
  nextPipeId : Nat := 1
  pipeStateTable : List (Nat × PipeState) := []
  masterMessageBurstSize : Nat := 1
  slaveMessageBurstSize : Nat := 1
  sendBufferSize : Nat := 20
  packetPoolHead : List Packet := []
  deriving DecidableEq, Repr

/-- What a method of `Multiplexer` did: the multiplexer afterwards (at the point of the throw
when it failed), the datagrams sent, and how the call ended. -/
structure Outcome (α : Type) where
  multiplexer : Multiplexer
  sent : List Datagram
  status : Status α

/-- The lookup of `LockedPipe`: the state of the pipe, or invalid. -/
def Multiplexer.findEntry (m : Multiplexer) (pipeId : Nat) : Option PipeState :=
  m.pipeStateTable.lookup pipeId

/-- A mutation through a `LockedPipe` handle: the entry of `pipeId` holds the new state. -/
def Multiplexer.writePipe (m : Multiplexer) (pipeId : Nat) (pipeState : PipeState)
    (packetPoolHead : List Packet) : Multiplexer :=
  { m with
    pipeStateTable :=
      m.pipeStateTable.map (fun e => if e.1 = pipeId then (e.1, pipeState) else e)
    packetPoolHead := packetPoolHead }

/-- Store the result of a pipe-level operation back into the multiplexer. -/
def Multiplexer.store {α : Type} (m : Multiplexer) (pipeId : Nat) (r : PipeResult α) :
    Outcome α :=
  { multiplexer := m.writePipe pipeId r.pipeState r.packetPoolHead, sent := r.sent,
    status := r.status }

/-- A method that throws because `LockedPipe::isValid()` is false. -/
def Multiplexer.closed {α : Type} (m : Multiplexer) : Outcome α :=
  { multiplexer := m, sent := [], status := Status.failed Fault.closedPipe }

/-- The method `Multiplexer::setSendBufferSize`. -/
def Multiplexer.setSendBufferSize (m : Multiplexer) (newSendBufferSize : Nat) : Multiplexer :=
  { m with sendBufferSize := newSendBufferSize }

/-- The method `Multiplexer::sendPacket`. -/
def Multiplexer.sendPacket (m : Multiplexer) (pipeId : Nat) (packet : Packet) : Outcome Unit :=
  match m.findEntry pipeId with
  | none => m.closed
  | some pipeState =>
    m.store pipeId (sendPacketOn m.sendBufferSize pipeId pipeState m.packetPoolHead packet)

/-- The method `Multiplexer::receivePacket`, one pass of its wait loop. -/
def Multiplexer.receivePacket (m : Multiplexer) (pipeId : Nat) (timedOut : Bool) :
    Outcome Packet :=
  match m.findEntry pipeId with
  | none => m.closed
  | some pipeState =>
    match receivePacketOn m.nodeIndex m.slaveMessageBurstSize pipeId pipeState timedOut with
    | (ps, sent, status) =>
      { multiplexer := m.writePipe pipeId ps m.packetPoolHead,
        sent := sent.map Datagram.slave, status := status }

/-- The method `Multiplexer::barrier`; on a slave, one round of its loop. -/
def Multiplexer.barrier (m : Multiplexer) (pipeId : Nat) (signalled : Bool) : Outcome Unit :=
  match m.findEntry pipeId with
  | none => m.closed
  | some pipeState =>
    if m.nodeIndex = 0 then
      m.store pipeId (barrierMaster m.numSlaves pipeId pipeState m.packetPoolHead)
    else
      m.store pipeId (barrierSlave m.nodeIndex pipeId pipeState m.packetPoolHead signalled)

/-- The method `Multiplexer::gather`; on a slave, one round of its loop. -/
def Multiplexer.gather (m : Multiplexer) (pipeId value : Nat) (op : OpCode)
    (signalled : Bool) : Outcome Nat :=
  match m.findEntry pipeId with
  | none => m.closed
  | some pipeState =>
    if m.nodeIndex = 0 then
      m.store pipeId (gatherMaster m.numSlaves pipeId pipeState m.packetPoolHead value op)
    else
      m.store pipeId (gatherSlave m.nodeIndex pipeId pipeState m.packetPoolHead value signalled)

/-- The method `Multiplexer::closePipe`: a barrier, then the entry is removed from the table and
its queued packets go to the packet pool. -/
def Multiplexer.closePipe (m : Multiplexer) (pipeId : Nat) (signalled : Bool) : Outcome Unit :=
  let b := m.barrier pipeId signalled
  match b.status with
  | Status.failed f => { multiplexer := b.multiplexer, sent := b.sent, status := Status.failed f }
  | Status.blocked => { multiplexer := b.multiplexer, sent := b.sent, status := Status.blocked }
  | Status.returned _ =>
    match b.multiplexer.findEntry pipeId with
    | none =>
      { multiplexer := b.multiplexer, sent := b.sent, status := Status.failed Fault.closedPipe }
    | some pipeState =>
      let removed : Multiplexer :=
        { b.multiplexer with
          pipeStateTable := b.multiplexer.pipeStateTable.filter (fun e => e.1 ≠ pipeId) }
      if pipeState.packetList.numPackets > 0 then
        match pipeState.packetList.tail with
        | none => { multiplexer := removed, sent := b.sent, status := Status.failed Fault.nullPointer }
        | some _ =>
          { multiplexer :=
              { removed with
                packetPoolHead := pipeState.packetList.packets ++ removed.packetPoolHead },
            sent := b.sent, status := Status.returned () }
      else
        { multiplexer := removed, sent := b.sent, status := Status.returned () }

/-- The pipe state `openPipe` builds.  On the master the three arrays get `numSlaves` entries;
the entries of `slaveGatherValues` are never assigned (the third loop assigns
`slaveBarrierIds` again), so they hold whatever `uninitialised` supplies. -/
def newPipeState (numSlaves nodeIndex : Nat) (uninitialised : List Nat) : PipeState :=
  if nodeIndex = 0 then
    { slaveStreamPosOffsets := List.replicate numSlaves 0
      numHeadSlaves := numSlaves
      slaveBarrierIds := List.replicate numSlaves 0
      slaveGatherValues := (List.range numSlaves).map (fun i => uninitialised.getD i 0) }
  else
    {}

/-- The first block of `openPipe`: take the next pipe id and enter a new pipe state into the
table (`setEntry` replaces an entry of the same id). -/
def Multiplexer.openPipeBegin (m : Multiplexer) (uninitialised : List Nat) :
    Multiplexer × Nat :=
  ({ m with
      nextPipeId := add32 m.nextPipeId 1
      pipeStateTable :=
        m.pipeStateTable.filter (fun e => e.1 ≠ m.nextPipeId) ++
          [(m.nextPipeId, newPipeState m.numSlaves m.nodeIndex uninitialised)] },
   m.nextPipeId)

/-- The second block of `openPipe`, "Synchronize until all nodes have created the new pipe", on
the pipe state `openPipeBegin` entered under `newPipeId`; on a slave, one round of the loop. -/
def Multiplexer.openPipeFinish (m : Multiplexer) (newPipeId : Nat) (signalled : Bool) :
    Outcome Nat :=
  match m.findEntry newPipeId with
  | none => { multiplexer := m, sent := [], status := Status.failed Fault.nullPointer }
  | some newPipeState =>
    if m.nodeIndex = 0 then
      if newPipeState.minSlaveBarrierId = 0 then
        { multiplexer := m, sent := [], status := Status.blocked }
      else
        { multiplexer := m.writePipe newPipeId { newPipeState with barrierId := 1 }
            m.packetPoolHead,
          sent := List.replicate m.masterMessageBurstSize
            (Datagram.master { messageId := MasterMessageId.CREATEPIPE, pipeId := newPipeId }),
          status := Status.returned newPipeId }
    else
      let msg : SlaveMessage :=
        { nodeIndex := m.nodeIndex, messageId := SlaveMessageId.CREATEPIPE, pipeId := newPipeId }
      if signalled then
        { multiplexer := m.writePipe newPipeId { newPipeState with barrierId := 1 }
            m.packetPoolHead,
          sent := List.replicate m.slaveMessageBurstSize (Datagram.slave msg),
          status := Status.returned newPipeId }
      else
        { multiplexer := m,
          sent := List.replicate m.slaveMessageBurstSize (Datagram.slave msg),
          status := Status.blocked }

/-- The pipe cases of the `switch(msg.messageId)` of `packetHandlingThreadMaster`, on the valid
pipe the message names. -/
def handleSlaveMessageOn (pipeState : PipeState) (packetPoolHead : List Packet)
    (msg : SlaveMessage) : PipeResult Unit :=
  match msg.messageId with
  | SlaveMessageId.CREATEPIPE => handleCreatePipe pipeState packetPoolHead msg
  | SlaveMessageId.ACKNOWLEDGMENT => handleAcknowledgment pipeState packetPoolHead msg
  | SlaveMessageId.PACKETLOSS => handlePacketLoss pipeState packetPoolHead msg
  | SlaveMessageId.BARRIER => handleBarrier pipeState packetPoolHead msg
  | SlaveMessageId.GATHER => handleGather pipeState packetPoolHead msg
  | _ =>
    { pipeState := pipeState, packetPoolHead := packetPoolHead, sent := [],
      status := Status.returned () }

/-- One round of the message loop of `packetHandlingThreadMaster` after the handshake: the
connection and ping cases answer at once, every other case looks up the pipe the message names
and does nothing when the pipe is not in the table. -/
def Multiplexer.handleSlaveMessage (m : Multiplexer) (msg : SlaveMessage) : Outcome Unit :=
  match msg.messageId with
  | SlaveMessageId.CONNECTION =>
    { multiplexer := m, sent := [Datagram.master { messageId := MasterMessageId.CONNECTION }],
      status := Status.returned () }
  | SlaveMessageId.PING =>
    { multiplexer := m, sent := [Datagram.master { messageId := MasterMessageId.PING }],
      status := Status.returned () }
  | _ =>
    match m.findEntry msg.pipeId with
    | none => { multiplexer := m, sent := [], status := Status.returned () }
    | some pipeState => m.store msg.pipeId (handleSlaveMessageOn pipeState m.packetPoolHead msg)

/-! ## Traces of one pipe on the master -/

/-- What happens to one pipe on the master: the application calls `sendPacket`, the receiver
thread handles a slave message, or the application calls `barrier` or `gather`. -/
inductive MasterEvent
  | sendPacket (packet : Packet)
  | message (msg : SlaveMessage)
  | barrier
  | gather (value : Nat) (op : OpCode)
  deriving DecidableEq, Repr

/-- One pipe on the master with the packet pool, and the history the theorems speak about:
`sentSizes` lists the sizes of the packets `sendPacket` has accepted, in order, and
`reported[i]` is the stream position of the last `ACKNOWLEDGMENT` or `PACKETLOSS` message
handled from slave `i+1` (0 before the first one). -/
structure MasterTrace where
  pipeState : PipeState
  packetPoolHead : List Packet
  sentSizes : List Nat
  reported : List Nat
  deriving DecidableEq, Repr

/-- The message is an `ACKNOWLEDGMENT` or a `PACKETLOSS` message. -/
def SlaveMessage.isReport (msg : SlaveMessage) : Bool :=
  msg.messageId == SlaveMessageId.ACKNOWLEDGMENT || msg.messageId == SlaveMessageId.PACKETLOSS

/-- One event on a pipe of the master.  A call that waits or fails leaves the state the method
left; a message that names another pipe does not touch this one. -/
def masterStep (numSlaves pipeId sendBufferSize : Nat) (t : MasterTrace) :
    MasterEvent → MasterTrace
  | MasterEvent.sendPacket packet =>
    let r := sendPacketOn sendBufferSize pipeId t.pipeState t.packetPoolHead packet
    { pipeState := r.pipeState, packetPoolHead := r.packetPoolHead,
      sentSizes :=
        if r.status = Status.returned () then t.sentSizes ++ [packet.packetSize]
        else t.sentSizes,
      reported := t.reported }
  | MasterEvent.message msg =>
    if msg.pipeId = pipeId then
      let r := handleSlaveMessageOn t.pipeState t.packetPoolHead msg
      { pipeState := r.pipeState, packetPoolHead := r.packetPoolHead,
        sentSizes := t.sentSizes,
        reported :=
          if msg.isReport then t.reported.set (sub32 msg.nodeIndex 1) msg.streamPos
          else t.reported }
    else t
  | MasterEvent.barrier =>
    let r := barrierMaster numSlaves pipeId t.pipeState t.packetPoolHead
    { t with pipeState := r.pipeState, packetPoolHead := r.packetPoolHead }
  | MasterEvent.gather value op =>
    let r := gatherMaster numSlaves pipeId t.pipeState t.packetPoolHead value op
    { t with pipeState := r.pipeState, packetPoolHead := r.packetPoolHead }

/-- A sequence of events on a pipe of the master. -/
def masterRun (numSlaves pipeId sendBufferSize : Nat) (t : MasterTrace)
    (events : List MasterEvent) : MasterTrace :=
  events.foldl (masterStep numSlaves pipeId sendBufferSize) t

/-- The flow-control fields of a pipe state are as `openPipe` initialises them on the master. -/
def PipeState.Fresh (numSlaves : Nat) (ps : PipeState) : Prop :=
  ps.streamPos = 0 ∧ ps.packetList = {} ∧ ps.headStreamPos = 0 ∧
    ps.slaveStreamPosOffsets = List.replicate numSlaves 0 ∧ ps.numHeadSlaves = numSlaves

instance (numSlaves : Nat) (ps : PipeState) : Decidable (ps.Fresh numSlaves) := by
  unfold PipeState.Fresh; infer_instance

/-- The trace of a pipe that `openPipe` has just opened on the master. -/
def MasterTrace.start (numSlaves : Nat) (ps : PipeState) (packetPoolHead : List Packet) :
    MasterTrace :=
  { pipeState := ps, packetPoolHead := packetPoolHead, sentSizes := [],
    reported := List.replicate numSlaves 0 }

/-- The event is a `sendPacket` call or an `ACKNOWLEDGMENT` or `PACKETLOSS` message. -/
def MasterEvent.isFlow : MasterEvent → Bool
  | MasterEvent.sendPacket _ => true
  | MasterEvent.message msg => msg.isReport
  | _ => false

/-- A report of a slave for this pipe comes from a node index in 1..`numSlaves` and carries a
32-bit stream position. -/
def MasterEvent.WellFormed (numSlaves pipeId : Nat) : MasterEvent → Prop
  | MasterEvent.message msg =>
    msg.pipeId = pipeId → msg.isReport = true →
      1 ≤ msg.nodeIndex ∧ msg.nodeIndex ≤ numSlaves ∧ msg.streamPos < wordSize
  | _ => True

instance (numSlaves pipeId : Nat) (e : MasterEvent) :
    Decidable (e.WellFormed numSlaves pipeId) := by
  cases e <;> unfold MasterEvent.WellFormed <;> infer_instance

/-- A report of a slave does not fall behind the last position that slave reported. -/
def MasterEvent.InOrder (pipeId : Nat) (t : MasterTrace) : MasterEvent → Prop
  | MasterEvent.message msg =>
    msg.pipeId = pipeId → msg.isReport = true →
      t.reported.getD (msg.nodeIndex - 1) 0 ≤ msg.streamPos
  | _ => True

instance (pipeId : Nat) (t : MasterTrace) (e : MasterEvent) : Decidable (e.InOrder pipeId t) := by
  cases e <;> unfold MasterEvent.InOrder <;> infer_instance

/-- The stream positions between packets: the sums of the sizes of the first `k` packets. -/
def boundaries (sizes : List Nat) : List Nat :=
  (List.range (sizes.length + 1)).map (fun k => (sizes.take k).sum)

/-- A report of a slave carries a stream position a slave can hold: a position between two
packets of the stream the master has sent so far. -/
def MasterEvent.Genuine (pipeId : Nat) (t : MasterTrace) : MasterEvent → Prop
  | MasterEvent.message msg =>
    msg.pipeId = pipeId → msg.isReport = true → msg.streamPos ∈ boundaries t.sentSizes
  | _ => True

instance (pipeId : Nat) (t : MasterTrace) (e : MasterEvent) : Decidable (e.Genuine pipeId t) := by
  cases e <;> unfold MasterEvent.Genuine <;> infer_instance

/-- Every event of the sequence satisfies `good` in the trace it meets. -/
def AlongRun (numSlaves pipeId sendBufferSize : Nat) (good : MasterTrace → MasterEvent → Prop) :
    MasterTrace → List MasterEvent → Prop
  | _, [] => True
  | t, e :: rest =>
    good t e ∧
      AlongRun numSlaves pipeId sendBufferSize good
        (masterStep numSlaves pipeId sendBufferSize t e) rest

instance (numSlaves pipeId sendBufferSize : Nat) (good : MasterTrace → MasterEvent → Prop)
    [inst : ∀ t e, Decidable (good t e)] (t : MasterTrace) (events : List MasterEvent) :
    Decidable (AlongRun numSlaves pipeId sendBufferSize good t events) := by
  induction events generalizing t with
  | nil => unfold AlongRun; infer_instance
  | cons e rest ih =>
    unfold AlongRun
    exact @instDecidableAnd _ _ (inst t e) (ih _)

/-! ## Invariants used by the theorems -/

/-- Invariant of the slave side of a pipe that is fed datagrams of the stamped `packets`: the
packets appended so far are the first packets of the stream, the pipe's stream position is
their total size, and the delivery queue holds the appended packets not yet returned. -/
def DeliveredPrefix (pipeId : Nat) (packets : List Packet) (t : SlaveTrace) : Prop :=
  ∃ done todo, packets = done ++ todo ∧
    t.appended = (stampPackets pipeId 0 done).map Packet.delivered ∧
    t.pipeState.streamPos = (done.map Packet.packetSize).sum ∧
    t.returned ++ t.pipeState.packetList.packets = t.appended ∧
    t.pipeState.packetList.Consistent

/-- The result the specification gives for a gather of the master's value `v` with the slave
values `s` (at least one slave): `r` is the minimum or the maximum of all values, their sum or
product modulo 2^32, or the conjunction or disjunction of "is non-zero" as 0 or 1. -/
def GatherSpec (op : OpCode) (v : Nat) (s : List Nat) (r : Nat) : Prop :=
  match op with
  | OpCode.MIN => r ∈ v :: s ∧ ∀ x ∈ v :: s, r ≤ x
  | OpCode.MAX => r ∈ v :: s ∧ ∀ x ∈ v :: s, x ≤ r
  | OpCode.SUM => r = (v + s.sum) % 2 ^ 32
  | OpCode.PRODUCT => r = (v * s.prod) % 2 ^ 32
  | OpCode.AND => r = if v ≠ 0 ∧ ∀ x ∈ s, x ≠ 0 then 1 else 0
  | OpCode.OR => r = if v ≠ 0 ∨ ∃ x ∈ s, x ≠ 0 then 1 else 0

/-- Total payload size of a chain of packets. -/
def totalSize (l : List Packet) : Nat := (l.map Packet.packetSize).sum

/-- Invariant of a pipe on the master that has carried fewer than 2^32 bytes: the counter of the
send window agrees with its chain, the window holds the bytes from `headStreamPos` to
`streamPos`, and `streamPos` is the number of bytes `sendPacket` has accepted. -/
def WindowAccounts (t : MasterTrace) : Prop :=
  t.pipeState.packetList.Consistent ∧
    t.pipeState.headStreamPos + totalSize t.pipeState.packetList.packets =
      t.pipeState.streamPos ∧
    t.pipeState.streamPos = t.sentSizes.sum

/-- Two pipe states agree on the fields of the flow control: stream position, send window,
window head, slave offsets and number of head slaves. -/
def SameFlow (a b : PipeState) : Prop :=
  b.streamPos = a.streamPos ∧ b.packetList = a.packetList ∧
    b.headStreamPos = a.headStreamPos ∧
    b.slaveStreamPosOffsets = a.slaveStreamPosOffsets ∧ b.numHeadSlaves = a.numHeadSlaves

/-- The chain holds consecutive bytes of the stream from position `start` on: each packet is
stamped with the position its predecessor ends at, modulo 2^32. -/
def Contiguous : Nat → List Packet → Prop
  | _, [] => True
  | start, p :: rest => p.streamPos = start % wordSize ∧ Contiguous (start + p.packetSize) rest

/-- Invariant of the flow control of a pipe on the master while the reports of every slave
arrive in order: every slave offset is the distance from the window head to the position that
slave reported last, `numHeadSlaves` counts the zero offsets, and the send window holds
consecutive bytes from `headStreamPos` to `streamPos`. -/
def FlowInv (numSlaves : Nat) (t : MasterTrace) : Prop :=
  t.reported.length = numSlaves ∧
    t.pipeState.slaveStreamPosOffsets =
      t.reported.map (fun r => r - t.pipeState.headStreamPos) ∧
    t.pipeState.numHeadSlaves = t.pipeState.slaveStreamPosOffsets.count 0 ∧
    (∀ r ∈ t.reported, t.pipeState.headStreamPos ≤ r ∧ r < wordSize) ∧
    t.pipeState.headStreamPos < wordSize ∧
    Contiguous t.pipeState.headStreamPos t.pipeState.packetList.packets ∧
    t.pipeState.streamPos =
      (t.pipeState.headStreamPos + totalSize t.pipeState.packetList.packets) % wordSize

/-- The slave message `ACKNOWLEDGMENT` of node `nodeIndex` for pipe `pipeId` at `streamPos`. -/
def ackMessage (nodeIndex pipeId streamPos : Nat) : SlaveMessage :=
  { nodeIndex := nodeIndex, messageId := SlaveMessageId.ACKNOWLEDGMENT, pipeId := pipeId,
    streamPos := streamPos }

/-! ## Traces of the master's multiplexer -/

/-- The members the constructor `Multiplexer::Multiplexer` initialises. -/
def Multiplexer.new (numSlaves nodeIndex : Nat) : Multiplexer :=
  { numSlaves := numSlaves, nodeIndex := nodeIndex, nextPipeId := 1, pipeStateTable := [],
    masterMessageBurstSize := 1, slaveMessageBurstSize := 1, sendBufferSize := 20,
    packetPoolHead := [] }

/-- What happens at the master: the two blocks of an `openPipe` call, a `sendPacket`,
`barrier` or `gather` call on a pipe, a slave message handled by the receiver thread, or a
`setSendBufferSize` call. -/
inductive ApiEvent
  | openPipeBegin (uninitialised : List Nat)
  | openPipeFinish (newPipeId : Nat)
  | sendPacket (pipeId : Nat) (packet : Packet)
  | message (msg : SlaveMessage)
  | barrier (pipeId : Nat)
  | gather (pipeId value : Nat) (op : OpCode)
  | setSendBufferSize (newSendBufferSize : Nat)
  deriving DecidableEq, Repr

/-- One event at the master; the result is the multiplexer the method leaves, also when the
call waits or fails. -/
def Multiplexer.step (m : Multiplexer) : ApiEvent → Multiplexer
  | ApiEvent.openPipeBegin uninitialised => (m.openPipeBegin uninitialised).1
  | ApiEvent.openPipeFinish newPipeId => (m.openPipeFinish newPipeId false).multiplexer
  | ApiEvent.sendPacket pipeId packet => (m.sendPacket pipeId packet).multiplexer
  | ApiEvent.message msg => (m.handleSlaveMessage msg).multiplexer
  | ApiEvent.barrier pipeId => (m.barrier pipeId false).multiplexer
  | ApiEvent.gather pipeId value op => (m.gather pipeId value op false).multiplexer
  | ApiEvent.setSendBufferSize newSendBufferSize => m.setSendBufferSize newSendBufferSize

/-- A sequence of events at the master. -/
def Multiplexer.run (m : Multiplexer) (events : List ApiEvent) : Multiplexer :=
  events.foldl Multiplexer.step m

/-- Window bound: no pipe holds more packets in its packet list than `sendBufferSize`. -/
def WindowBound (m : Multiplexer) : Prop :=
  ∀ e ∈ m.pipeStateTable, e.2.packetList.numPackets ≤ m.sendBufferSize

instance (m : Multiplexer) : Decidable (WindowBound m) := by
  unfold WindowBound; infer_instance

/-- A `setSendBufferSize` call does not set the size below the number of packets a pipe holds
at that moment. -/
def ApiEvent.KeepsRoom (m : Multiplexer) : ApiEvent → Prop
  | ApiEvent.setSendBufferSize newSendBufferSize =>
    ∀ e ∈ m.pipeStateTable, e.2.packetList.numPackets ≤ newSendBufferSize
  | _ => True

instance (m : Multiplexer) (e : ApiEvent) : Decidable (e.KeepsRoom m) := by
  cases e <;> unfold ApiEvent.KeepsRoom <;> infer_instance

/-- Every `setSendBufferSize` call of the sequence keeps room for the packets held. -/
def KeepsRoomAlong : Multiplexer → List ApiEvent → Prop
  | _, [] => True
  | m, e :: rest => e.KeepsRoom m ∧ KeepsRoomAlong (m.step e) rest

instance (m : Multiplexer) (events : List ApiEvent) : Decidable (KeepsRoomAlong m events) := by
  induction events generalizing m with
  | nil => unfold KeepsRoomAlong; infer_instance
  | cons e rest ih =>
    unfold KeepsRoomAlong
    exact @instDecidableAnd _ _ _ (ih _)

/-- The slave message `CREATEPIPE` of node `nodeIndex` for pipe `pipeId`. -/
def createPipeMessage (nodeIndex pipeId : Nat) : SlaveMessage :=
  { nodeIndex := nodeIndex, messageId := SlaveMessageId.CREATEPIPE, pipeId := pipeId }

/-- A master with one slave that has opened pipe 1 and sent three packets on it. -/
def threeSent : List ApiEvent :=
  [ApiEvent.openPipeBegin [], ApiEvent.message (createPipeMessage 1 1),
   ApiEvent.openPipeFinish 1, ApiEvent.sendPacket 1 ⟨0, 0, 1, [1]⟩,
   ApiEvent.sendPacket 1 ⟨0, 0, 2, [2, 3]⟩, ApiEvent.sendPacket 1 ⟨0, 0, 3, [4, 5, 6]⟩]

/-- A master with one slave that has opened pipe 1, sent ten packets of one byte on it, and
handled the slave's `BARRIER` message for barrier id 2. -/
def tenSent : List ApiEvent :=
  [ApiEvent.openPipeBegin [], ApiEvent.message (createPipeMessage 1 1),
   ApiEvent.openPipeFinish 1] ++
    List.replicate 10 (ApiEvent.sendPacket 1 ⟨0, 0, 1, [5]⟩) ++
    [ApiEvent.message
      { nodeIndex := 1, messageId := SlaveMessageId.BARRIER, pipeId := 1, barrierId := 2 }]

/-- Invariant of a pipe on the master whose slaves report only positions between packets of the
stream: some slave is still at the window head, every reported position is a position between
packets, and the send window is the stream from its `a`-th packet on. -/
def BoundaryInv (t : MasterTrace) : Prop :=
  1 ≤ t.pipeState.numHeadSlaves ∧
    (∀ r ∈ t.reported, r ∈ boundaries t.sentSizes) ∧
    ∃ a, a ≤ t.sentSizes.length ∧
      t.pipeState.packetList.packets.map Packet.packetSize = t.sentSizes.drop a ∧
      t.pipeState.headStreamPos = (t.sentSizes.take a).sum

/-! ## One round of barrier or gather on a cluster -/

/-- The collective call a node makes in the round. -/
inductive Call
  | barrier
  | gather (value : Nat) (op : OpCode)
  deriving DecidableEq, Repr

/-- The value a node contributes (0 for `barrier`). -/
def Call.value : Call → Nat
  | Call.barrier => 0
  | Call.gather value _ => value

/-- The call is a `gather`. -/
def Call.isGather : Call → Bool
  | Call.barrier => false
  | Call.gather _ _ => true

/-- Where a node is with its call: not yet called, inside the call (the master in its wait
loop, a slave in `timedWait` after sending its message), or returned with a value (the value
`gather` returns; `barrier` returns nothing and the value is the `masterGatherValue` left in
the pipe state). -/
inductive Phase
  | idle
  | waiting
  | returned (value : Nat)
  deriving DecidableEq, Repr

/-- A slave's side of the pipe: its pipe state, the phase of its call, and whether
`barrierCond.broadcast()` has been called since its thread began its current `timedWait`. -/
structure SlaveNode where
  pipeState : PipeState
  phase : Phase
  signalled : Bool
  deriving DecidableEq, Repr

/-- The round: the cluster size, the pipe, the barrier id every node has completed before the
round, and the call each node makes (`slaveCalls[i]` is the call of node `i+1`). -/
structure Round where
  numSlaves : Nat
  pipeId : Nat
  barrierId : Nat
  masterCall : Call
  slaveCalls : List Call
  deriving DecidableEq, Repr

/-- The cluster during the round: the master's pipe state and packet pool, the phase of the
master's call, the slaves, and the socket.  Datagrams can be lost, repeated and reordered: a
message, once sent, stays in `toMaster` or `toSlaves` and can be received any number of times,
in any order, or never.  `processed` lists the messages the master's receiver thread has
handled for the pipe. -/
structure System where
  master : PipeState
  packetPoolHead : List Packet
  masterPhase : Phase
  slaves : List SlaveNode
  toMaster : List SlaveMessage
  toSlaves : List MasterMessage
  processed : List SlaveMessage
  deriving DecidableEq, Repr

/-- The steps of the cluster: the master or slave `i+1` begins its call; the master's call
passes through its wait loop; the master's receiver thread handles the `k`-th message sent to
the master; the `timedWait` of slave `i+1` expires or is ended by a broadcast; the receiver
thread of slave `i+1` handles the `k`-th message sent to the slaves. -/
inductive SysEvent
  | masterEnter
  | masterPass
  | masterReceive (k : Nat)
  | slaveEnter (i : Nat)
  | slaveTimeout (i : Nat)
  | slaveWake (i : Nat)
  | slaveReceive (i k : Nat)
  deriving DecidableEq, Repr

/-- The master control messages among the datagrams sent. -/
def masterMessages : List Datagram → List MasterMessage
  | [] => []
  | Datagram.master msg :: rest => msg :: masterMessages rest
  | _ :: rest => masterMessages rest

/-- The message slave `i+1` sends in each round of the loop of its call. -/
def slaveCallMessage (r : Round) (i : Nat) (pipeState : PipeState) : SlaveMessage :=
  match r.slaveCalls.getD i Call.barrier with
  | Call.barrier => barrierMessage (i + 1) r.pipeId pipeState
  | Call.gather value _ => gatherMessage (i + 1) r.pipeId value pipeState

/-- The slave control messages among the datagrams sent. -/
def slaveMessages : List Datagram → List SlaveMessage
  | [] => []
  | Datagram.slave msg :: rest => msg :: slaveMessages rest
  | _ :: rest => slaveMessages rest

/-- One round of the loop in the call slave `i+1` makes in the round: the slave branch of
`barrier` or of `gather` on the slave's pipe state.  A `barrier` that returns is given the
`masterGatherValue` of the pipe state as its value. -/
def slaveCallRound (r : Round) (i : Nat) (pipeState : PipeState) (signalled : Bool) :
    PipeResult Nat :=
  match r.slaveCalls.getD i Call.barrier with
  | Call.barrier =>
    let res := barrierSlave (i + 1) r.pipeId pipeState [] signalled
    { pipeState := res.pipeState, packetPoolHead := res.packetPoolHead, sent := res.sent,
      status :=
        match res.status with
        | Status.returned _ => Status.returned res.pipeState.masterGatherValue
        | Status.blocked => Status.blocked
        | Status.failed f => Status.failed f }
  | Call.gather value _ => gatherSlave (i + 1) r.pipeId pipeState [] value signalled

/-- One step of the cluster, `none` when the step is not possible in the state (or when a call
fails).  A round of a slave's loop sends its message when it begins (`slaveEnter`, and
`slaveTimeout`, where the round before it has ended with an expired wait) and ends when its
`timedWait` ends: `slaveWake` is the end of a round whose wait was ended by a broadcast, and
what the call then does and returns is what `barrierSlave` or `gatherSlave` does on the pipe
state of that moment. -/
def System.step (r : Round) (s : System) : SysEvent → Option System
  | SysEvent.masterEnter =>
    if s.masterPhase = Phase.idle then some { s with masterPhase := Phase.waiting } else none
  | SysEvent.masterPass =>
    if s.masterPhase = Phase.waiting then
      match r.masterCall with
      | Call.barrier =>
        let res := barrierMaster r.numSlaves r.pipeId s.master s.packetPoolHead
        match res.status with
        | Status.returned _ =>
          some { s with
            master := res.pipeState, packetPoolHead := res.packetPoolHead,
            masterPhase := Phase.returned res.pipeState.masterGatherValue,
            toSlaves := s.toSlaves ++ masterMessages res.sent }
        | Status.blocked => some s
        | Status.failed _ => none
      | Call.gather value op =>
        let res := gatherMaster r.numSlaves r.pipeId s.master s.packetPoolHead value op
        match res.status with
        | Status.returned result =>
          some { s with
            master := res.pipeState, packetPoolHead := res.packetPoolHead,
            masterPhase := Phase.returned result,
            toSlaves := s.toSlaves ++ masterMessages res.sent }
        | Status.blocked => some s
        | Status.failed _ => none
    else none
  | SysEvent.masterReceive k =>
    match s.toMaster[k]? with
    | none => none
    | some msg =>
      if msg.pipeId = r.pipeId then
        let res := handleSlaveMessageOn s.master s.packetPoolHead msg
        some { s with
          master := res.pipeState, packetPoolHead := res.packetPoolHead,
          toSlaves := s.toSlaves ++ masterMessages res.sent,
          processed := s.processed ++ [msg] }
      else some s
  | SysEvent.slaveEnter i =>
    match s.slaves[i]? with
    | none => none
    | some node =>
      if node.phase = Phase.idle then
        let res := slaveCallRound r i node.pipeState false
        some { s with
          slaves := s.slaves.set i
            { pipeState := res.pipeState, phase := Phase.waiting, signalled := false },
          toMaster := s.toMaster ++ slaveMessages res.sent }
      else none
  | SysEvent.slaveTimeout i =>
    match s.slaves[i]? with
    | none => none
    | some node =>
      if node.phase = Phase.waiting then
        let res := slaveCallRound r i node.pipeState false
        some { s with
          slaves := s.slaves.set i
            { pipeState := res.pipeState, phase := node.phase, signalled := false },
          toMaster := s.toMaster ++ slaveMessages res.sent }
      else none
  | SysEvent.slaveWake i =>
    match s.slaves[i]? with
    | none => none
    | some node =>
      if node.phase = Phase.waiting ∧ node.signalled = true then
        let res := slaveCallRound r i node.pipeState true
        match res.status with
        | Status.returned result =>
          some { s with
            slaves := s.slaves.set i
              { pipeState := res.pipeState, phase := Phase.returned result,
                signalled := false } }
        | _ => none
      else none
  | SysEvent.slaveReceive i k =>
    match s.slaves[i]?, s.toSlaves[k]? with
    | some node, some msg =>
      if msg.pipeId = r.pipeId then
        let res := handleMasterMessage node.pipeState msg
        some { s with
          slaves := s.slaves.set i
            { node with
              pipeState := res.1,
              signalled := node.signalled || (res.2 && decide (node.phase = Phase.waiting)) } }
      else some s
    | _, _ => none

/-- A sequence of steps of the cluster. -/
def System.run (r : Round) : System → List SysEvent → Option System
  | s, [] => some s
  | s, e :: rest =>
    match s.step r e with
    | none => none
    | some s1 => System.run r s1 rest

/-- A cluster before the round: every node has completed barrier `r.barrierId` (at least 1,
the pipe is open) and has not made its call, the master holds no barrier id of a slave above
`r.barrierId`, and every message on the socket is from an earlier round. -/
def System.Initial (r : Round) (s : System) : Prop :=
  1 ≤ r.barrierId ∧ r.barrierId + 1 < wordSize ∧ r.numSlaves < wordSize ∧
    r.slaveCalls.length = r.numSlaves ∧
    s.master.barrierId = r.barrierId ∧ s.masterPhase = Phase.idle ∧
    s.master.slaveBarrierIds.length = r.numSlaves ∧
    s.master.slaveGatherValues.length = r.numSlaves ∧
    (∀ id ∈ s.master.slaveBarrierIds, id ≤ r.barrierId) ∧
    s.master.minSlaveBarrierId ≤ r.barrierId ∧
    s.slaves.length = r.numSlaves ∧
    (∀ node ∈ s.slaves,
      node.pipeState.barrierId = r.barrierId ∧ node.phase = Phase.idle ∧
        node.signalled = false) ∧
    (∀ msg ∈ s.toMaster, msg.barrierId ≤ r.barrierId) ∧
    (∀ msg ∈ s.toSlaves, msg.barrierId ≤ r.barrierId) ∧
    s.processed = []

instance (r : Round) (s : System) : Decidable (s.Initial r) := by
  unfold System.Initial; infer_instance

/-- The node has begun its call. -/
def Phase.entered : Phase → Bool
  | Phase.idle => false
  | _ => true

/-- The node has returned from its call. -/
def Phase.hasReturned : Phase → Bool
  | Phase.returned _ => true
  | _ => false

/-- Slave `i+1` has begun its call. -/
def System.Entered (s : System) (i : Nat) : Prop :=
  ∃ node, s.slaves[i]? = some node ∧ node.phase.entered = true

/-- Invariant of a round for the synchronisation: the barrier id of every node is the id before
the round or the next one, the master has the next id exactly when its call has returned and
then holds the next id for every slave, a slave is signalled or has returned only after the
master has completed, and every message of the round on the socket carries the next id. -/
structure SyncInv (r : Round) (s : System) : Prop where
  pipeOpen : 1 ≤ r.barrierId
  noWrap : r.barrierId + 1 < wordSize
  fewSlaves : r.numSlaves < wordSize
  masterId : s.master.barrierId = r.barrierId ∨ s.master.barrierId = r.barrierId + 1
  masterReturned : s.masterPhase.hasReturned = true ↔ s.master.barrierId = r.barrierId + 1
  idsLength : s.master.slaveBarrierIds.length = r.numSlaves
  idsLe : ∀ id ∈ s.master.slaveBarrierIds, id ≤ r.barrierId + 1
  idsEntered : ∀ i, s.master.slaveBarrierIds[i]? = some (r.barrierId + 1) →
    s.Entered i ∧
      ∃ msg ∈ s.processed,
        msg.nodeIndex = i + 1 ∧ msg.pipeId = r.pipeId ∧ msg.barrierId = r.barrierId + 1
  minIds : r.barrierId + 1 ≤ s.master.minSlaveBarrierId →
    ∀ id ∈ s.master.slaveBarrierIds, r.barrierId + 1 ≤ id
  passedIds : s.master.barrierId = r.barrierId + 1 →
    ∀ id ∈ s.master.slaveBarrierIds, id = r.barrierId + 1
  completionSent : s.master.barrierId = r.barrierId + 1 →
    ∃ c ∈ s.toSlaves, c.pipeId = r.pipeId ∧ c.barrierId = r.barrierId + 1
  slavesLength : s.slaves.length = r.numSlaves
  slaveIds : ∀ node ∈ s.slaves,
    (node.phase.hasReturned = true → node.pipeState.barrierId = r.barrierId + 1) ∧
      (node.phase.hasReturned = false → node.pipeState.barrierId = r.barrierId)
  slaveSignalled : ∀ node ∈ s.slaves,
    node.signalled = true ∨ node.phase.hasReturned = true →
      s.master.barrierId = r.barrierId + 1
  fromSlaves : ∀ msg ∈ s.toMaster, msg.pipeId = r.pipeId → r.barrierId < msg.barrierId →
    msg.barrierId = r.barrierId + 1 ∧ 1 ≤ msg.nodeIndex ∧ msg.nodeIndex ≤ r.numSlaves ∧
      s.Entered (msg.nodeIndex - 1)
  fromMaster : ∀ c ∈ s.toSlaves, c.pipeId = r.pipeId → r.barrierId < c.barrierId →
    c.barrierId = r.barrierId + 1 ∧ s.master.barrierId = r.barrierId + 1

/-- The value every node is to return in a round in which the master calls `gather`: the fold
of the master's operation from the master's value over the values of the slaves. -/
def Round.expected (r : Round) : Nat :=
  match r.masterCall with
  | Call.barrier => 0
  | Call.gather value op => gatherValue op value (r.slaveCalls.map Call.value)

/-- Every node calls `gather` in the round. -/
def Round.AllGather (r : Round) : Prop :=
  r.masterCall.isGather = true ∧ ∀ c ∈ r.slaveCalls, c.isGather = true

instance (r : Round) : Decidable r.AllGather := by
  unfold Round.AllGather; infer_instance

/-- Invariant of a round in which every node calls `gather`: the master records the value of
each slave with its barrier id, the messages of the round are gather messages carrying the
slave's value or the master's result, and a slave that is signalled holds the result. -/
structure GatherInv (r : Round) (s : System) : Prop where
  slaveCallsLength : r.slaveCalls.length = r.numSlaves
  valuesLength : s.master.slaveGatherValues.length = r.numSlaves
  recorded : ∀ i, s.master.slaveBarrierIds[i]? = some (r.barrierId + 1) →
    s.master.slaveGatherValues[i]? = some (r.slaveCalls.getD i Call.barrier).value
  masterValue : s.master.barrierId = r.barrierId + 1 →
    s.master.masterGatherValue = r.expected ∧ s.masterPhase = Phase.returned r.expected
  fromSlaves : ∀ msg ∈ s.toMaster, msg.pipeId = r.pipeId → r.barrierId < msg.barrierId →
    msg.messageId = SlaveMessageId.GATHER ∧
      msg.slaveValue = (r.slaveCalls.getD (msg.nodeIndex - 1) Call.barrier).value
  fromMaster : ∀ c ∈ s.toSlaves, c.pipeId = r.pipeId → r.barrierId < c.barrierId →
    c.messageId = MasterMessageId.GATHER ∧ c.masterValue = r.expected
  slaveValue : ∀ node ∈ s.slaves,
    (node.signalled = true → node.pipeState.masterGatherValue = r.expected) ∧
      ∀ v, node.phase = Phase.returned v → v = r.expected

/-- What the handling of a slave message does to the barrier fields of the master's pipe state
`ps`, giving the result `res`: either the fields stay as they are and what is sent is a
`CREATEPIPE` completion or a re-sent completion for the barrier id of the message, which the
master has completed; or the barrier id of the message, which the master has not completed, is
recorded for the sending slave, together with the slave's value when the message is a `GATHER`
message, and nothing is sent. -/
def BarrierEffect (ps : PipeState) (msg : SlaveMessage) (res : PipeResult Unit) : Prop :=
  (res.pipeState.barrierId = ps.barrierId ∧
      res.pipeState.slaveBarrierIds = ps.slaveBarrierIds ∧
      res.pipeState.minSlaveBarrierId = ps.minSlaveBarrierId ∧
      res.pipeState.slaveGatherValues = ps.slaveGatherValues ∧
      res.pipeState.masterGatherValue = ps.masterGatherValue ∧
      ∀ c ∈ masterMessages res.sent,
        (c.messageId = MasterMessageId.CREATEPIPE ∧ c.barrierId = 0) ∨
          (c.pipeId = msg.pipeId ∧ c.barrierId = msg.barrierId ∧
            msg.barrierId ≤ ps.barrierId ∧
            ((c.messageId = MasterMessageId.BARRIER ∧ msg.messageId = SlaveMessageId.BARRIER) ∨
              (c.messageId = MasterMessageId.GATHER ∧ msg.messageId = SlaveMessageId.GATHER ∧
                c.masterValue = ps.masterGatherValue)))) ∨
    (ps.barrierId < msg.barrierId ∧
      sub32 msg.nodeIndex 1 < ps.slaveBarrierIds.length ∧
      res.pipeState.barrierId = ps.barrierId ∧
      res.pipeState.masterGatherValue = ps.masterGatherValue ∧
      res.pipeState.slaveBarrierIds =
        ps.slaveBarrierIds.set (sub32 msg.nodeIndex 1) msg.barrierId ∧
      minimumOf res.pipeState.slaveBarrierIds = Except.ok res.pipeState.minSlaveBarrierId ∧
      masterMessages res.sent = [] ∧
      ((msg.messageId = SlaveMessageId.BARRIER ∧
          res.pipeState.slaveGatherValues = ps.slaveGatherValues) ∨
        (msg.messageId = SlaveMessageId.GATHER ∧
          sub32 msg.nodeIndex 1 < ps.slaveGatherValues.length ∧
          res.pipeState.slaveGatherValues =
            ps.slaveGatherValues.set (sub32 msg.nodeIndex 1) msg.slaveValue)))

/-! ## Two example rounds -/

/-- A cluster of three slaves on pipe 1 in which every node has completed barrier 1. -/
def roundStart : System :=
  { master :=
      { barrierId := 1, minSlaveBarrierId := 1, slaveBarrierIds := [1, 1, 1],
        slaveStreamPosOffsets := [0, 0, 0], numHeadSlaves := 3, slaveGatherValues := [0, 0, 0] },
    packetPoolHead := [],
    masterPhase := Phase.idle,
    slaves := List.replicate 3
      { pipeState := { barrierId := 1 }, phase := Phase.idle, signalled := false },
    toMaster := [], toSlaves := [], processed := [] }

/-- Every node enters; the message of slave 2 is handled twice and that of slave 3 only after
its `timedWait` expired once; the master completes; slave 1 misses nothing, slave 2 handles
the completion twice, and slave 3 is answered by a re-send after another expired wait. -/
def roundEvents : List SysEvent :=
  [SysEvent.slaveEnter 1, SysEvent.masterEnter, SysEvent.masterPass, SysEvent.slaveEnter 0,
   SysEvent.masterReceive 0, SysEvent.masterReceive 0, SysEvent.masterReceive 1,
   SysEvent.slaveEnter 2, SysEvent.slaveTimeout 2, SysEvent.masterPass,
   SysEvent.masterReceive 3, SysEvent.masterPass,
   SysEvent.slaveReceive 0 0, SysEvent.slaveWake 0,
   SysEvent.slaveReceive 1 0, SysEvent.slaveReceive 1 0, SysEvent.slaveWake 1,
   SysEvent.slaveTimeout 2, SysEvent.masterReceive 4, SysEvent.slaveReceive 2 1,
   SysEvent.slaveWake 2]

/-- The round in which every node calls `barrier`. -/
def barrierRound : Round :=
  { numSlaves := 3, pipeId := 1, barrierId := 1, masterCall := Call.barrier,
    slaveCalls := [Call.barrier, Call.barrier, Call.barrier] }

/-- The round in which the master gathers 7 and the slaves 3, 9 and 5 under `MIN`. -/
def gatherRound : Round :=
  { numSlaves := 3, pipeId := 1, barrierId := 1, masterCall := Call.gather 7 OpCode.MIN,
    slaveCalls :=
      [Call.gather 3 OpCode.MIN, Call.gather 9 OpCode.MIN, Call.gather 5 OpCode.MIN] }

/-- The cluster after the example `barrier` round. -/
def barrierEnd : System :=
  (System.run barrierRound roundStart roundEvents).getD roundStart

/-- The cluster after the example `gather` round. -/
def gatherEnd : System :=
  (System.run gatherRound roundStart roundEvents).getD roundStart

/-! ## Packet loss reports: example states -/

/-- The send window is in stream order: no packet starts before a packet ahead of it in the
window.  `sendPacket` appends packets in this order until the 32-bit stream position wraps. -/
def PipeState.WindowInOrder (ps : PipeState) : Prop :=
  ps.packetList.packets.Pairwise (fun a b => a.streamPos ≤ b.streamPos)

instance (ps : PipeState) : Decidable ps.WindowInOrder := by
  unfold PipeState.WindowInOrder; infer_instance

/-- The slave message `PACKETLOSS` of node `nodeIndex` for pipe `pipeId`: the slave is at
`streamPos` and has seen a packet of position `packetPos`. -/
def packetLossMessage (nodeIndex pipeId streamPos packetPos : Nat) : SlaveMessage :=
  { nodeIndex := nodeIndex, messageId := SlaveMessageId.PACKETLOSS, pipeId := pipeId,
    streamPos := streamPos, packetPos := packetPos }

/-- A master with one slave that has opened pipe 1, sent packets of 1, 2 and 3 bytes on it,
handled the slave's `BARRIER` message for barrier id 2 and completed the barrier: the send
window is empty and `headStreamPos` and `streamPos` are 6. -/
def threeSentFlushed : List ApiEvent :=
  threeSent ++
    [ApiEvent.message
      { nodeIndex := 1, messageId := SlaveMessageId.BARRIER, pipeId := 1, barrierId := 2 },
     ApiEvent.barrier 1]

/-- A pipe of a master with two slaves whose stream position has wrapped: the window holds the
packet of the last two bytes below 2^32 and the first two bytes after, and the packet of the
three bytes from position 2 on. -/
def wrappedPipe : PipeState :=
  { streamPos := 5, headStreamPos := 4294967294,
    packetList :=
      { numPackets := 2,
        packets := [⟨1, 4294967294, 4, [1, 2, 3, 4]⟩, ⟨1, 2, 3, [5, 6, 7]⟩] },
    slaveStreamPosOffsets := [0, 0], numHeadSlaves := 2,
    barrierId := 1, slaveBarrierIds := [1, 1], minSlaveBarrierId := 1,
    slaveGatherValues := [0, 0] }

/-- A pipe of a master with two slaves whose window holds packets of 2, 1 and 3 bytes from
position 4 on. -/
def threeInWindow : PipeState :=
  { streamPos := 10, headStreamPos := 4,
    packetList :=
      { numPackets := 3,
        packets := [⟨1, 4, 2, [1, 2]⟩, ⟨1, 6, 1, [3]⟩, ⟨1, 7, 3, [4, 5, 6]⟩] },
    slaveStreamPosOffsets := [0, 0], numHeadSlaves := 2,
    barrierId := 1, slaveBarrierIds := [1, 1], minSlaveBarrierId := 1,
    slaveGatherValues := [0, 0] }

/-! ## The packet pool -/

/-- The method `Multiplexer::allocatePacket`: `return new Packet;`.  The class `Packet` is
declared in `Cluster/Packet.h`, so the packet its constructor builds is the argument
`constructed`. -/
def Multiplexer.allocatePacket (m : Multiplexer) (constructed : Packet) :
    Packet × Multiplexer :=
  (constructed, m)

/-- Modelled from the spec: `newPacket()` is defined in `Cluster/Multiplexer.h`, which is not
among the sources.  It takes the first packet of the pool when the pool has one and calls
`allocatePacket` otherwise. -/
def Multiplexer.newPacket (m : Multiplexer) (constructed : Packet) : Packet × Multiplexer :=
  match m.packetPoolHead with
  | [] => m.allocatePacket constructed
  | result :: succ => (result, { m with packetPoolHead := succ })

/-! ## A node and its threads -/

/-- The control branch (`pipeId==0`) of `packetHandlingThreadSlave` on the multiplexer: the
connection and ping cases touch no pipe, every other case looks up the pipe the message names
and does nothing when the pipe is not in the table.  The second component says whether
`barrierCond.broadcast()` was called. -/
def Multiplexer.handleMasterMessage (m : Multiplexer) (msg : MasterMessage) :
    Multiplexer × Bool :=
  match msg.messageId with
  | MasterMessageId.CONNECTION => (m, false)
  | MasterMessageId.PING => (m, false)
  | _ =>
    match m.findEntry msg.pipeId with
    | none => (m, false)
    | some pipeState =>
      ((m.writePipe msg.pipeId (Cluster.handleMasterMessage pipeState msg).1 m.packetPoolHead),
       (Cluster.handleMasterMessage pipeState msg).2)

/-- A node: the multiplexer, the two variables of the slave's receiver thread (the counter
`sendAckIn` and the scratch packet `slaveThreadPacket`), and whether the receiver thread has
ended.  The thread function has no handler for the exception of `Misc::throwStdErr`, so a
handler that fails ends the thread (a null dereference or an access outside an array is
undefined behaviour, at best the end of the process): no datagram is handled afterwards. -/
structure Node where
  multiplexer : Multiplexer
  sendAckIn : Nat
  slaveThreadPacket : Packet
  receiverEnded : Bool := false
  deriving DecidableEq, Repr

/-- A node after construction, when the slave's receiver thread has set `sendAckIn`. -/
def Node.new (numSlaves nodeIndex : Nat) (slaveThreadPacket : Packet) : Node :=
  { multiplexer := Multiplexer.new numSlaves nodeIndex, sendAckIn := sub32 nodeIndex 1,
    slaveThreadPacket := slaveThreadPacket }

/-- The data branch of `packetHandlingThreadSlave` on the node: `recv` has filled the scratch
packet with the datagram; the packet is handled on the pipe it names, and when it went into the
delivery queue `newPacket()` supplies the next scratch packet. -/
def Node.handleDataPacket (n : Node) (pipeId streamPos : Nat) (payload : List Nat)
    (constructed : Packet) : Node × List SlaveMessage :=
  let scratch := Packet.received pipeId streamPos payload
  match n.multiplexer.findEntry pipeId with
  | none => ({ n with slaveThreadPacket := scratch }, [])
  | some pipeState =>
    let r := Cluster.handleDataPacket n.multiplexer.numSlaves n.multiplexer.nodeIndex
      n.multiplexer.slaveMessageBurstSize pipeState n.sendAckIn scratch
    let m1 := n.multiplexer.writePipe pipeId r.pipeState n.multiplexer.packetPoolHead
    if r.queued then
      ({ n with
         multiplexer := (m1.newPacket constructed).2, sendAckIn := r.sendAckIn,
         slaveThreadPacket := (m1.newPacket constructed).1 }, r.sent)
    else
      ({ n with multiplexer := m1, sendAckIn := r.sendAckIn, slaveThreadPacket := scratch },
       r.sent)

/-- What happens at a node: a call of the application (the two blocks of `openPipe`,
`closePipe`, `sendPacket`, `receivePacket`, `barrier`, `gather`, `setSendBufferSize`), or the
receiver thread handles a datagram: a slave message on the master, a master message or a data
packet on a slave.  `signalled` and `timedOut` say how the wait inside the call ended. -/
inductive NodeEvent
  | openPipeBegin (uninitialised : List Nat)
  | openPipeFinish (newPipeId : Nat) (signalled : Bool)
  | closePipe (pipeId : Nat) (signalled : Bool)
  | sendPacket (pipeId : Nat) (packet : Packet)
  | receivePacket (pipeId : Nat) (timedOut : Bool)
  | barrier (pipeId : Nat) (signalled : Bool)
  | gather (pipeId value : Nat) (op : OpCode) (signalled : Bool)
  | setSendBufferSize (newSendBufferSize : Nat)
  | slaveMessage (msg : SlaveMessage)
  | masterMessage (msg : MasterMessage)
  | dataPacket (pipeId streamPos : Nat) (payload : List Nat) (constructed : Packet)
  deriving DecidableEq, Repr

/-- One event at a node; the result is the node the method or the handler leaves, also when the
call waits or fails.  A datagram whose pipe id is 0 is a control message, not a data packet.
A handler of the receiver thread that fails ends the thread, and once the thread has ended no
datagram is handled: the node stays as it is.  The calls of the application are those it makes
if it goes on; a call that throws leaves the state it had at the throw. -/
def Node.step (n : Node) : NodeEvent → Node
  | NodeEvent.openPipeBegin uninitialised =>
    { n with multiplexer := (n.multiplexer.openPipeBegin uninitialised).1 }
  | NodeEvent.openPipeFinish newPipeId signalled =>
    { n with multiplexer := (n.multiplexer.openPipeFinish newPipeId signalled).multiplexer }
  | NodeEvent.closePipe pipeId signalled =>
    { n with multiplexer := (n.multiplexer.closePipe pipeId signalled).multiplexer }
  | NodeEvent.sendPacket pipeId packet =>
    { n with multiplexer := (n.multiplexer.sendPacket pipeId packet).multiplexer }
  | NodeEvent.receivePacket pipeId timedOut =>
    { n with multiplexer := (n.multiplexer.receivePacket pipeId timedOut).multiplexer }
  | NodeEvent.barrier pipeId signalled =>
    { n with multiplexer := (n.multiplexer.barrier pipeId signalled).multiplexer }
  | NodeEvent.gather pipeId value op signalled =>
    { n with multiplexer := (n.multiplexer.gather pipeId value op signalled).multiplexer }
  | NodeEvent.setSendBufferSize newSendBufferSize =>
    { n with multiplexer := n.multiplexer.setSendBufferSize newSendBufferSize }
  | NodeEvent.slaveMessage msg =>
    if n.receiverEnded then n
    else
      { n with
        multiplexer := (n.multiplexer.handleSlaveMessage msg).multiplexer
        receiverEnded := (n.multiplexer.handleSlaveMessage msg).status.isFailure }
  | NodeEvent.masterMessage msg =>
    if n.receiverEnded then n
    else { n with multiplexer := (n.multiplexer.handleMasterMessage msg).1 }
  | NodeEvent.dataPacket pipeId streamPos payload constructed =>
    if n.receiverEnded then n
    else if pipeId = 0 then n
    else (n.handleDataPacket pipeId streamPos payload constructed).1

/-- A sequence of events at a node. -/
def Node.run (n : Node) (events : List NodeEvent) : Node :=
  events.foldl Node.step n

/-- The pipe ids the `openPipe` calls of the sequence take, in call order. -/
def openPipeIds : Node → List NodeEvent → List Nat
  | _, [] => []
  | n, NodeEvent.openPipeBegin uninitialised :: rest =>
    (n.multiplexer.openPipeBegin uninitialised).2 ::
      openPipeIds (n.step (NodeEvent.openPipeBegin uninitialised)) rest
  | n, e :: rest => openPipeIds (n.step e) rest

/-- The number of `openPipe` calls in the sequence. -/
def openPipeCalls : List NodeEvent → Nat
  | [] => 0
  | NodeEvent.openPipeBegin _ :: rest => openPipeCalls rest + 1
  | _ :: rest => openPipeCalls rest

/-- A complete call of `openPipe`.  The first block takes the pipe id into the local variable
`newPipeId`.  While the call is in its second block the node handles `during`: what the
receiver thread and other callers do meanwhile and, on a slave, the rounds of the loop whose
`timedWait` expired (`openPipeFinish newPipeId false`).  Then the second block is passed once
more; it returns when its wait has ended (on the master when `minSlaveBarrierId` is no longer
0, on a slave when `timedWait` was `signalled`).  The result is the node afterwards and how the
call ended. -/
def Node.openPipe (n : Node) (uninitialised : List Nat) (during : List NodeEvent)
    (signalled : Bool) : Node × Status Nat :=
  let newPipeId := (n.multiplexer.openPipeBegin uninitialised).2
  let waiting := (n.step (NodeEvent.openPipeBegin uninitialised)).run during
  (waiting.step (NodeEvent.openPipeFinish newPipeId signalled),
   (waiting.multiplexer.openPipeFinish newPipeId signalled).status)

/-- A master with one slave opens pipe 1, sends a packet on it, closes it after the slave's
barrier message, and opens two more pipes. -/
def openCloseOpen : List NodeEvent :=
  [NodeEvent.openPipeBegin [], NodeEvent.slaveMessage (createPipeMessage 1 1),
   NodeEvent.openPipeFinish 1 false, NodeEvent.sendPacket 1 ⟨0, 0, 2, [8, 9]⟩,
   NodeEvent.slaveMessage
     { nodeIndex := 1, messageId := SlaveMessageId.BARRIER, pipeId := 1, barrierId := 2 },
   NodeEvent.closePipe 1 false, NodeEvent.openPipeBegin [], NodeEvent.openPipeBegin []]

/-- A master with one slave opens pipes 1 and 2, sends two packets on pipe 1 and one on pipe 2,
and handles the slave's `BARRIER` message for barrier id 2 on pipe 1. -/
def twoPipes : List ApiEvent :=
  [ApiEvent.openPipeBegin [], ApiEvent.message (createPipeMessage 1 1),
   ApiEvent.openPipeFinish 1, ApiEvent.openPipeBegin [],
   ApiEvent.message (createPipeMessage 1 2), ApiEvent.openPipeFinish 2,
   ApiEvent.sendPacket 1 ⟨0, 0, 2, [1, 2]⟩, ApiEvent.sendPacket 2 ⟨0, 0, 1, [7]⟩,
   ApiEvent.sendPacket 1 ⟨0, 0, 1, [3]⟩,
   ApiEvent.message
     { nodeIndex := 1, messageId := SlaveMessageId.BARRIER, pipeId := 1, barrierId := 2 }]

/-- The master after the events of `twoPipes`. -/
def twoPipesOpen : Multiplexer := (Multiplexer.new 1 0).run twoPipes

/-! ## Operations addressed to a pipe -/

/-- The pipe an operation or a received message is addressed to: the pipe argument of
`sendPacket`, `receivePacket`, `barrier` and `gather`, the pipe id of a data packet, and the
pipe id of a control message that names a pipe. -/
def NodeEvent.pipeId : NodeEvent → Option Nat
  | NodeEvent.sendPacket pipeId _ => some pipeId
  | NodeEvent.receivePacket pipeId _ => some pipeId
  | NodeEvent.barrier pipeId _ => some pipeId
  | NodeEvent.gather pipeId _ _ _ => some pipeId
  | NodeEvent.slaveMessage msg =>
    match msg.messageId with
    | SlaveMessageId.CONNECTION => none
    | SlaveMessageId.PING => none
    | _ => some msg.pipeId
  | NodeEvent.masterMessage msg =>
    match msg.messageId with
    | MasterMessageId.CONNECTION => none
    | MasterMessageId.PING => none
    | _ => some msg.pipeId
  | NodeEvent.dataPacket pipeId _ _ _ => some pipeId
  | _ => none

/-- What one pipe sees of a node: its own state in the table, and the members of the
multiplexer that the constructor and `setSendBufferSize` set. -/
def Node.pipeView (n : Node) (q : Nat) : Option PipeState × Nat × Nat × Nat × Nat × Nat :=
  (n.multiplexer.findEntry q, n.multiplexer.numSlaves, n.multiplexer.nodeIndex,
   n.multiplexer.sendBufferSize, n.multiplexer.masterMessageBurstSize,
   n.multiplexer.slaveMessageBurstSize)

/-- The packet a `receivePacket` call on pipe `q` returns, if the event is one and it returns. -/
def returnedOn (q : Nat) (n : Node) : NodeEvent → List Packet
  | NodeEvent.receivePacket pipeId timedOut =>
    if pipeId = q then
      match (n.multiplexer.receivePacket pipeId timedOut).status with
      | Status.returned packet => [packet]
      | _ => []
    else []
  | _ => []

/-- The packets the `receivePacket` calls on pipe `q` return along the sequence, in order. -/
def receivedOn (q : Nat) : Node → List NodeEvent → List Packet
  | _, [] => []
  | n, e :: rest => returnedOn q n e ++ receivedOn q (n.step e) rest

/-- Two multiplexers agree on the members that no pipe operation assigns. -/
def Multiplexer.SameConfig (a b : Multiplexer) : Prop :=
  b.numSlaves = a.numSlaves ∧ b.nodeIndex = a.nodeIndex ∧
    b.sendBufferSize = a.sendBufferSize ∧
    b.masterMessageBurstSize = a.masterMessageBurstSize ∧
    b.slaveMessageBurstSize = a.slaveMessageBurstSize

/-- From `a` to `b`, nothing but pipe `p` and the packet pool has changed. -/
def Multiplexer.OnlyPipe (p : Nat) (a b : Multiplexer) : Prop :=
  a.SameConfig b ∧ ∀ q, q ≠ p → b.findEntry q = a.findEntry q

/-- A slave (node 1 of a cluster of 2 slaves) with pipes 1 and 2 in its table, both created. -/
def slaveTwoPipes : Node :=
  { multiplexer :=
      { numSlaves := 2, nodeIndex := 1, nextPipeId := 3,
        pipeStateTable := [(1, { barrierId := 1 }), (2, { barrierId := 1 })] },
    sendAckIn := 0, slaveThreadPacket := ⟨0, 0, 0, []⟩ }

/-- Data packets for pipes 1 and 2 arrive interleaved (one of pipe 1 twice, one of pipe 2 out
of order), and the application reads from both pipes. -/
def interleavedTraffic : List NodeEvent :=
  [NodeEvent.dataPacket 1 0 [10, 11] ⟨0, 0, 0, []⟩, NodeEvent.dataPacket 2 0 [20] ⟨0, 0, 0, []⟩,
   NodeEvent.dataPacket 1 0 [10, 11] ⟨0, 0, 0, []⟩, NodeEvent.dataPacket 2 3 [23] ⟨0, 0, 0, []⟩,
   NodeEvent.receivePacket 1 false, NodeEvent.dataPacket 2 1 [21, 22] ⟨0, 0, 0, []⟩,
   NodeEvent.receivePacket 2 false, NodeEvent.dataPacket 1 2 [12] ⟨0, 0, 0, []⟩,
   NodeEvent.receivePacket 2 false, NodeEvent.receivePacket 1 false,
   NodeEvent.masterMessage { messageId := MasterMessageId.GATHER, pipeId := 1, barrierId := 2,
                             masterValue := 5 }]

/-- A master with two slaves that has opened pipes 1 and 2 and sent packets of 2, 1 and 3
bytes on each.  On pipe 1 slave 1 has acknowledged position 3 and slave 2 position 2, so the
first packet of pipe 1 has left the send window. -/
def twoPipesMaster : Node :=
  (Node.new 2 0 ⟨0, 0, 0, []⟩).run
    [NodeEvent.openPipeBegin [], NodeEvent.slaveMessage (createPipeMessage 1 1),
     NodeEvent.slaveMessage (createPipeMessage 2 1), NodeEvent.openPipeFinish 1 false,
     NodeEvent.openPipeBegin [], NodeEvent.slaveMessage (createPipeMessage 1 2),
     NodeEvent.slaveMessage (createPipeMessage 2 2), NodeEvent.openPipeFinish 2 false,
     NodeEvent.sendPacket 1 ⟨0, 0, 2, [1, 2]⟩, NodeEvent.sendPacket 2 ⟨0, 0, 2, [7, 8]⟩,
     NodeEvent.sendPacket 1 ⟨0, 0, 1, [3]⟩, NodeEvent.sendPacket 2 ⟨0, 0, 1, [9]⟩,
     NodeEvent.sendPacket 1 ⟨0, 0, 3, [4, 5, 6]⟩, NodeEvent.sendPacket 2 ⟨0, 0, 3, [10, 11, 12]⟩,
     NodeEvent.slaveMessage (ackMessage 1 1 3), NodeEvent.slaveMessage (ackMessage 2 1 2)]

/-- A late loss report of slave 1 for position 0 of pipe 1, whose packet the window no longer
holds, followed by the acknowledgments of both slaves for position 3 of pipe 2. -/
def fatalThenAck : List NodeEvent :=
  [NodeEvent.slaveMessage (packetLossMessage 1 1 0 2), NodeEvent.slaveMessage (ackMessage 1 2 3),
   NodeEvent.slaveMessage (ackMessage 2 2 3)]

/-! ## The multicast test -/

/-- The value of a 32-bit pattern as `int`: two's complement. -/
def toInt32 (x : Nat) : Int :=
  if x % wordSize < 2147483648 then (x % wordSize : Nat) else ((x % wordSize : Nat) : Int) - 4294967296

/-- The expression `a<<n` on `int`, evaluated as a 32-bit two's complement value with
wrap-around. -/
def shl32 (a n : Nat) : Int := toInt32 (a * 2 ^ n)

/-- The helper function `isMulticast`: `int address=netAddress.s_addr; return
address>=(0xe0<<24)&&address<(0xf0<<24);`. -/
def isMulticast (s_addr : Nat) : Bool :=
  let address := toInt32 s_addr
  decide (address ≥ shl32 0xe0 24 ∧ address < shl32 0xf0 24)

/-- A master whose packet pool holds one packet. -/
def pooledMaster : Multiplexer :=
  { Multiplexer.new 1 0 with packetPoolHead := [⟨1, 0, 2, [1, 2]⟩] }

/-! ## PacketList with its pointers -/

/-- The class `PipeState::PacketList` with its pointers.  A pointer is the address of a packet
and 0 is the null pointer; `succ` holds the field `succ` of the packet at each address.  (The
structure `PacketList` above is this list seen as the sequence of the packets on its chain.) -/
structure LinkedPacketList where
  numPackets : Nat
  head : Nat
  tail : Nat
  succ : Nat → Nat

/-- The constructor `PacketList::PacketList`; `succ` is the memory as it is. -/
def LinkedPacketList.new (succ : Nat → Nat) : LinkedPacketList :=
  { numPackets := 0, head := 0, tail := 0, succ := succ }

/-- The method `PacketList::push_back` on pointers; `packet->succ=0` dereferences `packet`. -/
def LinkedPacketList.push_back (l : LinkedPacketList) (packet : Nat) :
    Except Fault LinkedPacketList :=
  if packet = 0 then Except.error Fault.nullPointer
  else
    let succ1 := Function.update l.succ packet 0
    Except.ok
      { numPackets := l.numPackets + 1,
        head := if l.tail ≠ 0 then l.head else packet,
        tail := packet,
        succ := if l.tail ≠ 0 then Function.update succ1 l.tail packet else succ1 }

/-- The method `PacketList::pop_front` on pointers: the returned pointer and the list;
`head=result->succ` dereferences `result`. -/
def LinkedPacketList.pop_front (l : LinkedPacketList) :
    Except Fault (Nat × LinkedPacketList) :=
  let result := l.head
  if result = 0 then Except.error Fault.nullPointer
  else
    let head := l.succ result
    Except.ok
      (result,
       { numPackets := l.numPackets - 1,
         head := head,
         tail := if head = 0 then 0 else l.tail,
         succ := Function.update l.succ result 0 })

/-- The packets reachable from pointer `p` along `succ` are exactly those of the list, in
order, and the chain ends in the null pointer. -/
def IsChain (succ : Nat → Nat) : Nat → List Nat → Prop
  | p, [] => p = 0
  | p, a :: rest => p = a ∧ a ≠ 0 ∧ IsChain succ (succ a) rest

instance (succ : Nat → Nat) (p : Nat) (s : List Nat) : Decidable (IsChain succ p s) := by
  induction s generalizing p with
  | nil => unfold IsChain; infer_instance
  | cons a rest ih =>
    unfold IsChain
    exact @instDecidableAnd _ _ _ (@instDecidableAnd _ _ _ (ih _))

/-- A call of one of the two methods of `PacketList`. -/
inductive ListOp
  | push_back (packet : Nat)
  | pop_front
  deriving DecidableEq, Repr

/-- A sequence of calls on a list: the list afterwards and, for each `pop_front`, the pointer
it returned together with the `succ` field of that packet at the return. -/
def LinkedPacketList.run (l : LinkedPacketList) :
    List ListOp → Except Fault (LinkedPacketList × List (Nat × Nat))
  | [] => Except.ok (l, [])
  | ListOp.push_back packet :: rest =>
    match l.push_back packet with
    | Except.error f => Except.error f
    | Except.ok l1 => l1.run rest
  | ListOp.pop_front :: rest =>
    match l.pop_front with
    | Except.error f => Except.error f
    | Except.ok (result, l1) =>
      match l1.run rest with
      | Except.error f => Except.error f
      | Except.ok (l2, popped) => Except.ok (l2, (result, l1.succ result) :: popped)

/-- Modelled from the spec: a FIFO queue.  `push_back` appends at the end, `pop_front` removes
the first element; the result is the queue afterwards and the elements removed, in order. -/
def fifo : List Nat → List ListOp → List Nat × List Nat
  | s, [] => (s, [])
  | s, ListOp.push_back x :: rest => fifo (s ++ [x]) rest
  | s, ListOp.pop_front :: rest => ((fifo s.tail rest).1, s.head?.toList ++ (fifo s.tail rest).2)

/-- The calls respect the ownership of packets: a packet that is pushed is a packet (not null)
that is not in the list at that moment, and `pop_front` is not called on an empty list. -/
def Admissible : List Nat → List ListOp → Prop
  | _, [] => True
  | s, ListOp.push_back x :: rest => x ≠ 0 ∧ x ∉ s ∧ Admissible (s ++ [x]) rest
  | s, ListOp.pop_front :: rest => s ≠ [] ∧ Admissible s.tail rest

instance (s : List Nat) (ops : List ListOp) : Decidable (Admissible s ops) := by
  induction ops generalizing s with
  | nil => unfold Admissible; infer_instance
  | cons op rest ih =>
    cases op with
    | push_back x =>
      unfold Admissible
      exact @instDecidableAnd _ _ _ (@instDecidableAnd _ _ _ (ih _))
    | pop_front =>
      unfold Admissible
      exact @instDecidableAnd _ _ _ (ih _)

/-- The list with its pointers holds the sequence `s`: the chain from `head` is `s` without
repetition, `tail` points to the last packet of `s` (null when `s` is empty), and `numPackets`
is the length of `s`. -/
def LinkedPacketList.Represents (l : LinkedPacketList) (s : List Nat) : Prop :=
  IsChain l.succ l.head s ∧ s.Nodup ∧ l.tail = s.getLast?.getD 0 ∧ l.numPackets = s.length

instance (l : LinkedPacketList) (s : List Nat) : Decidable (l.Represents s) := by
  unfold LinkedPacketList.Represents; infer_instance

/-- Packets 5, 3 and 8 are pushed, one is popped, 5 is pushed again, two are popped. -/
def pushPop : List ListOp :=
  [ListOp.push_back 5, ListOp.push_back 3, ListOp.push_back 8, ListOp.pop_front,
   ListOp.push_back 5, ListOp.pop_front, ListOp.pop_front]

/-! ## The advance of the send window -/

/-- Modelled from the spec: the prefix of the window the scan accepts, "detaching packets while
the remaining `minOffset` covers the packet's full size" and subtracting each size taken. -/
def acceptedPrefix : Nat → List Packet → List Packet
  | _, [] => []
  | minOffset, p :: rest =>
    if p.packetSize ≤ minOffset then p :: acceptedPrefix (minOffset - p.packetSize) rest
    else []

/-- The offsets of the slaves after the report of slave `slaveIndex+1` has been entered. -/
def reportedOffsets (pipeState : PipeState) (slaveIndex streamPos : Nat) : List Nat :=
  pipeState.slaveStreamPosOffsets.set slaveIndex (sub32 streamPos pipeState.headStreamPos)

/-- The least of the offsets of the slaves after the report has been entered (0 when the
pipe has no slaves). -/
def reportedMinimum (pipeState : PipeState) (slaveIndex streamPos : Nat) : Nat :=
  match minimumOf (reportedOffsets pipeState slaveIndex streamPos) with
  | Except.ok m => m
  | Except.error _ => 0

/-- A pipe of a master with two slaves: the window holds packets of 2, 1 and 3 bytes from
position 4 on, slave 1 has reported position 8 and slave 2 is still at the window head. -/
def oneAtHead : PipeState :=
  { streamPos := 10, headStreamPos := 4,
    packetList :=
      { numPackets := 3,
        packets := [⟨1, 4, 2, [1, 2]⟩, ⟨1, 6, 1, [3]⟩, ⟨1, 7, 3, [4, 5, 6]⟩] },
    slaveStreamPosOffsets := [4, 0], numHeadSlaves := 1,
    barrierId := 1, slaveBarrierIds := [1, 1], minSlaveBarrierId := 1,
    slaveGatherValues := [0, 0] }

/-! ## The discard loop on pointers -/

/-- The variables of the discard loop of `processAcknowledgment`. -/
structure Scan where
  numPackets : Nat
  numDiscarded : Nat
  minStreamPosOffset : Nat
  lastAcknowledged : Nat
  pPtr : Nat
  deriving DecidableEq, Repr

/-- The discard loop of `processAcknowledgment` on pointers, at most `fuel` rounds:
`for(pPtr=head;pPtr!=0&&minStreamPosOffset>=pPtr->packetSize;lastAcknowledged=pPtr,pPtr=pPtr->succ)`.
`packetSize` holds the field `packetSize` of the packet at each address. -/
def scanAcknowledged (succ packetSize : Nat → Nat) : Nat → Scan → Scan
  | 0, st => st
  | fuel + 1, st =>
    if st.pPtr ≠ 0 ∧ st.minStreamPosOffset ≥ packetSize st.pPtr then
      scanAcknowledged succ packetSize fuel
        { numPackets := st.numPackets - 1,
          numDiscarded := add32 st.numDiscarded (packetSize st.pPtr),
          minStreamPosOffset := st.minStreamPosOffset - packetSize st.pPtr,
          lastAcknowledged := st.pPtr,
          pPtr := succ st.pPtr }
    else st

/-- What the block "Discard all acknowledged packets from the head of the packet list" leaves:
the packet list, the pointer `packetPoolHead`, and the variable `numDiscarded`. -/
structure LinkedDiscard where
  packetList : LinkedPacketList
  packetPoolHead : Nat
  numDiscarded : Nat

/-- The block "Discard all acknowledged packets from the head of the packet list" of
`processAcknowledgment` on pointers: the loop, then the chain from `firstAcknowledged` to
`lastAcknowledged` is cut off the list and linked in front of the pool. -/
def LinkedPacketList.discardAcknowledged (l : LinkedPacketList) (packetPoolHead : Nat)
    (packetSize : Nat → Nat) (minStreamPosOffset fuel : Nat) : LinkedDiscard :=
  let firstAcknowledged := l.head
  let st := scanAcknowledged l.succ packetSize fuel
    { numPackets := l.numPackets, numDiscarded := 0, minStreamPosOffset := minStreamPosOffset,
      lastAcknowledged := 0, pPtr := l.head }
  if st.lastAcknowledged ≠ 0 then
    { packetList :=
        { numPackets := st.numPackets,
          head := l.succ st.lastAcknowledged,
          tail := if l.succ st.lastAcknowledged = 0 then 0 else l.tail,
          succ := Function.update l.succ st.lastAcknowledged packetPoolHead },
      packetPoolHead := firstAcknowledged,
      numDiscarded := st.numDiscarded }
  else
    { packetList := { l with numPackets := st.numPackets },
      packetPoolHead := packetPoolHead,
      numDiscarded := st.numDiscarded }

/-- A window of three packets at addresses 10, 20 and 30 and a pool of one packet at address
40: the list and the `succ` fields. -/
def threeLinked : LinkedPacketList :=
  { numPackets := 3, head := 10, tail := 30,
    succ := fun a => if a = 10 then 20 else if a = 20 then 30 else 0 }

/-- The packets at the addresses of `threeLinked` and of its pool: the window of `oneAtHead`
at 10, 20 and 30, and a pooled packet elsewhere. -/
def threeLinkedPacket (a : Nat) : Packet :=
  if a = 10 then ⟨1, 4, 2, [1, 2]⟩
  else if a = 20 then ⟨1, 6, 1, [3]⟩
  else if a = 30 then ⟨1, 7, 3, [4, 5, 6]⟩
  else ⟨9, 9, 0, []⟩

/-- The `packetSize` fields of the packets of `threeLinked` and of its pool. -/
def threeLinkedSize (a : Nat) : Nat := (threeLinkedPacket a).packetSize

/-- The block "Add all packets in the list to the list of free packets" of `closePipe` (and
"Flush the list of sent packets" of `barrier` and `gather`) on pointers: the list and the
pointer `packetPoolHead` afterwards.  With `numPackets>0`, `tail->succ=packetPoolHead`
dereferences `tail`. -/
def LinkedPacketList.flush (l : LinkedPacketList) (packetPoolHead : Nat) :
    Except Fault (LinkedPacketList × Nat) :=
  if l.numPackets > 0 then
    if l.tail = 0 then Except.error Fault.nullPointer
    else
      Except.ok
        ({ numPackets := 0, head := 0, tail := 0,
           succ := Function.update l.succ l.tail packetPoolHead },
         l.head)
  else Except.ok (l, packetPoolHead)

/-! ## Invariants of the pipes of the master -/

/-- A property of pipe states holds for every pipe in the table, with the pipe's id. -/
def TableInv (P : Nat → PipeState → Prop) (m : Multiplexer) : Prop :=
  ∀ e ∈ m.pipeStateTable, P e.1 e.2

/-- A slave message comes from a node index in 1..`numSlaves`. -/
def ApiEvent.FromSlaves (numSlaves : Nat) : ApiEvent → Prop
  | ApiEvent.message msg => 1 ≤ msg.nodeIndex ∧ msg.nodeIndex ≤ numSlaves
  | _ => True

instance (numSlaves : Nat) (e : ApiEvent) : Decidable (e.FromSlaves numSlaves) := by
  cases e <;> unfold ApiEvent.FromSlaves <;> infer_instance

/-- A property of pipe states is kept by everything the master of a cluster of `numSlaves`
slaves does to a pipe: `openPipe` creates the state and later marks the pipe as created,
`sendPacket`, the handling of a slave message for the pipe, `barrier` and `gather`. -/
structure Preserved (numSlaves : Nat) (P : Nat → PipeState → Prop) : Prop where
  created : ∀ id uninitialised, P id (newPipeState numSlaves 0 uninitialised)
  marked : ∀ id ps, P id ps → P id { ps with barrierId := 1 }
  sendPacket : ∀ id size ps pool packet,
    P id ps → P id (sendPacketOn size id ps pool packet).pipeState
  message : ∀ id ps pool (msg : SlaveMessage),
    1 ≤ msg.nodeIndex → msg.nodeIndex ≤ numSlaves → msg.pipeId = id →
      P id ps → P id (handleSlaveMessageOn ps pool msg).pipeState
  barrier : ∀ id ps pool, P id ps → P id (barrierMaster numSlaves id ps pool).pipeState
  gather : ∀ id ps pool value op,
    P id ps → P id (gatherMaster numSlaves id ps pool value op).pipeState

/-- The pipe has `numSlaves` slave offsets and `numHeadSlaves` is the number of them that are
zero. -/
def HeadSlavesCounted (numSlaves : Nat) (ps : PipeState) : Prop :=
  ps.slaveStreamPosOffsets.length = numSlaves ∧
    ps.numHeadSlaves = ps.slaveStreamPosOffsets.count 0

instance (numSlaves : Nat) (ps : PipeState) : Decidable (HeadSlavesCounted numSlaves ps) := by
  unfold HeadSlavesCounted; infer_instance

/-- The send window accounts for the stream from `headStreamPos` to `streamPos`: the counter of
the packet list agrees with its chain, `headStreamPos` is a 32-bit value, the packets hold
consecutive bytes from `headStreamPos` on and end at `streamPos` (modulo 2^32), and every
packet carries the pipe's id. -/
def WindowIsRun (pipeId : Nat) (ps : PipeState) : Prop :=
  ps.packetList.Consistent ∧ ps.headStreamPos < wordSize ∧
    Contiguous ps.headStreamPos ps.packetList.packets ∧
    ps.streamPos = (ps.headStreamPos + totalSize ps.packetList.packets) % wordSize ∧
    ∀ p ∈ ps.packetList.packets, p.pipeId = pipeId

/-- The pipe has `numSlaves` slave barrier ids and `minSlaveBarrierId` is their minimum as the
loop of the source computes it. -/
def MinimumRecorded (numSlaves : Nat) (ps : PipeState) : Prop :=
  ps.slaveBarrierIds.length = numSlaves ∧
    minimumOf ps.slaveBarrierIds = Except.ok ps.minSlaveBarrierId

/-- A master with two slaves opens pipe 1 and sends packets of 2, 1 and 3 bytes; slave 1
acknowledges position 3 and slave 2 position 6, slave 1 reports a loss at position 3, and a
late acknowledgment of slave 2 for position 1 arrives. -/
def twoSlavesTraffic : List ApiEvent :=
  [ApiEvent.openPipeBegin [], ApiEvent.message (createPipeMessage 1 1),
   ApiEvent.message (createPipeMessage 2 1), ApiEvent.openPipeFinish 1,
   ApiEvent.sendPacket 1 ⟨0, 0, 2, [1, 2]⟩, ApiEvent.sendPacket 1 ⟨0, 0, 1, [3]⟩,
   ApiEvent.sendPacket 1 ⟨0, 0, 3, [4, 5, 6]⟩, ApiEvent.message (ackMessage 1 1 3),
   ApiEvent.message (ackMessage 2 1 6), ApiEvent.message (packetLossMessage 1 1 3 6),
   ApiEvent.message (ackMessage 2 1 1)]

/-- A master with two slaves opens pipe 1; both slaves reach barrier 2 and the master's
`barrier` passes; then slave 2 sends its `GATHER` message for barrier 3. -/
def twoSlavesBarriers : List ApiEvent :=
  [ApiEvent.openPipeBegin [], ApiEvent.message (createPipeMessage 1 1),
   ApiEvent.message (createPipeMessage 2 1), ApiEvent.openPipeFinish 1,
   ApiEvent.message
     { nodeIndex := 1, messageId := SlaveMessageId.BARRIER, pipeId := 1, barrierId := 2 },
   ApiEvent.barrier 1,
   ApiEvent.message
     { nodeIndex := 2, messageId := SlaveMessageId.BARRIER, pipeId := 1, barrierId := 2 },
   ApiEvent.barrier 1,
   ApiEvent.message
     { nodeIndex := 2, messageId := SlaveMessageId.GATHER, pipeId := 1, barrierId := 3,
       slaveValue := 4 }]

/-! ## The slave's receiver thread between two deliveries -/

/-- The event is one that happens at a slave: its receiver thread handles a data packet or a
master message, or the application calls `receivePacket`, `barrier` or `gather`. -/
def NodeEvent.atSlave : NodeEvent → Bool
  | NodeEvent.dataPacket _ _ _ _ => true
  | NodeEvent.masterMessage _ => true
  | NodeEvent.receivePacket _ _ => true
  | NodeEvent.barrier _ _ => true
  | NodeEvent.gather _ _ _ _ => true
  | _ => false

/-- The messages the receiver thread sends while it handles the event, when the event is a data
packet for pipe `q`. -/
def sentFor (q : Nat) (n : Node) : NodeEvent → List SlaveMessage
  | NodeEvent.dataPacket pipeId streamPos payload constructed =>
    if n.receiverEnded = false ∧ pipeId = q ∧ pipeId ≠ 0 then
      (n.handleDataPacket pipeId streamPos payload constructed).2
    else []
  | _ => []

/-- The messages the receiver thread sends for data packets of pipe `q` along the sequence. -/
def reportsOn (q : Nat) : Node → List NodeEvent → List SlaveMessage
  | _, [] => []
  | n, e :: rest => sentFor q n e ++ reportsOn q (n.step e) rest

/-- The event is a data packet for pipe `q` that the receiver thread handles and that arrives
in order: its stream position is the stream position of the pipe. -/
def NodeEvent.DeliversOn (q : Nat) (n : Node) : NodeEvent → Prop
  | NodeEvent.dataPacket pipeId streamPos _ _ =>
    n.receiverEnded = false ∧ pipeId = q ∧
      (n.multiplexer.findEntry q).map (fun ps => ps.streamPos) = some streamPos
  | _ => False

instance (q : Nat) (n : Node) (e : NodeEvent) : Decidable (e.DeliversOn q n) := by
  cases e <;> unfold NodeEvent.DeliversOn <;> infer_instance

/-- No data packet for pipe `q` arrives in order along the sequence. -/
def NoDeliveryOn (q : Nat) : Node → List NodeEvent → Prop
  | _, [] => True
  | n, e :: rest => ¬ e.DeliversOn q n ∧ NoDeliveryOn q (n.step e) rest

instance (q : Nat) (n : Node) (events : List NodeEvent) : Decidable (NoDeliveryOn q n events) := by
  induction events generalizing n with
  | nil => unfold NoDeliveryOn; infer_instance
  | cons e rest ih =>
    unfold NoDeliveryOn
    exact @instDecidableAnd _ _ _ (ih _)

/-- A slave (node 1 of 2, burst size 3) whose pipes 1 and 2 are at stream position 4. -/
def slaveAtFour : Node :=
  { multiplexer :=
      { numSlaves := 2, nodeIndex := 1, nextPipeId := 3, slaveMessageBurstSize := 3,
        pipeStateTable :=
          [(1, { streamPos := 4, barrierId := 1 }), (2, { streamPos := 4, barrierId := 1 })] },
    sendAckIn := 0, slaveThreadPacket := ⟨0, 0, 0, []⟩ }

/-- Packets ahead of and behind position 4 arrive on pipe 1, between a packet for pipe 2, a
master message and a `receivePacket` call that times out. -/
def outOfOrderTraffic : List NodeEvent :=
  [NodeEvent.dataPacket 1 2 [7, 7] ⟨0, 0, 0, []⟩, NodeEvent.dataPacket 1 6 [9] ⟨0, 0, 0, []⟩,
   NodeEvent.dataPacket 2 4 [5] ⟨0, 0, 0, []⟩, NodeEvent.receivePacket 1 true,
   NodeEvent.dataPacket 1 7 [8, 8] ⟨0, 0, 0, []⟩,
   NodeEvent.masterMessage { messageId := MasterMessageId.PING },
   NodeEvent.dataPacket 1 6 [9] ⟨0, 0, 0, []⟩]

/-- The flag `packetLossMode` of pipe `q` at the node, if the pipe is in the table. -/
def Node.lossMode (n : Node) (q : Nat) : Option Bool :=
  (n.multiplexer.findEntry q).map (fun ps => ps.packetLossMode)

/-! ## The acknowledgment counter of the slave's receiver thread -/

/-- The event is a data packet the receiver thread accepts: the thread handles it, it names a
pipe of the table and its stream position is the stream position of that pipe. -/
def NodeEvent.Accepted (n : Node) : NodeEvent → Prop
  | NodeEvent.dataPacket pipeId streamPos _ _ =>
    n.receiverEnded = false ∧ pipeId ≠ 0 ∧
      (n.multiplexer.findEntry pipeId).map (fun ps => ps.streamPos) = some streamPos
  | _ => False

instance (n : Node) (e : NodeEvent) : Decidable (e.Accepted n) := by
  cases e <;> unfold NodeEvent.Accepted <;> infer_instance

/-- The messages the receiver thread sends while it handles the event. -/
def receiverSent (n : Node) : NodeEvent → List SlaveMessage
  | NodeEvent.dataPacket pipeId streamPos payload constructed =>
    if n.receiverEnded = true ∨ pipeId = 0 then []
    else (n.handleDataPacket pipeId streamPos payload constructed).2
  | _ => []

/-- For each data packet the receiver thread accepts along the sequence, in order of
acceptance and over all pipes, the messages the thread sends while it handles that packet. -/
def ackLog : Node → List NodeEvent → List (List SlaveMessage)
  | _, [] => []
  | n, e :: rest =>
    (if e.Accepted n then [receiverSent n e] else []) ++ ackLog (n.step e) rest

/-- A slave opens pipes 1 and 2 and its receiver thread gets data packets for both pipes; the
packet stamped 9 is ahead of pipe 1 and is not accepted. -/
def staggerTraffic : List NodeEvent :=
  [NodeEvent.openPipeBegin [], NodeEvent.openPipeBegin [],
   NodeEvent.dataPacket 1 0 [1, 2] ⟨0, 0, 0, []⟩, NodeEvent.dataPacket 2 0 [7] ⟨0, 0, 0, []⟩,
   NodeEvent.dataPacket 1 9 [5] ⟨0, 0, 0, []⟩, NodeEvent.receivePacket 1 false,
   NodeEvent.dataPacket 1 2 [3] ⟨0, 0, 0, []⟩, NodeEvent.dataPacket 2 1 [8, 8] ⟨0, 0, 0, []⟩,
   NodeEvent.dataPacket 1 3 [4, 5, 6] ⟨0, 0, 0, []⟩]

/-! ## A send window no acknowledgment advances -/

/-- No slave is at the head of the send window: `numHeadSlaves` is 0 and no slave offset
is 0. -/
def PipeState.Stuck (ps : PipeState) : Prop :=
  ps.numHeadSlaves = 0 ∧ ∀ o ∈ ps.slaveStreamPosOffsets, o ≠ 0

instance (ps : PipeState) : Decidable ps.Stuck := by
  unfold PipeState.Stuck; infer_instance

/-- The event is a `barrier` or a `gather` call, which flushes the send window. -/
def MasterEvent.isFlush : MasterEvent → Bool
  | MasterEvent.barrier => true
  | MasterEvent.gather _ _ => true
  | _ => false

/-- The state `processAcknowledgment` leaves when slave 2 reports position 9 on `oneAtHead`:
slave 1 has reported position 8, inside the packet stamped 7, so the window advances by the
two packets before it and no slave ends at offset 0. -/
def stuckWindow : PipeState :=
  { streamPos := 10, headStreamPos := 7,
    packetList := { numPackets := 1, packets := [⟨1, 7, 3, [4, 5, 6]⟩] },
    slaveStreamPosOffsets := [1, 2], numHeadSlaves := 0,
    barrierId := 1, slaveBarrierIds := [1, 1], minSlaveBarrierId := 1,
    slaveGatherValues := [0, 0] }

/-- Both slaves acknowledge everything sent, the application sends one more packet, and slave 1
reports a loss at position 7. -/
def stuckTraffic : List MasterEvent :=
  [MasterEvent.message (ackMessage 1 1 10), MasterEvent.message (ackMessage 2 1 10),
   MasterEvent.sendPacket ⟨0, 0, 1, [9]⟩, MasterEvent.message (packetLossMessage 1 1 7 8)]

/-! # Theorems -/

/-! ## Arithmetic -/

theorem add32_eq_of_lt {a b : Nat} (h : a + b < wordSize) : add32 a b = a + b := by
  unfold add32; exact Nat.mod_eq_of_lt h

theorem sub32_eq_of_le {a b : Nat} (hb : b ≤ a) (ha : a < wordSize) : sub32 a b = a - b := by
  unfold sub32
  have hb' : b % wordSize = b := Nat.mod_eq_of_lt (lt_of_le_of_lt hb ha)
  rw [hb']
  have : a + (wordSize - b) = (a - b) + wordSize := by omega
  rw [this, Nat.add_mod_right]
  exact Nat.mod_eq_of_lt (by omega)

/-! ## Stamped packets -/

theorem wireBytes_length (p : Packet) : p.wireBytes.length = p.packetSize := by
  simp [Packet.wireBytes]

theorem stampPackets_append (pid : Nat) (xs ys : List Packet) (s : Nat)
    (h : s + (xs.map Packet.packetSize).sum < wordSize) :
    stampPackets pid s (xs ++ ys) =
      stampPackets pid s xs ++ stampPackets pid (s + (xs.map Packet.packetSize).sum) ys := by
  induction xs generalizing s with
  | nil => simp [stampPackets]
  | cons x xs ih =>
    simp only [List.map_cons, List.sum_cons] at h
    have hx : add32 s x.packetSize = s + x.packetSize := add32_eq_of_lt (by omega)
    have ih2 := ih (s + x.packetSize) (by omega)
    simp only [List.cons_append, stampPackets, hx, List.map_cons, List.sum_cons]
    rw [show xs.append ys = xs ++ ys from rfl, ih2, Nat.add_assoc]

theorem stampPackets_bounds (pid : Nat) (xs : List Packet) (s : Nat)
    (hsize : ∀ p ∈ xs, 1 ≤ p.packetSize)
    (h : s + (xs.map Packet.packetSize).sum < wordSize) :
    ∀ q ∈ stampPackets pid s xs,
      s ≤ q.streamPos ∧ q.streamPos + q.packetSize ≤ s + (xs.map Packet.packetSize).sum := by
  induction xs generalizing s with
  | nil => simp [stampPackets]
  | cons x xs ih =>
    simp only [List.map_cons, List.sum_cons] at h
    have hx : add32 s x.packetSize = s + x.packetSize := add32_eq_of_lt (by omega)
    intro q hq
    simp only [stampPackets, List.mem_cons, hx] at hq
    simp only [List.map_cons, List.sum_cons]
    rcases hq with rfl | hq
    · simp
    · have := ih (s + x.packetSize) (fun p hp => hsize p (List.mem_cons_of_mem _ hp)) (by omega) q hq
      omega

theorem stampPackets_pipeId (pid : Nat) (xs : List Packet) (s : Nat) :
    ∀ q ∈ stampPackets pid s xs, q.pipeId = pid := by
  induction xs generalizing s with
  | nil => simp [stampPackets]
  | cons x xs ih =>
    intro q hq
    simp only [stampPackets, List.mem_cons] at hq
    rcases hq with rfl | hq
    · rfl
    · exact ih _ q hq

theorem stampPackets_size_pos (pid : Nat) (xs : List Packet) (s : Nat)
    (hsize : ∀ p ∈ xs, 1 ≤ p.packetSize) :
    ∀ q ∈ stampPackets pid s xs, 1 ≤ q.packetSize := by
  induction xs generalizing s with
  | nil => simp [stampPackets]
  | cons x xs ih =>
    intro q hq
    simp only [stampPackets, List.mem_cons] at hq
    rcases hq with rfl | hq
    · exact hsize x (List.mem_cons_self _ _)
    · exact ih _ (fun p hp => hsize p (List.mem_cons_of_mem _ hp)) q hq

/-! ## The slave's delivery queue -/

theorem deliveredPrefix_start (pid nodeIndex : Nat) (packets : List Packet) :
    DeliveredPrefix pid packets (SlaveTrace.start nodeIndex) :=
  ⟨[], packets, rfl, rfl, rfl, rfl, rfl⟩

theorem pop_front_cons (l : PacketList) (result : Packet) (rest : List Packet)
    (h : l.packets = result :: rest) :
    l.pop_front = Except.ok (result, { numPackets := l.numPackets - 1, packets := rest }) := by
  unfold PacketList.pop_front
  rw [h]

theorem deliveredPrefix_receive (numSlaves nodeIndex burst pid : Nat) (packets : List Packet)
    (t : SlaveTrace) (timedOut : Bool) (hinv : DeliveredPrefix pid packets t) :
    DeliveredPrefix pid packets
      (slaveStep numSlaves nodeIndex burst pid t (SlaveEvent.receive timedOut)) := by
  obtain ⟨done, todo, hsplit, happ, hpos, hret, hcons⟩ := hinv
  simp only [slaveStep, receivePacketOn]
  by_cases hempty : t.pipeState.packetList.empty = true
  · simp only [hempty, if_true]
    exact ⟨done, todo, hsplit, happ, hpos, hret, hcons⟩
  · simp only [hempty]
    unfold PacketList.Consistent at hcons
    cases hq : t.pipeState.packetList.packets with
    | nil =>
      exfalso
      simp [PacketList.empty, hcons, hq] at hempty
    | cons result rest =>
      rw [pop_front_cons _ _ _ hq]
      simp only [Bool.false_eq_true, if_false]
      refine ⟨done, todo, hsplit, happ, hpos, ?_, ?_⟩
      · simp only [List.append_assoc, List.singleton_append]
        rw [← hq]; exact hret
      · simp only [PacketList.Consistent]
        rw [hcons, hq]; simp

theorem deliveredPrefix_arrival (numSlaves nodeIndex burst pid : Nat) (packets : List Packet)
    (hsize : ∀ p ∈ packets, 1 ≤ p.packetSize)
    (htotal : (packets.map Packet.packetSize).sum < wordSize)
    (t : SlaveTrace) (hinv : DeliveredPrefix pid packets t)
    (pid1 pos : Nat) (payload : List Nat)
    (hfrom : (SlaveEvent.arrival pid1 pos payload).From (stampPackets pid 0 packets)) :
    DeliveredPrefix pid packets
      (slaveStep numSlaves nodeIndex burst pid t (SlaveEvent.arrival pid1 pos payload)) := by
  obtain ⟨done, todo, hsplit, happ, hpos, hret, hcons⟩ := hinv
  obtain ⟨p, hp, hdg⟩ := List.mem_map.mp hfrom
  simp only [Packet.toDatagram, Datagram.data.injEq] at hdg
  obtain ⟨hpid1, hposp, hpay⟩ := hdg
  have hpid1 := hpid1.symm
  have hposp := hposp.symm
  have hpay := hpay.symm
  have hpp : p.pipeId = pid := stampPackets_pipeId pid packets 0 p hp
  have htot2 : (done.map Packet.packetSize).sum + (todo.map Packet.packetSize).sum < wordSize := by
    rw [hsplit] at htotal
    simpa using htotal
  have hscratch : Packet.received pid1 pos payload = p.delivered := by
    simp [Packet.delivered, hpid1, hposp, hpay]
  simp only [slaveStep]
  rw [if_pos (by rw [hpid1, hpp])]
  rw [hscratch]
  unfold handleDataPacket
  by_cases hne : t.pipeState.streamPos ≠ p.delivered.streamPos
  · rw [if_pos hne]
    split
    · exact ⟨done, todo, hsplit, happ, hpos, hret, hcons⟩
    · exact ⟨done, todo, hsplit, happ, hpos, hret, hcons⟩
  · rw [if_neg hne]
    have heq : p.streamPos = (done.map Packet.packetSize).sum := by
      have : t.pipeState.streamPos = p.delivered.streamPos := not_not.mp hne
      rw [hpos] at this
      exact this.symm
    -- locate `p` in the stamped stream
    rw [hsplit, stampPackets_append pid done todo 0 (by omega)] at hp
    rcases List.mem_append.mp hp with hd | ht
    · exfalso
      have hb := stampPackets_bounds pid done 0
        (fun q hq => hsize q (by rw [hsplit]; exact List.mem_append_left _ hq)) (by omega) p hd
      have hs := stampPackets_size_pos pid done 0
        (fun q hq => hsize q (by rw [hsplit]; exact List.mem_append_left _ hq)) p hd
      omega
    · cases todo with
      | nil => simp [stampPackets] at ht
      | cons x rest =>
        simp only [List.map_cons, List.sum_cons] at htot2
        have hx : add32 (0 + (done.map Packet.packetSize).sum) x.packetSize
            = 0 + (done.map Packet.packetSize).sum + x.packetSize := add32_eq_of_lt (by omega)
        simp only [stampPackets, List.mem_cons, hx] at ht
        rcases ht with hhead | htail
        · have hpsize : p.packetSize = x.packetSize := by rw [hhead]
          refine ⟨done ++ [x], rest, by simp [hsplit], ?_, ?_, ?_, ?_⟩
          · simp only [if_true]
            rw [stampPackets_append pid done [x] 0 (by omega)]
            simp only [stampPackets, List.map_append, List.map_cons, List.map_nil]
            rw [happ, hhead]
          · simp only [List.map_append, List.map_cons, List.map_nil, List.sum_append,
              List.sum_cons, List.sum_nil, Nat.add_zero]
            show add32 t.pipeState.streamPos p.delivered.packetSize = _
            have : p.delivered.packetSize = x.packetSize := by
              simp [Packet.delivered, Packet.received, wireBytes_length, hpsize]
            rw [this, hpos]
            exact add32_eq_of_lt (by omega)
          · simp only [if_true, PacketList.push_back]
            rw [← List.append_assoc, hret]
          · simp only [PacketList.Consistent, PacketList.push_back, List.length_append,
              List.length_singleton]
            unfold PacketList.Consistent at hcons
            omega
        · exfalso
          have hb := stampPackets_bounds pid rest
            (0 + (done.map Packet.packetSize).sum + x.packetSize)
            (fun q hq => hsize q (by
              rw [hsplit]; exact List.mem_append_right _ (List.mem_cons_of_mem _ hq)))
            (by omega) p htail
          have hxs := hsize x (by rw [hsplit]; exact List.mem_append_right _ (List.mem_cons_self _ _))
          omega

theorem deliveredPrefix_run (numSlaves nodeIndex burst pid : Nat) (packets : List Packet)
    (hsize : ∀ p ∈ packets, 1 ≤ p.packetSize)
    (htotal : (packets.map Packet.packetSize).sum < wordSize)
    (events : List SlaveEvent) (t : SlaveTrace) (hinv : DeliveredPrefix pid packets t)
    (hfrom : ArrivalsFrom (stampPackets pid 0 packets) events) :
    DeliveredPrefix pid packets (slaveRun numSlaves nodeIndex burst pid t events) := by
  induction events generalizing t with
  | nil => exact hinv
  | cons e rest ih =>
    unfold slaveRun
    simp only [List.foldl_cons]
    apply ih
    · cases e with
      | arrival pid1 pos payload =>
        exact deliveredPrefix_arrival numSlaves nodeIndex burst pid packets hsize htotal t hinv
          pid1 pos payload (hfrom _ (List.mem_cons_self _ _))
      | receive timedOut =>
        exact deliveredPrefix_receive numSlaves nodeIndex burst pid packets t timedOut hinv
    · intro e1 h
      exact hfrom e1 (List.mem_cons_of_mem _ h)

/-- C1 (as amended): when every submitted packet has a non-empty payload and the pipe carries
fewer than 2^32 bytes in total, then for every sequence of arriving datagrams drawn from the
stamped packets (any order, omissions, repetitions) and any interleaved `receivePacket` calls,
the packets appended to the delivery queue, and the packets `receivePacket` has returned, are
each a prefix of the stream of stamped packets as delivered (same stream position, same size,
same payload bytes), and the queue holds exactly the appended packets not yet returned. -/
theorem slave_delivers_stream_in_order (numSlaves nodeIndex slaveMessageBurstSize pipeId : Nat)
    (packets : List Packet) (events : List SlaveEvent)
    (hsize : ∀ p ∈ packets, 1 ≤ p.packetSize)
    (htotal : (packets.map Packet.packetSize).sum < wordSize)
    (hfrom : ArrivalsFrom (stampPackets pipeId 0 packets) events) :
    (slaveRun numSlaves nodeIndex slaveMessageBurstSize pipeId (SlaveTrace.start nodeIndex)
        events).appended <+: (stampPackets pipeId 0 packets).map Packet.delivered ∧
    (slaveRun numSlaves nodeIndex slaveMessageBurstSize pipeId (SlaveTrace.start nodeIndex)
        events).returned <+: (stampPackets pipeId 0 packets).map Packet.delivered ∧
    (slaveRun numSlaves nodeIndex slaveMessageBurstSize pipeId (SlaveTrace.start nodeIndex)
        events).returned ++
      (slaveRun numSlaves nodeIndex slaveMessageBurstSize pipeId (SlaveTrace.start nodeIndex)
        events).pipeState.packetList.packets =
      (slaveRun numSlaves nodeIndex slaveMessageBurstSize pipeId (SlaveTrace.start nodeIndex)
        events).appended := by
  obtain ⟨done, todo, hsplit, happ, hpos, hret, _⟩ :=
    deliveredPrefix_run numSlaves nodeIndex slaveMessageBurstSize pipeId packets hsize htotal
      events (SlaveTrace.start nodeIndex) (deliveredPrefix_start pipeId nodeIndex packets) hfrom
  have htot2 : 0 + (done.map Packet.packetSize).sum < wordSize := by
    rw [hsplit] at htotal
    simp only [List.map_append, List.sum_append] at htotal
    omega
  have hpre : (slaveRun numSlaves nodeIndex slaveMessageBurstSize pipeId
      (SlaveTrace.start nodeIndex) events).appended <+:
      (stampPackets pipeId 0 packets).map Packet.delivered := by
    rw [happ, hsplit, stampPackets_append pipeId done todo 0 htot2, List.map_append]
    exact List.prefix_append _ _
  refine ⟨hpre, ?_, hret⟩
  exact List.IsPrefix.trans ⟨_, hret⟩ hpre

/-- C1 (counterexample): with an empty payload the claim fails.  One packet of size 0 is
submitted on pipe 1; its datagram arrives twice at a slave.  Both arrivals are at the pipe's
stream position, so the receiver appends the packet twice, and the appended sequence is not a
prefix of the one-packet stream. -/
theorem slave_delivery_duplicates_empty_packet :
    ArrivalsFrom (stampPackets 1 0 [⟨0, 0, 0, []⟩])
        [SlaveEvent.arrival 1 0 [], SlaveEvent.arrival 1 0 []] ∧
      ¬ ((slaveRun 1 1 1 1 (SlaveTrace.start 1)
            [SlaveEvent.arrival 1 0 [], SlaveEvent.arrival 1 0 []]).appended <+:
          (stampPackets 1 0 [⟨0, 0, 0, []⟩]).map Packet.delivered) := by
  decide

/-- C1 (witness): the three packets of the tiny stream, with datagrams arriving out of order and
repeated, and `receivePacket` calls in between. -/
theorem slave_delivers_stream_in_order_witness :
    (∀ p ∈ ([⟨0, 0, 1, [1]⟩, ⟨0, 0, 2, [2, 3]⟩, ⟨0, 0, 3, [4, 5, 6]⟩] : List Packet),
        1 ≤ p.packetSize) ∧
    (slaveRun 3 2 1 1 (SlaveTrace.start 2)
        [SlaveEvent.arrival 1 1 [2, 3], SlaveEvent.arrival 1 0 [1], SlaveEvent.receive false,
         SlaveEvent.arrival 1 0 [1], SlaveEvent.arrival 1 1 [2, 3]]).appended <+:
      (stampPackets 1 0 [⟨0, 0, 1, [1]⟩, ⟨0, 0, 2, [2, 3]⟩, ⟨0, 0, 3, [4, 5, 6]⟩]).map
        Packet.delivered :=
  ⟨by decide,
   (slave_delivers_stream_in_order 3 2 1 1
      [⟨0, 0, 1, [1]⟩, ⟨0, 0, 2, [2, 3]⟩, ⟨0, 0, 3, [4, 5, 6]⟩]
      [SlaveEvent.arrival 1 1 [2, 3], SlaveEvent.arrival 1 0 [1], SlaveEvent.receive false,
       SlaveEvent.arrival 1 0 [1], SlaveEvent.arrival 1 1 [2, 3]]
      (by decide) (by decide) (by decide)).1⟩

/-! ## The gather value -/

theorem gatherValue_min (s : List Nat) (v : Nat) :
    gatherValue OpCode.MIN v s ∈ v :: s ∧ ∀ x ∈ v :: s, gatherValue OpCode.MIN v s ≤ x := by
  induction s generalizing v with
  | nil => simp [gatherValue]
  | cons y ys ih =>
    have h := ih (gatherStep OpCode.MIN v y)
    have hstep : gatherStep OpCode.MIN v y = if v > y then y else v := rfl
    simp only [gatherValue, List.foldl_cons] at h ⊢
    constructor
    · rcases List.mem_cons.mp h.1 with h1 | h1
      · rw [h1, hstep]; split <;> simp
      · exact List.mem_cons_of_mem _ (List.mem_cons_of_mem _ h1)
    · intro x hx
      have hle := h.2 (gatherStep OpCode.MIN v y) (List.mem_cons_self _ _)
      have hb : gatherStep OpCode.MIN v y ≤ v ∧ gatherStep OpCode.MIN v y ≤ y := by
        rw [hstep]; split <;> omega
      rcases List.mem_cons.mp hx with rfl | hx
      · exact le_trans hle hb.1
      · rcases List.mem_cons.mp hx with rfl | hx
        · exact le_trans hle hb.2
        · exact h.2 x (List.mem_cons_of_mem _ hx)

theorem gatherValue_max (s : List Nat) (v : Nat) :
    gatherValue OpCode.MAX v s ∈ v :: s ∧ ∀ x ∈ v :: s, x ≤ gatherValue OpCode.MAX v s := by
  induction s generalizing v with
  | nil => simp [gatherValue]
  | cons y ys ih =>
    have h := ih (gatherStep OpCode.MAX v y)
    have hstep : gatherStep OpCode.MAX v y = if v < y then y else v := rfl
    simp only [gatherValue, List.foldl_cons] at h ⊢
    constructor
    · rcases List.mem_cons.mp h.1 with h1 | h1
      · rw [h1, hstep]; split <;> simp
      · exact List.mem_cons_of_mem _ (List.mem_cons_of_mem _ h1)
    · intro x hx
      have hle := h.2 (gatherStep OpCode.MAX v y) (List.mem_cons_self _ _)
      have hb : v ≤ gatherStep OpCode.MAX v y ∧ y ≤ gatherStep OpCode.MAX v y := by
        rw [hstep]; split <;> omega
      rcases List.mem_cons.mp hx with rfl | hx
      · exact le_trans hb.1 hle
      · rcases List.mem_cons.mp hx with rfl | hx
        · exact le_trans hb.2 hle
        · exact h.2 x (List.mem_cons_of_mem _ hx)

theorem gatherValue_sum (s : List Nat) (v : Nat) (hs : s ≠ []) :
    gatherValue OpCode.SUM v s = (v + s.sum) % 2 ^ 32 := by
  induction s generalizing v with
  | nil => exact absurd rfl hs
  | cons y ys ih =>
    have hstep : gatherStep OpCode.SUM v y = (v + y) % 2 ^ 32 := rfl
    by_cases hys : ys = []
    · subst hys
      simp [gatherValue, hstep]
    · have h := ih (gatherStep OpCode.SUM v y) hys
      simp only [gatherValue, List.foldl_cons, List.sum_cons] at h ⊢
      rw [h, hstep, Nat.mod_add_mod, Nat.add_assoc]

theorem gatherValue_product (s : List Nat) (v : Nat) (hs : s ≠ []) :
    gatherValue OpCode.PRODUCT v s = (v * s.prod) % 2 ^ 32 := by
  induction s generalizing v with
  | nil => exact absurd rfl hs
  | cons y ys ih =>
    have hstep : gatherStep OpCode.PRODUCT v y = (v * y) % 2 ^ 32 := rfl
    by_cases hys : ys = []
    · subst hys
      simp [gatherValue, hstep]
    · have h := ih (gatherStep OpCode.PRODUCT v y) hys
      simp only [gatherValue, List.foldl_cons, List.prod_cons] at h ⊢
      rw [h, hstep, Nat.mod_mul_mod, Nat.mul_assoc]

theorem gatherValue_and (s : List Nat) (v : Nat) (hs : s ≠ []) :
    gatherValue OpCode.AND v s = if v ≠ 0 ∧ ∀ x ∈ s, x ≠ 0 then 1 else 0 := by
  induction s generalizing v with
  | nil => exact absurd rfl hs
  | cons y ys ih =>
    have hstep : gatherStep OpCode.AND v y = if v ≠ 0 ∧ y ≠ 0 then 1 else 0 := rfl
    by_cases hys : ys = []
    · subst hys
      simp [gatherValue, hstep]
    · have h := ih (gatherStep OpCode.AND v y) hys
      simp only [gatherValue, List.foldl_cons] at h ⊢
      rw [h, hstep]
      by_cases hv : v ≠ 0 ∧ y ≠ 0
      · simp [hv]
      · have : ¬ (v ≠ 0 ∧ ∀ x ∈ y :: ys, x ≠ 0) := by
          intro hh
          exact hv ⟨hh.1, hh.2 y (List.mem_cons_self _ _)⟩
        simp only [if_neg hv, if_neg this]
        simp

theorem gatherValue_or (s : List Nat) (v : Nat) (hs : s ≠ []) :
    gatherValue OpCode.OR v s = if v ≠ 0 ∨ ∃ x ∈ s, x ≠ 0 then 1 else 0 := by
  induction s generalizing v with
  | nil => exact absurd rfl hs
  | cons y ys ih =>
    have hstep : gatherStep OpCode.OR v y = if v ≠ 0 ∨ y ≠ 0 then 1 else 0 := rfl
    by_cases hys : ys = []
    · subst hys
      simp [gatherValue, hstep]
    · have h := ih (gatherStep OpCode.OR v y) hys
      simp only [gatherValue, List.foldl_cons] at h ⊢
      rw [h, hstep]
      by_cases hv : v ≠ 0 ∨ y ≠ 0
      · have : v ≠ 0 ∨ ∃ x ∈ y :: ys, x ≠ 0 := by
          rcases hv with hv | hv
          · exact Or.inl hv
          · exact Or.inr ⟨y, List.mem_cons_self _ _, hv⟩
        simp only [if_pos hv, if_pos this]
        simp
      · have hv0 : v = 0 ∧ y = 0 := by
          constructor
          · by_contra h1; exact hv (Or.inl h1)
          · by_contra h1; exact hv (Or.inr h1)
        simp [hv0.1, hv0.2]

theorem gatherValue_spec (op : OpCode) (v : Nat) (s : List Nat) (hs : s ≠ []) :
    GatherSpec op v s (gatherValue op v s) := by
  cases op
  · exact gatherValue_and s v hs
  · exact gatherValue_or s v hs
  · exact gatherValue_min s v
  · exact gatherValue_max s v
  · exact gatherValue_sum s v hs
  · exact gatherValue_product s v hs

/-! ## The flush of the send window -/

theorem flushSendWindow_consistent (numSlaves : Nat) (ps : PipeState) (pool : List Packet)
    (hcons : ps.packetList.Consistent) :
    flushSendWindow numSlaves ps pool =
      Except.ok
        ({ ps with
            packetList := { numPackets := 0, packets := [] }
            headStreamPos := ps.streamPos
            slaveStreamPosOffsets := ps.slaveStreamPosOffsets.map (fun _ => 0)
            numHeadSlaves := numSlaves },
         ps.packetList.packets ++ pool) := by
  obtain ⟨sp, plm, ⟨n, l⟩, hsp, off, nhs, bid, ids, mid, gv, mgv⟩ := ps
  simp only [PacketList.Consistent] at hcons
  subst hcons
  cases l with
  | nil => simp [flushSendWindow]
  | cons x xs =>
    have hlast : ∃ y, (x :: xs).getLast? = some y :=
      ⟨(x :: xs).getLast (by simp), List.getLast?_eq_getLast _ (by simp)⟩
    obtain ⟨y, hy⟩ := hlast
    simp [flushSendWindow, PacketList.tail, hy]

theorem barrierMaster_passes (numSlaves pipeId : Nat) (ps : PipeState) (pool : List Packet)
    (hcons : ps.packetList.Consistent)
    (hnot : ¬ ps.minSlaveBarrierId < add32 ps.barrierId 1) :
    barrierMaster numSlaves pipeId ps pool =
      { pipeState :=
          { ps with
            packetList := { numPackets := 0, packets := [] }
            headStreamPos := ps.streamPos
            slaveStreamPosOffsets := ps.slaveStreamPosOffsets.map (fun _ => 0)
            numHeadSlaves := numSlaves
            barrierId := add32 ps.barrierId 1 },
        packetPoolHead := ps.packetList.packets ++ pool,
        sent := [Datagram.master
          { messageId := MasterMessageId.BARRIER, pipeId := pipeId,
            barrierId := add32 ps.barrierId 1 }],
        status := Status.returned () } := by
  unfold barrierMaster
  simp only [if_neg hnot, flushSendWindow_consistent numSlaves ps pool hcons]

theorem gatherMaster_passes (numSlaves pipeId : Nat) (ps : PipeState) (pool : List Packet)
    (value : Nat) (op : OpCode)
    (hcons : ps.packetList.Consistent)
    (hnot : ¬ ps.minSlaveBarrierId < add32 ps.barrierId 1) :
    gatherMaster numSlaves pipeId ps pool value op =
      { pipeState :=
          { ps with
            packetList := { numPackets := 0, packets := [] }
            headStreamPos := ps.streamPos
            slaveStreamPosOffsets := ps.slaveStreamPosOffsets.map (fun _ => 0)
            numHeadSlaves := numSlaves
            barrierId := add32 ps.barrierId 1
            masterGatherValue := gatherValue op value ps.slaveGatherValues },
        packetPoolHead := ps.packetList.packets ++ pool,
        sent := [Datagram.master
          { messageId := MasterMessageId.GATHER, pipeId := pipeId,
            barrierId := add32 ps.barrierId 1,
            masterValue := gatherValue op value ps.slaveGatherValues }],
        status := Status.returned (gatherValue op value ps.slaveGatherValues) } := by
  unfold gatherMaster
  have h := flushSendWindow_consistent numSlaves
    { ps with masterGatherValue := gatherValue op value ps.slaveGatherValues } pool hcons
  simp only [if_neg hnot, h]

/-- C4: when the master's `gather` passes its wait (every slave has reached the next barrier
id) with at least one slave value recorded in `slaveGatherValues`, it returns, stores in
`masterGatherValue` and sends in its completion message the fold of the operator from the
master's value over the slave values, and that fold is the minimum (MIN) or maximum (MAX) of
all values, their sum (SUM) or product (PRODUCT) modulo 2^32, 1 or 0 according to whether all
values are non-zero (AND), or 1 or 0 according to whether some value is non-zero (OR). -/
theorem gather_master_returns_fold (numSlaves pipeId : Nat) (ps : PipeState)
    (pool : List Packet) (value : Nat) (op : OpCode)
    (hN : 1 ≤ ps.slaveGatherValues.length)
    (hcons : ps.packetList.Consistent)
    (hall : add32 ps.barrierId 1 ≤ ps.minSlaveBarrierId) :
    (gatherMaster numSlaves pipeId ps pool value op).status =
        Status.returned (gatherValue op value ps.slaveGatherValues) ∧
      (gatherMaster numSlaves pipeId ps pool value op).pipeState.masterGatherValue =
        gatherValue op value ps.slaveGatherValues ∧
      (gatherMaster numSlaves pipeId ps pool value op).sent =
        [Datagram.master
          { messageId := MasterMessageId.GATHER, pipeId := pipeId,
            barrierId := add32 ps.barrierId 1,
            masterValue := gatherValue op value ps.slaveGatherValues }] ∧
      GatherSpec op value ps.slaveGatherValues (gatherValue op value ps.slaveGatherValues) := by
  have hne : ps.slaveGatherValues ≠ [] := by
    intro h; rw [h] at hN; simp at hN
  rw [gatherMaster_passes numSlaves pipeId ps pool value op hcons (Nat.not_lt.mpr hall)]
  exact ⟨rfl, rfl, rfl, gatherValue_spec op value ps.slaveGatherValues hne⟩

/-- C4 (witness): master value 7 with slave values 3, 9, 5 gives 3 under MIN and 24 under SUM;
master value 1 with slave values 1, 0, 1 gives 0 under AND. -/
theorem gather_master_returns_fold_witness :
    gatherValue OpCode.MIN 7 [3, 9, 5] = 3 ∧
      gatherValue OpCode.SUM 7 [3, 9, 5] = 24 ∧
      gatherValue OpCode.AND 1 [1, 0, 1] = 0 ∧
      (gatherMaster 3 1
          { barrierId := 1, minSlaveBarrierId := 2, slaveBarrierIds := [2, 2, 2],
            slaveStreamPosOffsets := [0, 0, 0], numHeadSlaves := 3,
            slaveGatherValues := [3, 9, 5] } [] 7 OpCode.MIN).status = Status.returned 3 :=
  ⟨by decide, by decide, by decide,
   (gather_master_returns_fold 3 1
      { barrierId := 1, minSlaveBarrierId := 2, slaveBarrierIds := [2, 2, 2],
        slaveStreamPosOffsets := [0, 0, 0], numHeadSlaves := 3,
        slaveGatherValues := [3, 9, 5] } [] 7 OpCode.MIN
      (by decide) (by decide) (by decide)).1⟩

/-- C7: on a master pipe state whose packet list is well formed and in which every slave has
reached the next barrier id, `barrier` returns with an empty send window (`numPackets` 0, head
and tail null), `headStreamPos` equal to `streamPos`, every slave offset 0, `numHeadSlaves`
equal to `numSlaves`, `barrierId` one higher and `streamPos` unchanged, and the packet pool is
the former window, in order, followed by the former pool; the master branch of `gather` leaves
the same window, flow-control fields, `barrierId` and pool. -/
theorem barrier_flushes_send_window (numSlaves pipeId : Nat) (ps : PipeState)
    (pool : List Packet) (value : Nat) (op : OpCode)
    (hcons : ps.packetList.Consistent)
    (h32 : ps.minSlaveBarrierId < wordSize)
    (hall : ps.barrierId + 1 ≤ ps.minSlaveBarrierId) :
    ((barrierMaster numSlaves pipeId ps pool).status = Status.returned () ∧
      (barrierMaster numSlaves pipeId ps pool).pipeState.packetList.numPackets = 0 ∧
      (barrierMaster numSlaves pipeId ps pool).pipeState.packetList.head = none ∧
      (barrierMaster numSlaves pipeId ps pool).pipeState.packetList.tail = none ∧
      (barrierMaster numSlaves pipeId ps pool).pipeState.headStreamPos =
        (barrierMaster numSlaves pipeId ps pool).pipeState.streamPos ∧
      (barrierMaster numSlaves pipeId ps pool).pipeState.slaveStreamPosOffsets =
        List.replicate ps.slaveStreamPosOffsets.length 0 ∧
      (barrierMaster numSlaves pipeId ps pool).pipeState.numHeadSlaves = numSlaves ∧
      (barrierMaster numSlaves pipeId ps pool).pipeState.barrierId = ps.barrierId + 1 ∧
      (barrierMaster numSlaves pipeId ps pool).pipeState.streamPos = ps.streamPos ∧
      (barrierMaster numSlaves pipeId ps pool).packetPoolHead =
        ps.packetList.packets ++ pool) ∧
    ((gatherMaster numSlaves pipeId ps pool value op).pipeState.packetList =
        (barrierMaster numSlaves pipeId ps pool).pipeState.packetList ∧
      (gatherMaster numSlaves pipeId ps pool value op).pipeState.headStreamPos =
        (barrierMaster numSlaves pipeId ps pool).pipeState.headStreamPos ∧
      (gatherMaster numSlaves pipeId ps pool value op).pipeState.slaveStreamPosOffsets =
        (barrierMaster numSlaves pipeId ps pool).pipeState.slaveStreamPosOffsets ∧
      (gatherMaster numSlaves pipeId ps pool value op).pipeState.numHeadSlaves =
        (barrierMaster numSlaves pipeId ps pool).pipeState.numHeadSlaves ∧
      (gatherMaster numSlaves pipeId ps pool value op).pipeState.barrierId =
        (barrierMaster numSlaves pipeId ps pool).pipeState.barrierId ∧
      (gatherMaster numSlaves pipeId ps pool value op).pipeState.streamPos =
        (barrierMaster numSlaves pipeId ps pool).pipeState.streamPos ∧
      (gatherMaster numSlaves pipeId ps pool value op).packetPoolHead =
        (barrierMaster numSlaves pipeId ps pool).packetPoolHead) := by
  have hnext : add32 ps.barrierId 1 = ps.barrierId + 1 := add32_eq_of_lt (by omega)
  have hnot : ¬ ps.minSlaveBarrierId < add32 ps.barrierId 1 := by rw [hnext]; omega
  have hzero : ps.slaveStreamPosOffsets.map (fun _ => 0) =
      List.replicate ps.slaveStreamPosOffsets.length 0 := by
    induction ps.slaveStreamPosOffsets with
    | nil => rfl
    | cons a l ih => simp [List.replicate_succ, ih]
  rw [gatherMaster_passes numSlaves pipeId ps pool value op hcons hnot,
    barrierMaster_passes numSlaves pipeId ps pool hcons hnot]
  exact ⟨⟨rfl, rfl, rfl, rfl, rfl, hzero, rfl, hnext, rfl, rfl⟩, rfl, rfl, rfl, rfl, rfl, rfl, rfl⟩

/-! ## The discard loop -/

theorem discardAcknowledged_spec (l : List Packet) (n d0 m : Nat) (hd0 : d0 < wordSize) :
    (discardAcknowledged n d0 m l).acknowledged ++ (discardAcknowledged n d0 m l).remaining = l ∧
      (discardAcknowledged n d0 m l).numPackets =
        n - (discardAcknowledged n d0 m l).acknowledged.length ∧
      totalSize (discardAcknowledged n d0 m l).acknowledged ≤ m ∧
      (discardAcknowledged n d0 m l).minStreamPosOffset =
        m - totalSize (discardAcknowledged n d0 m l).acknowledged ∧
      (discardAcknowledged n d0 m l).numDiscarded =
        (d0 + totalSize (discardAcknowledged n d0 m l).acknowledged) % wordSize := by
  induction l generalizing n d0 m with
  | nil => simp [discardAcknowledged, totalSize, Nat.mod_eq_of_lt hd0]
  | cons p ps ih =>
    unfold discardAcknowledged
    by_cases h : m ≥ p.packetSize
    · simp only [h, if_true]
      have hlt : add32 d0 p.packetSize < wordSize := Nat.mod_lt _ (by decide)
      obtain ⟨h1, h2, h3, h4, h5⟩ := ih (n - 1) (add32 d0 p.packetSize) (m - p.packetSize) hlt
      refine ⟨?_, ?_, ?_, ?_, ?_⟩
      · simp [h1]
      · simp only [List.length_cons]; rw [h2]; omega
      · simp only [totalSize, List.map_cons, List.sum_cons] at h3 ⊢; omega
      · simp only [totalSize, List.map_cons, List.sum_cons] at h3 h4 ⊢; rw [h4]; omega
      · simp only [totalSize, List.map_cons, List.sum_cons] at h5 ⊢
        rw [h5]; unfold add32
        rw [Nat.mod_add_mod, Nat.add_assoc]
    · simp only [h, if_false]
      simp [totalSize, Nat.mod_eq_of_lt hd0]

theorem discardAcknowledged_stop (l : List Packet) (n d0 m : Nat) :
    ∀ q rest, (discardAcknowledged n d0 m l).remaining = q :: rest →
      (discardAcknowledged n d0 m l).minStreamPosOffset < q.packetSize := by
  induction l generalizing n d0 m with
  | nil => intro q rest h; simp [discardAcknowledged] at h
  | cons p ps ih =>
    unfold discardAcknowledged
    by_cases h : m ≥ p.packetSize
    · simp only [h, if_true]
      exact ih (n - 1) (add32 d0 p.packetSize) (m - p.packetSize)
    · simp only [h, if_false]
      intro q rest hq
      simp only [List.cons.injEq] at hq
      rw [← hq.1]
      omega

theorem totalSize_append (a b : List Packet) : totalSize (a ++ b) = totalSize a + totalSize b := by
  simp [totalSize]

/-! ## Shape of `processAcknowledgment` -/

theorem processAcknowledgment_shape (ps : PipeState) (pool : List Packet) (i r : Nat)
    (ps1 : PipeState) (pool1 : List Packet)
    (h : processAcknowledgment ps pool i r = Except.ok (ps1, pool1)) :
    ∃ ack, ps.packetList.packets = ack ++ ps1.packetList.packets ∧ pool1 = ack ++ pool ∧
      ps1.packetList.numPackets = ps.packetList.numPackets - ack.length ∧
      ((ack = [] ∧ ps1.headStreamPos = ps.headStreamPos) ∨
        ps1.headStreamPos = add32 ps.headStreamPos (totalSize ack % wordSize)) ∧
      ps1.streamPos = ps.streamPos ∧ ps1.packetLossMode = ps.packetLossMode ∧
      ps1.barrierId = ps.barrierId ∧ ps1.slaveBarrierIds = ps.slaveBarrierIds ∧
      ps1.minSlaveBarrierId = ps.minSlaveBarrierId ∧
      ps1.slaveGatherValues = ps.slaveGatherValues ∧
      ps1.masterGatherValue = ps.masterGatherValue ∧
      ps1.slaveStreamPosOffsets.length = ps.slaveStreamPosOffsets.length := by
  unfold processAcknowledgment at h
  simp only at h
  split at h
  · split at h
    · exact absurd h (by simp)
    · split at h
      · split at h
        · split at h
          · exact absurd h (by simp)
          · rename_i m hm
            simp only [Except.ok.injEq, Prod.mk.injEq] at h
            obtain ⟨h1, h2⟩ := h
            obtain ⟨d1, d2, d3, d4, d5⟩ := discardAcknowledged_spec ps.packetList.packets
              ps.packetList.numPackets 0 m (by decide)
            refine ⟨(discardAcknowledged ps.packetList.numPackets 0 m
              ps.packetList.packets).acknowledged, ?_, ?_, ?_, ?_, ?_⟩
            · rw [← h1]; exact d1.symm
            · rw [← h2]
            · rw [← h1]; exact d2
            · right; rw [← h1]; simp only; rw [d5, Nat.zero_add]
            · rw [← h1]; simp
        · simp only [Except.ok.injEq, Prod.mk.injEq] at h
          obtain ⟨h1, h2⟩ := h
          refine ⟨[], ?_, ?_, ?_, ?_, ?_⟩ <;> simp [← h1, ← h2]
      · simp only [Except.ok.injEq, Prod.mk.injEq] at h
        obtain ⟨h1, h2⟩ := h
        refine ⟨[], ?_, ?_, ?_, ?_, ?_⟩ <;> simp [← h1, ← h2]
  · simp only [Except.ok.injEq, Prod.mk.injEq] at h
    obtain ⟨h1, h2⟩ := h
    refine ⟨[], ?_, ?_, ?_, ?_, ?_⟩ <;> simp [← h1, ← h2]

/-! ## What a slave message does to the flow control -/

theorem sameFlow_refl (ps : PipeState) : SameFlow ps ps := ⟨rfl, rfl, rfl, rfl, rfl⟩

theorem ofExcept_sameFlow (ps : PipeState) (pool : List Packet) (r : Except Fault PipeState)
    (h : ∀ ps1, r = Except.ok ps1 → SameFlow ps ps1) :
    SameFlow ps (PipeResult.ofExcept ps pool r).pipeState ∧
      (PipeResult.ofExcept ps pool r).packetPoolHead = pool := by
  cases r with
  | error f => exact ⟨sameFlow_refl ps, rfl⟩
  | ok ps1 => exact ⟨h ps1 rfl, rfl⟩

theorem recordBarrierId_sameFlow (ps : PipeState) (nodeIndex barrierId : Nat) (ps1 : PipeState)
    (h : recordBarrierId ps nodeIndex barrierId = Except.ok ps1) : SameFlow ps ps1 := by
  unfold recordBarrierId at h
  simp only at h
  split at h
  · split at h
    · exact absurd h (by simp)
    · simp only [Except.ok.injEq] at h
      rw [← h]; exact ⟨rfl, rfl, rfl, rfl, rfl⟩
  · exact absurd h (by simp)

theorem handleCreatePipe_sameFlow (ps : PipeState) (pool : List Packet) (msg : SlaveMessage) :
    SameFlow ps (handleCreatePipe ps pool msg).pipeState ∧
      (handleCreatePipe ps pool msg).packetPoolHead = pool := by
  unfold handleCreatePipe
  split
  · exact ⟨sameFlow_refl ps, rfl⟩
  · exact ofExcept_sameFlow ps pool _ (fun ps1 h => recordBarrierId_sameFlow ps _ _ ps1 h)

theorem handleBarrier_sameFlow (ps : PipeState) (pool : List Packet) (msg : SlaveMessage) :
    SameFlow ps (handleBarrier ps pool msg).pipeState ∧
      (handleBarrier ps pool msg).packetPoolHead = pool := by
  unfold handleBarrier
  split
  · exact ⟨sameFlow_refl ps, rfl⟩
  · exact ofExcept_sameFlow ps pool _ (fun ps1 h => recordBarrierId_sameFlow ps _ _ ps1 h)

theorem handleGather_sameFlow (ps : PipeState) (pool : List Packet) (msg : SlaveMessage) :
    SameFlow ps (handleGather ps pool msg).pipeState ∧
      (handleGather ps pool msg).packetPoolHead = pool := by
  unfold handleGather
  split
  · exact ⟨sameFlow_refl ps, rfl⟩
  · simp only
    split
    · split
      · apply ofExcept_sameFlow
        intro ps1 h
        split at h
        · exact absurd h (by simp)
        · simp only [Except.ok.injEq] at h
          rw [← h]; exact ⟨rfl, rfl, rfl, rfl, rfl⟩
      · exact ⟨sameFlow_refl ps, rfl⟩
    · exact ⟨sameFlow_refl ps, rfl⟩

theorem handleAcknowledgment_cases (ps : PipeState) (pool : List Packet) (msg : SlaveMessage) :
    ((handleAcknowledgment ps pool msg).pipeState = ps ∧
        (handleAcknowledgment ps pool msg).packetPoolHead = pool) ∨
      processAcknowledgment ps pool (sub32 msg.nodeIndex 1) msg.streamPos =
        Except.ok ((handleAcknowledgment ps pool msg).pipeState,
          (handleAcknowledgment ps pool msg).packetPoolHead) := by
  unfold handleAcknowledgment
  cases h : processAcknowledgment ps pool (sub32 msg.nodeIndex 1) msg.streamPos with
  | error f => left; exact ⟨rfl, rfl⟩
  | ok v => obtain ⟨a, b⟩ := v; right; rfl

theorem handlePacketLoss_cases (ps : PipeState) (pool : List Packet) (msg : SlaveMessage) :
    ((handlePacketLoss ps pool msg).pipeState = ps ∧
        (handlePacketLoss ps pool msg).packetPoolHead = pool) ∨
      processAcknowledgment ps pool (sub32 msg.nodeIndex 1) msg.streamPos =
        Except.ok ((handlePacketLoss ps pool msg).pipeState,
          (handlePacketLoss ps pool msg).packetPoolHead) := by
  unfold handlePacketLoss
  cases h : processAcknowledgment ps pool (sub32 msg.nodeIndex 1) msg.streamPos with
  | error f => left; exact ⟨rfl, rfl⟩
  | ok v =>
    obtain ⟨a, b⟩ := v
    right
    simp only
    split
    · split
      · rfl
      · split <;> rfl
    · rfl

theorem handleSlaveMessageOn_cases (ps : PipeState) (pool : List Packet) (msg : SlaveMessage) :
    (SameFlow ps (handleSlaveMessageOn ps pool msg).pipeState ∧
        (handleSlaveMessageOn ps pool msg).packetPoolHead = pool) ∨
      (msg.isReport = true ∧
        processAcknowledgment ps pool (sub32 msg.nodeIndex 1) msg.streamPos =
          Except.ok ((handleSlaveMessageOn ps pool msg).pipeState,
            (handleSlaveMessageOn ps pool msg).packetPoolHead)) := by
  unfold handleSlaveMessageOn
  cases hid : msg.messageId with
  | CONNECTION => left; exact ⟨sameFlow_refl ps, rfl⟩
  | PING => left; exact ⟨sameFlow_refl ps, rfl⟩
  | CREATEPIPE => left; exact handleCreatePipe_sameFlow ps pool msg
  | BARRIER => left; exact handleBarrier_sameFlow ps pool msg
  | GATHER => left; exact handleGather_sameFlow ps pool msg
  | ACKNOWLEDGMENT =>
    rcases handleAcknowledgment_cases ps pool msg with h | h
    · left; simp only; rw [h.1, h.2]; exact ⟨sameFlow_refl ps, rfl⟩
    · right; exact ⟨by simp [SlaveMessage.isReport, hid], h⟩
  | PACKETLOSS =>
    rcases handlePacketLoss_cases ps pool msg with h | h
    · left; simp only; rw [h.1, h.2]; exact ⟨sameFlow_refl ps, rfl⟩
    · right; exact ⟨by simp [SlaveMessage.isReport, hid], h⟩

/-! ## The window accounts for the bytes between its head and the stream position -/

theorem windowAccounts_of_sameFlow (t : MasterTrace) (ps1 : PipeState) (pool1 : List Packet)
    (hw : WindowAccounts t) (hs : SameFlow t.pipeState ps1) :
    WindowAccounts { t with pipeState := ps1, packetPoolHead := pool1 } ∧
      t.pipeState.headStreamPos ≤ ps1.headStreamPos := by
  obtain ⟨h1, h2, h3, _, _⟩ := hs
  obtain ⟨w1, w2, w3⟩ := hw
  unfold WindowAccounts
  simp only [h1, h2, h3]
  exact ⟨⟨w1, w2, w3⟩, le_refl _⟩

theorem windowAccounts_of_ack (t : MasterTrace) (ps1 : PipeState) (pool1 : List Packet)
    (i r : Nat) (hw : WindowAccounts t) (hlt : t.sentSizes.sum < wordSize)
    (h : processAcknowledgment t.pipeState t.packetPoolHead i r = Except.ok (ps1, pool1)) :
    WindowAccounts { t with pipeState := ps1, packetPoolHead := pool1 } ∧
      t.pipeState.headStreamPos ≤ ps1.headStreamPos := by
  obtain ⟨ack, hsplit, _, hnum, hhead, hpos, _⟩ :=
    processAcknowledgment_shape t.pipeState t.packetPoolHead i r ps1 pool1 h
  obtain ⟨w1, w2, w3⟩ := hw
  unfold PacketList.Consistent at w1
  rw [hsplit, totalSize_append] at w2
  have hlen : t.pipeState.packetList.packets.length = ack.length + ps1.packetList.packets.length := by
    rw [hsplit, List.length_append]
  have hhead2 : ps1.headStreamPos = t.pipeState.headStreamPos + totalSize ack := by
    rcases hhead with ⟨hnil, hh⟩ | hh
    · rw [hh, hnil]; simp [totalSize]
    · rw [hh, Nat.mod_eq_of_lt (by omega)]
      exact add32_eq_of_lt (by omega)
  unfold WindowAccounts PacketList.Consistent
  simp only
  refine ⟨⟨by omega, by omega, by omega⟩, by omega⟩

theorem windowAccounts_step (numSlaves pipeId sendBufferSize : Nat) (t : MasterTrace)
    (e : MasterEvent) (hw : WindowAccounts t)
    (hlt : (masterStep numSlaves pipeId sendBufferSize t e).sentSizes.sum < wordSize) :
    WindowAccounts (masterStep numSlaves pipeId sendBufferSize t e) ∧
      t.pipeState.headStreamPos ≤
        (masterStep numSlaves pipeId sendBufferSize t e).pipeState.headStreamPos := by
  cases e with
  | sendPacket packet =>
    simp only [masterStep, sendPacketOn] at hlt ⊢
    by_cases hfull : t.pipeState.packetList.size = sendBufferSize
    · simp only [hfull, if_true] at hlt ⊢
      exact ⟨hw, le_refl _⟩
    · simp only [hfull, if_false, if_true, List.sum_append, List.sum_cons, List.sum_nil,
        Nat.add_zero] at hlt ⊢
      obtain ⟨w1, w2, w3⟩ := hw
      unfold PacketList.Consistent at w1
      unfold WindowAccounts PacketList.Consistent PacketList.push_back
      simp only [List.length_append, List.length_singleton, totalSize_append, List.sum_append,
        List.sum_cons, List.sum_nil, Nat.add_zero]
      have hadd : add32 t.pipeState.streamPos packet.packetSize =
          t.pipeState.streamPos + packet.packetSize := add32_eq_of_lt (by omega)
      rw [hadd]
      refine ⟨⟨by omega, ?_, by omega⟩, le_refl _⟩
      simp only [totalSize, List.map_cons, List.map_nil, List.sum_cons, List.sum_nil]
      unfold totalSize at w2
      omega
  | message msg =>
    simp only [masterStep] at hlt ⊢
    by_cases hp : msg.pipeId = pipeId
    · simp only [hp, if_true] at hlt ⊢
      rcases handleSlaveMessageOn_cases t.pipeState t.packetPoolHead msg with ⟨hs, _⟩ | ⟨_, hack⟩
      · have := windowAccounts_of_sameFlow t _
          (handleSlaveMessageOn t.pipeState t.packetPoolHead msg).packetPoolHead hw hs
        exact ⟨⟨this.1.1, this.1.2.1, this.1.2.2⟩, this.2⟩
      · have := windowAccounts_of_ack t _ _ _ _ hw hlt hack
        exact ⟨⟨this.1.1, this.1.2.1, this.1.2.2⟩, this.2⟩
    · simp only [hp, if_false]
      exact ⟨hw, le_refl _⟩
  | barrier =>
    simp only [masterStep] at hlt ⊢
    by_cases hb : t.pipeState.minSlaveBarrierId < add32 t.pipeState.barrierId 1
    · have : barrierMaster numSlaves pipeId t.pipeState t.packetPoolHead =
          { pipeState := t.pipeState, packetPoolHead := t.packetPoolHead, sent := [],
            status := Status.blocked } := by
        unfold barrierMaster; simp only [hb, if_true]
      rw [this]
      exact ⟨hw, le_refl _⟩
    · rw [barrierMaster_passes numSlaves pipeId t.pipeState t.packetPoolHead hw.1 hb]
      obtain ⟨w1, w2, w3⟩ := hw
      unfold WindowAccounts PacketList.Consistent
      simp only [totalSize, List.map_nil, List.sum_nil, List.length_nil, Nat.add_zero]
      exact ⟨⟨trivial, trivial, w3⟩, by omega⟩
  | gather value op =>
    simp only [masterStep] at hlt ⊢
    by_cases hb : t.pipeState.minSlaveBarrierId < add32 t.pipeState.barrierId 1
    · have : gatherMaster numSlaves pipeId t.pipeState t.packetPoolHead value op =
          { pipeState := t.pipeState, packetPoolHead := t.packetPoolHead, sent := [],
            status := Status.blocked } := by
        unfold gatherMaster; simp only [hb, if_true]
      rw [this]
      exact ⟨hw, le_refl _⟩
    · rw [gatherMaster_passes numSlaves pipeId t.pipeState t.packetPoolHead value op hw.1 hb]
      obtain ⟨w1, w2, w3⟩ := hw
      unfold WindowAccounts PacketList.Consistent
      simp only [totalSize, List.map_nil, List.sum_nil, List.length_nil, Nat.add_zero]
      exact ⟨⟨trivial, trivial, w3⟩, by omega⟩

theorem sentSizes_step_le (numSlaves pipeId sendBufferSize : Nat) (t : MasterTrace)
    (e : MasterEvent) :
    t.sentSizes.sum ≤ (masterStep numSlaves pipeId sendBufferSize t e).sentSizes.sum := by
  cases e with
  | sendPacket packet =>
    simp only [masterStep]
    split
    · simp
    · exact le_refl _
  | message msg =>
    simp only [masterStep]
    split <;> exact le_refl _
  | barrier => exact le_refl _
  | gather value op => exact le_refl _

theorem sentSizes_run_le (numSlaves pipeId sendBufferSize : Nat) (events : List MasterEvent)
    (t : MasterTrace) :
    t.sentSizes.sum ≤ (masterRun numSlaves pipeId sendBufferSize t events).sentSizes.sum := by
  induction events generalizing t with
  | nil => exact le_refl _
  | cons e rest ih =>
    simp only [masterRun, List.foldl_cons]
    exact le_trans (sentSizes_step_le numSlaves pipeId sendBufferSize t e) (ih _)

theorem windowAccounts_run (numSlaves pipeId sendBufferSize : Nat) (events : List MasterEvent)
    (t : MasterTrace) (hw : WindowAccounts t)
    (hlt : (masterRun numSlaves pipeId sendBufferSize t events).sentSizes.sum < wordSize) :
    WindowAccounts (masterRun numSlaves pipeId sendBufferSize t events) := by
  induction events generalizing t with
  | nil => exact hw
  | cons e rest ih =>
    simp only [masterRun, List.foldl_cons] at hlt ⊢
    apply ih
    · refine (windowAccounts_step numSlaves pipeId sendBufferSize t e hw ?_).1
      exact lt_of_le_of_lt (sentSizes_run_le numSlaves pipeId sendBufferSize rest _) hlt
    · exact hlt

theorem windowAccounts_start (numSlaves : Nat) (ps0 : PipeState) (pool0 : List Packet)
    (hfresh : ps0.Fresh numSlaves) : WindowAccounts (MasterTrace.start numSlaves ps0 pool0) := by
  obtain ⟨h1, h2, h3, _, _⟩ := hfresh
  unfold WindowAccounts MasterTrace.start PacketList.Consistent
  simp only [h1, h2, h3]
  exact ⟨rfl, rfl, rfl⟩

/-- C8: on a pipe of the master opened by `openPipe`, after any sequence of events (`sendPacket`
calls, slave messages of any kind with any node index and any stream position, `barrier` and
`gather`), any further event that leaves the number of bytes accepted by `sendPacket` below
2^32 leaves `headStreamPos` greater than or equal to what it was. -/
theorem headStreamPos_nondecreasing (numSlaves pipeId sendBufferSize : Nat) (ps0 : PipeState)
    (pool0 : List Packet) (events : List MasterEvent) (e : MasterEvent)
    (hfresh : ps0.Fresh numSlaves)
    (hcarried :
      (masterStep numSlaves pipeId sendBufferSize
        (masterRun numSlaves pipeId sendBufferSize (MasterTrace.start numSlaves ps0 pool0)
          events) e).sentSizes.sum < wordSize) :
    (masterRun numSlaves pipeId sendBufferSize (MasterTrace.start numSlaves ps0 pool0)
        events).pipeState.headStreamPos ≤
      (masterStep numSlaves pipeId sendBufferSize
        (masterRun numSlaves pipeId sendBufferSize (MasterTrace.start numSlaves ps0 pool0)
          events) e).pipeState.headStreamPos := by
  have hw := windowAccounts_run numSlaves pipeId sendBufferSize events
    (MasterTrace.start numSlaves ps0 pool0) (windowAccounts_start numSlaves ps0 pool0 hfresh)
    (lt_of_le_of_lt (sentSizes_step_le numSlaves pipeId sendBufferSize _ e) hcarried)
  exact (windowAccounts_step numSlaves pipeId sendBufferSize _ e hw hcarried).2

/-! ## Helper lemmas on lists and on contiguous chains -/

theorem minimumOf_spec (l : List Nat) (hl : l ≠ []) :
    ∃ m, minimumOf l = Except.ok m ∧ m ∈ l ∧ ∀ o ∈ l, m ≤ o := by
  cases l with
  | nil => exact absurd rfl hl
  | cons first rest =>
    refine ⟨gatherValue OpCode.MIN first rest, rfl, ?_, ?_⟩
    · exact (gatherValue_min rest first).1
    · exact (gatherValue_min rest first).2

theorem set_eq_self_of_getElem? {α : Type} (l : List α) (i : Nat) (a : α)
    (h : l[i]? = some a) : l.set i a = l := by
  induction l generalizing i with
  | nil => rfl
  | cons x xs ih =>
    cases i with
    | zero => simp at h; simp [h]
    | succ j => simp at h; simp [ih j h]

theorem contiguous_append (a b : List Packet) (s : Nat) :
    Contiguous s (a ++ b) ↔ Contiguous s a ∧ Contiguous (s + totalSize a) b := by
  induction a generalizing s with
  | nil => simp [Contiguous, totalSize]
  | cons p ps ih =>
    have h := ih (s + p.packetSize)
    simp only [List.cons_append, Contiguous, totalSize, List.map_cons, List.sum_cons] at h ⊢
    rw [show ps.append b = ps ++ b from rfl, h, ← Nat.add_assoc, and_assoc]

theorem contiguous_mod (l : List Packet) (s s1 : Nat) (h : s % wordSize = s1 % wordSize) :
    Contiguous s l ↔ Contiguous s1 l := by
  induction l generalizing s s1 with
  | nil => simp [Contiguous]
  | cons p ps ih =>
    simp only [Contiguous]
    rw [h, ih (s + p.packetSize) (s1 + p.packetSize)
      (by rw [Nat.add_mod, h, ← Nat.add_mod])]

theorem contiguous_bound (l : List Packet) (s bound : Nat) (hc : Contiguous s l)
    (hb : s + totalSize l ≤ bound) (hw : bound < wordSize) :
    ∀ p ∈ l, p.streamPos + p.packetSize ≤ bound := by
  induction l generalizing s with
  | nil => simp
  | cons q qs ih =>
    simp only [totalSize, List.map_cons, List.sum_cons] at hb
    obtain ⟨h1, h2⟩ := hc
    intro p hp
    rcases List.mem_cons.mp hp with rfl | hp
    · rw [h1, Nat.mod_eq_of_lt (by omega)]; omega
    · exact ih (s + q.packetSize) h2 (by simp only [totalSize]; omega) p hp

/-! ## Flow control under in-order reports -/

theorem processAcknowledgment_flowInv (numSlaves : Nat) (t : MasterTrace) (i r : Nat)
    (hN : numSlaves < wordSize) (hinv : FlowInv numSlaves t) (hi : i < numSlaves)
    (hr : r < wordSize) (hord : t.reported.getD i 0 ≤ r) :
    ∃ ps1 pool1 ack,
      processAcknowledgment t.pipeState t.packetPoolHead i r = Except.ok (ps1, pool1) ∧
      t.pipeState.packetList.packets = ack ++ ps1.packetList.packets ∧
      FlowInv numSlaves
        { t with pipeState := ps1, packetPoolHead := pool1, reported := t.reported.set i r } ∧
      (∀ p ∈ ack, ∀ r1 ∈ t.reported.set i r, p.streamPos + p.packetSize ≤ r1) ∧
      ((1 ≤ t.pipeState.numHeadSlaves → 1 ≤ ps1.numHeadSlaves) ∨
        ∃ r0 ∈ t.reported.set i r,
          totalSize ack ≤ r0 - t.pipeState.headStreamPos ∧
          ∀ q rest, ps1.packetList.packets = q :: rest →
            r0 - t.pipeState.headStreamPos - totalSize ack < q.packetSize) := by
  obtain ⟨hlen, hoffs, hcount, hrep, hhead, hcont, hpos⟩ := hinv
  have hil : i < t.reported.length := by omega
  have hget : t.reported[i]? = some t.reported[i] := List.getElem?_eq_getElem hil
  have hri : t.reported.getD i 0 = t.reported[i] := by
    simp [hget]
  rw [hri] at hord
  have hri_mem : t.reported[i] ∈ t.reported := List.getElem_mem hil
  have hri_ge := (hrep _ hri_mem).1
  have hsub : sub32 r t.pipeState.headStreamPos = r - t.pipeState.headStreamPos :=
    sub32_eq_of_le (by omega) hr
  have hrep1 : ∀ r1 ∈ t.reported.set i r, t.pipeState.headStreamPos ≤ r1 ∧ r1 < wordSize := by
    intro r1 h1
    rcases List.mem_or_eq_of_mem_set h1 with h1 | h1
    · exact hrep r1 h1
    · rw [h1]; exact ⟨by omega, hr⟩
  have hoffs1 : t.pipeState.slaveStreamPosOffsets.set i (r - t.pipeState.headStreamPos) =
      (t.reported.set i r).map (fun r => r - t.pipeState.headStreamPos) := by
    rw [hoffs, List.map_set]
  have hoffget : t.pipeState.slaveStreamPosOffsets[i]? =
      some (t.reported[i] - t.pipeState.headStreamPos) := by
    rw [hoffs, List.getElem?_map, hget]; rfl
  have hofflen : i < t.pipeState.slaveStreamPosOffsets.length := by
    rw [hoffs, List.length_map]; exact hil
  have hoffi : t.pipeState.slaveStreamPosOffsets[i] =
      t.reported[i] - t.pipeState.headStreamPos := by
    have := List.getElem?_eq_getElem hofflen
    rw [hoffget] at this
    exact (Option.some.inj this).symm
  unfold processAcknowledgment
  simp only [hsub, hoffget]
  by_cases h0 : r - t.pipeState.headStreamPos > 0
  · rw [if_pos h0]
    by_cases hz : t.reported[i] - t.pipeState.headStreamPos = 0
    · rw [if_pos hz]
      have hcnt : (t.pipeState.slaveStreamPosOffsets.set i
          (r - t.pipeState.headStreamPos)).count 0 + 1 =
          t.pipeState.slaveStreamPosOffsets.count 0 := by
        rw [List.count_set _ _ _ _ hofflen, hoffi, hz]
        have hpos1 : 0 < t.pipeState.slaveStreamPosOffsets.count 0 := by
          rw [List.count_pos_iff]
          have := List.getElem_mem hofflen
          rw [hoffi, hz] at this
          exact this
        have hne : (r - t.pipeState.headStreamPos == 0) = false := by
          simp; omega
        simp only [beq_self_eq_true, if_true, hne]
        simp
        omega
      have hcle : t.pipeState.slaveStreamPosOffsets.count 0 ≤ numSlaves := by
        have := List.count_le_length 0 t.pipeState.slaveStreamPosOffsets
        have hol : t.pipeState.slaveStreamPosOffsets.length = t.reported.length := by
          rw [hoffs, List.length_map]
        omega
      have hdec : sub32 t.pipeState.numHeadSlaves 1 = t.pipeState.numHeadSlaves - 1 :=
        sub32_eq_of_le (by omega) (by omega)
      rw [hdec]
      by_cases hlast : t.pipeState.numHeadSlaves - 1 = 0
      · rw [if_pos hlast]
        have hne : t.pipeState.slaveStreamPosOffsets.set i (r - t.pipeState.headStreamPos) ≠ [] := by
          intro h
          have := congrArg List.length h
          simp only [List.length_set, List.length_nil] at this
          omega
        obtain ⟨m, hm, hmem, hmin⟩ := minimumOf_spec _ hne
        rw [hm]
        simp only
        obtain ⟨d1, d2, d3, d4, d5⟩ := discardAcknowledged_spec t.pipeState.packetList.packets
          t.pipeState.packetList.numPackets 0 m (by decide)
        have d6 := discardAcknowledged_stop t.pipeState.packetList.packets
          t.pipeState.packetList.numPackets 0 m
        generalize discardAcknowledged t.pipeState.packetList.numPackets 0 m
          t.pipeState.packetList.packets = d at d1 d2 d3 d4 d5 d6 ⊢
        -- the minimal offset is the offset of some slave
        have hmlt : ∀ r1 ∈ t.reported.set i r, m ≤ r1 - t.pipeState.headStreamPos := by
          intro r1 h1
          apply hmin
          rw [hoffs1]
          exact List.mem_map_of_mem _ h1
        have hmW : m < wordSize := by
          rw [hoffs1] at hmem
          obtain ⟨r1, h1, h2⟩ := List.mem_map.mp hmem
          have := (hrep1 r1 h1).2
          omega
        have hD : d.numDiscarded = totalSize d.acknowledged := by
          rw [d5, Nat.zero_add]; exact Nat.mod_eq_of_lt (by omega)
        have hbound : ∀ r1 ∈ t.reported.set i r,
            t.pipeState.headStreamPos + totalSize d.acknowledged ≤ r1 := by
          intro r1 h1
          have := hmlt r1 h1
          have := (hrep1 r1 h1).1
          omega
        have hsome : ∃ r1, r1 ∈ t.reported.set i r := ⟨r, List.mem_set _ _ hil _⟩
        obtain ⟨r0, hr0⟩ := hsome
        have hheadD : add32 t.pipeState.headStreamPos d.numDiscarded =
            t.pipeState.headStreamPos + totalSize d.acknowledged := by
          rw [hD]
          exact add32_eq_of_lt (by have := hbound r0 hr0; have := (hrep1 r0 hr0).2; omega)
        rw [← d1] at hcont hpos
        rw [contiguous_append] at hcont
        refine ⟨_, _, d.acknowledged, rfl, d1.symm, ?_, ?_, ?_⟩
        rotate_left 2
        · right
          rw [hoffs1] at hmem
          obtain ⟨r1, h1, h2⟩ := List.mem_map.mp hmem
          refine ⟨r1, h1, by rw [h2]; exact d3, ?_⟩
          intro q rest hq
          have := d6 q rest hq
          rw [d4] at this
          rw [h2]; exact this
        · refine ⟨by simp [hlen], ?_, ?_, ?_, ?_, ?_, ?_⟩
          · simp only [hheadD, hoffs1, List.map_map]
            apply List.map_congr_left
            intro r1 h1
            simp only [Function.comp]
            have := hmlt r1 h1
            have := (hrep1 r1 h1)
            rw [hD, sub32_eq_of_le (by omega) (by omega)]
            omega
          · simp only [hlast, Nat.zero_add]
          · intro r1 h1
            simp only [hheadD]
            exact ⟨hbound r1 h1, (hrep1 r1 h1).2⟩
          · simp only [hheadD]
            have := hbound r0 hr0; have := (hrep1 r0 hr0).2; omega
          · simp only [hheadD]
            exact hcont.2
          · simp only [hheadD]
            rw [hpos, totalSize_append, Nat.add_assoc]
        · intro p hp r1 h1
          exact contiguous_bound d.acknowledged t.pipeState.headStreamPos r1 hcont.1
            (hbound r1 h1) (hrep1 r1 h1).2 p hp
      · rw [if_neg hlast]
        refine ⟨_, _, [], rfl, rfl, ?_, by simp, Or.inl (fun _ => by simp only; omega)⟩
        refine ⟨by simp [hlen], hoffs1, ?_, hrep1, hhead, hcont, hpos⟩
        simp only
        omega
    · rw [if_neg hz]
      refine ⟨_, _, [], rfl, rfl, ?_, by simp, Or.inl (fun h => h)⟩
      refine ⟨by simp [hlen], hoffs1, ?_, hrep1, hhead, hcont, hpos⟩
      simp only
      rw [hcount, List.count_set _ _ _ _ hofflen, hoffi]
      have h1 : (t.reported[i] - t.pipeState.headStreamPos == 0) = false := by
        simp; omega
      have h2 : (r - t.pipeState.headStreamPos == 0) = false := by
        simp; omega
      simp [h1, h2]
  · rw [if_neg h0]
    have hreq : r = t.reported[i] := by omega
    have hset : t.reported.set i r = t.reported := by
      rw [hreq]; exact set_eq_self_of_getElem? _ _ _ hget
    refine ⟨_, _, [], rfl, rfl, ?_, by simp, Or.inl (fun h => h)⟩
    rw [hset]
    exact ⟨hlen, hoffs, hcount, hrep, hhead, hcont, hpos⟩

theorem handleSlaveMessageOn_report (ps : PipeState) (pool : List Packet) (msg : SlaveMessage)
    (ps1 : PipeState) (pool1 : List Packet) (hrep : msg.isReport = true)
    (h : processAcknowledgment ps pool (sub32 msg.nodeIndex 1) msg.streamPos =
      Except.ok (ps1, pool1)) :
    (handleSlaveMessageOn ps pool msg).pipeState = ps1 ∧
      (handleSlaveMessageOn ps pool msg).packetPoolHead = pool1 := by
  unfold handleSlaveMessageOn
  cases hid : msg.messageId with
  | CONNECTION => simp [SlaveMessage.isReport, hid] at hrep
  | PING => simp [SlaveMessage.isReport, hid] at hrep
  | CREATEPIPE => simp [SlaveMessage.isReport, hid] at hrep
  | BARRIER => simp [SlaveMessage.isReport, hid] at hrep
  | GATHER => simp [SlaveMessage.isReport, hid] at hrep
  | ACKNOWLEDGMENT =>
    show (handleAcknowledgment ps pool msg).pipeState = ps1 ∧
      (handleAcknowledgment ps pool msg).packetPoolHead = pool1
    unfold handleAcknowledgment
    rw [h]
    exact ⟨rfl, rfl⟩
  | PACKETLOSS =>
    show (handlePacketLoss ps pool msg).pipeState = ps1 ∧
      (handlePacketLoss ps pool msg).packetPoolHead = pool1
    unfold handlePacketLoss
    rw [h]
    simp only
    split
    · split
      · exact ⟨rfl, rfl⟩
      · split <;> exact ⟨rfl, rfl⟩
    · exact ⟨rfl, rfl⟩

theorem flowInv_start (numSlaves : Nat) (ps0 : PipeState) (pool0 : List Packet)
    (hfresh : ps0.Fresh numSlaves) : FlowInv numSlaves (MasterTrace.start numSlaves ps0 pool0) := by
  obtain ⟨h1, h2, h3, h4, h5⟩ := hfresh
  unfold FlowInv MasterTrace.start
  simp only [h1, h2, h3, h4, h5]
  refine ⟨by simp, by simp, by simp, ?_, by decide, trivial, rfl⟩
  intro r hr
  rw [(List.mem_replicate.mp hr).2]
  exact ⟨le_refl _, by decide⟩

theorem flowInv_report (numSlaves pipeId sendBufferSize : Nat) (t : MasterTrace)
    (msg : SlaveMessage) (hN : numSlaves < wordSize) (hinv : FlowInv numSlaves t)
    (hpipe : msg.pipeId = pipeId) (hrep : msg.isReport = true)
    (hwf : (MasterEvent.message msg).WellFormed numSlaves pipeId)
    (hord : (MasterEvent.message msg).InOrder pipeId t) :
    FlowInv numSlaves (masterStep numSlaves pipeId sendBufferSize t (MasterEvent.message msg)) ∧
      ∀ p ∈ detachedBy t.pipeState t.packetPoolHead (sub32 msg.nodeIndex 1) msg.streamPos,
        ∀ r1 ∈ (masterStep numSlaves pipeId sendBufferSize t
            (MasterEvent.message msg)).reported,
          p.streamPos + p.packetSize ≤ r1 := by
  obtain ⟨hn1, hn2, hpos⟩ := hwf hpipe hrep
  have hord1 := hord hpipe hrep
  have hidx : sub32 msg.nodeIndex 1 = msg.nodeIndex - 1 := sub32_eq_of_le hn1 (by omega)
  obtain ⟨ps1, pool1, ack, hack, hsplit, hinv1, hdet, _⟩ :=
    processAcknowledgment_flowInv numSlaves t (msg.nodeIndex - 1) msg.streamPos hN hinv
      (by omega) hpos hord1
  rw [← hidx] at hack hinv1 hdet
  obtain ⟨e1, e2⟩ := handleSlaveMessageOn_report t.pipeState t.packetPoolHead msg ps1 pool1 hrep hack
  simp only [masterStep, hpipe, if_true, hrep, e1, e2]
  refine ⟨hinv1, ?_⟩
  have hd : detachedBy t.pipeState t.packetPoolHead (sub32 msg.nodeIndex 1) msg.streamPos = ack := by
    unfold detachedBy
    rw [hack]
    simp only
    rw [hsplit]
    simp
  rw [hd]
  exact hdet

theorem flowInv_step (numSlaves pipeId sendBufferSize : Nat) (t : MasterTrace)
    (e : MasterEvent) (hN : numSlaves < wordSize) (hinv : FlowInv numSlaves t)
    (hflow : e.isFlow = true) (hwf : e.WellFormed numSlaves pipeId) (hord : e.InOrder pipeId t) :
    FlowInv numSlaves (masterStep numSlaves pipeId sendBufferSize t e) := by
  cases e with
  | sendPacket packet =>
    simp only [masterStep, sendPacketOn]
    by_cases hfull : t.pipeState.packetList.size = sendBufferSize
    · simp only [hfull, if_true]
      exact hinv
    · simp only [hfull, if_false]
      obtain ⟨h1, h2, h3, h4, h5, h6, h7⟩ := hinv
      refine ⟨h1, h2, h3, h4, h5, ?_, ?_⟩
      · simp only [PacketList.push_back]
        rw [contiguous_append]
        exact ⟨h6, h7, trivial⟩
      · simp only [PacketList.push_back, totalSize_append]
        rw [h7]
        unfold add32
        simp only [totalSize, List.map_cons, List.map_nil, List.sum_cons, List.sum_nil,
          Nat.add_zero]
        rw [Nat.mod_add_mod, Nat.add_assoc]
  | message msg =>
    by_cases hp : msg.pipeId = pipeId
    · exact (flowInv_report numSlaves pipeId sendBufferSize t msg hN hinv hp hflow hwf hord).1
    · simp only [masterStep, hp, if_false]
      exact hinv
  | barrier => simp [MasterEvent.isFlow] at hflow
  | gather value op => simp [MasterEvent.isFlow] at hflow

theorem alongRun_append (numSlaves pipeId sendBufferSize : Nat)
    (good : MasterTrace → MasterEvent → Prop) (a b : List MasterEvent) (t : MasterTrace) :
    AlongRun numSlaves pipeId sendBufferSize good t (a ++ b) ↔
      AlongRun numSlaves pipeId sendBufferSize good t a ∧
        AlongRun numSlaves pipeId sendBufferSize good
          (masterRun numSlaves pipeId sendBufferSize t a) b := by
  induction a generalizing t with
  | nil => simp [AlongRun, masterRun]
  | cons e rest ih =>
    simp only [List.cons_append, AlongRun, masterRun, List.foldl_cons]
    rw [show rest.append b = rest ++ b from rfl, ih]
    simp only [masterRun, and_assoc]

theorem flowInv_run (numSlaves pipeId sendBufferSize : Nat) (events : List MasterEvent)
    (t : MasterTrace) (hN : numSlaves < wordSize) (hinv : FlowInv numSlaves t)
    (hflow : ∀ e ∈ events, e.isFlow = true)
    (hwf : ∀ e ∈ events, e.WellFormed numSlaves pipeId)
    (hord : AlongRun numSlaves pipeId sendBufferSize (fun t e => e.InOrder pipeId t) t events) :
    FlowInv numSlaves (masterRun numSlaves pipeId sendBufferSize t events) := by
  induction events generalizing t with
  | nil => exact hinv
  | cons e rest ih =>
    simp only [masterRun, List.foldl_cons]
    obtain ⟨ho1, ho2⟩ := hord
    exact ih _
      (flowInv_step numSlaves pipeId sendBufferSize t e hN hinv
        (hflow e (List.mem_cons_self _ _)) (hwf e (List.mem_cons_self _ _)) ho1)
      (fun e1 h1 => hflow e1 (List.mem_cons_of_mem _ h1))
      (fun e1 h1 => hwf e1 (List.mem_cons_of_mem _ h1)) ho2

/-- C2 (as amended): on a pipe of the master opened by `openPipe` with fewer than 2^32 slaves,
after any sequence of `sendPacket` calls and of `ACKNOWLEDGMENT` and `PACKETLOSS` messages from
node indices 1..N in which the stream positions reported by any one slave never decrease, every
packet that `processAcknowledgment` detaches from the send window while handling a further such
message ends (`streamPos + packetSize`) at or before the stream position most recently reported
by each of the N slaves. -/
theorem window_retains_unacknowledged (numSlaves pipeId sendBufferSize : Nat) (ps0 : PipeState)
    (pool0 : List Packet) (events : List MasterEvent) (msg : SlaveMessage)
    (hN : numSlaves < wordSize) (hfresh : ps0.Fresh numSlaves)
    (hpipe : msg.pipeId = pipeId)
    (hflow : ∀ e ∈ events ++ [MasterEvent.message msg], e.isFlow = true)
    (hwf : ∀ e ∈ events ++ [MasterEvent.message msg], e.WellFormed numSlaves pipeId)
    (hord : AlongRun numSlaves pipeId sendBufferSize (fun t e => e.InOrder pipeId t)
      (MasterTrace.start numSlaves ps0 pool0) (events ++ [MasterEvent.message msg])) :
    ∀ p ∈ detachedBy
        (masterRun numSlaves pipeId sendBufferSize (MasterTrace.start numSlaves ps0 pool0)
          events).pipeState
        (masterRun numSlaves pipeId sendBufferSize (MasterTrace.start numSlaves ps0 pool0)
          events).packetPoolHead
        (sub32 msg.nodeIndex 1) msg.streamPos,
      ∀ i, i < numSlaves →
        p.streamPos + p.packetSize ≤
          (masterRun numSlaves pipeId sendBufferSize (MasterTrace.start numSlaves ps0 pool0)
            (events ++ [MasterEvent.message msg])).reported.getD i 0 := by
  rw [alongRun_append] at hord
  obtain ⟨hord1, hord2, _⟩ := hord
  have hinv := flowInv_run numSlaves pipeId sendBufferSize events
    (MasterTrace.start numSlaves ps0 pool0) hN (flowInv_start numSlaves ps0 pool0 hfresh)
    (fun e h => hflow e (List.mem_append_left _ h))
    (fun e h => hwf e (List.mem_append_left _ h)) hord1
  have hmsg : MasterEvent.message msg ∈ events ++ [MasterEvent.message msg] :=
    List.mem_append_right _ (List.mem_singleton_self _)
  obtain ⟨hinv1, hdet⟩ := flowInv_report numSlaves pipeId sendBufferSize _ msg hN hinv hpipe
    (hflow _ hmsg) (hwf _ hmsg) hord2
  intro p hp i hi
  have hrun : masterRun numSlaves pipeId sendBufferSize (MasterTrace.start numSlaves ps0 pool0)
      (events ++ [MasterEvent.message msg]) =
      masterStep numSlaves pipeId sendBufferSize
        (masterRun numSlaves pipeId sendBufferSize (MasterTrace.start numSlaves ps0 pool0)
          events) (MasterEvent.message msg) := by
    simp [masterRun, List.foldl_append]
  rw [hrun]
  apply hdet p hp
  have hlen := hinv1.1
  rw [List.getD_eq_getElem _ _ (by omega)]
  exact List.getElem_mem _

/-- C2 (counterexample): two slaves, two packets of 2 and 1 bytes.  Slave 1 reports position 3
and then position 0; the second report equals `headStreamPos` and is ignored, so the offset of
slave 1 stays 3.  When slave 2 reports 3, both packets are detached, although the position most
recently reported by slave 1 is 0. -/
theorem window_discards_past_latest_report :
    (newPipeState 2 0 []).Fresh 2 ∧
      (∀ e ∈ [MasterEvent.sendPacket ⟨0, 0, 2, [7, 8]⟩, MasterEvent.sendPacket ⟨0, 0, 1, [9]⟩,
            MasterEvent.message (ackMessage 1 1 3), MasterEvent.message (ackMessage 1 1 0),
            MasterEvent.message (ackMessage 2 1 3)],
          e.isFlow = true ∧ e.WellFormed 2 1) ∧
      ¬ (∀ p ∈ detachedBy
            (masterRun 2 1 20 (MasterTrace.start 2 (newPipeState 2 0 []) [])
              [MasterEvent.sendPacket ⟨0, 0, 2, [7, 8]⟩, MasterEvent.sendPacket ⟨0, 0, 1, [9]⟩,
               MasterEvent.message (ackMessage 1 1 3),
               MasterEvent.message (ackMessage 1 1 0)]).pipeState
            (masterRun 2 1 20 (MasterTrace.start 2 (newPipeState 2 0 []) [])
              [MasterEvent.sendPacket ⟨0, 0, 2, [7, 8]⟩, MasterEvent.sendPacket ⟨0, 0, 1, [9]⟩,
               MasterEvent.message (ackMessage 1 1 3),
               MasterEvent.message (ackMessage 1 1 0)]).packetPoolHead
            (sub32 2 1) 3,
          ∀ i, i < 2 →
            p.streamPos + p.packetSize ≤
              (masterRun 2 1 20 (MasterTrace.start 2 (newPipeState 2 0 []) [])
                [MasterEvent.sendPacket ⟨0, 0, 2, [7, 8]⟩, MasterEvent.sendPacket ⟨0, 0, 1, [9]⟩,
                 MasterEvent.message (ackMessage 1 1 3), MasterEvent.message (ackMessage 1 1 0),
                 MasterEvent.message (ackMessage 2 1 3)]).reported.getD i 0) := by
  decide

/-- C2 (witness): two slaves, two packets of 2 and 1 bytes; slave 1 reports 3, slave 2 reports
2 and then 3. -/
theorem window_retains_unacknowledged_witness :
    (newPipeState 2 0 []).Fresh 2 ∧
      AlongRun 2 1 20 (fun t e => e.InOrder 1 t)
        (MasterTrace.start 2 (newPipeState 2 0 []) [])
        ([MasterEvent.sendPacket ⟨0, 0, 2, [7, 8]⟩, MasterEvent.sendPacket ⟨0, 0, 1, [9]⟩,
          MasterEvent.message (ackMessage 1 1 3), MasterEvent.message (ackMessage 2 1 2)] ++
          [MasterEvent.message (ackMessage 2 1 3)]) ∧
      detachedBy
        (masterRun 2 1 20 (MasterTrace.start 2 (newPipeState 2 0 []) [])
          [MasterEvent.sendPacket ⟨0, 0, 2, [7, 8]⟩, MasterEvent.sendPacket ⟨0, 0, 1, [9]⟩,
           MasterEvent.message (ackMessage 1 1 3),
           MasterEvent.message (ackMessage 2 1 2)]).pipeState
        (masterRun 2 1 20 (MasterTrace.start 2 (newPipeState 2 0 []) [])
          [MasterEvent.sendPacket ⟨0, 0, 2, [7, 8]⟩, MasterEvent.sendPacket ⟨0, 0, 1, [9]⟩,
           MasterEvent.message (ackMessage 1 1 3),
           MasterEvent.message (ackMessage 2 1 2)]).packetPoolHead
        (sub32 2 1) 3 = [⟨1, 2, 1, [9]⟩] ∧
      ∀ p ∈ detachedBy
          (masterRun 2 1 20 (MasterTrace.start 2 (newPipeState 2 0 []) [])
            [MasterEvent.sendPacket ⟨0, 0, 2, [7, 8]⟩, MasterEvent.sendPacket ⟨0, 0, 1, [9]⟩,
             MasterEvent.message (ackMessage 1 1 3),
             MasterEvent.message (ackMessage 2 1 2)]).pipeState
          (masterRun 2 1 20 (MasterTrace.start 2 (newPipeState 2 0 []) [])
            [MasterEvent.sendPacket ⟨0, 0, 2, [7, 8]⟩, MasterEvent.sendPacket ⟨0, 0, 1, [9]⟩,
             MasterEvent.message (ackMessage 1 1 3),
             MasterEvent.message (ackMessage 2 1 2)]).packetPoolHead
          (sub32 (ackMessage 2 1 3).nodeIndex 1) (ackMessage 2 1 3).streamPos,
        ∀ i, i < 2 →
          p.streamPos + p.packetSize ≤
            (masterRun 2 1 20 (MasterTrace.start 2 (newPipeState 2 0 []) [])
              ([MasterEvent.sendPacket ⟨0, 0, 2, [7, 8]⟩, MasterEvent.sendPacket ⟨0, 0, 1, [9]⟩,
                MasterEvent.message (ackMessage 1 1 3), MasterEvent.message (ackMessage 2 1 2)] ++
                [MasterEvent.message (ackMessage 2 1 3)])).reported.getD i 0 :=
  ⟨by decide, by decide, by decide,
   window_retains_unacknowledged 2 1 20 (newPipeState 2 0 []) []
     [MasterEvent.sendPacket ⟨0, 0, 2, [7, 8]⟩, MasterEvent.sendPacket ⟨0, 0, 1, [9]⟩,
      MasterEvent.message (ackMessage 1 1 3), MasterEvent.message (ackMessage 2 1 2)]
     (ackMessage 2 1 3) (by decide) (by decide) rfl (by decide) (by decide) (by decide)⟩

/-- C8 (witness): one slave, packets of 3 and 2 bytes, then the acknowledgment of position 3
moves `headStreamPos` from 0 to 3. -/
theorem headStreamPos_nondecreasing_witness :
    (newPipeState 1 0 []).Fresh 1 ∧
      (masterStep 1 1 20
        (masterRun 1 1 20 (MasterTrace.start 1 (newPipeState 1 0 []) [])
          [MasterEvent.sendPacket ⟨0, 0, 3, [1, 2, 3]⟩, MasterEvent.sendPacket ⟨0, 0, 2, [4, 5]⟩])
        (MasterEvent.message (ackMessage 1 1 3))).pipeState.headStreamPos = 3 ∧
      (masterRun 1 1 20 (MasterTrace.start 1 (newPipeState 1 0 []) [])
          [MasterEvent.sendPacket ⟨0, 0, 3, [1, 2, 3]⟩,
           MasterEvent.sendPacket ⟨0, 0, 2, [4, 5]⟩]).pipeState.headStreamPos ≤
        (masterStep 1 1 20
          (masterRun 1 1 20 (MasterTrace.start 1 (newPipeState 1 0 []) [])
            [MasterEvent.sendPacket ⟨0, 0, 3, [1, 2, 3]⟩,
             MasterEvent.sendPacket ⟨0, 0, 2, [4, 5]⟩])
          (MasterEvent.message (ackMessage 1 1 3))).pipeState.headStreamPos :=
  ⟨by decide, by decide,
   headStreamPos_nondecreasing 1 1 20 (newPipeState 1 0 []) []
     [MasterEvent.sendPacket ⟨0, 0, 3, [1, 2, 3]⟩, MasterEvent.sendPacket ⟨0, 0, 2, [4, 5]⟩]
     (MasterEvent.message (ackMessage 1 1 3)) (by decide) (by decide)⟩

/-! ## The window bound -/

theorem lookup_mem {β : Type} (l : List (Nat × β)) (k : Nat) (v : β)
    (h : l.lookup k = some v) : (k, v) ∈ l := by
  induction l with
  | nil => simp at h
  | cons x xs ih =>
    obtain ⟨a, b⟩ := x
    simp only [List.lookup_cons] at h
    by_cases hk : k = a
    · subst hk
      simp at h
      rw [h]; exact List.mem_cons_self _ _
    · have : (k == a) = false := by simp [hk]
      rw [this] at h
      exact List.mem_cons_of_mem _ (ih h)

theorem writePipe_mem (m : Multiplexer) (pipeId : Nat) (ps : PipeState) (pool : List Packet)
    (e : Nat × PipeState) (h : e ∈ (m.writePipe pipeId ps pool).pipeStateTable) :
    e ∈ m.pipeStateTable ∨ e.2 = ps := by
  simp only [Multiplexer.writePipe, List.mem_map] at h
  obtain ⟨x, hx, hxe⟩ := h
  by_cases hp : x.1 = pipeId
  · rw [if_pos hp] at hxe
    right; rw [← hxe]
  · rw [if_neg hp] at hxe
    left; rw [← hxe]; exact hx

theorem windowBound_store {α : Type} (m : Multiplexer) (pipeId : Nat) (r : PipeResult α)
    (hb : WindowBound m) (hr : r.pipeState.packetList.numPackets ≤ m.sendBufferSize) :
    WindowBound (m.store pipeId r).multiplexer := by
  intro e he
  rcases writePipe_mem m pipeId r.pipeState r.packetPoolHead e he with h | h
  · exact hb e h
  · rw [h]; exact hr

theorem handleSlaveMessageOn_numPackets (ps : PipeState) (pool : List Packet)
    (msg : SlaveMessage) :
    (handleSlaveMessageOn ps pool msg).pipeState.packetList.numPackets ≤
      ps.packetList.numPackets := by
  rcases handleSlaveMessageOn_cases ps pool msg with ⟨hs, _⟩ | ⟨_, hack⟩
  · rw [hs.2.1]
  · obtain ⟨ack, _, _, hnum, _⟩ := processAcknowledgment_shape ps pool _ _ _ _ hack
    rw [hnum]; omega

theorem flushSendWindow_numPackets (numSlaves : Nat) (ps : PipeState) (pool : List Packet)
    (ps1 : PipeState) (pool1 : List Packet)
    (h : flushSendWindow numSlaves ps pool = Except.ok (ps1, pool1)) :
    ps1.packetList.numPackets = 0 := by
  unfold flushSendWindow at h
  simp only at h
  split at h
  · split at h
    · exact absurd h (by simp)
    · simp only [Except.ok.injEq, Prod.mk.injEq] at h
      rw [← h.1]
  · rename_i hn
    simp only [Except.ok.injEq, Prod.mk.injEq] at h
    rw [← h.1]
    simp only
    omega

theorem barrierMaster_numPackets (numSlaves pipeId : Nat) (ps : PipeState)
    (pool : List Packet) :
    (barrierMaster numSlaves pipeId ps pool).pipeState.packetList.numPackets ≤
      ps.packetList.numPackets := by
  unfold barrierMaster
  simp only
  split
  · exact le_refl _
  · split
    · exact le_refl _
    · rename_i ps1 pool1 h
      simp only
      rw [flushSendWindow_numPackets numSlaves ps pool ps1 pool1 h]
      exact Nat.zero_le _

theorem gatherMaster_numPackets (numSlaves pipeId : Nat) (ps : PipeState)
    (pool : List Packet) (value : Nat) (op : OpCode) :
    (gatherMaster numSlaves pipeId ps pool value op).pipeState.packetList.numPackets ≤
      ps.packetList.numPackets := by
  unfold gatherMaster
  simp only
  split
  · exact le_refl _
  · split
    · exact le_refl _
    · rename_i ps1 pool1 h
      simp only
      rw [flushSendWindow_numPackets numSlaves _ pool ps1 pool1 h]
      exact Nat.zero_le _

theorem windowBound_step (m : Multiplexer) (e : ApiEvent) (hb : WindowBound m)
    (hroom : e.KeepsRoom m) :
    WindowBound (m.step e) := by
  cases e with
  | openPipeBegin uninitialised =>
    intro e he
    simp only [Multiplexer.step, Multiplexer.openPipeBegin, List.mem_append, List.mem_filter,
      List.mem_singleton] at he
    rcases he with ⟨h, _⟩ | h
    · exact hb e h
    · rw [h]
      simp only [newPipeState]
      split <;> exact Nat.zero_le _
  | openPipeFinish newPipeId =>
    simp only [Multiplexer.step, Multiplexer.openPipeFinish]
    cases hf : m.findEntry newPipeId with
    | none => exact hb
    | some ps =>
      have hmem := lookup_mem _ _ _ hf
      have hps := hb _ hmem
      simp only
      split
      · split
        · exact hb
        · intro e he
          rcases writePipe_mem m newPipeId _ _ e he with h | h
          · exact hb e h
          · rw [h]; exact hps
      · exact hb
  | sendPacket pipeId packet =>
    simp only [Multiplexer.step, Multiplexer.sendPacket]
    cases hf : m.findEntry pipeId with
    | none => exact hb
    | some ps =>
      have hps := hb _ (lookup_mem _ _ _ hf)
      apply windowBound_store m pipeId _ hb
      simp only [sendPacketOn, PacketList.size]
      split
      · exact hps
      · rename_i hne
        have : ps.packetList.numPackets ≤ m.sendBufferSize := hps
        show ps.packetList.numPackets + 1 ≤ m.sendBufferSize
        omega
  | message msg =>
    simp only [Multiplexer.step, Multiplexer.handleSlaveMessage]
    split
    · exact hb
    · exact hb
    · cases hf : m.findEntry msg.pipeId with
      | none => exact hb
      | some ps =>
        have hps : ps.packetList.numPackets ≤ m.sendBufferSize := hb _ (lookup_mem _ _ _ hf)
        apply windowBound_store m msg.pipeId _ hb
        exact le_trans (handleSlaveMessageOn_numPackets ps m.packetPoolHead msg) hps
  | barrier pipeId =>
    simp only [Multiplexer.step, Multiplexer.barrier]
    cases hf : m.findEntry pipeId with
    | none => exact hb
    | some ps =>
      have hps : ps.packetList.numPackets ≤ m.sendBufferSize := hb _ (lookup_mem _ _ _ hf)
      simp only
      split
      · apply windowBound_store m pipeId _ hb
        exact le_trans (barrierMaster_numPackets _ _ _ _) hps
      · apply windowBound_store m pipeId _ hb
        simp only [barrierSlave, Bool.false_eq_true, if_false]
        exact hps
  | gather pipeId value op =>
    simp only [Multiplexer.step, Multiplexer.gather]
    cases hf : m.findEntry pipeId with
    | none => exact hb
    | some ps =>
      have hps : ps.packetList.numPackets ≤ m.sendBufferSize := hb _ (lookup_mem _ _ _ hf)
      simp only
      split
      · apply windowBound_store m pipeId _ hb
        exact le_trans (gatherMaster_numPackets _ _ _ _ _ _) hps
      · apply windowBound_store m pipeId _ hb
        simp only [gatherSlave, Bool.false_eq_true, if_false]
        exact hps
  | setSendBufferSize n =>
    intro e he
    exact hroom e he

theorem windowBound_run (events : List ApiEvent) (m : Multiplexer) (hb : WindowBound m)
    (hroom : KeepsRoomAlong m events) : WindowBound (m.run events) := by
  induction events generalizing m with
  | nil => exact hb
  | cons e rest ih =>
    simp only [Multiplexer.run, List.foldl_cons]
    exact ih (m.step e) (windowBound_step m e hb hroom.1) hroom.2

/-- C3 (as amended): in every state of the master reachable from construction by `openPipe`,
`sendPacket`, the handling of slave messages, `barrier`, `gather` and those `setSendBufferSize`
calls whose new size is not below the number of packets any pipe holds at the time of the call,
the number of packets in each pipe's packet list is at most the current `sendBufferSize`. -/
theorem window_bound (numSlaves : Nat) (events : List ApiEvent)
    (hroom : KeepsRoomAlong (Multiplexer.new numSlaves 0) events) :
    ∀ e ∈ ((Multiplexer.new numSlaves 0).run events).pipeStateTable,
      e.2.packetList.numPackets ≤ ((Multiplexer.new numSlaves 0).run events).sendBufferSize :=
  windowBound_run events (Multiplexer.new numSlaves 0)
    (by intro e he; simp [Multiplexer.new] at he) hroom

/-- C3 (counterexample): the master opens pipe 1, sends three packets, and then calls
`setSendBufferSize(2)`: the packet list of pipe 1 holds 3 packets, more than `sendBufferSize`. -/
theorem window_bound_broken_by_setSendBufferSize :
    ¬ (∀ e ∈ ((Multiplexer.new 1 0).run
          (threeSent ++ [ApiEvent.setSendBufferSize 2])).pipeStateTable,
        e.2.packetList.numPackets ≤
          ((Multiplexer.new 1 0).run (threeSent ++ [ApiEvent.setSendBufferSize 2])).sendBufferSize) := by
  decide

/-- C3 (witness): the same calls with `setSendBufferSize(5)`. -/
theorem window_bound_witness :
    KeepsRoomAlong (Multiplexer.new 1 0) (threeSent ++ [ApiEvent.setSendBufferSize 5]) ∧
      ∀ e ∈ ((Multiplexer.new 1 0).run
          (threeSent ++ [ApiEvent.setSendBufferSize 5])).pipeStateTable,
        e.2.packetList.numPackets ≤
          ((Multiplexer.new 1 0).run (threeSent ++ [ApiEvent.setSendBufferSize 5])).sendBufferSize :=
  ⟨by decide, window_bound 1 (threeSent ++ [ApiEvent.setSendBufferSize 5]) (by decide)⟩

/-- C7 (witness): after ten `sendPacket` calls and the slave's barrier message, `barrier` leaves
the send window empty with `headStreamPos` equal to `streamPos` (both 10), and the ten packets
are in the packet pool. -/
theorem barrier_flushes_send_window_witness :
    ((((Multiplexer.new 1 0).run tenSent).findEntry 1).getD {}).packetList.Consistent ∧
      ((((Multiplexer.new 1 0).run tenSent).findEntry 1).getD {}).packetList.numPackets = 10 ∧
      ((((Multiplexer.new 1 0).run tenSent).findEntry 1).getD {}).barrierId + 1 ≤
        ((((Multiplexer.new 1 0).run tenSent).findEntry 1).getD {}).minSlaveBarrierId ∧
      (barrierMaster 1 1 ((((Multiplexer.new 1 0).run tenSent).findEntry 1).getD {})
          []).pipeState.packetList.numPackets = 0 ∧
      (barrierMaster 1 1 ((((Multiplexer.new 1 0).run tenSent).findEntry 1).getD {})
          []).pipeState.headStreamPos = 10 ∧
      (barrierMaster 1 1 ((((Multiplexer.new 1 0).run tenSent).findEntry 1).getD {})
          []).pipeState.streamPos = 10 ∧
      (barrierMaster 1 1 ((((Multiplexer.new 1 0).run tenSent).findEntry 1).getD {})
          []).packetPoolHead.length = 10 ∧
      (barrierMaster 1 1 ((((Multiplexer.new 1 0).run tenSent).findEntry 1).getD {})
          []).status = Status.returned () :=
  ⟨by decide, by decide, by decide, by decide, by decide, by decide, by decide,
   (barrier_flushes_send_window 1 1
      ((((Multiplexer.new 1 0).run tenSent).findEntry 1).getD {}) [] 0 OpCode.SUM
      (by decide) (by decide) (by decide)).1.1⟩

/-! ## Operations on a pipe id that is not in the pipe table -/

/-- C10: when the pipe id is not in the pipe table, each of `sendPacket`, `receivePacket`,
`barrier`, `gather` and `closePipe` fails with the closed-pipe error, sends no datagram, and
leaves the multiplexer (pipe table, every pipe state, packet pool) as it was. -/
theorem unknown_pipe_fails (m : Multiplexer) (pipeId : Nat) (packet : Packet)
    (timedOut signalled : Bool) (value : Nat) (op : OpCode)
    (h : m.findEntry pipeId = none) :
    ((m.sendPacket pipeId packet).status = Status.failed Fault.closedPipe ∧
        (m.sendPacket pipeId packet).sent = [] ∧
        (m.sendPacket pipeId packet).multiplexer = m) ∧
      ((m.receivePacket pipeId timedOut).status = Status.failed Fault.closedPipe ∧
        (m.receivePacket pipeId timedOut).sent = [] ∧
        (m.receivePacket pipeId timedOut).multiplexer = m) ∧
      ((m.barrier pipeId signalled).status = Status.failed Fault.closedPipe ∧
        (m.barrier pipeId signalled).sent = [] ∧
        (m.barrier pipeId signalled).multiplexer = m) ∧
      ((m.gather pipeId value op signalled).status = Status.failed Fault.closedPipe ∧
        (m.gather pipeId value op signalled).sent = [] ∧
        (m.gather pipeId value op signalled).multiplexer = m) ∧
      ((m.closePipe pipeId signalled).status = Status.failed Fault.closedPipe ∧
        (m.closePipe pipeId signalled).sent = [] ∧
        (m.closePipe pipeId signalled).multiplexer = m) := by
  have hb : m.barrier pipeId signalled = m.closed := by
    unfold Multiplexer.barrier; rw [h]
  refine ⟨?_, ?_, ?_, ?_, ?_⟩
  · unfold Multiplexer.sendPacket; rw [h]; exact ⟨rfl, rfl, rfl⟩
  · unfold Multiplexer.receivePacket; rw [h]; exact ⟨rfl, rfl, rfl⟩
  · rw [hb]; exact ⟨rfl, rfl, rfl⟩
  · unfold Multiplexer.gather; rw [h]; exact ⟨rfl, rfl, rfl⟩
  · unfold Multiplexer.closePipe; rw [hb]; exact ⟨rfl, rfl, rfl⟩

/-- C10 (witness): a master that has opened pipe 1 only; pipe id 7 is unknown. -/
theorem unknown_pipe_fails_witness :
    ((Multiplexer.new 1 0).run threeSent).findEntry 7 = none ∧
      (((Multiplexer.new 1 0).run threeSent).closePipe 7 false).status =
        Status.failed Fault.closedPipe ∧
      (((Multiplexer.new 1 0).run threeSent).closePipe 7 false).multiplexer =
        (Multiplexer.new 1 0).run threeSent :=
  ⟨by decide,
   (unknown_pipe_fails ((Multiplexer.new 1 0).run threeSent) 7 ⟨0, 0, 0, []⟩ false false 0
      OpCode.SUM (by decide)).2.2.2.2.1,
   (unknown_pipe_fails ((Multiplexer.new 1 0).run threeSent) 7 ⟨0, 0, 0, []⟩ false false 0
      OpCode.SUM (by decide)).2.2.2.2.2.2⟩

/-! ## Reports at positions between packets -/

theorem take_sum_le (w : List Nat) (i j : Nat) (h : i ≤ j) :
    (w.take i).sum ≤ (w.take j).sum := by
  have : j = i + (j - i) := by omega
  rw [this, List.take_add, List.sum_append]
  omega

theorem mem_boundaries (sizes : List Nat) (r : Nat) :
    r ∈ boundaries sizes ↔ ∃ k, k ≤ sizes.length ∧ r = (sizes.take k).sum := by
  unfold boundaries
  simp only [List.mem_map, List.mem_range]
  constructor
  · rintro ⟨k, hk, rfl⟩
    exact ⟨k, by omega, rfl⟩
  · rintro ⟨k, hk, rfl⟩
    exact ⟨k, by omega, rfl⟩

theorem boundaries_append (sizes : List Nat) (x r : Nat) (h : r ∈ boundaries sizes) :
    r ∈ boundaries (sizes ++ [x]) := by
  rw [mem_boundaries] at h ⊢
  obtain ⟨k, hk, rfl⟩ := h
  refine ⟨k, by simp only [List.length_append, List.length_singleton]; omega, ?_⟩
  rw [List.take_append_of_le_length hk]

theorem prefix_sum_stop (w : List Nat) (k j : Nat)
    (hle : (w.take k).sum ≤ (w.take j).sum)
    (hstop : ∀ q, w[k]? = some q → (w.take j).sum - (w.take k).sum < q) :
    (w.take k).sum = (w.take j).sum := by
  by_contra hne
  have hlt : (w.take k).sum < (w.take j).sum := by omega
  have hkj : k < j := by
    by_contra h
    have := take_sum_le w j k (by omega)
    omega
  have hklen : k < w.length := by
    by_contra h
    have h1 : w.take k = w := List.take_of_length_le (by omega)
    have h2 := take_sum_le w j (max j w.length) (le_max_left _ _)
    have h3 : w.take (max j w.length) = w := List.take_of_length_le (le_max_right _ _)
    rw [h3] at h2
    rw [h1] at hlt
    omega
  have hq : w[k]? = some w[k] := List.getElem?_eq_getElem hklen
  have hs := hstop _ hq
  have h1 : (w.take (k + 1)).sum = (w.take k).sum + w[k] := List.sum_take_succ w k hklen
  have h2 := take_sum_le w (k + 1) j (by omega)
  omega

theorem ack_head_eq (t : MasterTrace) (ps1 : PipeState) (pool1 : List Packet) (i r : Nat)
    (ack : List Packet) (hw : WindowAccounts t) (hlt : t.sentSizes.sum < wordSize)
    (h : processAcknowledgment t.pipeState t.packetPoolHead i r = Except.ok (ps1, pool1))
    (hsplit : t.pipeState.packetList.packets = ack ++ ps1.packetList.packets) :
    ps1.headStreamPos = t.pipeState.headStreamPos + totalSize ack := by
  obtain ⟨ack1, hsplit1, _, _, hhead, _⟩ :=
    processAcknowledgment_shape t.pipeState t.packetPoolHead i r ps1 pool1 h
  have hack : ack1 = ack := by
    rw [hsplit] at hsplit1
    exact (List.append_cancel_right hsplit1).symm
  rw [hack] at hhead
  obtain ⟨_, w2, w3⟩ := hw
  rw [hsplit, totalSize_append] at w2
  rcases hhead with ⟨hnil, hh⟩ | hh
  · rw [hh, hnil]; simp [totalSize]
  · rw [hh, Nat.mod_eq_of_lt (by omega)]
    exact add32_eq_of_lt (by omega)

theorem boundaryInv_report (numSlaves pipeId sendBufferSize : Nat) (t : MasterTrace)
    (msg : SlaveMessage) (hN : numSlaves < wordSize) (hinv : FlowInv numSlaves t)
    (hw : WindowAccounts t) (hb : BoundaryInv t) (hlt : t.sentSizes.sum < wordSize)
    (hpipe : msg.pipeId = pipeId) (hrep : msg.isReport = true)
    (hwf : (MasterEvent.message msg).WellFormed numSlaves pipeId)
    (hord : (MasterEvent.message msg).InOrder pipeId t)
    (hgen : (MasterEvent.message msg).Genuine pipeId t) :
    BoundaryInv (masterStep numSlaves pipeId sendBufferSize t (MasterEvent.message msg)) := by
  obtain ⟨hn1, hn2, hpos⟩ := hwf hpipe hrep
  have hord1 := hord hpipe hrep
  have hgen1 := hgen hpipe hrep
  have hidx : sub32 msg.nodeIndex 1 = msg.nodeIndex - 1 := sub32_eq_of_le hn1 (by omega)
  obtain ⟨ps1, pool1, ack, hack, hsplit, hinv1, _, hadv⟩ :=
    processAcknowledgment_flowInv numSlaves t (msg.nodeIndex - 1) msg.streamPos hN hinv
      (by omega) hpos hord1
  rw [← hidx] at hack hinv1 hadv
  have hhead1 := ack_head_eq t ps1 pool1 _ _ ack hw hlt hack hsplit
  obtain ⟨e1, e2⟩ := handleSlaveMessageOn_report t.pipeState t.packetPoolHead msg ps1 pool1 hrep hack
  obtain ⟨hb1, hb2, a, ha, hwin, hheada⟩ := hb
  have hrepb : ∀ r1 ∈ t.reported.set (sub32 msg.nodeIndex 1) msg.streamPos,
      r1 ∈ boundaries t.sentSizes := by
    intro r1 h1
    rcases List.mem_or_eq_of_mem_set h1 with h1 | h1
    · exact hb2 r1 h1
    · rw [h1]; exact hgen1
  -- the window sizes split into the sizes of the acknowledged and of the remaining packets
  have hwin2 : ack.map Packet.packetSize ++ ps1.packetList.packets.map Packet.packetSize =
      t.sentSizes.drop a := by
    rw [← hwin, hsplit, List.map_append]
  have htake : (t.sentSizes.drop a).take ack.length = ack.map Packet.packetSize := by
    rw [← hwin2]
    have : ack.length = (ack.map Packet.packetSize).length := by simp
    rw [this, List.take_left']
    rfl
  have hdrop : (t.sentSizes.drop a).drop ack.length =
      ps1.packetList.packets.map Packet.packetSize := by
    rw [← hwin2]
    have : ack.length = (ack.map Packet.packetSize).length := by simp
    rw [this, List.drop_left']
    rfl
  simp only [masterStep, hpipe, if_true, hrep, e1, e2]
  refine ⟨?_, hrepb, a + ack.length, ?_, ?_, ?_⟩
  · rcases hadv with h | ⟨r0, hr0, hle, hstop⟩
    · exact h hb1
    · obtain ⟨k0, hk0, hr0eq⟩ := (mem_boundaries _ _).mp (hrepb r0 hr0)
      obtain ⟨_, hoffs1, hcount1, hrep1, _⟩ := hinv1
      have hge : t.pipeState.headStreamPos ≤ r0 := by
        have := (hrep1 r0 hr0).1
        simp only at this
        omega
      have hj : ∃ j, ((t.sentSizes.drop a).take j).sum = r0 - t.pipeState.headStreamPos := by
        by_cases hka : a ≤ k0
        · refine ⟨k0 - a, ?_⟩
          have : k0 = a + (k0 - a) := by omega
          rw [this, List.take_add, List.sum_append] at hr0eq
          omega
        · refine ⟨0, ?_⟩
          have := take_sum_le t.sentSizes k0 a (by omega)
          simp only [List.take_zero, List.sum_nil]
          omega
      obtain ⟨j, hj⟩ := hj
      have hstop2 := prefix_sum_stop (t.sentSizes.drop a) ack.length j
        (by rw [htake, hj]; exact hle)
        (by
          intro q hq
          rw [htake, hj]
          have hq2 : (ps1.packetList.packets.map Packet.packetSize)[0]? = some q := by
            rw [← hdrop, List.getElem?_drop]
            simpa using hq
          cases hrem : ps1.packetList.packets with
          | nil => rw [hrem] at hq2; simp at hq2
          | cons q1 rest =>
            rw [hrem] at hq2
            simp at hq2
            rw [← hq2]
            exact hstop q1 rest hrem)
      rw [htake, hj] at hstop2
      have hzero : r0 - ps1.headStreamPos = 0 := by
        rw [hhead1]
        unfold totalSize
        omega
      simp only at hcount1 hoffs1
      rw [hcount1, hoffs1]
      apply List.count_pos_iff.mpr
      rw [← hzero]
      exact List.mem_map_of_mem _ hr0
  · have hl : ack.length + ps1.packetList.packets.length = t.sentSizes.length - a := by
      have := congrArg List.length hwin2
      rw [List.length_append, List.length_map, List.length_map, List.length_drop] at this
      exact this
    show a + ack.length ≤ t.sentSizes.length
    omega
  · rw [← hdrop, List.drop_drop]
  · rw [hhead1, hheada, List.take_add, List.sum_append, htake]
    rfl

theorem boundaryInv_step (numSlaves pipeId sendBufferSize : Nat) (t : MasterTrace)
    (e : MasterEvent) (hN : numSlaves < wordSize) (hinv : FlowInv numSlaves t)
    (hw : WindowAccounts t) (hb : BoundaryInv t) (hlt : t.sentSizes.sum < wordSize)
    (hflow : e.isFlow = true) (hwf : e.WellFormed numSlaves pipeId)
    (hord : e.InOrder pipeId t) (hgen : e.Genuine pipeId t) :
    BoundaryInv (masterStep numSlaves pipeId sendBufferSize t e) := by
  cases e with
  | sendPacket packet =>
    simp only [masterStep, sendPacketOn]
    by_cases hfull : t.pipeState.packetList.size = sendBufferSize
    · simp only [hfull, if_true]
      exact hb
    · simp only [hfull, if_false, if_true]
      obtain ⟨hb1, hb2, a, ha, hwin, hheada⟩ := hb
      refine ⟨hb1, fun r hr => boundaries_append _ _ _ (hb2 r hr), a, ?_, ?_, ?_⟩
      · simp only [List.length_append, List.length_singleton]; omega
      · simp only [PacketList.push_back, List.map_append, List.map_cons, List.map_nil]
        rw [hwin, List.drop_append_of_le_length ha]
      · simp only
        rw [hheada, List.take_append_of_le_length ha]
  | message msg =>
    by_cases hp : msg.pipeId = pipeId
    · exact boundaryInv_report numSlaves pipeId sendBufferSize t msg hN hinv hw hb hlt hp hflow
        hwf hord hgen
    · simp only [masterStep, hp, if_false]
      exact hb
  | barrier => simp [MasterEvent.isFlow] at hflow
  | gather value op => simp [MasterEvent.isFlow] at hflow

theorem boundaryInv_start (numSlaves : Nat) (ps0 : PipeState) (pool0 : List Packet)
    (h1 : 1 ≤ numSlaves) (hfresh : ps0.Fresh numSlaves) :
    BoundaryInv (MasterTrace.start numSlaves ps0 pool0) := by
  obtain ⟨_, f2, f3, _, f5⟩ := hfresh
  unfold BoundaryInv MasterTrace.start
  simp only [f2, f3, f5]
  refine ⟨h1, ?_, 0, le_refl _, rfl, rfl⟩
  intro r hr
  rw [(List.mem_replicate.mp hr).2]
  decide

theorem boundaryInv_run (numSlaves pipeId sendBufferSize : Nat) (events : List MasterEvent)
    (t : MasterTrace) (hN : numSlaves < wordSize) (hinv : FlowInv numSlaves t)
    (hw : WindowAccounts t) (hb : BoundaryInv t)
    (hflow : ∀ e ∈ events, e.isFlow = true)
    (hwf : ∀ e ∈ events, e.WellFormed numSlaves pipeId)
    (hord : AlongRun numSlaves pipeId sendBufferSize (fun t e => e.InOrder pipeId t) t events)
    (hgen : AlongRun numSlaves pipeId sendBufferSize (fun t e => e.Genuine pipeId t) t events)
    (hlt : (masterRun numSlaves pipeId sendBufferSize t events).sentSizes.sum < wordSize) :
    FlowInv numSlaves (masterRun numSlaves pipeId sendBufferSize t events) ∧
      BoundaryInv (masterRun numSlaves pipeId sendBufferSize t events) := by
  induction events generalizing t with
  | nil => exact ⟨hinv, hb⟩
  | cons e rest ih =>
    simp only [masterRun, List.foldl_cons] at hlt ⊢
    obtain ⟨ho1, ho2⟩ := hord
    obtain ⟨hg1, hg2⟩ := hgen
    have hlt1 : (masterStep numSlaves pipeId sendBufferSize t e).sentSizes.sum < wordSize :=
      lt_of_le_of_lt (sentSizes_run_le numSlaves pipeId sendBufferSize rest _) hlt
    have hlt0 : t.sentSizes.sum < wordSize :=
      lt_of_le_of_lt (sentSizes_step_le numSlaves pipeId sendBufferSize t e) hlt1
    have he := hflow e (List.mem_cons_self _ _)
    have hwe := hwf e (List.mem_cons_self _ _)
    exact ih _
      (flowInv_step numSlaves pipeId sendBufferSize t e hN hinv he hwe ho1)
      (windowAccounts_step numSlaves pipeId sendBufferSize t e hw hlt1).1
      (boundaryInv_step numSlaves pipeId sendBufferSize t e hN hinv hw hb hlt0 he hwe ho1 hg1)
      (fun e1 h1 => hflow e1 (List.mem_cons_of_mem _ h1))
      (fun e1 h1 => hwf e1 (List.mem_cons_of_mem _ h1)) ho2 hg2 hlt

/-- C9 (as amended): on a pipe of the master opened by `openPipe` with N slaves
(1 <= N < 2^32) that has carried fewer than 2^32 bytes, after any sequence of `sendPacket`
calls and of `ACKNOWLEDGMENT` and `PACKETLOSS` messages from node indices 1..N in which every
reported position is a position between packets of the stream sent so far and the positions
reported by any one slave never decrease, `headStreamPos` is the minimum over the N slaves of
the position that slave reported last (0 for a slave that has not reported yet). -/
theorem headStreamPos_is_min_reported (numSlaves pipeId sendBufferSize : Nat) (ps0 : PipeState)
    (pool0 : List Packet) (events : List MasterEvent)
    (h1 : 1 ≤ numSlaves) (hN : numSlaves < wordSize) (hfresh : ps0.Fresh numSlaves)
    (hflow : ∀ e ∈ events, e.isFlow = true)
    (hwf : ∀ e ∈ events, e.WellFormed numSlaves pipeId)
    (hgen : AlongRun numSlaves pipeId sendBufferSize (fun t e => e.Genuine pipeId t)
      (MasterTrace.start numSlaves ps0 pool0) events)
    (hord : AlongRun numSlaves pipeId sendBufferSize (fun t e => e.InOrder pipeId t)
      (MasterTrace.start numSlaves ps0 pool0) events)
    (hcarried : (masterRun numSlaves pipeId sendBufferSize
      (MasterTrace.start numSlaves ps0 pool0) events).sentSizes.sum < wordSize) :
    (masterRun numSlaves pipeId sendBufferSize (MasterTrace.start numSlaves ps0 pool0)
        events).reported.length = numSlaves ∧
      (masterRun numSlaves pipeId sendBufferSize (MasterTrace.start numSlaves ps0 pool0)
        events).pipeState.headStreamPos ∈
        (masterRun numSlaves pipeId sendBufferSize (MasterTrace.start numSlaves ps0 pool0)
          events).reported ∧
      ∀ r ∈ (masterRun numSlaves pipeId sendBufferSize (MasterTrace.start numSlaves ps0 pool0)
          events).reported,
        (masterRun numSlaves pipeId sendBufferSize (MasterTrace.start numSlaves ps0 pool0)
          events).pipeState.headStreamPos ≤ r := by
  obtain ⟨hinv, hb⟩ := boundaryInv_run numSlaves pipeId sendBufferSize events
    (MasterTrace.start numSlaves ps0 pool0) hN (flowInv_start numSlaves ps0 pool0 hfresh)
    (windowAccounts_start numSlaves ps0 pool0 hfresh)
    (boundaryInv_start numSlaves ps0 pool0 h1 hfresh) hflow hwf hord hgen hcarried
  obtain ⟨hlen, hoffs, hcount, hrep, _⟩ := hinv
  refine ⟨hlen, ?_, fun r hr => (hrep r hr).1⟩
  have hpos : 0 < List.count 0 (masterRun numSlaves pipeId sendBufferSize
      (MasterTrace.start numSlaves ps0 pool0) events).pipeState.slaveStreamPosOffsets := by
    rw [← hcount]; exact hb.1
  rw [List.count_pos_iff, hoffs] at hpos
  obtain ⟨r, hr, hr0⟩ := List.mem_map.mp hpos
  have := (hrep r hr).1
  have hreq : r = (masterRun numSlaves pipeId sendBufferSize
      (MasterTrace.start numSlaves ps0 pool0) events).pipeState.headStreamPos := by omega
  rw [← hreq]; exact hr

/-- C9 (counterexample): two slaves, two packets of 2 and 1 bytes.  Slave 1 reports position 3
and then position 0, slave 2 reports position 3; every report is a position between packets.
The report of 0 equals `headStreamPos` and is ignored, so the window advances to 3 although
the position slave 1 reported last is 0: `headStreamPos` is 3, the minimum is 0. -/
theorem headStreamPos_exceeds_latest_report :
    (∀ e ∈ [MasterEvent.sendPacket ⟨0, 0, 2, [7, 8]⟩, MasterEvent.sendPacket ⟨0, 0, 1, [9]⟩,
          MasterEvent.message (ackMessage 1 1 3), MasterEvent.message (ackMessage 1 1 0),
          MasterEvent.message (ackMessage 2 1 3)],
        e.isFlow = true ∧ e.WellFormed 2 1) ∧
      AlongRun 2 1 20 (fun t e => e.Genuine 1 t) (MasterTrace.start 2 (newPipeState 2 0 []) [])
        [MasterEvent.sendPacket ⟨0, 0, 2, [7, 8]⟩, MasterEvent.sendPacket ⟨0, 0, 1, [9]⟩,
         MasterEvent.message (ackMessage 1 1 3), MasterEvent.message (ackMessage 1 1 0),
         MasterEvent.message (ackMessage 2 1 3)] ∧
      (masterRun 2 1 20 (MasterTrace.start 2 (newPipeState 2 0 []) [])
        [MasterEvent.sendPacket ⟨0, 0, 2, [7, 8]⟩, MasterEvent.sendPacket ⟨0, 0, 1, [9]⟩,
         MasterEvent.message (ackMessage 1 1 3), MasterEvent.message (ackMessage 1 1 0),
         MasterEvent.message (ackMessage 2 1 3)]).pipeState.headStreamPos = 3 ∧
      (masterRun 2 1 20 (MasterTrace.start 2 (newPipeState 2 0 []) [])
        [MasterEvent.sendPacket ⟨0, 0, 2, [7, 8]⟩, MasterEvent.sendPacket ⟨0, 0, 1, [9]⟩,
         MasterEvent.message (ackMessage 1 1 3), MasterEvent.message (ackMessage 1 1 0),
         MasterEvent.message (ackMessage 2 1 3)]).reported = [0, 3] ∧
      ¬ (∀ r ∈ (masterRun 2 1 20 (MasterTrace.start 2 (newPipeState 2 0 []) [])
            [MasterEvent.sendPacket ⟨0, 0, 2, [7, 8]⟩, MasterEvent.sendPacket ⟨0, 0, 1, [9]⟩,
             MasterEvent.message (ackMessage 1 1 3), MasterEvent.message (ackMessage 1 1 0),
             MasterEvent.message (ackMessage 2 1 3)]).reported,
          (masterRun 2 1 20 (MasterTrace.start 2 (newPipeState 2 0 []) [])
            [MasterEvent.sendPacket ⟨0, 0, 2, [7, 8]⟩, MasterEvent.sendPacket ⟨0, 0, 1, [9]⟩,
             MasterEvent.message (ackMessage 1 1 3), MasterEvent.message (ackMessage 1 1 0),
             MasterEvent.message (ackMessage 2 1 3)]).pipeState.headStreamPos ≤ r) := by
  decide

/-- C9 (witness): two slaves, two packets of 2 and 1 bytes; slave 1 reports 3, slave 2 reports
2: the window head is 2, the smaller of the two. -/
theorem headStreamPos_is_min_reported_witness :
    (newPipeState 2 0 []).Fresh 2 ∧
      (masterRun 2 1 20 (MasterTrace.start 2 (newPipeState 2 0 []) [])
        [MasterEvent.sendPacket ⟨0, 0, 2, [7, 8]⟩, MasterEvent.sendPacket ⟨0, 0, 1, [9]⟩,
         MasterEvent.message (ackMessage 1 1 3),
         MasterEvent.message (ackMessage 2 1 2)]).pipeState.headStreamPos = 2 ∧
      (masterRun 2 1 20 (MasterTrace.start 2 (newPipeState 2 0 []) [])
        [MasterEvent.sendPacket ⟨0, 0, 2, [7, 8]⟩, MasterEvent.sendPacket ⟨0, 0, 1, [9]⟩,
         MasterEvent.message (ackMessage 1 1 3),
         MasterEvent.message (ackMessage 2 1 2)]).pipeState.headStreamPos ∈
        (masterRun 2 1 20 (MasterTrace.start 2 (newPipeState 2 0 []) [])
          [MasterEvent.sendPacket ⟨0, 0, 2, [7, 8]⟩, MasterEvent.sendPacket ⟨0, 0, 1, [9]⟩,
           MasterEvent.message (ackMessage 1 1 3),
           MasterEvent.message (ackMessage 2 1 2)]).reported :=
  ⟨by decide, by decide,
   (headStreamPos_is_min_reported 2 1 20 (newPipeState 2 0 []) []
      [MasterEvent.sendPacket ⟨0, 0, 2, [7, 8]⟩, MasterEvent.sendPacket ⟨0, 0, 1, [9]⟩,
       MasterEvent.message (ackMessage 1 1 3), MasterEvent.message (ackMessage 2 1 2)]
      (by decide) (by decide) (by decide) (by decide) (by decide) (by decide) (by decide)
      (by decide)).2.1⟩

/-! ## What a slave message does to the barrier fields -/

theorem masterMessages_data (l : List Packet) : masterMessages (l.map Packet.toDatagram) = [] := by
  induction l with
  | nil => rfl
  | cons p ps ih => simp only [List.map_cons, Packet.toDatagram, masterMessages]; exact ih

theorem barrierEffect_unchanged (ps : PipeState) (pool : List Packet) (msg : SlaveMessage) :
    BarrierEffect ps msg
      { pipeState := ps, packetPoolHead := pool, sent := [], status := Status.returned () } := by
  left
  exact ⟨rfl, rfl, rfl, rfl, rfl, by simp [masterMessages]⟩

theorem barrierEffect_of_fields (ps ps1 : PipeState) (pool1 : List Packet)
    (msg : SlaveMessage) (sent : List Datagram) (status : Status Unit)
    (h1 : ps1.barrierId = ps.barrierId) (h2 : ps1.slaveBarrierIds = ps.slaveBarrierIds)
    (h3 : ps1.minSlaveBarrierId = ps.minSlaveBarrierId)
    (h4 : ps1.slaveGatherValues = ps.slaveGatherValues)
    (h5 : ps1.masterGatherValue = ps.masterGatherValue)
    (h6 : masterMessages sent = []) :
    BarrierEffect ps msg
      { pipeState := ps1, packetPoolHead := pool1, sent := sent, status := status } := by
  left
  refine ⟨h1, h2, h3, h4, h5, ?_⟩
  simp only [h6]
  intro c hc
  simp at hc

theorem handleAcknowledgment_barrier (ps : PipeState) (pool : List Packet)
    (msg : SlaveMessage) : BarrierEffect ps msg (handleAcknowledgment ps pool msg) := by
  unfold handleAcknowledgment
  cases h : processAcknowledgment ps pool (sub32 msg.nodeIndex 1) msg.streamPos with
  | error f => exact barrierEffect_of_fields ps ps pool msg [] _ rfl rfl rfl rfl rfl rfl
  | ok v =>
    obtain ⟨ps1, pool1⟩ := v
    obtain ⟨_, _, _, _, _, _, _, b1, b2, b3, b4, b5, _⟩ :=
      processAcknowledgment_shape ps pool _ _ ps1 pool1 h
    exact barrierEffect_of_fields ps ps1 pool1 msg [] _ b1 b2 b3 b4 b5 rfl

theorem handlePacketLoss_barrier (ps : PipeState) (pool : List Packet)
    (msg : SlaveMessage) : BarrierEffect ps msg (handlePacketLoss ps pool msg) := by
  unfold handlePacketLoss
  cases h : processAcknowledgment ps pool (sub32 msg.nodeIndex 1) msg.streamPos with
  | error f => exact barrierEffect_of_fields ps ps pool msg [] _ rfl rfl rfl rfl rfl rfl
  | ok v =>
    obtain ⟨ps1, pool1⟩ := v
    obtain ⟨_, _, _, _, _, _, _, b1, b2, b3, b4, b5, _⟩ :=
      processAcknowledgment_shape ps pool _ _ ps1 pool1 h
    simp only
    split
    · split
      · exact barrierEffect_of_fields ps ps1 pool1 msg [] _ b1 b2 b3 b4 b5 rfl
      · split
        · exact barrierEffect_of_fields ps ps1 pool1 msg [] _ b1 b2 b3 b4 b5 rfl
        · exact barrierEffect_of_fields ps ps1 pool1 msg _ _ b1 b2 b3 b4 b5
            (masterMessages_data _)
    · exact barrierEffect_of_fields ps ps1 pool1 msg [] _ b1 b2 b3 b4 b5 rfl

theorem handleCreatePipe_barrier (ps : PipeState) (pool : List Packet) (msg : SlaveMessage)
    (hopen : 1 ≤ ps.barrierId) : BarrierEffect ps msg (handleCreatePipe ps pool msg) := by
  unfold handleCreatePipe
  rw [if_pos hopen]
  left
  refine ⟨rfl, rfl, rfl, rfl, rfl, ?_⟩
  intro c hc
  simp only [masterMessages, List.mem_singleton] at hc
  left
  rw [hc]
  exact ⟨rfl, rfl⟩

theorem handleBarrier_barrier (ps : PipeState) (pool : List Packet) (msg : SlaveMessage)
    (hid : msg.messageId = SlaveMessageId.BARRIER) :
    BarrierEffect ps msg (handleBarrier ps pool msg) := by
  unfold handleBarrier
  by_cases hle : msg.barrierId ≤ ps.barrierId
  · rw [if_pos hle]
    left
    refine ⟨rfl, rfl, rfl, rfl, rfl, ?_⟩
    intro c hc
    simp only [masterMessages, List.mem_singleton] at hc
    right
    rw [hc]
    exact ⟨rfl, rfl, hle, Or.inl ⟨rfl, hid⟩⟩
  · rw [if_neg hle]
    unfold recordBarrierId
    simp only
    by_cases hidx : sub32 msg.nodeIndex 1 < ps.slaveBarrierIds.length
    · rw [if_pos hidx]
      cases hm : minimumOf (ps.slaveBarrierIds.set (sub32 msg.nodeIndex 1) msg.barrierId) with
      | error f => exact barrierEffect_unchanged ps pool msg
      | ok m =>
        right
        exact ⟨by omega, hidx, rfl, rfl, rfl, hm, rfl, Or.inl ⟨hid, rfl⟩⟩
    · rw [if_neg hidx]
      exact barrierEffect_unchanged ps pool msg

theorem handleGather_barrier (ps : PipeState) (pool : List Packet) (msg : SlaveMessage)
    (hid : msg.messageId = SlaveMessageId.GATHER) :
    BarrierEffect ps msg (handleGather ps pool msg) := by
  unfold handleGather
  by_cases hle : msg.barrierId ≤ ps.barrierId
  · rw [if_pos hle]
    left
    refine ⟨rfl, rfl, rfl, rfl, rfl, ?_⟩
    intro c hc
    simp only [masterMessages, List.mem_singleton] at hc
    right
    rw [hc]
    exact ⟨rfl, rfl, hle, Or.inr ⟨rfl, hid, rfl⟩⟩
  · rw [if_neg hle]
    simp only
    by_cases hidx : sub32 msg.nodeIndex 1 < ps.slaveBarrierIds.length
    · rw [if_pos hidx]
      by_cases hidx2 : sub32 msg.nodeIndex 1 < ps.slaveGatherValues.length
      · rw [if_pos hidx2]
        cases hm : minimumOf (ps.slaveBarrierIds.set (sub32 msg.nodeIndex 1) msg.barrierId) with
        | error f => exact barrierEffect_unchanged ps pool msg
        | ok m =>
          right
          exact ⟨by omega, hidx, rfl, rfl, rfl, hm, rfl, Or.inr ⟨hid, hidx2, rfl⟩⟩
      · rw [if_neg hidx2]
        exact barrierEffect_unchanged ps pool msg
    · rw [if_neg hidx]
      exact barrierEffect_unchanged ps pool msg

theorem handleSlaveMessageOn_barrier (ps : PipeState) (pool : List Packet) (msg : SlaveMessage)
    (hopen : 1 ≤ ps.barrierId) : BarrierEffect ps msg (handleSlaveMessageOn ps pool msg) := by
  unfold handleSlaveMessageOn
  cases hid : msg.messageId with
  | CONNECTION => exact barrierEffect_unchanged ps pool msg
  | PING => exact barrierEffect_unchanged ps pool msg
  | CREATEPIPE => exact handleCreatePipe_barrier ps pool msg hopen
  | ACKNOWLEDGMENT => exact handleAcknowledgment_barrier ps pool msg
  | PACKETLOSS => exact handlePacketLoss_barrier ps pool msg
  | BARRIER => exact handleBarrier_barrier ps pool msg hid
  | GATHER => exact handleGather_barrier ps pool msg hid

/-! ## The master's call -/

theorem flushSendWindow_barrier_fields (numSlaves : Nat) (ps : PipeState) (pool : List Packet)
    (ps1 : PipeState) (pool1 : List Packet)
    (h : flushSendWindow numSlaves ps pool = Except.ok (ps1, pool1)) :
    ps1.barrierId = ps.barrierId ∧ ps1.slaveBarrierIds = ps.slaveBarrierIds ∧
      ps1.minSlaveBarrierId = ps.minSlaveBarrierId ∧
      ps1.slaveGatherValues = ps.slaveGatherValues ∧
      ps1.masterGatherValue = ps.masterGatherValue := by
  unfold flushSendWindow at h
  simp only at h
  split at h
  · split at h
    · exact absurd h (by simp)
    · simp only [Except.ok.injEq, Prod.mk.injEq] at h
      rw [← h.1]
      exact ⟨rfl, rfl, rfl, rfl, rfl⟩
  · simp only [Except.ok.injEq, Prod.mk.injEq] at h
    rw [← h.1]
    exact ⟨rfl, rfl, rfl, rfl, rfl⟩

theorem barrierMaster_cases (numSlaves pipeId : Nat) (ps : PipeState) (pool : List Packet) :
    ((barrierMaster numSlaves pipeId ps pool).status = Status.blocked) ∨
      (∃ f, (barrierMaster numSlaves pipeId ps pool).status = Status.failed f) ∨
      ((barrierMaster numSlaves pipeId ps pool).status = Status.returned () ∧
        add32 ps.barrierId 1 ≤ ps.minSlaveBarrierId ∧
        (barrierMaster numSlaves pipeId ps pool).pipeState.barrierId = add32 ps.barrierId 1 ∧
        (barrierMaster numSlaves pipeId ps pool).pipeState.slaveBarrierIds =
          ps.slaveBarrierIds ∧
        (barrierMaster numSlaves pipeId ps pool).pipeState.minSlaveBarrierId =
          ps.minSlaveBarrierId ∧
        (barrierMaster numSlaves pipeId ps pool).pipeState.slaveGatherValues =
          ps.slaveGatherValues ∧
        (barrierMaster numSlaves pipeId ps pool).pipeState.masterGatherValue =
          ps.masterGatherValue ∧
        masterMessages (barrierMaster numSlaves pipeId ps pool).sent =
          [{ messageId := MasterMessageId.BARRIER, pipeId := pipeId,
             barrierId := add32 ps.barrierId 1 }]) := by
  unfold barrierMaster
  simp only
  by_cases hb : ps.minSlaveBarrierId < add32 ps.barrierId 1
  · rw [if_pos hb]; left; rfl
  · rw [if_neg hb]
    cases hf : flushSendWindow numSlaves ps pool with
    | error f => right; left; exact ⟨f, rfl⟩
    | ok v =>
      obtain ⟨ps1, pool1⟩ := v
      obtain ⟨b1, b2, b3, b4, b5⟩ := flushSendWindow_barrier_fields numSlaves ps pool ps1 pool1 hf
      right; right
      exact ⟨rfl, by omega, rfl, b2, b3, b4, b5, rfl⟩

theorem gatherMaster_cases (numSlaves pipeId : Nat) (ps : PipeState) (pool : List Packet)
    (value : Nat) (op : OpCode) :
    ((gatherMaster numSlaves pipeId ps pool value op).status = Status.blocked) ∨
      (∃ f, (gatherMaster numSlaves pipeId ps pool value op).status = Status.failed f) ∨
      ((gatherMaster numSlaves pipeId ps pool value op).status =
          Status.returned (gatherValue op value ps.slaveGatherValues) ∧
        add32 ps.barrierId 1 ≤ ps.minSlaveBarrierId ∧
        (gatherMaster numSlaves pipeId ps pool value op).pipeState.barrierId =
          add32 ps.barrierId 1 ∧
        (gatherMaster numSlaves pipeId ps pool value op).pipeState.slaveBarrierIds =
          ps.slaveBarrierIds ∧
        (gatherMaster numSlaves pipeId ps pool value op).pipeState.minSlaveBarrierId =
          ps.minSlaveBarrierId ∧
        (gatherMaster numSlaves pipeId ps pool value op).pipeState.slaveGatherValues =
          ps.slaveGatherValues ∧
        (gatherMaster numSlaves pipeId ps pool value op).pipeState.masterGatherValue =
          gatherValue op value ps.slaveGatherValues ∧
        masterMessages (gatherMaster numSlaves pipeId ps pool value op).sent =
          [{ messageId := MasterMessageId.GATHER, pipeId := pipeId,
             barrierId := add32 ps.barrierId 1,
             masterValue := gatherValue op value ps.slaveGatherValues }]) := by
  unfold gatherMaster
  simp only
  by_cases hb : ps.minSlaveBarrierId < add32 ps.barrierId 1
  · rw [if_pos hb]; left; rfl
  · rw [if_neg hb]
    cases hf : flushSendWindow numSlaves
        { ps with masterGatherValue := gatherValue op value ps.slaveGatherValues } pool with
    | error f => right; left; exact ⟨f, rfl⟩
    | ok v =>
      obtain ⟨ps1, pool1⟩ := v
      obtain ⟨b1, b2, b3, b4, b5⟩ := flushSendWindow_barrier_fields numSlaves _ pool ps1 pool1 hf
      right; right
      simp only at b1 b2 b3 b4 b5
      refine ⟨?_, by omega, rfl, b2, b3, b4, b5, ?_⟩
      · simp only [b5]
      · simp only [masterMessages, b5]

/-! ## The synchronisation invariant of a round -/

theorem syncInv_initial (r : Round) (s : System) (h : s.Initial r) : SyncInv r s := by
  obtain ⟨h1, h2, h3, _, h5, h6, h7, _, h9, h10, h11, h12, h13, h14, h15⟩ := h
  have hnot : s.master.barrierId ≠ r.barrierId + 1 := by omega
  refine
    { pipeOpen := h1, noWrap := h2, fewSlaves := h3, masterId := Or.inl h5,
      masterReturned := ?_, idsLength := h7, idsLe := fun id hid => by have := h9 id hid; omega,
      idsEntered := ?_, minIds := fun hm => by omega, passedIds := fun hm => absurd hm hnot,
      completionSent := fun hm => absurd hm hnot, slavesLength := h11, slaveIds := ?_,
      slaveSignalled := ?_, fromSlaves := ?_, fromMaster := ?_ }
  · rw [h6]; simp [Phase.hasReturned, hnot]
  · intro i hi
    have := h9 _ (List.getElem?_mem hi)
    omega
  · intro node hn
    obtain ⟨a, b, _⟩ := h12 node hn
    rw [b]
    exact ⟨fun h => by simp [Phase.hasReturned] at h, fun _ => a⟩
  · intro node hn hs
    obtain ⟨_, b, c⟩ := h12 node hn
    rw [b, c] at hs
    simp [Phase.hasReturned] at hs
  · intro msg hm _ hlt
    have := h13 msg hm
    omega
  · intro c hc _ hlt
    have := h14 c hc
    omega

theorem entered_of_set (s s1 : System) (i j : Nat) (node new : SlaveNode)
    (hi : s.slaves[i]? = some node) (hs : s1.slaves = s.slaves.set i new)
    (hnew : node.phase.entered = true → new.phase.entered = true) (h : s.Entered j) :
    s1.Entered j := by
  obtain ⟨n, hn, he⟩ := h
  unfold System.Entered
  rw [hs]
  by_cases hji : i = j
  · subst hji
    rw [hi] at hn
    have hlen : i < s.slaves.length := by
      by_contra hc
      rw [List.getElem?_eq_none (by omega)] at hi
      exact absurd hi (by simp)
    refine ⟨new, ?_, hnew (by rw [Option.some.inj hn]; exact he)⟩
    rw [List.getElem?_set_self hlen]
  · exact ⟨n, by rw [List.getElem?_set_ne hji]; exact hn, he⟩

theorem entered_same (s s1 : System) (j : Nat) (hs : s1.slaves = s.slaves) (h : s.Entered j) :
    s1.Entered j := by
  unfold System.Entered at h ⊢
  rw [hs]; exact h

theorem syncInv_masterEnter (r : Round) (s : System) (hinv : SyncInv r s)
    (hp : s.masterPhase = Phase.idle) :
    SyncInv r { s with masterPhase := Phase.waiting } := by
  have hnot : s.master.barrierId ≠ r.barrierId + 1 := by
    intro h
    have := hinv.masterReturned.mpr h
    rw [hp] at this
    simp [Phase.hasReturned] at this
  exact
    { hinv with
      masterReturned := by simp [Phase.hasReturned, hnot]
      idsEntered := fun i hi =>
        ⟨entered_same s _ i rfl (hinv.idsEntered i hi).1, (hinv.idsEntered i hi).2⟩
      fromSlaves := fun msg hm hpipe hlt =>
        ⟨(hinv.fromSlaves msg hm hpipe hlt).1, (hinv.fromSlaves msg hm hpipe hlt).2.1,
          (hinv.fromSlaves msg hm hpipe hlt).2.2.1,
          entered_same s _ _ rfl (hinv.fromSlaves msg hm hpipe hlt).2.2.2⟩ }

theorem syncInv_masterPassed (r : Round) (s : System) (hinv : SyncInv r s)
    (hp : s.masterPhase = Phase.waiting) (ps1 : PipeState) (pool1 : List Packet) (v : Nat)
    (c : MasterMessage)
    (hmin : add32 s.master.barrierId 1 ≤ s.master.minSlaveBarrierId)
    (hid : ps1.barrierId = add32 s.master.barrierId 1)
    (hids : ps1.slaveBarrierIds = s.master.slaveBarrierIds)
    (hm : ps1.minSlaveBarrierId = s.master.minSlaveBarrierId)
    (hc1 : c.pipeId = r.pipeId) (hc2 : c.barrierId = add32 s.master.barrierId 1) :
    SyncInv r
      { s with
        master := ps1, packetPoolHead := pool1, masterPhase := Phase.returned v,
        toSlaves := s.toSlaves ++ [c] } := by
  have hnot : s.master.barrierId ≠ r.barrierId + 1 := by
    intro h
    have := hinv.masterReturned.mpr h
    rw [hp] at this
    simp [Phase.hasReturned] at this
  have hb0 : s.master.barrierId = r.barrierId := by
    rcases hinv.masterId with h | h
    · exact h
    · exact absurd h hnot
  have hnext : add32 s.master.barrierId 1 = r.barrierId + 1 := by
    rw [hb0]; exact add32_eq_of_lt hinv.noWrap
  rw [hnext] at hmin hid hc2
  have hall : ∀ id ∈ s.master.slaveBarrierIds, id = r.barrierId + 1 := by
    intro id h
    have h1 := hinv.minIds hmin id h
    have h2 := hinv.idsLe id h
    omega
  exact
    { pipeOpen := hinv.pipeOpen, noWrap := hinv.noWrap, fewSlaves := hinv.fewSlaves,
      masterId := Or.inr hid,
      masterReturned := by simp [Phase.hasReturned, hid],
      idsLength := by simp only [hids]; exact hinv.idsLength,
      idsLe := by simp only [hids]; exact hinv.idsLe,
      idsEntered := by
        simp only [hids]
        exact fun i hi =>
          ⟨entered_same s _ i rfl (hinv.idsEntered i hi).1, (hinv.idsEntered i hi).2⟩,
      minIds := by simp only [hids, hm]; exact hinv.minIds,
      passedIds := by simp only [hids]; exact fun _ => hall,
      completionSent := fun _ =>
        ⟨c, List.mem_append_right _ (List.mem_singleton_self _), hc1, hc2⟩,
      slavesLength := hinv.slavesLength,
      slaveIds := hinv.slaveIds,
      slaveSignalled := fun _ _ _ => hid,
      fromSlaves := fun msg hmsg hpipe hlt =>
        ⟨(hinv.fromSlaves msg hmsg hpipe hlt).1, (hinv.fromSlaves msg hmsg hpipe hlt).2.1,
          (hinv.fromSlaves msg hmsg hpipe hlt).2.2.1,
          entered_same s _ _ rfl (hinv.fromSlaves msg hmsg hpipe hlt).2.2.2⟩,
      fromMaster := by
        intro c1 hc hpipe hlt
        rcases List.mem_append.mp hc with h | h
        · exact ⟨(hinv.fromMaster c1 h hpipe hlt).1, hid⟩
        · rw [List.mem_singleton.mp h]
          exact ⟨hc2, hid⟩ }

theorem syncInv_masterReceive (r : Round) (s : System) (hinv : SyncInv r s)
    (msg : SlaveMessage) (hmsg : msg ∈ s.toMaster) (hpipe : msg.pipeId = r.pipeId)
    (res : PipeResult Unit) (heff : BarrierEffect s.master msg res) :
    SyncInv r
      { s with
        master := res.pipeState, packetPoolHead := res.packetPoolHead,
        toSlaves := s.toSlaves ++ masterMessages res.sent,
        processed := s.processed ++ [msg] } := by
  have hge : r.barrierId ≤ s.master.barrierId := by
    rcases hinv.masterId with h | h <;> omega
  rcases heff with ⟨e1, e2, e3, _, _, hsent⟩ | ⟨hlt, hidx, e1, _, e2, hminimum, hsent, _⟩
  · exact
      { pipeOpen := hinv.pipeOpen, noWrap := hinv.noWrap, fewSlaves := hinv.fewSlaves,
        masterId := by simp only [e1]; exact hinv.masterId,
        masterReturned := by simp only [e1]; exact hinv.masterReturned,
        idsLength := by simp only [e2]; exact hinv.idsLength,
        idsLe := by simp only [e2]; exact hinv.idsLe,
        idsEntered := by
          simp only [e2]
          intro i hi
          obtain ⟨h1, m, hm, h2⟩ := hinv.idsEntered i hi
          exact ⟨entered_same s _ i rfl h1, m, List.mem_append_left _ hm, h2⟩,
        minIds := by simp only [e2, e3]; exact hinv.minIds,
        passedIds := by simp only [e1, e2]; exact hinv.passedIds,
        completionSent := by
          simp only [e1]
          intro h
          obtain ⟨c, hc, h2⟩ := hinv.completionSent h
          exact ⟨c, List.mem_append_left _ hc, h2⟩,
        slavesLength := hinv.slavesLength,
        slaveIds := hinv.slaveIds,
        slaveSignalled := by simp only [e1]; exact hinv.slaveSignalled,
        fromSlaves := fun m hm hp hl =>
          ⟨(hinv.fromSlaves m hm hp hl).1, (hinv.fromSlaves m hm hp hl).2.1,
            (hinv.fromSlaves m hm hp hl).2.2.1,
            entered_same s _ _ rfl (hinv.fromSlaves m hm hp hl).2.2.2⟩,
        fromMaster := by
          simp only [e1]
          intro c hc hp hl
          rcases List.mem_append.mp hc with h | h
          · exact hinv.fromMaster c h hp hl
          · rcases hsent c h with ⟨_, h0⟩ | ⟨_, hcb, hle, _⟩
            · omega
            · have hfresh := hinv.fromSlaves msg hmsg hpipe (by omega)
              have := hinv.masterId
              constructor
              · omega
              · omega }
  · have hfresh := hinv.fromSlaves msg hmsg hpipe (by omega)
    obtain ⟨hb, hn1, hn2, hent⟩ := hfresh
    have hb0 : s.master.barrierId = r.barrierId := by
      rcases hinv.masterId with h | h <;> omega
    have hnot : s.master.barrierId ≠ r.barrierId + 1 := by omega
    have hsub : sub32 msg.nodeIndex 1 = msg.nodeIndex - 1 :=
      sub32_eq_of_le hn1 (by have := hinv.fewSlaves; omega)
    rw [hsub] at e2 hidx
    exact
      { pipeOpen := hinv.pipeOpen, noWrap := hinv.noWrap, fewSlaves := hinv.fewSlaves,
        masterId := by simp only [e1]; exact hinv.masterId,
        masterReturned := by simp only [e1]; exact hinv.masterReturned,
        idsLength := by simp only [e2, List.length_set]; exact hinv.idsLength,
        idsLe := by
          simp only [e2]
          intro id hid
          rcases List.mem_or_eq_of_mem_set hid with h | h
          · exact hinv.idsLe id h
          · omega,
        idsEntered := by
          simp only [e2]
          intro i hi
          by_cases hii : msg.nodeIndex - 1 = i
          · refine ⟨entered_same s _ i rfl (by rw [← hii]; exact hent), msg,
              List.mem_append_right _ (List.mem_singleton_self _), by omega, hpipe, hb⟩
          · rw [List.getElem?_set_ne hii] at hi
            obtain ⟨h1, m, hm, h2⟩ := hinv.idsEntered i hi
            exact ⟨entered_same s _ i rfl h1, m, List.mem_append_left _ hm, h2⟩,
        minIds := by
          intro hm id hid
          have hne : res.pipeState.slaveBarrierIds ≠ [] := List.ne_nil_of_mem hid
          obtain ⟨m, hm1, _, hm3⟩ := minimumOf_spec _ hne
          rw [hminimum] at hm1
          have := hm3 id hid
          simp only [Except.ok.injEq] at hm1
          simp only at hm
          omega,
        passedIds := by simp only [e1]; exact fun h => absurd h hnot,
        completionSent := by simp only [e1]; exact fun h => absurd h hnot,
        slavesLength := hinv.slavesLength,
        slaveIds := hinv.slaveIds,
        slaveSignalled := by simp only [e1]; exact hinv.slaveSignalled,
        fromSlaves := fun m hm hp hl =>
          ⟨(hinv.fromSlaves m hm hp hl).1, (hinv.fromSlaves m hm hp hl).2.1,
            (hinv.fromSlaves m hm hp hl).2.2.1,
            entered_same s _ _ rfl (hinv.fromSlaves m hm hp hl).2.2.2⟩,
        fromMaster := by
          simp only [e1, hsent, List.append_nil]
          exact hinv.fromMaster }

theorem syncInv_slaveUpdate (r : Round) (s : System) (hinv : SyncInv r s) (i : Nat)
    (node new : SlaveNode) (extra : List SlaveMessage) (hi : s.slaves[i]? = some node)
    (hent : node.phase.entered = true → new.phase.entered = true)
    (hids : (new.phase.hasReturned = true → new.pipeState.barrierId = r.barrierId + 1) ∧
      (new.phase.hasReturned = false → new.pipeState.barrierId = r.barrierId))
    (hsig : new.signalled = true ∨ new.phase.hasReturned = true →
      s.master.barrierId = r.barrierId + 1)
    (hextra : ∀ msg ∈ extra, msg.pipeId = r.pipeId → r.barrierId < msg.barrierId →
      msg.barrierId = r.barrierId + 1 ∧ 1 ≤ msg.nodeIndex ∧ msg.nodeIndex ≤ r.numSlaves ∧
        msg.nodeIndex - 1 = i ∧ new.phase.entered = true) :
    SyncInv r { s with slaves := s.slaves.set i new, toMaster := s.toMaster ++ extra } := by
  have hlen : i < s.slaves.length := by
    by_contra hc
    rw [List.getElem?_eq_none (by omega)] at hi
    exact absurd hi (by simp)
  have hmono : ∀ j, s.Entered j →
      System.Entered { s with slaves := s.slaves.set i new, toMaster := s.toMaster ++ extra } j :=
    fun j hj => entered_of_set s _ i j node new hi rfl hent hj
  exact
    { pipeOpen := hinv.pipeOpen, noWrap := hinv.noWrap, fewSlaves := hinv.fewSlaves,
      masterId := hinv.masterId, masterReturned := hinv.masterReturned,
      idsLength := hinv.idsLength, idsLe := hinv.idsLe,
      idsEntered := fun j hj => ⟨hmono j (hinv.idsEntered j hj).1, (hinv.idsEntered j hj).2⟩,
      minIds := hinv.minIds, passedIds := hinv.passedIds,
      completionSent := hinv.completionSent,
      slavesLength := by simp only [List.length_set]; exact hinv.slavesLength,
      slaveIds := by
        intro n hn
        rcases List.mem_or_eq_of_mem_set hn with h | h
        · exact hinv.slaveIds n h
        · rw [h]; exact hids,
      slaveSignalled := by
        intro n hn
        rcases List.mem_or_eq_of_mem_set hn with h | h
        · exact hinv.slaveSignalled n h
        · rw [h]; exact hsig,
      fromSlaves := by
        intro msg hm hp hl
        rcases List.mem_append.mp hm with h | h
        · obtain ⟨a, b, c, d⟩ := hinv.fromSlaves msg h hp hl
          exact ⟨a, b, c, hmono _ d⟩
        · obtain ⟨a, b, c, d, e⟩ := hextra msg h hp hl
          refine ⟨a, b, c, new, ?_, e⟩
          simp only
          rw [d, List.getElem?_set_self hlen],
      fromMaster := hinv.fromMaster }

/-- What one round of a slave's call does: it sends the slave's message once; a round whose
wait expires leaves the pipe state and goes on waiting, a round whose wait is signalled marks
the barrier as completed and returns the `masterGatherValue` of the pipe state. -/
theorem slaveCallRound_spec (r : Round) (i : Nat) (ps : PipeState) :
    (∀ signalled,
      slaveMessages (slaveCallRound r i ps signalled).sent = [slaveCallMessage r i ps]) ∧
      (slaveCallRound r i ps false).pipeState = ps ∧
      (slaveCallRound r i ps false).status = Status.blocked ∧
      (slaveCallRound r i ps true).pipeState = completeBarrier ps ∧
      (slaveCallRound r i ps true).status = Status.returned ps.masterGatherValue := by
  unfold slaveCallRound slaveCallMessage
  cases r.slaveCalls.getD i Call.barrier with
  | barrier => exact ⟨fun _ => rfl, rfl, rfl, rfl, rfl⟩
  | gather value op => exact ⟨fun _ => rfl, rfl, rfl, rfl, rfl⟩

theorem step_slaveEnter (r : Round) (s : System) (i : Nat) :
    s.step r (SysEvent.slaveEnter i) =
      match s.slaves[i]? with
      | none => none
      | some node =>
        if node.phase = Phase.idle then
          some { s with
            slaves := s.slaves.set i { node with phase := Phase.waiting, signalled := false },
            toMaster := s.toMaster ++ [slaveCallMessage r i node.pipeState] }
        else none := by
  simp only [System.step]
  cases s.slaves[i]? with
  | none => rfl
  | some node =>
    obtain ⟨h1, h2, _, _, _⟩ := slaveCallRound_spec r i node.pipeState
    simp only [h1, h2]

theorem step_slaveTimeout (r : Round) (s : System) (i : Nat) :
    s.step r (SysEvent.slaveTimeout i) =
      match s.slaves[i]? with
      | none => none
      | some node =>
        if node.phase = Phase.waiting then
          some { s with
            slaves := s.slaves.set i { node with signalled := false },
            toMaster := s.toMaster ++ [slaveCallMessage r i node.pipeState] }
        else none := by
  simp only [System.step]
  cases s.slaves[i]? with
  | none => rfl
  | some node =>
    obtain ⟨h1, h2, _, _, _⟩ := slaveCallRound_spec r i node.pipeState
    simp only [h1, h2]

theorem step_slaveWake (r : Round) (s : System) (i : Nat) :
    s.step r (SysEvent.slaveWake i) =
      match s.slaves[i]? with
      | none => none
      | some node =>
        if node.phase = Phase.waiting ∧ node.signalled = true then
          some { s with
            slaves := s.slaves.set i
              { pipeState := completeBarrier node.pipeState,
                phase := Phase.returned node.pipeState.masterGatherValue,
                signalled := false } }
        else none := by
  simp only [System.step]
  cases s.slaves[i]? with
  | none => rfl
  | some node =>
    obtain ⟨_, _, _, h4, h5⟩ := slaveCallRound_spec r i node.pipeState
    simp only [h4, h5]

theorem slaveCallMessage_fields (r : Round) (i : Nat) (ps : PipeState) :
    (slaveCallMessage r i ps).pipeId = r.pipeId ∧
      (slaveCallMessage r i ps).nodeIndex = i + 1 ∧
      (slaveCallMessage r i ps).barrierId = add32 ps.barrierId 1 := by
  unfold slaveCallMessage
  split <;> exact ⟨rfl, rfl, rfl⟩

theorem handleMasterMessage_cases (ps : PipeState) (msg : MasterMessage) :
    (handleMasterMessage ps msg).1.barrierId = ps.barrierId ∧
      ((handleMasterMessage ps msg).2 = true →
        ps.barrierId = 0 ∨
          (ps.barrierId < msg.barrierId ∧
            (msg.messageId = MasterMessageId.BARRIER ∨
              (msg.messageId = MasterMessageId.GATHER ∧
                (handleMasterMessage ps msg).1.masterGatherValue = msg.masterValue)))) ∧
      ((handleMasterMessage ps msg).1.masterGatherValue = ps.masterGatherValue ∨
        (msg.messageId = MasterMessageId.GATHER ∧ ps.barrierId < msg.barrierId ∧
          (handleMasterMessage ps msg).1.masterGatherValue = msg.masterValue)) := by
  unfold handleMasterMessage
  cases hid : msg.messageId with
  | CONNECTION => exact ⟨rfl, fun h => by simp at h, Or.inl rfl⟩
  | PING => exact ⟨rfl, fun h => by simp at h, Or.inl rfl⟩
  | CREATEPIPE =>
    refine ⟨rfl, fun h => ?_, Or.inl rfl⟩
    left
    simpa using h
  | BARRIER =>
    refine ⟨rfl, fun h => ?_, Or.inl rfl⟩
    right
    exact ⟨by simpa using h, Or.inl rfl⟩
  | GATHER =>
    by_cases h : msg.barrierId > ps.barrierId
    · have hres : (if msg.barrierId > ps.barrierId then
          (({ ps with masterGatherValue := msg.masterValue } : PipeState), true)
          else (ps, false)) = ({ ps with masterGatherValue := msg.masterValue }, true) :=
        if_pos h
      simp only [hres]
      exact ⟨trivial, fun _ => Or.inr ⟨h, Or.inr ⟨trivial, trivial⟩⟩, Or.inr ⟨trivial, h, trivial⟩⟩
    · have hres : (if msg.barrierId > ps.barrierId then
          (({ ps with masterGatherValue := msg.masterValue } : PipeState), true)
          else (ps, false)) = (ps, false) := if_neg h
      simp only [hres]
      exact ⟨trivial, fun hf => by simp at hf, Or.inl trivial⟩

theorem syncInv_step (r : Round) (s s1 : System) (e : SysEvent) (hinv : SyncInv r s)
    (hstep : s.step r e = some s1) : SyncInv r s1 := by
  cases e with
  | masterEnter =>
    simp only [System.step] at hstep
    split at hstep
    · rename_i hp
      simp only [Option.some.injEq] at hstep
      rw [← hstep]
      exact syncInv_masterEnter r s hinv hp
    · exact absurd hstep (by simp)
  | masterPass =>
    simp only [System.step] at hstep
    split at hstep
    · rename_i hp
      split at hstep
      · rcases barrierMaster_cases r.numSlaves r.pipeId s.master s.packetPoolHead with
          h | ⟨f, h⟩ | ⟨h, h1, h2, h3, h4, _, _, h7⟩
        · simp only [h, Option.some.injEq] at hstep
          rw [← hstep]; exact hinv
        · simp only [h] at hstep
          exact absurd hstep (by simp)
        · simp only [h, h7, Option.some.injEq] at hstep
          rw [← hstep]
          exact syncInv_masterPassed r s hinv hp _ _ _ _ h1 h2 h3 h4 rfl rfl
      · rename_i value op _
        rcases gatherMaster_cases r.numSlaves r.pipeId s.master s.packetPoolHead value op with
          h | ⟨f, h⟩ | ⟨h, h1, h2, h3, h4, _, _, h7⟩
        · simp only [h, Option.some.injEq] at hstep
          rw [← hstep]; exact hinv
        · simp only [h] at hstep
          exact absurd hstep (by simp)
        · simp only [h, h7, Option.some.injEq] at hstep
          rw [← hstep]
          exact syncInv_masterPassed r s hinv hp _ _ _ _ h1 h2 h3 h4 rfl rfl
    · exact absurd hstep (by simp)
  | masterReceive k =>
    simp only [System.step] at hstep
    cases hk : s.toMaster[k]? with
    | none => rw [hk] at hstep; exact absurd hstep (by simp)
    | some msg =>
      rw [hk] at hstep
      simp only at hstep
      split at hstep
      · rename_i hp
        simp only [Option.some.injEq] at hstep
        rw [← hstep]
        have hopen : 1 ≤ s.master.barrierId := by
          have := hinv.pipeOpen
          rcases hinv.masterId with h | h <;> omega
        exact syncInv_masterReceive r s hinv msg (List.getElem?_mem hk) hp _
          (handleSlaveMessageOn_barrier s.master s.packetPoolHead msg hopen)
      · simp only [Option.some.injEq] at hstep
        rw [← hstep]; exact hinv
  | slaveEnter i =>
    rw [step_slaveEnter] at hstep
    cases hi : s.slaves[i]? with
    | none => rw [hi] at hstep; exact absurd hstep (by simp)
    | some node =>
      rw [hi] at hstep
      simp only at hstep
      split at hstep
      · rename_i hp
        simp only [Option.some.injEq] at hstep
        rw [← hstep]
        have hmem := List.getElem?_mem hi
        have hb0 : node.pipeState.barrierId = r.barrierId :=
          (hinv.slaveIds node hmem).2 (by rw [hp]; rfl)
        have hlen : i < r.numSlaves := by
          rw [← hinv.slavesLength]
          by_contra hc
          rw [List.getElem?_eq_none (by omega)] at hi
          exact absurd hi (by simp)
        obtain ⟨f1, f2, f3⟩ := slaveCallMessage_fields r i node.pipeState
        apply syncInv_slaveUpdate r s hinv i node
          { node with phase := Phase.waiting, signalled := false } _ hi (fun _ => rfl)
        · exact ⟨fun h => by simp [Phase.hasReturned] at h, fun _ => hb0⟩
        · intro h
          simp [Phase.hasReturned] at h
        · intro msg hm _ _
          rw [List.mem_singleton.mp hm, f2, f3, hb0, add32_eq_of_lt hinv.noWrap]
          exact ⟨rfl, by omega, by omega, by omega, rfl⟩
      · exact absurd hstep (by simp)
  | slaveTimeout i =>
    rw [step_slaveTimeout] at hstep
    cases hi : s.slaves[i]? with
    | none => rw [hi] at hstep; exact absurd hstep (by simp)
    | some node =>
      rw [hi] at hstep
      simp only at hstep
      split at hstep
      · rename_i hp
        simp only [Option.some.injEq] at hstep
        rw [← hstep]
        have hmem := List.getElem?_mem hi
        have hb0 : node.pipeState.barrierId = r.barrierId :=
          (hinv.slaveIds node hmem).2 (by rw [hp]; rfl)
        have hlen : i < r.numSlaves := by
          rw [← hinv.slavesLength]
          by_contra hc
          rw [List.getElem?_eq_none (by omega)] at hi
          exact absurd hi (by simp)
        obtain ⟨f1, f2, f3⟩ := slaveCallMessage_fields r i node.pipeState
        apply syncInv_slaveUpdate r s hinv i node { node with signalled := false } _ hi
          (fun h => h)
        · exact hinv.slaveIds node hmem
        · intro h
          rcases h with h | h
          · simp at h
          · exact hinv.slaveSignalled node hmem (Or.inr h)
        · intro msg hm _ _
          rw [List.mem_singleton.mp hm, f2, f3, hb0, add32_eq_of_lt hinv.noWrap]
          exact ⟨rfl, by omega, by omega, by omega, by rw [hp]; rfl⟩
      · exact absurd hstep (by simp)
  | slaveWake i =>
    rw [step_slaveWake] at hstep
    cases hi : s.slaves[i]? with
    | none => rw [hi] at hstep; exact absurd hstep (by simp)
    | some node =>
      rw [hi] at hstep
      simp only at hstep
      split at hstep
      · rename_i hp
        simp only [Option.some.injEq] at hstep
        rw [← hstep]
        have hmem := List.getElem?_mem hi
        have hb0 : node.pipeState.barrierId = r.barrierId :=
          (hinv.slaveIds node hmem).2 (by rw [hp.1]; rfl)
        have hm := hinv.slaveSignalled node hmem (Or.inl hp.2)
        have := syncInv_slaveUpdate r s hinv i node
          { pipeState := completeBarrier node.pipeState,
            phase := Phase.returned node.pipeState.masterGatherValue, signalled := false }
          [] hi (fun _ => rfl)
          ⟨fun _ => by
              show add32 node.pipeState.barrierId 1 = r.barrierId + 1
              rw [hb0]; exact add32_eq_of_lt hinv.noWrap,
            fun h => by simp [Phase.hasReturned] at h⟩
          (fun _ => hm) (fun msg h => by simp at h)
        simpa using this
      · exact absurd hstep (by simp)
  | slaveReceive i k =>
    simp only [System.step] at hstep
    cases hi : s.slaves[i]? with
    | none => rw [hi] at hstep; exact absurd hstep (by simp)
    | some node =>
      cases hk : s.toSlaves[k]? with
      | none => rw [hi, hk] at hstep; exact absurd hstep (by simp)
      | some msg =>
        rw [hi, hk] at hstep
        simp only at hstep
        split at hstep
        · rename_i hp
          simp only [Option.some.injEq] at hstep
          rw [← hstep]
          have hmem := List.getElem?_mem hi
          obtain ⟨c1, c2, _⟩ := handleMasterMessage_cases node.pipeState msg
          have hnid := hinv.slaveIds node hmem
          have hge : r.barrierId ≤ node.pipeState.barrierId := by
            cases hr : node.phase.hasReturned with
            | true => have := hnid.1 hr; omega
            | false => have := hnid.2 hr; omega
          have := syncInv_slaveUpdate r s hinv i node
            { node with
              pipeState := (handleMasterMessage node.pipeState msg).1,
              signalled := node.signalled ||
                ((handleMasterMessage node.pipeState msg).2 &&
                  decide (node.phase = Phase.waiting)) }
            [] hi (fun h => h)
            ⟨fun h => by rw [c1]; exact hnid.1 h, fun h => by rw [c1]; exact hnid.2 h⟩
            (by
              intro h
              rcases h with h | h
              · simp only [Bool.or_eq_true, Bool.and_eq_true] at h
                rcases h with h | ⟨h, _⟩
                · exact hinv.slaveSignalled node hmem (Or.inl h)
                · rcases c2 h with h0 | ⟨hlt, _⟩
                  · have := hinv.pipeOpen
                    omega
                  · exact (hinv.fromMaster msg (List.getElem?_mem hk) hp (by omega)).2
              · exact hinv.slaveSignalled node hmem (Or.inr h))
            (fun msg h => by simp at h)
          simpa using this
        · simp only [Option.some.injEq] at hstep
          rw [← hstep]; exact hinv

theorem syncInv_run (r : Round) (events : List SysEvent) (s s1 : System) (hinv : SyncInv r s)
    (hrun : System.run r s events = some s1) : SyncInv r s1 := by
  induction events generalizing s with
  | nil =>
    simp only [System.run, Option.some.injEq] at hrun
    rw [← hrun]; exact hinv
  | cons e rest ih =>
    simp only [System.run] at hrun
    cases hs : s.step r e with
    | none => rw [hs] at hrun; exact absurd hrun (by simp)
    | some s2 =>
      rw [hs] at hrun
      exact ih s2 (syncInv_step r s s2 e hinv hs) hrun

theorem hasReturned_entered (p : Phase) (h : p.hasReturned = true) : p.entered = true := by
  cases p <;> simp [Phase.hasReturned, Phase.entered] at h ⊢

/-- C6: in every state the cluster reaches from a state before the round (every node at barrier
id `r.barrierId`, every message on the socket from an earlier round), through any steps with
any loss, repetition and reordering of datagrams: when the master's call has returned, its
receiver thread has handled, from every node index 1..N, a message for the pipe carrying the
next barrier id; when a slave's call has returned, the master has sent a completion for the
next barrier id; and when any node has returned, every node has begun its call. -/
theorem barrier_totality (r : Round) (s0 s : System) (events : List SysEvent)
    (hinit : s0.Initial r) (hrun : System.run r s0 events = some s) :
    (s.masterPhase.hasReturned = true →
        ∀ i, 1 ≤ i → i ≤ r.numSlaves →
          ∃ msg ∈ s.processed,
            msg.nodeIndex = i ∧ msg.pipeId = r.pipeId ∧ r.barrierId + 1 ≤ msg.barrierId) ∧
      (∀ node ∈ s.slaves, node.phase.hasReturned = true →
        ∃ c ∈ s.toSlaves, c.pipeId = r.pipeId ∧ c.barrierId = r.barrierId + 1) ∧
      (s.masterPhase.hasReturned = true ∨ (∃ node ∈ s.slaves, node.phase.hasReturned = true) →
        s.masterPhase.entered = true ∧ ∀ node ∈ s.slaves, node.phase.entered = true) := by
  have hinv := syncInv_run r events s0 s (syncInv_initial r s0 hinit) hrun
  have hall : s.master.barrierId = r.barrierId + 1 →
      ∀ i, i < r.numSlaves → s.master.slaveBarrierIds[i]? = some (r.barrierId + 1) := by
    intro hm i hi
    have hlen : i < s.master.slaveBarrierIds.length := by rw [hinv.idsLength]; exact hi
    rw [List.getElem?_eq_getElem hlen]
    exact congrArg some (hinv.passedIds hm _ (List.getElem_mem hlen))
  refine ⟨?_, ?_, ?_⟩
  · intro hret i h1 h2
    have hm := hinv.masterReturned.mp hret
    obtain ⟨_, msg, hmsg, e1, e2, e3⟩ := hinv.idsEntered (i - 1) (hall hm (i - 1) (by omega))
    exact ⟨msg, hmsg, by omega, e2, by omega⟩
  · intro node hn hret
    exact hinv.completionSent (hinv.slaveSignalled node hn (Or.inr hret))
  · intro h
    have hm : s.master.barrierId = r.barrierId + 1 := by
      rcases h with h | ⟨node, hn, hret⟩
      · exact hinv.masterReturned.mp h
      · exact hinv.slaveSignalled node hn (Or.inr hret)
    refine ⟨hasReturned_entered _ (hinv.masterReturned.mpr hm), ?_⟩
    intro node hn
    obtain ⟨j, hj⟩ := List.mem_iff_getElem?.mp hn
    have hjlt : j < r.numSlaves := by
      rw [← hinv.slavesLength]
      by_contra hc
      rw [List.getElem?_eq_none (by omega)] at hj
      exact absurd hj (by simp)
    obtain ⟨⟨n1, hn1, he⟩, _⟩ := hinv.idsEntered j (hall hm j hjlt)
    rw [hj] at hn1
    rw [Option.some.inj hn1]
    exact he

/-! ## The gather invariant of a round -/

/-- C6 (witness): three slaves in a round of `barrier` calls with a repeated message, two
expired waits and a re-sent completion; every node returns. -/
theorem barrier_totality_witness :
    roundStart.Initial barrierRound ∧
      System.run barrierRound roundStart roundEvents = some barrierEnd ∧
      barrierEnd.masterPhase.hasReturned = true ∧
      barrierEnd.slaves.map (fun node => node.phase.hasReturned) = [true, true, true] ∧
      ((barrierEnd.masterPhase.hasReturned = true →
          ∀ i, 1 ≤ i → i ≤ barrierRound.numSlaves →
            ∃ msg ∈ barrierEnd.processed,
              msg.nodeIndex = i ∧ msg.pipeId = barrierRound.pipeId ∧
                barrierRound.barrierId + 1 ≤ msg.barrierId) ∧
        (∀ node ∈ barrierEnd.slaves, node.phase.hasReturned = true →
          ∃ c ∈ barrierEnd.toSlaves,
            c.pipeId = barrierRound.pipeId ∧ c.barrierId = barrierRound.barrierId + 1) ∧
        (barrierEnd.masterPhase.hasReturned = true ∨
            (∃ node ∈ barrierEnd.slaves, node.phase.hasReturned = true) →
          barrierEnd.masterPhase.entered = true ∧
            ∀ node ∈ barrierEnd.slaves, node.phase.entered = true)) :=
  ⟨by decide, by decide, by decide, by decide,
   barrier_totality barrierRound roundStart barrierEnd roundEvents (by decide) (by decide)⟩

theorem gatherInv_initial (r : Round) (s : System) (h : s.Initial r) : GatherInv r s := by
  obtain ⟨h1, h2, h3, h4, h5, h6, h7, h8, h9, h10, h11, h12, h13, h14, h15⟩ := h
  have hnot : s.master.barrierId ≠ r.barrierId + 1 := by omega
  refine
    { slaveCallsLength := h4, valuesLength := h8, recorded := ?_,
      masterValue := fun hm => absurd hm hnot, fromSlaves := ?_, fromMaster := ?_,
      slaveValue := ?_ }
  · intro i hi
    have := h9 _ (List.getElem?_mem hi)
    omega
  · intro msg hm _ hlt
    have := h13 msg hm
    omega
  · intro c hc _ hlt
    have := h14 c hc
    omega
  · intro node hn
    obtain ⟨_, b, c⟩ := h12 node hn
    rw [b, c]
    exact ⟨fun h => by simp at h, fun v h => by simp at h⟩

theorem gatherInv_masterEnter (r : Round) (s : System) (hsync : SyncInv r s)
    (hinv : GatherInv r s) (hp : s.masterPhase = Phase.idle) :
    GatherInv r { s with masterPhase := Phase.waiting } := by
  have hnot : s.master.barrierId ≠ r.barrierId + 1 := by
    intro h
    have := hsync.masterReturned.mpr h
    rw [hp] at this
    simp [Phase.hasReturned] at this
  exact { hinv with masterValue := fun hm => absurd hm hnot }

theorem gatherInv_masterPassed (r : Round) (s : System) (hsync : SyncInv r s)
    (hinv : GatherInv r s) (hp : s.masterPhase = Phase.waiting) (value : Nat) (op : OpCode)
    (hcall : r.masterCall = Call.gather value op)
    (ps1 : PipeState) (pool1 : List Packet) (c : MasterMessage)
    (hmin : add32 s.master.barrierId 1 ≤ s.master.minSlaveBarrierId)
    (hids : ps1.slaveBarrierIds = s.master.slaveBarrierIds)
    (hvals : ps1.slaveGatherValues = s.master.slaveGatherValues)
    (hmgv : ps1.masterGatherValue = gatherValue op value s.master.slaveGatherValues)
    (hc1 : c.messageId = MasterMessageId.GATHER)
    (hc2 : c.masterValue = gatherValue op value s.master.slaveGatherValues) :
    GatherInv r
      { s with
        master := ps1, packetPoolHead := pool1,
        masterPhase := Phase.returned (gatherValue op value s.master.slaveGatherValues),
        toSlaves := s.toSlaves ++ [c] } := by
  have hnot : s.master.barrierId ≠ r.barrierId + 1 := by
    intro h
    have := hsync.masterReturned.mpr h
    rw [hp] at this
    simp [Phase.hasReturned] at this
  have hb0 : s.master.barrierId = r.barrierId := by
    rcases hsync.masterId with h | h
    · exact h
    · exact absurd h hnot
  have hnext : add32 s.master.barrierId 1 = r.barrierId + 1 := by
    rw [hb0]; exact add32_eq_of_lt hsync.noWrap
  rw [hnext] at hmin
  have hvalues : s.master.slaveGatherValues = r.slaveCalls.map Call.value := by
    apply List.ext_getElem?
    intro i
    by_cases hi : i < r.numSlaves
    · have hlen : i < s.master.slaveBarrierIds.length := by rw [hsync.idsLength]; exact hi
      have hid : s.master.slaveBarrierIds[i]? = some (r.barrierId + 1) := by
        rw [List.getElem?_eq_getElem hlen]
        have h1 := hsync.minIds hmin _ (List.getElem_mem hlen)
        have h2 := hsync.idsLe _ (List.getElem_mem hlen)
        exact congrArg some (by omega)
      rw [hinv.recorded i hid, List.getElem?_map]
      have hcl : i < r.slaveCalls.length := by rw [hinv.slaveCallsLength]; exact hi
      rw [List.getElem?_eq_getElem hcl, List.getD_eq_getElem _ _ hcl]
      rfl
    · rw [List.getElem?_eq_none (by rw [hinv.valuesLength]; omega),
        List.getElem?_eq_none (by rw [List.length_map, hinv.slaveCallsLength]; omega)]
  have hexp : gatherValue op value s.master.slaveGatherValues = r.expected := by
    unfold Round.expected
    rw [hcall, hvalues]
  exact
    { slaveCallsLength := hinv.slaveCallsLength,
      valuesLength := by simp only [hvals]; exact hinv.valuesLength,
      recorded := by simp only [hids, hvals]; exact hinv.recorded,
      masterValue := fun _ => ⟨by simp only [hmgv, hexp], by simp only [hexp]⟩,
      fromSlaves := hinv.fromSlaves,
      fromMaster := by
        intro c1 hc hpipe hlt
        rcases List.mem_append.mp hc with h | h
        · exact hinv.fromMaster c1 h hpipe hlt
        · rw [List.mem_singleton.mp h]
          exact ⟨hc1, by rw [hc2, hexp]⟩,
      slaveValue := hinv.slaveValue }

theorem gatherInv_masterReceive (r : Round) (s : System) (hsync : SyncInv r s)
    (hinv : GatherInv r s) (msg : SlaveMessage) (hmsg : msg ∈ s.toMaster)
    (hpipe : msg.pipeId = r.pipeId) (res : PipeResult Unit)
    (heff : BarrierEffect s.master msg res) :
    GatherInv r
      { s with
        master := res.pipeState, packetPoolHead := res.packetPoolHead,
        toSlaves := s.toSlaves ++ masterMessages res.sent,
        processed := s.processed ++ [msg] } := by
  have hge : r.barrierId ≤ s.master.barrierId := by
    rcases hsync.masterId with h | h <;> omega
  rcases heff with ⟨e1, e2, _, e4, e5, hsent⟩ | ⟨hlt, hidx, e1, e5, e2, _, hsent, hval⟩
  · exact
      { slaveCallsLength := hinv.slaveCallsLength,
        valuesLength := by simp only [e4]; exact hinv.valuesLength,
        recorded := by simp only [e2, e4]; exact hinv.recorded,
        masterValue := by simp only [e1, e5]; exact hinv.masterValue,
        fromSlaves := hinv.fromSlaves,
        fromMaster := by
          intro c hc hp hl
          rcases List.mem_append.mp hc with h | h
          · exact hinv.fromMaster c h hp hl
          · rcases hsent c h with ⟨_, h0⟩ | ⟨_, hcb, hle, hkind⟩
            · omega
            · have hfresh := hsync.fromSlaves msg hmsg hpipe (by omega)
              have hg := hinv.fromSlaves msg hmsg hpipe (by omega)
              rcases hkind with ⟨_, hb⟩ | ⟨hc1, _, hc3⟩
              · rw [hg.1] at hb
                exact absurd hb (by simp)
              · have hm : s.master.barrierId = r.barrierId + 1 := by
                  have := hsync.masterId
                  omega
                exact ⟨hc1, by rw [hc3]; exact (hinv.masterValue hm).1⟩,
        slaveValue := hinv.slaveValue }
  · have hfresh := hsync.fromSlaves msg hmsg hpipe (by omega)
    obtain ⟨hb, hn1, hn2, _⟩ := hfresh
    obtain ⟨hg1, hg2⟩ := hinv.fromSlaves msg hmsg hpipe (by omega)
    have hnot : s.master.barrierId ≠ r.barrierId + 1 := by omega
    have hsub : sub32 msg.nodeIndex 1 = msg.nodeIndex - 1 :=
      sub32_eq_of_le hn1 (by have := hsync.fewSlaves; omega)
    rw [hsub] at e2 hidx hval
    rcases hval with ⟨hbar, _⟩ | ⟨_, hvidx, e4⟩
    · rw [hg1] at hbar
      exact absurd hbar (by simp)
    · exact
        { slaveCallsLength := hinv.slaveCallsLength,
          valuesLength := by simp only [e4, List.length_set]; exact hinv.valuesLength,
          recorded := by
            simp only [e2, e4]
            intro i hi
            by_cases hii : msg.nodeIndex - 1 = i
            · rw [← hii, List.getElem?_set_self hvidx, hg2]
            · rw [List.getElem?_set_ne hii] at hi ⊢
              exact hinv.recorded i hi,
          masterValue := by simp only [e1]; exact fun h => absurd h hnot,
          fromSlaves := hinv.fromSlaves,
          fromMaster := by
            simp only [hsent, List.append_nil]
            exact hinv.fromMaster,
          slaveValue := hinv.slaveValue }

theorem gatherInv_slaveUpdate (r : Round) (s : System) (hinv : GatherInv r s) (i : Nat)
    (new : SlaveNode) (extra : List SlaveMessage)
    (hnew : (new.signalled = true → new.pipeState.masterGatherValue = r.expected) ∧
      ∀ v, new.phase = Phase.returned v → v = r.expected)
    (hextra : ∀ msg ∈ extra, msg.pipeId = r.pipeId → r.barrierId < msg.barrierId →
      msg.messageId = SlaveMessageId.GATHER ∧
        msg.slaveValue = (r.slaveCalls.getD (msg.nodeIndex - 1) Call.barrier).value) :
    GatherInv r { s with slaves := s.slaves.set i new, toMaster := s.toMaster ++ extra } :=
  { slaveCallsLength := hinv.slaveCallsLength, valuesLength := hinv.valuesLength,
    recorded := hinv.recorded, masterValue := hinv.masterValue,
    fromSlaves := by
      intro msg hm hp hl
      rcases List.mem_append.mp hm with h | h
      · exact hinv.fromSlaves msg h hp hl
      · exact hextra msg h hp hl,
    fromMaster := hinv.fromMaster,
    slaveValue := by
      intro n hn
      rcases List.mem_or_eq_of_mem_set hn with h | h
      · exact hinv.slaveValue n h
      · rw [h]; exact hnew }

theorem slaveCallMessage_gather (r : Round) (i : Nat) (ps : PipeState) (hall : r.AllGather)
    (hi : i < r.slaveCalls.length) :
    (slaveCallMessage r i ps).messageId = SlaveMessageId.GATHER ∧
      (slaveCallMessage r i ps).slaveValue = (r.slaveCalls.getD i Call.barrier).value := by
  have hmem : r.slaveCalls.getD i Call.barrier ∈ r.slaveCalls := by
    rw [List.getD_eq_getElem _ _ hi]
    exact List.getElem_mem hi
  have hg := hall.2 _ hmem
  unfold slaveCallMessage
  cases hc : r.slaveCalls.getD i Call.barrier with
  | barrier => rw [hc] at hg; simp [Call.isGather] at hg
  | gather value op => exact ⟨rfl, rfl⟩

theorem gatherInv_step (r : Round) (s s1 : System) (e : SysEvent) (hall : r.AllGather)
    (hsync : SyncInv r s) (hinv : GatherInv r s) (hstep : s.step r e = some s1) :
    GatherInv r s1 := by
  cases e with
  | masterEnter =>
    simp only [System.step] at hstep
    split at hstep
    · rename_i hp
      simp only [Option.some.injEq] at hstep
      rw [← hstep]
      exact gatherInv_masterEnter r s hsync hinv hp
    · exact absurd hstep (by simp)
  | masterPass =>
    simp only [System.step] at hstep
    split at hstep
    · rename_i hp
      split at hstep
      · rename_i hcall
        have := hall.1
        rw [hcall] at this
        simp [Call.isGather] at this
      · rename_i value op hcall
        rcases gatherMaster_cases r.numSlaves r.pipeId s.master s.packetPoolHead value op with
          h | ⟨f, h⟩ | ⟨h, h1, _, h3, _, h5, h6, h7⟩
        · simp only [h, Option.some.injEq] at hstep
          rw [← hstep]; exact hinv
        · simp only [h] at hstep
          exact absurd hstep (by simp)
        · simp only [h, h7, Option.some.injEq] at hstep
          rw [← hstep]
          exact gatherInv_masterPassed r s hsync hinv hp value op hcall _ _ _ h1 h3 h5 h6
            rfl rfl
    · exact absurd hstep (by simp)
  | masterReceive k =>
    simp only [System.step] at hstep
    cases hk : s.toMaster[k]? with
    | none => rw [hk] at hstep; exact absurd hstep (by simp)
    | some msg =>
      rw [hk] at hstep
      simp only at hstep
      split at hstep
      · rename_i hp
        simp only [Option.some.injEq] at hstep
        rw [← hstep]
        have hopen : 1 ≤ s.master.barrierId := by
          have := hsync.pipeOpen
          rcases hsync.masterId with h | h <;> omega
        exact gatherInv_masterReceive r s hsync hinv msg (List.getElem?_mem hk) hp _
          (handleSlaveMessageOn_barrier s.master s.packetPoolHead msg hopen)
      · simp only [Option.some.injEq] at hstep
        rw [← hstep]; exact hinv
  | slaveEnter i =>
    rw [step_slaveEnter] at hstep
    cases hi : s.slaves[i]? with
    | none => rw [hi] at hstep; exact absurd hstep (by simp)
    | some node =>
      rw [hi] at hstep
      simp only at hstep
      split at hstep
      · simp only [Option.some.injEq] at hstep
        rw [← hstep]
        have hlen : i < r.slaveCalls.length := by
          rw [hinv.slaveCallsLength, ← hsync.slavesLength]
          by_contra hc
          rw [List.getElem?_eq_none (by omega)] at hi
          exact absurd hi (by simp)
        obtain ⟨_, f2, _⟩ := slaveCallMessage_fields r i node.pipeState
        apply gatherInv_slaveUpdate r s hinv i
          { node with phase := Phase.waiting, signalled := false } _
        · exact ⟨fun h => by simp at h, fun v h => by simp at h⟩
        · intro msg hm _ _
          rw [List.mem_singleton.mp hm, f2, Nat.add_sub_cancel]
          exact slaveCallMessage_gather r i node.pipeState hall hlen
      · exact absurd hstep (by simp)
  | slaveTimeout i =>
    rw [step_slaveTimeout] at hstep
    cases hi : s.slaves[i]? with
    | none => rw [hi] at hstep; exact absurd hstep (by simp)
    | some node =>
      rw [hi] at hstep
      simp only at hstep
      split at hstep
      · simp only [Option.some.injEq] at hstep
        rw [← hstep]
        have hmem := List.getElem?_mem hi
        have hlen : i < r.slaveCalls.length := by
          rw [hinv.slaveCallsLength, ← hsync.slavesLength]
          by_contra hc
          rw [List.getElem?_eq_none (by omega)] at hi
          exact absurd hi (by simp)
        obtain ⟨_, f2, _⟩ := slaveCallMessage_fields r i node.pipeState
        apply gatherInv_slaveUpdate r s hinv i { node with signalled := false } _
        · exact ⟨fun h => by simp at h, (hinv.slaveValue node hmem).2⟩
        · intro msg hm _ _
          rw [List.mem_singleton.mp hm, f2, Nat.add_sub_cancel]
          exact slaveCallMessage_gather r i node.pipeState hall hlen
      · exact absurd hstep (by simp)
  | slaveWake i =>
    rw [step_slaveWake] at hstep
    cases hi : s.slaves[i]? with
    | none => rw [hi] at hstep; exact absurd hstep (by simp)
    | some node =>
      rw [hi] at hstep
      simp only at hstep
      split at hstep
      · rename_i hp
        simp only [Option.some.injEq] at hstep
        rw [← hstep]
        have hmem := List.getElem?_mem hi
        have hv := (hinv.slaveValue node hmem).1 hp.2
        have := gatherInv_slaveUpdate r s hinv i
          { pipeState := completeBarrier node.pipeState,
            phase := Phase.returned node.pipeState.masterGatherValue, signalled := false }
          []
          ⟨fun h => by simp at h, fun v h => by
            simp only [Phase.returned.injEq] at h
            rw [← h]; exact hv⟩
          (fun msg h => by simp at h)
        simpa using this
      · exact absurd hstep (by simp)
  | slaveReceive i k =>
    simp only [System.step] at hstep
    cases hi : s.slaves[i]? with
    | none => rw [hi] at hstep; exact absurd hstep (by simp)
    | some node =>
      cases hk : s.toSlaves[k]? with
      | none => rw [hi, hk] at hstep; exact absurd hstep (by simp)
      | some msg =>
        rw [hi, hk] at hstep
        simp only at hstep
        split at hstep
        · rename_i hp
          simp only [Option.some.injEq] at hstep
          rw [← hstep]
          have hmem := List.getElem?_mem hi
          have hmsg := List.getElem?_mem hk
          obtain ⟨_, c2, c3⟩ := handleMasterMessage_cases node.pipeState msg
          have hnid := hsync.slaveIds node hmem
          have hge : r.barrierId ≤ node.pipeState.barrierId := by
            cases hr : node.phase.hasReturned with
            | true => have := hnid.1 hr; omega
            | false => have := hnid.2 hr; omega
          have := gatherInv_slaveUpdate r s hinv i
            { node with
              pipeState := (handleMasterMessage node.pipeState msg).1,
              signalled := node.signalled ||
                ((handleMasterMessage node.pipeState msg).2 &&
                  decide (node.phase = Phase.waiting)) }
            []
            ⟨by
              intro h
              simp only [Bool.or_eq_true, Bool.and_eq_true] at h
              rcases c3 with hsame | ⟨_, hlt, hval⟩
              · rcases h with h | ⟨h, _⟩
                · rw [hsame]; exact (hinv.slaveValue node hmem).1 h
                · rcases c2 h with h0 | ⟨hlt, hkind⟩
                  · have := hsync.pipeOpen
                    omega
                  · have hf := hinv.fromMaster msg hmsg hp (by omega)
                    rcases hkind with hb | ⟨_, hval⟩
                    · rw [hf.1] at hb
                      exact absurd hb (by simp)
                    · rw [hval]; exact hf.2
              · rw [hval]
                exact (hinv.fromMaster msg hmsg hp (by omega)).2,
             (hinv.slaveValue node hmem).2⟩
            (fun msg h => by simp at h)
          simpa using this
        · simp only [Option.some.injEq] at hstep
          rw [← hstep]; exact hinv

theorem gatherInv_run (r : Round) (events : List SysEvent) (s s1 : System) (hall : r.AllGather)
    (hsync : SyncInv r s) (hinv : GatherInv r s) (hrun : System.run r s events = some s1) :
    GatherInv r s1 := by
  induction events generalizing s with
  | nil =>
    simp only [System.run, Option.some.injEq] at hrun
    rw [← hrun]; exact hinv
  | cons e rest ih =>
    simp only [System.run] at hrun
    cases hs : s.step r e with
    | none => rw [hs] at hrun; exact absurd hrun (by simp)
    | some s2 =>
      rw [hs] at hrun
      exact ih s2 (syncInv_step r s s2 e hsync hs) (gatherInv_step r s s2 e hall hsync hinv hs)
        hrun

theorem processAcknowledgment_returns (ps : PipeState) (pool : List Packet) (i r : Nat)
    (hi : i < ps.slaveStreamPosOffsets.length) :
    ∃ ps1 pool1, processAcknowledgment ps pool i r = Except.ok (ps1, pool1) := by
  unfold processAcknowledgment
  simp only []
  split
  · rw [List.getElem?_eq_getElem hi]
    simp only []
    split
    · split
      · have hne : ps.slaveStreamPosOffsets.set i (sub32 r ps.headStreamPos) ≠ [] := by
          intro h
          have := congrArg List.length h
          rw [List.length_set] at this
          simp only [List.length_nil] at this
          omega
        obtain ⟨m, hm, _⟩ := minimumOf_spec _ hne
        rw [hm]
        exact ⟨_, _, rfl⟩
      · exact ⟨_, _, rfl⟩
    · exact ⟨_, _, rfl⟩
  · exact ⟨_, _, rfl⟩

theorem handlePacketLoss_not_found (ps : PipeState) (pool : List Packet) (msg : SlaveMessage)
    (ps1 : PipeState) (pool1 : List Packet)
    (hack : processAcknowledgment ps pool (sub32 msg.nodeIndex 1) msg.streamPos =
      Except.ok (ps1, pool1))
    (hlt : msg.streamPos < ps.streamPos)
    (hnone : ∀ p ∈ ps1.packetList.packets, p.streamPos ≠ msg.streamPos) :
    (handlePacketLoss ps pool msg).sent = [] ∧
      (((∀ p ∈ ps1.packetList.packets, p.streamPos < msg.streamPos) ∧
          (handlePacketLoss ps pool msg).status = Status.failed Fault.nullPointer) ∨
        ((∃ p ∈ ps1.packetList.packets, msg.streamPos < p.streamPos) ∧
          (handlePacketLoss ps pool msg).status = Status.failed Fault.fatalPacketLoss)) := by
  obtain ⟨_, _, _, _, _, hsp, _⟩ := processAcknowledgment_shape ps pool _ _ ps1 pool1 hack
  have hlt1 : msg.streamPos < ps1.streamPos := by rw [hsp]; exact hlt
  unfold handlePacketLoss
  rw [hack]
  simp only [if_pos hlt1]
  cases hd : ps1.packetList.packets.dropWhile (fun packet => packet.streamPos < msg.streamPos) with
  | nil =>
    refine ⟨rfl, Or.inl ⟨?_, rfl⟩⟩
    intro p hp
    have := (List.dropWhile_eq_nil_iff.mp hd) p hp
    simpa using this
  | cons packet succ =>
    have hmem : packet ∈ ps1.packetList.packets :=
      (List.dropWhile_sublist _).subset (by rw [hd]; exact List.mem_cons_self _ _)
    have hne := hnone packet hmem
    have hhead := List.head_dropWhile_not (fun packet => decide (packet.streamPos < msg.streamPos))
      ps1.packetList.packets (by rw [hd]; exact List.cons_ne_nil _ _)
    simp only [hd, List.head_cons, decide_eq_true_eq] at hhead
    have hge : ¬ packet.streamPos < msg.streamPos := of_decide_eq_false hhead
    have hgt : msg.streamPos < packet.streamPos := by omega
    simp only [if_pos hne]
    exact ⟨trivial, Or.inr ⟨⟨packet, hmem, hgt⟩, trivial⟩⟩

/-- C11: a master with one slave opens pipe 1, sends 6 bytes and completes a barrier, which
empties the send window; a `PACKETLOSS` report of position 3 (below the pipe's position 6) that
arrives afterwards finds no packet of that position.  The scan runs off the empty window and
the handler reads `packet->streamPos` through the null pointer; it does not raise the fatal
packet-loss error.  The same happens on a window whose packets all start before the reported
position. -/
theorem packetLoss_outside_window_dereferences_null :
    (((Multiplexer.new 1 0).run threeSentFlushed).findEntry 1).map
        (fun ps => (ps.streamPos, ps.packetList.packets)) = some (6, []) ∧
      (((Multiplexer.new 1 0).run threeSentFlushed).handleSlaveMessage
          (packetLossMessage 1 1 3 6)).status = Status.failed Fault.nullPointer ∧
      (((Multiplexer.new 1 0).run threeSentFlushed).handleSlaveMessage
          (packetLossMessage 1 1 3 6)).status ≠ Status.failed Fault.fatalPacketLoss ∧
      (∀ p ∈ (handlePacketLoss threeInWindow [] (packetLossMessage 1 1 8 8)).pipeState.packetList.packets,
        p.streamPos < 8) ∧
      (handlePacketLoss threeInWindow [] (packetLossMessage 1 1 8 8)).status =
        Status.failed Fault.nullPointer := by
  decide

theorem pairwise_dropWhile_split (reported : Nat) (before : List Packet) (p : Packet)
    (after : List Packet)
    (hsorted : (before ++ p :: after).Pairwise (fun a b => a.streamPos ≤ b.streamPos))
    (hp : p.streamPos = reported) (hfirst : ∀ q ∈ before, q.streamPos ≠ reported) :
    (before ++ p :: after).dropWhile (fun packet => packet.streamPos < reported) =
      p :: after := by
  induction before with
  | nil =>
    simp only [List.nil_append]
    rw [List.dropWhile_cons_of_neg]
    simp only [decide_eq_true_eq]
    omega
  | cons q rest ih =>
    simp only [List.cons_append] at hsorted ⊢
    have hq := List.rel_of_pairwise_cons hsorted
      (show p ∈ rest ++ p :: after from List.mem_append_right _ (List.mem_cons_self _ _))
    have hne := hfirst q (List.mem_cons_self _ _)
    rw [List.dropWhile_cons_of_pos (by simp only [decide_eq_true_eq]; omega)]
    exact ih (List.Pairwise.of_cons hsorted) (fun x hx => hfirst x (List.mem_cons_of_mem _ hx))

/-- On a master pipe state whose send window is in stream order, for a `PACKETLOSS`
message whose reported position is below the pipe's `streamPos`: when, in the
window left after the report has been processed as an acknowledgment, `p` is the first packet
whose `streamPos` is the reported position, the handler returns normally, the datagrams it
sends are those of `p` and of every packet after it up to the tail, each once and in window
order, each holding the packet's pipe id, stream position and `packetSize` payload bytes, and
the window and the packet pool stay as the acknowledgment left them. -/
theorem packetLoss_retransmits_from_reported (ps : PipeState) (pool : List Packet)
    (msg : SlaveMessage) (ps1 : PipeState) (pool1 : List Packet) (before : List Packet)
    (p : Packet) (after : List Packet)
    (hack : processAcknowledgment ps pool (sub32 msg.nodeIndex 1) msg.streamPos =
      Except.ok (ps1, pool1))
    (hlt : msg.streamPos < ps.streamPos)
    (hsorted : ps.WindowInOrder)
    (hsplit : ps1.packetList.packets = before ++ p :: after)
    (hp : p.streamPos = msg.streamPos)
    (hfirst : ∀ q ∈ before, q.streamPos ≠ msg.streamPos) :
    (handlePacketLoss ps pool msg).status = Status.returned () ∧
      (handlePacketLoss ps pool msg).sent =
        (p :: after).map (fun q => Datagram.data q.pipeId q.streamPos q.wireBytes) ∧
      (∀ q ∈ p :: after, q.wireBytes.length = q.packetSize) ∧
      (handlePacketLoss ps pool msg).pipeState = ps1 ∧
      (handlePacketLoss ps pool msg).packetPoolHead = pool1 := by
  obtain ⟨ack, hwin, _, _, _, hsp, _⟩ := processAcknowledgment_shape ps pool _ _ ps1 pool1 hack
  have hlt1 : msg.streamPos < ps1.streamPos := by rw [hsp]; exact hlt
  have hsorted1 : (before ++ p :: after).Pairwise (fun a b => a.streamPos ≤ b.streamPos) := by
    unfold PipeState.WindowInOrder at hsorted
    rw [hwin, hsplit] at hsorted
    exact (List.pairwise_append.mp hsorted).2.1
  have hdrop := pairwise_dropWhile_split msg.streamPos before p after hsorted1 hp hfirst
  unfold handlePacketLoss
  rw [hack]
  simp only [if_pos hlt1, hsplit, hdrop]
  have hnot : ¬ p.streamPos ≠ msg.streamPos := fun h => h hp
  simp only [if_neg hnot]
  refine ⟨trivial, rfl, ?_, trivial, trivial⟩
  intro q _
  exact wireBytes_length q

/-- C12: the pipe's stream position has wrapped, so the window holds a packet stamped
4294967294 ahead of a packet stamped 2.  Slave 1 reports the loss at position 2, which is below
the pipe's position 5 and is the position of the second packet; the acknowledgment leaves both
packets in the window.  The scan stops at the first packet, whose position is not below 2, and
the handler raises the fatal packet-loss error, although the required packet has not been
discarded, instead of sending the second packet again. -/
theorem packetLoss_fatal_after_wrap :
    (packetLossMessage 1 1 2 2).streamPos < wrappedPipe.streamPos ∧
      (∃ p ∈ (handlePacketLoss wrappedPipe [] (packetLossMessage 1 1 2 2)).pipeState.packetList.packets,
        p.streamPos = (packetLossMessage 1 1 2 2).streamPos) ∧
      (handlePacketLoss wrappedPipe [] (packetLossMessage 1 1 2 2)).status =
        Status.failed Fault.fatalPacketLoss ∧
      (handlePacketLoss wrappedPipe [] (packetLossMessage 1 1 2 2)).sent = [] := by
  decide

/-- The window holds packets at positions 4, 6 and 7; slave 1 reports the loss at position 6
and the packets at 6 and 7 are sent again. -/
theorem packetLoss_retransmits_from_reported_witness :
    threeInWindow.WindowInOrder ∧
      (handlePacketLoss threeInWindow [] (packetLossMessage 1 1 6 7)).sent =
        [Datagram.data 1 6 [3], Datagram.data 1 7 [4, 5, 6]] ∧
      (handlePacketLoss threeInWindow [] (packetLossMessage 1 1 6 7)).pipeState.packetList =
        threeInWindow.packetList :=
  have h := packetLoss_retransmits_from_reported threeInWindow [] (packetLossMessage 1 1 6 7)
    { threeInWindow with slaveStreamPosOffsets := [2, 0], numHeadSlaves := 1 } []
    [⟨1, 4, 2, [1, 2]⟩] ⟨1, 6, 1, [3]⟩ [⟨1, 7, 3, [4, 5, 6]⟩]
    rfl (by decide) (by decide) rfl rfl (by decide)
  ⟨by decide, h.2.1, by rw [h.2.2.2.1]⟩

/-! ## Pipe ids -/

theorem sendPacket_nextPipeId (m : Multiplexer) (pipeId : Nat) (packet : Packet) :
    (m.sendPacket pipeId packet).multiplexer.nextPipeId = m.nextPipeId := by
  unfold Multiplexer.sendPacket
  split <;> rfl

theorem receivePacket_nextPipeId (m : Multiplexer) (pipeId : Nat) (timedOut : Bool) :
    (m.receivePacket pipeId timedOut).multiplexer.nextPipeId = m.nextPipeId := by
  unfold Multiplexer.receivePacket
  split <;> rfl

theorem barrier_nextPipeId (m : Multiplexer) (pipeId : Nat) (signalled : Bool) :
    (m.barrier pipeId signalled).multiplexer.nextPipeId = m.nextPipeId := by
  unfold Multiplexer.barrier
  split
  · rfl
  · split <;> rfl

theorem gather_nextPipeId (m : Multiplexer) (pipeId value : Nat) (op : OpCode)
    (signalled : Bool) :
    (m.gather pipeId value op signalled).multiplexer.nextPipeId = m.nextPipeId := by
  unfold Multiplexer.gather
  split
  · rfl
  · split <;> rfl

theorem closePipe_nextPipeId (m : Multiplexer) (pipeId : Nat) (signalled : Bool) :
    (m.closePipe pipeId signalled).multiplexer.nextPipeId = m.nextPipeId := by
  have hb := barrier_nextPipeId m pipeId signalled
  unfold Multiplexer.closePipe
  simp only []
  split
  · exact hb
  · exact hb
  · split
    · exact hb
    · split
      · split
        · exact hb
        · exact hb
      · exact hb

theorem openPipeFinish_nextPipeId (m : Multiplexer) (newPipeId : Nat) (signalled : Bool) :
    (m.openPipeFinish newPipeId signalled).multiplexer.nextPipeId = m.nextPipeId := by
  unfold Multiplexer.openPipeFinish
  split
  · rfl
  · split
    · split <;> rfl
    · simp only []
      split <;> rfl

theorem handleSlaveMessage_nextPipeId (m : Multiplexer) (msg : SlaveMessage) :
    (m.handleSlaveMessage msg).multiplexer.nextPipeId = m.nextPipeId := by
  unfold Multiplexer.handleSlaveMessage
  split
  · rfl
  · rfl
  · split <;> rfl

theorem handleMasterMessage_nextPipeId (m : Multiplexer) (msg : MasterMessage) :
    (m.handleMasterMessage msg).1.nextPipeId = m.nextPipeId := by
  unfold Multiplexer.handleMasterMessage
  split
  · rfl
  · rfl
  · split <;> rfl

theorem handleDataPacket_nextPipeId (n : Node) (pipeId streamPos : Nat) (payload : List Nat)
    (constructed : Packet) :
    (n.handleDataPacket pipeId streamPos payload constructed).1.multiplexer.nextPipeId =
      n.multiplexer.nextPipeId := by
  unfold Node.handleDataPacket
  simp only []
  split
  · rfl
  · split
    · simp only [Multiplexer.newPacket, Multiplexer.allocatePacket]
      split <;> rfl
    · rfl

theorem step_nextPipeId (n : Node) (e : NodeEvent) :
    (n.step e).multiplexer.nextPipeId =
      match e with
      | NodeEvent.openPipeBegin _ => add32 n.multiplexer.nextPipeId 1
      | _ => n.multiplexer.nextPipeId := by
  cases e with
  | openPipeBegin u => rfl
  | openPipeFinish id s => exact openPipeFinish_nextPipeId _ _ _
  | closePipe id s => exact closePipe_nextPipeId _ _ _
  | sendPacket id p => exact sendPacket_nextPipeId _ _ _
  | receivePacket id t => exact receivePacket_nextPipeId _ _ _
  | barrier id s => exact barrier_nextPipeId _ _ _
  | gather id v op s => exact gather_nextPipeId _ _ _ _ _
  | setSendBufferSize k => rfl
  | slaveMessage msg =>
    simp only [Node.step]
    split
    · rfl
    · exact handleSlaveMessage_nextPipeId _ _
  | masterMessage msg =>
    simp only [Node.step]
    split
    · rfl
    · exact handleMasterMessage_nextPipeId _ _
  | dataPacket id pos payload c =>
    simp only [Node.step]
    split
    · rfl
    · split
      · rfl
      · exact handleDataPacket_nextPipeId _ _ _ _ _

theorem openPipeIds_eq (events : List NodeEvent) (n : Node) :
    openPipeIds n events =
      (List.range (openPipeCalls events)).map
        (fun i => if i = 0 then n.multiplexer.nextPipeId
          else (n.multiplexer.nextPipeId + i) % wordSize) := by
  induction events generalizing n with
  | nil => rfl
  | cons e rest ih =>
    have hstep := step_nextPipeId n e
    cases e with
    | openPipeBegin u =>
      simp only [openPipeIds, openPipeCalls]
      rw [ih, List.range_succ_eq_map, List.map_cons, List.map_map]
      simp only at hstep
      rw [hstep]
      refine congrArg₂ _ (by simp [Multiplexer.openPipeBegin]) ?_
      apply List.map_congr_left
      intro i _
      simp only [Function.comp, Nat.succ_ne_zero, if_false, add32]
      split
      · rename_i h0
        rw [h0]
      · rw [Nat.add_mod, Nat.mod_mod, ← Nat.add_mod]
        congr 1
        omega
    | openPipeFinish id s => simp only [openPipeIds, openPipeCalls]; rw [ih, hstep]
    | closePipe id s => simp only [openPipeIds, openPipeCalls]; rw [ih, hstep]
    | sendPacket id p => simp only [openPipeIds, openPipeCalls]; rw [ih, hstep]
    | receivePacket id t => simp only [openPipeIds, openPipeCalls]; rw [ih, hstep]
    | barrier id s => simp only [openPipeIds, openPipeCalls]; rw [ih, hstep]
    | gather id v op s => simp only [openPipeIds, openPipeCalls]; rw [ih, hstep]
    | setSendBufferSize k => simp only [openPipeIds, openPipeCalls]; rw [ih, hstep]
    | slaveMessage msg => simp only [openPipeIds, openPipeCalls]; rw [ih, hstep]
    | masterMessage msg => simp only [openPipeIds, openPipeCalls]; rw [ih, hstep]
    | dataPacket id pos payload c => simp only [openPipeIds, openPipeCalls]; rw [ih, hstep]

theorem openPipeFinish_returns_id (m : Multiplexer) (newPipeId : Nat) (signalled : Bool)
    (v : Nat) (h : (m.openPipeFinish newPipeId signalled).status = Status.returned v) :
    v = newPipeId := by
  unfold Multiplexer.openPipeFinish at h
  split at h
  · exact absurd h (by simp)
  · split at h
    · split at h
      · exact absurd h (by simp)
      · exact (Status.returned.inj h).symm
    · simp only [] at h
      split at h
      · exact (Status.returned.inj h).symm
      · exact absurd h (by simp)

/-! ## The pipe table -/

theorem lookup_filter_self {β : Type} (l : List (Nat × β)) (k : Nat) :
    (l.filter (fun e => e.1 ≠ k)).lookup k = none := by
  induction l with
  | nil => rfl
  | cons e rest ih =>
    obtain ⟨a, b⟩ := e
    by_cases h : a = k
    · rw [List.filter_cons_of_neg (by simp [h])]
      exact ih
    · rw [List.filter_cons_of_pos (by simp [h]), List.lookup_cons]
      have : (k == a) = false := by simp [Ne.symm h]
      rw [this]
      exact ih

theorem lookup_filter_other {β : Type} (l : List (Nat × β)) (k q : Nat) (hq : q ≠ k) :
    (l.filter (fun e => e.1 ≠ k)).lookup q = l.lookup q := by
  induction l with
  | nil => rfl
  | cons e rest ih =>
    obtain ⟨a, b⟩ := e
    by_cases h : a = k
    · rw [List.filter_cons_of_neg (by simp [h]), List.lookup_cons]
      have : (q == a) = false := by simp [h, hq]
      rw [this]
      exact ih
    · rw [List.filter_cons_of_pos (by simp [h]), List.lookup_cons, List.lookup_cons, ih]

theorem lookup_write_same {β : Type} (l : List (Nat × β)) (k : Nat) (v w : β)
    (h : l.lookup k = some v) :
    (l.map (fun e => if e.1 = k then (e.1, w) else e)).lookup k = some w := by
  induction l with
  | nil => exact absurd h (by simp)
  | cons e rest ih =>
    obtain ⟨a, b⟩ := e
    rw [List.lookup_cons] at h
    rw [List.map_cons]
    by_cases hk : a = k
    · simp only [hk, if_true]
      rw [List.lookup_cons]
      simp
    · simp only [if_neg hk]
      have : (k == a) = false := by simp [Ne.symm hk]
      rw [List.lookup_cons, this]
      rw [this] at h
      exact ih h

theorem lookup_write_other {β : Type} (l : List (Nat × β)) (k q : Nat) (w : β) (hq : q ≠ k) :
    (l.map (fun e => if e.1 = k then (e.1, w) else e)).lookup q = l.lookup q := by
  induction l with
  | nil => rfl
  | cons e rest ih =>
    obtain ⟨a, b⟩ := e
    rw [List.map_cons]
    by_cases hk : a = k
    · simp only [hk, if_true]
      have : (q == k) = false := by simp [hq]
      rw [List.lookup_cons, List.lookup_cons, this]
      exact ih
    · simp only [if_neg hk]
      rw [List.lookup_cons, List.lookup_cons, ih]

theorem filter_write {β : Type} (l : List (Nat × β)) (k : Nat) (w : β) :
    (l.map (fun e => if e.1 = k then (e.1, w) else e)).filter (fun e => e.1 ≠ k) =
      l.filter (fun e => e.1 ≠ k) := by
  induction l with
  | nil => rfl
  | cons e rest ih =>
    obtain ⟨a, b⟩ := e
    rw [List.map_cons]
    by_cases hk : a = k
    · simp only [hk, if_true]
      rw [List.filter_cons_of_neg (by simp), List.filter_cons_of_neg (by simp)]
      exact ih
    · simp only [if_neg hk]
      rw [List.filter_cons_of_pos (by simp [hk]), List.filter_cons_of_pos (by simp [hk]), ih]

theorem findEntry_writePipe_same (m : Multiplexer) (pipeId : Nat) (ps ps1 : PipeState)
    (pool : List Packet) (h : m.findEntry pipeId = some ps) :
    (m.writePipe pipeId ps1 pool).findEntry pipeId = some ps1 :=
  lookup_write_same m.pipeStateTable pipeId ps ps1 h

theorem findEntry_writePipe_other (m : Multiplexer) (pipeId q : Nat) (ps1 : PipeState)
    (pool : List Packet) (hq : q ≠ pipeId) :
    (m.writePipe pipeId ps1 pool).findEntry q = m.findEntry q :=
  lookup_write_other m.pipeStateTable pipeId q ps1 hq

theorem closedPipe_outcomes (m : Multiplexer) (pipeId : Nat) (h : m.findEntry pipeId = none) :
    (∀ packet, (m.sendPacket pipeId packet).status = Status.failed Fault.closedPipe) ∧
      (∀ timedOut, (m.receivePacket pipeId timedOut).status = Status.failed Fault.closedPipe) ∧
      (∀ signalled, (m.barrier pipeId signalled).status = Status.failed Fault.closedPipe) ∧
      (∀ value op signalled,
        (m.gather pipeId value op signalled).status = Status.failed Fault.closedPipe) ∧
      (∀ signalled, (m.closePipe pipeId signalled).status = Status.failed Fault.closedPipe) := by
  have hb : ∀ signalled, m.barrier pipeId signalled = m.closed := by
    intro signalled
    unfold Multiplexer.barrier; rw [h]
  refine ⟨?_, ?_, ?_, ?_, ?_⟩
  · intro packet; unfold Multiplexer.sendPacket; rw [h]; rfl
  · intro timedOut; unfold Multiplexer.receivePacket; rw [h]; rfl
  · intro signalled; rw [hb]; rfl
  · intro value op signalled; unfold Multiplexer.gather; rw [h]; rfl
  · intro signalled; unfold Multiplexer.closePipe; rw [hb]; rfl

theorem barrier_returned_shape (m : Multiplexer) (pipeId : Nat) (signalled : Bool)
    (ps : PipeState) (hfind : m.findEntry pipeId = some ps)
    (hcons : ps.packetList.Consistent)
    (hpass : (m.barrier pipeId signalled).status = Status.returned ()) :
    ∃ ps1 pool1,
      (m.barrier pipeId signalled).multiplexer = m.writePipe pipeId ps1 pool1 ∧
        ps1.packetList.Consistent ∧
        ps1.packetList.packets ++ pool1 = ps.packetList.packets ++ m.packetPoolHead := by
  unfold Multiplexer.barrier at hpass ⊢
  rw [hfind] at hpass ⊢
  simp only [] at hpass ⊢
  split at hpass
  · rename_i h0
    rw [if_pos h0]
    rcases barrierMaster_cases m.numSlaves pipeId ps m.packetPoolHead with h | ⟨f, h⟩ | ⟨_, hle, _⟩
    · simp only [Multiplexer.store] at hpass
      rw [h] at hpass
      exact absurd hpass (by simp)
    · simp only [Multiplexer.store] at hpass
      rw [h] at hpass
      exact absurd hpass (by simp)
    · rw [barrierMaster_passes m.numSlaves pipeId ps m.packetPoolHead hcons (by omega)]
      exact ⟨_, _, rfl, rfl, rfl⟩
  · rename_i h0
    rw [if_neg h0]
    cases signalled with
    | false =>
      simp [Multiplexer.store, barrierSlave] at hpass
    | true =>
      exact ⟨_, _, rfl, hcons, rfl⟩

/-- C14: when the pipe table holds pipe `p` (with a packet list whose counter agrees with its
chain) and the barrier inside `closePipe(p)` passes, `closePipe` returns, the table afterwards is
the table before without `p` (every other pipe is found as before, with its state unchanged),
the pool afterwards is the packets that were queued on `p`, in queue order, followed by the
pool before, and `p` is not found any more: `sendPacket`, `receivePacket`, `barrier`, `gather`
and `closePipe` on `p` fail with the unknown-pipe error. -/
theorem closePipe_removes_pipe (m : Multiplexer) (pipeId : Nat) (signalled : Bool)
    (ps : PipeState) (hfind : m.findEntry pipeId = some ps)
    (hcons : ps.packetList.Consistent)
    (hpass : (m.barrier pipeId signalled).status = Status.returned ()) :
    (m.closePipe pipeId signalled).status = Status.returned () ∧
      (m.closePipe pipeId signalled).multiplexer.pipeStateTable =
        m.pipeStateTable.filter (fun e => e.1 ≠ pipeId) ∧
      (∀ q, q ≠ pipeId →
        (m.closePipe pipeId signalled).multiplexer.findEntry q = m.findEntry q) ∧
      (m.closePipe pipeId signalled).multiplexer.packetPoolHead =
        ps.packetList.packets ++ m.packetPoolHead ∧
      (m.closePipe pipeId signalled).multiplexer.findEntry pipeId = none ∧
      (∀ packet, ((m.closePipe pipeId signalled).multiplexer.sendPacket pipeId packet).status =
        Status.failed Fault.closedPipe) ∧
      (∀ timedOut,
        ((m.closePipe pipeId signalled).multiplexer.receivePacket pipeId timedOut).status =
          Status.failed Fault.closedPipe) ∧
      (∀ again, ((m.closePipe pipeId signalled).multiplexer.barrier pipeId again).status =
        Status.failed Fault.closedPipe) ∧
      (∀ value op again,
        ((m.closePipe pipeId signalled).multiplexer.gather pipeId value op again).status =
          Status.failed Fault.closedPipe) ∧
      (∀ again, ((m.closePipe pipeId signalled).multiplexer.closePipe pipeId again).status =
        Status.failed Fault.closedPipe) := by
  obtain ⟨ps1, pool1, hm, hcons1, hpool⟩ :=
    barrier_returned_shape m pipeId signalled ps hfind hcons hpass
  have hfind1 := findEntry_writePipe_same m pipeId ps ps1 pool1 hfind
  have hclose : (m.closePipe pipeId signalled).status = Status.returned () ∧
      (m.closePipe pipeId signalled).multiplexer.pipeStateTable =
        m.pipeStateTable.filter (fun e => e.1 ≠ pipeId) ∧
      (m.closePipe pipeId signalled).multiplexer.packetPoolHead =
        ps.packetList.packets ++ m.packetPoolHead := by
    unfold Multiplexer.closePipe
    simp only [hpass, hm, hfind1]
    have htable : (m.writePipe pipeId ps1 pool1).pipeStateTable.filter (fun e => e.1 ≠ pipeId) =
        m.pipeStateTable.filter (fun e => e.1 ≠ pipeId) :=
      filter_write m.pipeStateTable pipeId ps1
    unfold PacketList.Consistent at hcons1
    split
    · rename_i hpos
      cases hl : ps1.packetList.packets with
      | nil => rw [hl] at hcons1; simp only [List.length_nil] at hcons1; omega
      | cons a rest =>
        have htail : ps1.packetList.tail = some ((a :: rest).getLast (List.cons_ne_nil _ _)) := by
          unfold PacketList.tail
          rw [hl, List.getLast?_eq_getLast]
        rw [htail]
        simp only []
        exact ⟨trivial, htable, by rw [← hpool, hl]; rfl⟩
    · rename_i hzero
      have hnil : ps1.packetList.packets = [] := by
        apply List.eq_nil_of_length_eq_zero
        omega
      exact ⟨rfl, htable, by rw [← hpool, hnil]; rfl⟩
  obtain ⟨h1, h2, h3⟩ := hclose
  have hnone : (m.closePipe pipeId signalled).multiplexer.findEntry pipeId = none := by
    unfold Multiplexer.findEntry
    rw [h2]
    exact lookup_filter_self _ _
  obtain ⟨c1, c2, c3, c4, c5⟩ := closedPipe_outcomes _ pipeId hnone
  refine ⟨h1, h2, ?_, h3, hnone, c1, c2, c3, c4, c5⟩
  intro q hq
  unfold Multiplexer.findEntry
  rw [h2]
  exact lookup_filter_other _ _ _ hq

/-- C14 (witness): a master with pipes 1 and 2 open closes pipe 1, which holds two packets:
pipe 2 stays in the table with its packet, and the two packets of pipe 1 are in the pool. -/
theorem closePipe_removes_pipe_witness :
    (twoPipesOpen.closePipe 1 false).status = Status.returned () ∧
      (twoPipesOpen.closePipe 1 false).multiplexer.findEntry 2 = twoPipesOpen.findEntry 2 ∧
      (twoPipesOpen.closePipe 1 false).multiplexer.pipeStateTable.map Prod.fst = [2] ∧
      (twoPipesOpen.closePipe 1 false).multiplexer.packetPoolHead =
        [⟨1, 0, 2, [1, 2]⟩, ⟨1, 2, 1, [3]⟩] :=
  have h := closePipe_removes_pipe twoPipesOpen 1 false ((twoPipesOpen.findEntry 1).getD {})
    (by decide) (by decide) (by decide)
  ⟨h.1, h.2.2.1 2 (by decide), by decide, by decide⟩

/-! ## Pipe-id independence -/

theorem processAcknowledgment_pool (ps : PipeState) (pool1 pool2 : List Packet) (i r : Nat) :
    (processAcknowledgment ps pool1 i r).map Prod.fst =
      (processAcknowledgment ps pool2 i r).map Prod.fst := by
  unfold processAcknowledgment
  simp only []
  split
  · split
    · rfl
    · split
      · split
        · split <;> rfl
        · rfl
      · rfl
  · rfl

theorem handleSlaveMessageOn_pool (ps : PipeState) (pool1 pool2 : List Packet)
    (msg : SlaveMessage) :
    (handleSlaveMessageOn ps pool1 msg).pipeState =
      (handleSlaveMessageOn ps pool2 msg).pipeState := by
  have hack := processAcknowledgment_pool ps pool1 pool2 (sub32 msg.nodeIndex 1) msg.streamPos
  unfold handleSlaveMessageOn
  split
  · unfold handleCreatePipe
    split
    · rfl
    · unfold PipeResult.ofExcept
      split <;> rfl
  · unfold handleAcknowledgment
    cases h1 : processAcknowledgment ps pool1 (sub32 msg.nodeIndex 1) msg.streamPos with
    | error f1 =>
      cases h2 : processAcknowledgment ps pool2 (sub32 msg.nodeIndex 1) msg.streamPos with
      | error f2 => rfl
      | ok r2 => rw [h1, h2] at hack; exact absurd hack (by simp [Except.map])
    | ok r1 =>
      cases h2 : processAcknowledgment ps pool2 (sub32 msg.nodeIndex 1) msg.streamPos with
      | error f2 => rw [h1, h2] at hack; exact absurd hack (by simp [Except.map])
      | ok r2 =>
        rw [h1, h2] at hack
        simp only [Except.map, Except.ok.injEq] at hack
        exact hack
  · unfold handlePacketLoss
    cases h1 : processAcknowledgment ps pool1 (sub32 msg.nodeIndex 1) msg.streamPos with
    | error f1 =>
      cases h2 : processAcknowledgment ps pool2 (sub32 msg.nodeIndex 1) msg.streamPos with
      | error f2 => rfl
      | ok r2 => rw [h1, h2] at hack; exact absurd hack (by simp [Except.map])
    | ok r1 =>
      cases h2 : processAcknowledgment ps pool2 (sub32 msg.nodeIndex 1) msg.streamPos with
      | error f2 => rw [h1, h2] at hack; exact absurd hack (by simp [Except.map])
      | ok r2 =>
        rw [h1, h2] at hack
        simp only [Except.map, Except.ok.injEq] at hack
        obtain ⟨a1, b1⟩ := r1
        obtain ⟨a2, b2⟩ := r2
        simp only at hack
        subst hack
        simp only []
        split
        · split
          · rfl
          · split <;> rfl
        · rfl
  · unfold handleBarrier
    split
    · rfl
    · unfold PipeResult.ofExcept
      split <;> rfl
  · unfold handleGather
    split
    · rfl
    · simp only []
      split
      · split
        · unfold PipeResult.ofExcept
          split <;> rfl
        · rfl
      · rfl
  · rfl

theorem flushSendWindow_pool (numSlaves : Nat) (ps : PipeState) (pool1 pool2 : List Packet) :
    (flushSendWindow numSlaves ps pool1).map Prod.fst =
      (flushSendWindow numSlaves ps pool2).map Prod.fst := by
  unfold flushSendWindow
  simp only []
  split
  · split <;> rfl
  · rfl

theorem barrierMaster_pool (numSlaves pipeId : Nat) (ps : PipeState)
    (pool1 pool2 : List Packet) :
    (barrierMaster numSlaves pipeId ps pool1).pipeState =
        (barrierMaster numSlaves pipeId ps pool2).pipeState ∧
      (barrierMaster numSlaves pipeId ps pool1).status =
        (barrierMaster numSlaves pipeId ps pool2).status := by
  have hf := flushSendWindow_pool numSlaves ps pool1 pool2
  unfold barrierMaster
  simp only []
  split
  · exact ⟨rfl, rfl⟩
  · cases h1 : flushSendWindow numSlaves ps pool1 with
    | error f1 =>
      cases h2 : flushSendWindow numSlaves ps pool2 with
      | error f2 =>
        rw [h1, h2] at hf
        simp only [Except.map, Except.error.injEq] at hf
        rw [hf]
        exact ⟨rfl, rfl⟩
      | ok r2 => rw [h1, h2] at hf; exact absurd hf (by simp [Except.map])
    | ok r1 =>
      cases h2 : flushSendWindow numSlaves ps pool2 with
      | error f2 => rw [h1, h2] at hf; exact absurd hf (by simp [Except.map])
      | ok r2 =>
        rw [h1, h2] at hf
        simp only [Except.map, Except.ok.injEq] at hf
        obtain ⟨a1, b1⟩ := r1
        obtain ⟨a2, b2⟩ := r2
        simp only at hf
        subst hf
        exact ⟨rfl, rfl⟩

theorem gatherMaster_pool (numSlaves pipeId : Nat) (ps : PipeState)
    (pool1 pool2 : List Packet) (value : Nat) (op : OpCode) :
    (gatherMaster numSlaves pipeId ps pool1 value op).pipeState =
        (gatherMaster numSlaves pipeId ps pool2 value op).pipeState ∧
      (gatherMaster numSlaves pipeId ps pool1 value op).status =
        (gatherMaster numSlaves pipeId ps pool2 value op).status := by
  have hf := flushSendWindow_pool numSlaves
    { ps with masterGatherValue := gatherValue op value ps.slaveGatherValues } pool1 pool2
  unfold gatherMaster
  simp only []
  split
  · exact ⟨rfl, rfl⟩
  · cases h1 : flushSendWindow numSlaves
        { ps with masterGatherValue := gatherValue op value ps.slaveGatherValues } pool1 with
    | error f1 =>
      cases h2 : flushSendWindow numSlaves
          { ps with masterGatherValue := gatherValue op value ps.slaveGatherValues } pool2 with
      | error f2 =>
        rw [h1, h2] at hf
        simp only [Except.map, Except.error.injEq] at hf
        rw [hf]
        exact ⟨rfl, rfl⟩
      | ok r2 => rw [h1, h2] at hf; exact absurd hf (by simp [Except.map])
    | ok r1 =>
      cases h2 : flushSendWindow numSlaves
          { ps with masterGatherValue := gatherValue op value ps.slaveGatherValues } pool2 with
      | error f2 => rw [h1, h2] at hf; exact absurd hf (by simp [Except.map])
      | ok r2 =>
        rw [h1, h2] at hf
        simp only [Except.map, Except.ok.injEq] at hf
        obtain ⟨a1, b1⟩ := r1
        obtain ⟨a2, b2⟩ := r2
        simp only at hf
        subst hf
        exact ⟨rfl, rfl⟩

theorem handleDataPacket_sendAckIn (numSlaves nodeIndex burst : Nat) (ps : PipeState)
    (a1 a2 : Nat) (packet : Packet) :
    (handleDataPacket numSlaves nodeIndex burst ps a1 packet).pipeState =
        (handleDataPacket numSlaves nodeIndex burst ps a2 packet).pipeState ∧
      (handleDataPacket numSlaves nodeIndex burst ps a1 packet).queued =
        (handleDataPacket numSlaves nodeIndex burst ps a2 packet).queued := by
  unfold handleDataPacket
  split
  · split <;> exact ⟨rfl, rfl⟩
  · exact ⟨rfl, rfl⟩

theorem sameConfig_refl (m : Multiplexer) : m.SameConfig m := ⟨rfl, rfl, rfl, rfl, rfl⟩

theorem onlyPipe_refl (p : Nat) (m : Multiplexer) : m.OnlyPipe p m :=
  ⟨sameConfig_refl m, fun _ _ => rfl⟩

theorem onlyPipe_writePipe (p : Nat) (m : Multiplexer) (ps : PipeState) (pool : List Packet) :
    m.OnlyPipe p (m.writePipe p ps pool) :=
  ⟨⟨rfl, rfl, rfl, rfl, rfl⟩, fun q hq => findEntry_writePipe_other m p q ps pool hq⟩

theorem onlyPipe_pool (p : Nat) (a b : Multiplexer) (pool : List Packet)
    (h : a.OnlyPipe p b) : a.OnlyPipe p { b with packetPoolHead := pool } :=
  ⟨h.1, h.2⟩

theorem onlyPipe_newPacket (p : Nat) (a b : Multiplexer) (constructed : Packet)
    (h : a.OnlyPipe p b) : a.OnlyPipe p (b.newPacket constructed).2 := by
  unfold Multiplexer.newPacket
  split
  · exact h
  · exact onlyPipe_pool p a b _ h

theorem step_onlyPipe (n : Node) (e : NodeEvent) (p : Nat) (he : e.pipeId = some p) :
    n.multiplexer.OnlyPipe p (n.step e).multiplexer := by
  cases e with
  | openPipeBegin u => exact absurd he (by simp [NodeEvent.pipeId])
  | openPipeFinish id s => exact absurd he (by simp [NodeEvent.pipeId])
  | closePipe id s => exact absurd he (by simp [NodeEvent.pipeId])
  | setSendBufferSize k => exact absurd he (by simp [NodeEvent.pipeId])
  | sendPacket id packet =>
    have hid : id = p := by simpa [NodeEvent.pipeId] using he
    subst hid
    simp only [Node.step, Multiplexer.sendPacket]
    split
    · exact onlyPipe_refl _ _
    · exact onlyPipe_writePipe _ _ _ _
  | receivePacket id t =>
    have hid : id = p := by simpa [NodeEvent.pipeId] using he
    subst hid
    simp only [Node.step, Multiplexer.receivePacket]
    split
    · exact onlyPipe_refl _ _
    · exact onlyPipe_writePipe _ _ _ _
  | barrier id s =>
    have hid : id = p := by simpa [NodeEvent.pipeId] using he
    subst hid
    simp only [Node.step, Multiplexer.barrier]
    split
    · exact onlyPipe_refl _ _
    · split <;> exact onlyPipe_writePipe _ _ _ _
  | gather id v op s =>
    have hid : id = p := by simpa [NodeEvent.pipeId] using he
    subst hid
    simp only [Node.step, Multiplexer.gather]
    split
    · exact onlyPipe_refl _ _
    · split <;> exact onlyPipe_writePipe _ _ _ _
  | slaveMessage msg =>
    simp only [NodeEvent.pipeId] at he
    simp only [Node.step]
    split
    · exact onlyPipe_refl _ _
    · simp only [Multiplexer.handleSlaveMessage]
      split
      · exact onlyPipe_refl _ _
      · exact onlyPipe_refl _ _
      · have hid : msg.pipeId = p := by
          split at he
          · exact absurd he (by simp)
          · exact absurd he (by simp)
          · exact Option.some.inj he
        rw [hid]
        split
        · exact onlyPipe_refl _ _
        · exact onlyPipe_writePipe _ _ _ _
  | masterMessage msg =>
    simp only [NodeEvent.pipeId] at he
    simp only [Node.step]
    split
    · exact onlyPipe_refl _ _
    · simp only [Multiplexer.handleMasterMessage]
      split
      · exact onlyPipe_refl _ _
      · exact onlyPipe_refl _ _
      · have hid : msg.pipeId = p := by
          split at he
          · exact absurd he (by simp)
          · exact absurd he (by simp)
          · exact Option.some.inj he
        rw [hid]
        split
        · exact onlyPipe_refl _ _
        · exact onlyPipe_writePipe _ _ _ _
  | dataPacket id pos payload c =>
    have hid : id = p := by simpa [NodeEvent.pipeId] using he
    subst hid
    simp only [Node.step]
    split
    · exact onlyPipe_refl _ _
    · split
      · exact onlyPipe_refl _ _
      · unfold Node.handleDataPacket
        simp only []
        split
        · exact onlyPipe_refl _ _
        · split
          · exact onlyPipe_newPacket _ _ _ _ (onlyPipe_writePipe _ _ _ _)
          · exact onlyPipe_writePipe _ _ _ _

theorem step_view_other (n : Node) (e : NodeEvent) (p q : Nat) (he : e.pipeId = some p)
    (hpq : p ≠ q) : (n.step e).pipeView q = n.pipeView q := by
  obtain ⟨⟨h1, h2, h3, h4, h5⟩, hentry⟩ := step_onlyPipe n e p he
  unfold Node.pipeView
  rw [h1, h2, h3, h4, h5, hentry q (Ne.symm hpq)]

theorem newPacket_findEntry (m : Multiplexer) (constructed : Packet) (q : Nat) :
    (m.newPacket constructed).2.findEntry q = m.findEntry q := by
  unfold Multiplexer.newPacket
  split <;> rfl

theorem sendPacketOn_pool (size pipeId : Nat) (ps : PipeState) (pool1 pool2 : List Packet)
    (packet : Packet) :
    (sendPacketOn size pipeId ps pool1 packet).pipeState =
      (sendPacketOn size pipeId ps pool2 packet).pipeState := by
  unfold sendPacketOn
  split <;> rfl

theorem step_entry_congr (n1 n2 : Node) (e : NodeEvent) (q : Nat)
    (hv : n1.pipeView q = n2.pipeView q) (hend : n1.receiverEnded = n2.receiverEnded)
    (he : e.pipeId = some q) :
    (n1.step e).multiplexer.findEntry q = (n2.step e).multiplexer.findEntry q := by
  unfold Node.pipeView at hv
  simp only [Prod.mk.injEq] at hv
  obtain ⟨hf, hN, hidx, hsize, hmb, hsb⟩ := hv
  cases e with
  | openPipeBegin u => exact absurd he (by simp [NodeEvent.pipeId])
  | openPipeFinish id s => exact absurd he (by simp [NodeEvent.pipeId])
  | closePipe id s => exact absurd he (by simp [NodeEvent.pipeId])
  | setSendBufferSize k => exact absurd he (by simp [NodeEvent.pipeId])
  | sendPacket id packet =>
    have hid : id = q := by simpa [NodeEvent.pipeId] using he
    subst hid
    simp only [Node.step, Multiplexer.sendPacket]
    rw [hf, hsize]
    cases h2 : n2.multiplexer.findEntry id with
    | none => rw [h2] at hf; simp only [Multiplexer.closed]; rw [hf, h2]
    | some ps =>
      simp only [Multiplexer.store]
      rw [findEntry_writePipe_same _ _ ps _ _ (hf.trans h2),
        findEntry_writePipe_same _ _ ps _ _ h2,
        sendPacketOn_pool _ _ _ n1.multiplexer.packetPoolHead n2.multiplexer.packetPoolHead]
  | receivePacket id t =>
    have hid : id = q := by simpa [NodeEvent.pipeId] using he
    subst hid
    simp only [Node.step, Multiplexer.receivePacket]
    rw [hf, hidx, hsb]
    cases h2 : n2.multiplexer.findEntry id with
    | none => rw [h2] at hf; simp only [Multiplexer.closed]; rw [hf, h2]
    | some ps =>
      simp only []
      rw [findEntry_writePipe_same _ _ ps _ _ (hf.trans h2),
        findEntry_writePipe_same _ _ ps _ _ h2]
  | barrier id s =>
    have hid : id = q := by simpa [NodeEvent.pipeId] using he
    subst hid
    simp only [Node.step, Multiplexer.barrier]
    rw [hf, hidx, hN]
    cases h2 : n2.multiplexer.findEntry id with
    | none => rw [h2] at hf; simp only [Multiplexer.closed]; rw [hf, h2]
    | some ps =>
      simp only []
      split
      · simp only [Multiplexer.store]
        rw [findEntry_writePipe_same _ _ ps _ _ (hf.trans h2),
          findEntry_writePipe_same _ _ ps _ _ h2,
          (barrierMaster_pool _ _ _ n1.multiplexer.packetPoolHead
            n2.multiplexer.packetPoolHead).1]
      · simp only [Multiplexer.store]
        rw [findEntry_writePipe_same _ _ ps _ _ (hf.trans h2),
          findEntry_writePipe_same _ _ ps _ _ h2]
        rfl
  | gather id v op s =>
    have hid : id = q := by simpa [NodeEvent.pipeId] using he
    subst hid
    simp only [Node.step, Multiplexer.gather]
    rw [hf, hidx, hN]
    cases h2 : n2.multiplexer.findEntry id with
    | none => rw [h2] at hf; simp only [Multiplexer.closed]; rw [hf, h2]
    | some ps =>
      simp only []
      split
      · simp only [Multiplexer.store]
        rw [findEntry_writePipe_same _ _ ps _ _ (hf.trans h2),
          findEntry_writePipe_same _ _ ps _ _ h2,
          (gatherMaster_pool _ _ _ n1.multiplexer.packetPoolHead
            n2.multiplexer.packetPoolHead _ _).1]
      · simp only [Multiplexer.store]
        rw [findEntry_writePipe_same _ _ ps _ _ (hf.trans h2),
          findEntry_writePipe_same _ _ ps _ _ h2]
        rfl
  | slaveMessage msg =>
    simp only [NodeEvent.pipeId] at he
    simp only [Node.step]
    rw [hend]
    cases hr : n2.receiverEnded with
    | true => simp only [if_true]; exact hf
    | false =>
      simp only [Bool.false_eq_true, if_false, Multiplexer.handleSlaveMessage]
      split
      · exact hf
      · exact hf
      · have hid : msg.pipeId = q := by
          split at he
          · exact absurd he (by simp)
          · exact absurd he (by simp)
          · exact Option.some.inj he
        rw [hid, hf]
        cases h2 : n2.multiplexer.findEntry q with
        | none => rw [h2] at hf; simp only []; rw [hf, h2]
        | some ps =>
          simp only [Multiplexer.store]
          rw [findEntry_writePipe_same _ _ ps _ _ (hf.trans h2),
            findEntry_writePipe_same _ _ ps _ _ h2,
            handleSlaveMessageOn_pool _ n1.multiplexer.packetPoolHead
              n2.multiplexer.packetPoolHead]
  | masterMessage msg =>
    simp only [NodeEvent.pipeId] at he
    simp only [Node.step]
    rw [hend]
    cases hr : n2.receiverEnded with
    | true => simp only [if_true]; exact hf
    | false =>
      simp only [Bool.false_eq_true, if_false, Multiplexer.handleMasterMessage]
      split
      · exact hf
      · exact hf
      · have hid : msg.pipeId = q := by
          split at he
          · exact absurd he (by simp)
          · exact absurd he (by simp)
          · exact Option.some.inj he
        rw [hid, hf]
        cases h2 : n2.multiplexer.findEntry q with
        | none => rw [h2] at hf; simp only []; rw [hf, h2]
        | some ps =>
          simp only []
          rw [findEntry_writePipe_same _ _ ps _ _ (hf.trans h2),
            findEntry_writePipe_same _ _ ps _ _ h2]
  | dataPacket id pos payload c =>
    have hid : id = q := by simpa [NodeEvent.pipeId] using he
    subst hid
    simp only [Node.step]
    rw [hend]
    cases hr : n2.receiverEnded with
    | true => simp only [if_true]; exact hf
    | false =>
      simp only [Bool.false_eq_true, if_false]
      split
      · exact hf
      · unfold Node.handleDataPacket
        simp only []
        rw [hf, hN, hidx, hsb]
        cases h2 : n2.multiplexer.findEntry id with
        | none => rw [h2] at hf; simp only []; rw [hf, h2]
        | some ps =>
          simp only []
          obtain ⟨hps, hqd⟩ := handleDataPacket_sendAckIn n2.multiplexer.numSlaves
            n2.multiplexer.nodeIndex n2.multiplexer.slaveMessageBurstSize ps n1.sendAckIn
            n2.sendAckIn (Packet.received id pos payload)
          rw [hqd]
          split
          · simp only []
            rw [newPacket_findEntry, newPacket_findEntry,
              findEntry_writePipe_same _ _ ps _ _ (hf.trans h2),
              findEntry_writePipe_same _ _ ps _ _ h2, hps]
          · simp only []
            rw [findEntry_writePipe_same _ _ ps _ _ (hf.trans h2),
              findEntry_writePipe_same _ _ ps _ _ h2, hps]

theorem step_view_congr (n1 n2 : Node) (e : NodeEvent) (q : Nat)
    (hv : n1.pipeView q = n2.pipeView q) (hend : n1.receiverEnded = n2.receiverEnded)
    (he : e.pipeId = some q) :
    (n1.step e).pipeView q = (n2.step e).pipeView q := by
  have hentry := step_entry_congr n1 n2 e q hv hend he
  obtain ⟨⟨a1, a2, a3, a4, a5⟩, _⟩ := step_onlyPipe n1 e q he
  obtain ⟨⟨b1, b2, b3, b4, b5⟩, _⟩ := step_onlyPipe n2 e q he
  unfold Node.pipeView at hv ⊢
  simp only [Prod.mk.injEq] at hv
  obtain ⟨_, hN, hidx, hsize, hmb, hsb⟩ := hv
  rw [hentry, a1, a2, a3, a4, a5, b1, b2, b3, b4, b5, hN, hidx, hsize, hmb, hsb]

theorem returnedOn_congr (n1 n2 : Node) (e : NodeEvent) (q : Nat)
    (hv : n1.pipeView q = n2.pipeView q) : returnedOn q n1 e = returnedOn q n2 e := by
  unfold Node.pipeView at hv
  simp only [Prod.mk.injEq] at hv
  obtain ⟨hf, hN, hidx, hsize, hmb, hsb⟩ := hv
  cases e with
  | receivePacket id t =>
    simp only [returnedOn]
    split
    · rename_i hid
      subst hid
      simp only [Multiplexer.receivePacket]
      rw [hf, hidx, hsb]
      cases n2.multiplexer.findEntry id <;> rfl
    · rfl
  | _ => rfl

theorem returnedOn_other (n : Node) (e : NodeEvent) (p q : Nat) (he : e.pipeId = some p)
    (hpq : p ≠ q) : returnedOn q n e = [] := by
  cases e with
  | receivePacket id t =>
    have hid : id = p := by simpa [NodeEvent.pipeId] using he
    simp only [returnedOn]
    rw [if_neg (by omega)]
  | _ => rfl

theorem handleSlaveMessageOn_pool_status (ps : PipeState) (pool1 pool2 : List Packet)
    (msg : SlaveMessage) :
    (handleSlaveMessageOn ps pool1 msg).status = (handleSlaveMessageOn ps pool2 msg).status := by
  have hack := processAcknowledgment_pool ps pool1 pool2 (sub32 msg.nodeIndex 1) msg.streamPos
  unfold handleSlaveMessageOn
  split
  · unfold handleCreatePipe
    split
    · rfl
    · unfold PipeResult.ofExcept
      split <;> rfl
  · unfold handleAcknowledgment
    cases h1 : processAcknowledgment ps pool1 (sub32 msg.nodeIndex 1) msg.streamPos with
    | error f1 =>
      cases h2 : processAcknowledgment ps pool2 (sub32 msg.nodeIndex 1) msg.streamPos with
      | error f2 =>
        rw [h1, h2] at hack
        simp only [Except.map, Except.error.injEq] at hack
        rw [hack]
      | ok r2 => rw [h1, h2] at hack; exact absurd hack (by simp [Except.map])
    | ok r1 =>
      cases h2 : processAcknowledgment ps pool2 (sub32 msg.nodeIndex 1) msg.streamPos with
      | error f2 => rw [h1, h2] at hack; exact absurd hack (by simp [Except.map])
      | ok r2 => rfl
  · unfold handlePacketLoss
    cases h1 : processAcknowledgment ps pool1 (sub32 msg.nodeIndex 1) msg.streamPos with
    | error f1 =>
      cases h2 : processAcknowledgment ps pool2 (sub32 msg.nodeIndex 1) msg.streamPos with
      | error f2 =>
        rw [h1, h2] at hack
        simp only [Except.map, Except.error.injEq] at hack
        rw [hack]
      | ok r2 => rw [h1, h2] at hack; exact absurd hack (by simp [Except.map])
    | ok r1 =>
      cases h2 : processAcknowledgment ps pool2 (sub32 msg.nodeIndex 1) msg.streamPos with
      | error f2 => rw [h1, h2] at hack; exact absurd hack (by simp [Except.map])
      | ok r2 =>
        rw [h1, h2] at hack
        simp only [Except.map, Except.ok.injEq] at hack
        obtain ⟨a1, b1⟩ := r1
        obtain ⟨a2, b2⟩ := r2
        simp only at hack
        subst hack
        simp only []
        split
        · split
          · rfl
          · split <;> rfl
        · rfl
  · unfold handleBarrier
    split
    · rfl
    · unfold PipeResult.ofExcept
      split <;> rfl
  · unfold handleGather
    split
    · rfl
    · simp only []
      split
      · split
        · unfold PipeResult.ofExcept
          split <;> rfl
        · rfl
      · rfl
  · rfl

theorem handleDataPacket_ended (n : Node) (pipeId streamPos : Nat) (payload : List Nat)
    (constructed : Packet) :
    (n.handleDataPacket pipeId streamPos payload constructed).1.receiverEnded =
      n.receiverEnded := by
  unfold Node.handleDataPacket
  simp only []
  split
  · rfl
  · split <;> rfl

/-- The receiver thread has ended after an event exactly when it had ended before or the event
is a slave message whose handler fails. -/
theorem step_ended (n : Node) (e : NodeEvent) :
    (n.step e).receiverEnded =
      (n.receiverEnded ||
        match e with
        | NodeEvent.slaveMessage msg => (n.multiplexer.handleSlaveMessage msg).status.isFailure
        | _ => false) := by
  cases e with
  | slaveMessage msg =>
    simp only [Node.step]
    cases hr : n.receiverEnded with
    | true => simp [hr]
    | false => simp
  | masterMessage msg =>
    simp only [Node.step]
    cases hr : n.receiverEnded with
    | true => simp [hr]
    | false => simp [hr]
  | dataPacket id pos payload c =>
    simp only [Node.step]
    cases hr : n.receiverEnded with
    | true => simp [hr]
    | false =>
      simp only [Bool.false_eq_true, if_false, Bool.or_false]
      split
      · exact hr
      · rw [handleDataPacket_ended]; exact hr
  | _ => simp [Node.step]

theorem step_ended_sticky (n : Node) (e : NodeEvent) (h : n.receiverEnded = true) :
    (n.step e).receiverEnded = true := by
  rw [step_ended, h]; rfl

theorem run_ended_sticky (events : List NodeEvent) (n : Node) (h : n.receiverEnded = true) :
    (n.run events).receiverEnded = true := by
  induction events generalizing n with
  | nil => exact h
  | cons e rest ih => exact ih (n.step e) (step_ended_sticky n e h)

theorem handleSlaveMessage_status_congr (m1 m2 : Multiplexer) (msg : SlaveMessage)
    (hf : m1.findEntry msg.pipeId = m2.findEntry msg.pipeId) :
    (m1.handleSlaveMessage msg).status = (m2.handleSlaveMessage msg).status := by
  unfold Multiplexer.handleSlaveMessage
  split
  · rfl
  · rfl
  · rw [hf]
    cases m2.findEntry msg.pipeId with
    | none => rfl
    | some ps => exact handleSlaveMessageOn_pool_status ps _ _ msg

theorem step_ended_congr (n1 n2 : Node) (e : NodeEvent) (q : Nat)
    (hv : n1.pipeView q = n2.pipeView q) (hend : n1.receiverEnded = n2.receiverEnded)
    (he : e.pipeId = some q) :
    (n1.step e).receiverEnded = (n2.step e).receiverEnded := by
  rw [step_ended, step_ended, hend]
  cases e with
  | slaveMessage msg =>
    simp only [NodeEvent.pipeId] at he
    have hid : msg.pipeId = q := by
      split at he
      · exact absurd he (by simp)
      · exact absurd he (by simp)
      · exact Option.some.inj he
    have hf : n1.multiplexer.findEntry msg.pipeId = n2.multiplexer.findEntry msg.pipeId := by
      rw [hid]; exact congrArg Prod.fst hv
    simp only [handleSlaveMessage_status_congr _ _ msg hf]
  | _ => rfl

theorem run_view_filter (q : Nat) (events : List NodeEvent) (n1 n2 : Node)
    (hv : n1.pipeView q = n2.pipeView q) (hend : n1.receiverEnded = n2.receiverEnded)
    (hall : ∀ e ∈ events, e.pipeId.isSome = true)
    (hok : (n1.run events).receiverEnded = false) :
    (n1.run events).pipeView q =
        (n2.run (events.filter (fun e => e.pipeId = some q))).pipeView q ∧
      receivedOn q n1 events =
        receivedOn q n2 (events.filter (fun e => e.pipeId = some q)) := by
  induction events generalizing n1 n2 with
  | nil => exact ⟨hv, rfl⟩
  | cons e rest ih =>
    have hrest : ∀ x ∈ rest, x.pipeId.isSome = true :=
      fun x hx => hall x (List.mem_cons_of_mem _ hx)
    have hok1 : ((n1.step e).run rest).receiverEnded = false := hok
    have hstep : (n1.step e).receiverEnded = false := by
      cases h : (n1.step e).receiverEnded with
      | false => rfl
      | true => rw [run_ended_sticky rest _ h] at hok1; exact absurd hok1 (by simp)
    have hn1 : n1.receiverEnded = false := by
      cases h : n1.receiverEnded with
      | false => rfl
      | true => rw [step_ended_sticky n1 e h] at hstep; exact absurd hstep (by simp)
    obtain ⟨p, hp⟩ := Option.isSome_iff_exists.mp (hall e (List.mem_cons_self _ _))
    by_cases hpq : p = q
    · subst hpq
      rw [List.filter_cons_of_pos (by simp [hp])]
      have := ih (n1.step e) (n2.step e) (step_view_congr n1 n2 e p hv hend hp)
        (step_ended_congr n1 n2 e p hv hend hp) hrest hok1
      simp only [Node.run, List.foldl_cons, receivedOn] at this ⊢
      exact ⟨this.1, by rw [this.2, returnedOn_congr n1 n2 e p hv]⟩
    · rw [List.filter_cons_of_neg (by simp [hp, hpq])]
      have hv1 : (n1.step e).pipeView q = n2.pipeView q := by
        rw [step_view_other n1 e p q hp hpq]; exact hv
      have hend1 : (n1.step e).receiverEnded = n2.receiverEnded := by
        rw [hstep, ← hend, hn1]
      have := ih (n1.step e) n2 hv1 hend1 hrest hok1
      simp only [Node.run, List.foldl_cons, receivedOn] at this ⊢
      exact ⟨this.1, by rw [this.2, returnedOn_other n1 e p q hp hpq]; rfl⟩

/-- C15 (counterexample): on a master with two slaves and the pipes 1 and 2, a late loss report
for a packet that has left the send window of pipe 1 raises the fatal packet-loss error, which
ends the receiver thread; the acknowledgments for pipe 2 that follow are not handled, so the
send window of pipe 2 keeps its three packets, while with only the messages addressed to pipe 2
it advances to position 3 and keeps one packet. -/
theorem fatal_loss_on_one_pipe_stops_the_other :
    (∀ x ∈ fatalThenAck, x.pipeId.isSome = true) ∧
      twoPipesMaster.receiverEnded = false ∧
      (twoPipesMaster.multiplexer.handleSlaveMessage (packetLossMessage 1 1 0 2)).status =
        Status.failed Fault.fatalPacketLoss ∧
      (twoPipesMaster.run fatalThenAck).receiverEnded = true ∧
      ((twoPipesMaster.run fatalThenAck).multiplexer.findEntry 2).map
          (fun ps => (ps.headStreamPos, ps.packetList.numPackets)) = some (0, 3) ∧
      ((twoPipesMaster.run
          (fatalThenAck.filter (fun x => x.pipeId = some 2))).multiplexer.findEntry 2).map
          (fun ps => (ps.headStreamPos, ps.packetList.numPackets)) = some (3, 1) ∧
      (twoPipesMaster.run fatalThenAck).multiplexer.findEntry 2 ≠
        (twoPipesMaster.run
          (fatalThenAck.filter (fun x => x.pipeId = some 2))).multiplexer.findEntry 2 := by
  decide

/-- C15 (as amended): on every node, an operation or a received message addressed to pipe `p`
(`sendPacket`, `receivePacket`, `barrier`, `gather`, a data packet, a control message that
names `p`) leaves the state of every other pipe `q` as it is; and along every sequence of such
operations and messages, each addressed to some pipe, during which no handler of the receiver
thread fails, the state of `q` at the end and the packets the `receivePacket` calls on `q`
return are what they are when only the operations and messages addressed to `q` happen. -/
theorem pipes_are_independent (n : Node) (p q : Nat) (e : NodeEvent) (events : List NodeEvent)
    (he : e.pipeId = some p) (hpq : p ≠ q)
    (hall : ∀ x ∈ events, x.pipeId.isSome = true)
    (hok : (n.run events).receiverEnded = false) :
    (n.step e).multiplexer.findEntry q = n.multiplexer.findEntry q ∧
      (n.run events).multiplexer.findEntry q =
        (n.run (events.filter (fun x => x.pipeId = some q))).multiplexer.findEntry q ∧
      receivedOn q n events =
        receivedOn q n (events.filter (fun x => x.pipeId = some q)) := by
  obtain ⟨h1, h2⟩ := run_view_filter q events n n rfl rfl hall hok
  exact ⟨(step_onlyPipe n e p he).2 q (Ne.symm hpq), congrArg Prod.fst h1, h2⟩

/-- C15 (witness): a slave with pipes 1 and 2 receives interleaved data packets for both and
reads from both; pipe 2 delivers its two packets in order, as it does without the traffic on
pipe 1. -/
theorem pipes_are_independent_witness :
    receivedOn 2 slaveTwoPipes interleavedTraffic = [⟨2, 0, 1, [20]⟩, ⟨2, 1, 2, [21, 22]⟩] ∧
      interleavedTraffic.filter (fun x => x.pipeId = some 2) =
        [NodeEvent.dataPacket 2 0 [20] ⟨0, 0, 0, []⟩, NodeEvent.dataPacket 2 3 [23] ⟨0, 0, 0, []⟩,
         NodeEvent.dataPacket 2 1 [21, 22] ⟨0, 0, 0, []⟩, NodeEvent.receivePacket 2 false,
         NodeEvent.receivePacket 2 false] ∧
      (slaveTwoPipes.step (NodeEvent.dataPacket 1 0 [10, 11] ⟨0, 0, 0, []⟩)).multiplexer.findEntry 2 =
          slaveTwoPipes.multiplexer.findEntry 2 ∧
        (slaveTwoPipes.run interleavedTraffic).multiplexer.findEntry 2 =
          (slaveTwoPipes.run
            (interleavedTraffic.filter (fun x => x.pipeId = some 2))).multiplexer.findEntry 2 ∧
        receivedOn 2 slaveTwoPipes interleavedTraffic =
          receivedOn 2 slaveTwoPipes (interleavedTraffic.filter (fun x => x.pipeId = some 2)) :=
  ⟨by decide, by decide,
   pipes_are_independent slaveTwoPipes 1 2 (NodeEvent.dataPacket 1 0 [10, 11] ⟨0, 0, 0, []⟩)
     interleavedTraffic rfl (by decide) (by decide) (by decide)⟩

/-! ## The packet pool and the multicast test -/

/-- C16 (as amended): `allocatePacket` does not use the packet pool: in every state of the
multiplexer, whether the pool is empty or not, it returns the newly constructed packet and
leaves the multiplexer, the pool included, as it is. -/
theorem allocatePacket_constructs (m : Multiplexer) (constructed : Packet) :
    (m.allocatePacket constructed).1 = constructed ∧
      (m.allocatePacket constructed).2 = m ∧
      (m.allocatePacket constructed).2.packetPoolHead = m.packetPoolHead :=
  ⟨rfl, rfl, rfl⟩

/-- C16 (counterexample): the pool holds one packet; `allocatePacket` returns the newly
constructed packet, which is not the pooled one, and the pool still holds its packet. -/
theorem allocatePacket_ignores_pool :
    pooledMaster.packetPoolHead ≠ [] ∧
      ¬ ((pooledMaster.allocatePacket ⟨0, 0, 0, []⟩).1 ∈ pooledMaster.packetPoolHead ∧
        (pooledMaster.allocatePacket ⟨0, 0, 0, []⟩).2.packetPoolHead.length + 1 =
          pooledMaster.packetPoolHead.length) := by
  decide

theorem shl32_e0 : shl32 0xe0 24 = -536870912 := by decide

theorem shl32_f0 : shl32 0xf0 24 = -268435456 := by decide

/-- C18: for every 32-bit address `a`, `isMulticast` is true exactly when `a` is between
0xE0000000 (224.0.0.0) and 0xEFFFFFFF (239.255.255.255), with the conversion of the address to
`int` and the constants `0xe0<<24` and `0xf0<<24` taken as 32-bit two's complement values. -/
theorem isMulticast_iff (a : Nat) (ha : a < wordSize) :
    isMulticast a = true ↔ 0xE0000000 ≤ a ∧ a ≤ 0xEFFFFFFF := by
  unfold isMulticast
  simp only [decide_eq_true_eq, shl32_e0, shl32_f0]
  unfold toInt32
  rw [Nat.mod_eq_of_lt ha]
  unfold wordSize at ha
  split <;> omega

/-- C18 (witness): 224.0.0.1 and 239.255.255.255 are multicast addresses; 192.168.1.255,
223.255.255.255 and 240.0.0.0 are not. -/
theorem isMulticast_iff_witness :
    isMulticast 0xE0000001 = true ∧ isMulticast 0xEFFFFFFF = true ∧
      isMulticast 0xC0A801FF = false ∧ isMulticast 0xDFFFFFFF = false ∧
      isMulticast 0xF0000000 = false :=
  ⟨(isMulticast_iff 0xE0000001 (by decide)).mpr (by decide), by decide, by decide, by decide,
   by decide⟩

/-! ## PacketList with its pointers -/

theorem isChain_update (succ : Nat → Nat) (a v : Nat) (s : List Nat) (p : Nat)
    (ha : a ∉ s) (h : IsChain succ p s) : IsChain (Function.update succ a v) p s := by
  induction s generalizing p with
  | nil => exact h
  | cons b rest ih =>
    obtain ⟨h1, h2, h3⟩ := h
    have hab : b ≠ a := fun hba => ha (by rw [hba]; exact List.mem_cons_self _ _)
    refine ⟨h1, h2, ?_⟩
    rw [Function.update_noteq hab]
    exact ih _ (fun hm => ha (List.mem_cons_of_mem _ hm)) h3

theorem isChain_ne_zero (succ : Nat → Nat) (s : List Nat) (p : Nat) (h : IsChain succ p s) :
    ∀ a ∈ s, a ≠ 0 := by
  induction s generalizing p with
  | nil => intro a ha; exact absurd ha (List.not_mem_nil _)
  | cons b rest ih =>
    obtain ⟨_, h2, h3⟩ := h
    intro a ha
    rcases List.mem_cons.mp ha with hab | hmem
    · rw [hab]; exact h2
    · exact ih _ h3 a hmem

theorem isChain_append (succ : Nat → Nat) (x : Nat) (s : List Nat) (p : Nat)
    (hs : s ≠ []) (hnodup : s.Nodup) (hx : x ∉ s) (hx0 : x ≠ 0) (h : IsChain succ p s) :
    IsChain (Function.update (Function.update succ x 0) (s.getLast hs) x) p (s ++ [x]) := by
  induction s generalizing p with
  | nil => exact absurd rfl hs
  | cons b rest ih =>
    obtain ⟨h1, h2, h3⟩ := h
    have hbx : b ≠ x := fun hbx => hx (by rw [← hbx]; exact List.mem_cons_self _ _)
    cases rest with
    | nil =>
      have hlast : [b].getLast hs = b := rfl
      rw [hlast]
      refine ⟨h1, h2, ?_⟩
      rw [Function.update_same]
      refine ⟨rfl, hx0, ?_⟩
      show Function.update (Function.update succ x 0) b x x = 0
      rw [Function.update_noteq (Ne.symm hbx), Function.update_same]
    | cons c rest2 =>
      have hne : c :: rest2 ≠ [] := List.cons_ne_nil _ _
      have hlast : (b :: c :: rest2).getLast hs = (c :: rest2).getLast hne :=
        List.getLast_cons hne
      have hnd := List.nodup_cons.mp hnodup
      have hbl : b ≠ (c :: rest2).getLast hne :=
        fun hb => hnd.1 (by rw [hb]; exact List.getLast_mem hne)
      rw [hlast]
      refine ⟨h1, h2, ?_⟩
      rw [Function.update_noteq hbl, Function.update_noteq hbx]
      exact ih _ hne hnd.2 (fun hm => hx (List.mem_cons_of_mem _ hm)) h3

theorem represents_tail_zero (l : LinkedPacketList) (s : List Nat) (h : l.Represents s) :
    (l.tail = 0 ↔ s = []) ∧ (l.head = 0 ↔ s = []) := by
  obtain ⟨hchain, _, htail, _⟩ := h
  cases s with
  | nil => exact ⟨⟨fun _ => rfl, fun _ => htail⟩, ⟨fun _ => rfl, fun _ => hchain⟩⟩
  | cons a rest =>
    have hne : a :: rest ≠ [] := List.cons_ne_nil _ _
    have hnz := isChain_ne_zero _ _ _ hchain
    rw [List.getLast?_eq_getLast _ hne] at htail
    simp only [Option.getD_some] at htail
    have hl := hnz _ (List.getLast_mem hne)
    obtain ⟨h1, h2, _⟩ := hchain
    exact ⟨⟨fun h0 => absurd (htail ▸ h0) hl, fun h0 => absurd h0 hne⟩,
      ⟨fun h0 => absurd (h1 ▸ h0) h2, fun h0 => absurd h0 hne⟩⟩

theorem push_back_represents (l : LinkedPacketList) (s : List Nat) (x : Nat)
    (h : l.Represents s) (hx0 : x ≠ 0) (hx : x ∉ s) :
    ∃ l1, l.push_back x = Except.ok l1 ∧ l1.Represents (s ++ [x]) := by
  have hz := represents_tail_zero l s h
  obtain ⟨hchain, hnodup, htail, hnum⟩ := h
  unfold LinkedPacketList.push_back
  rw [if_neg hx0]
  refine ⟨_, rfl, ?_⟩
  have hnodup1 : (s ++ [x]).Nodup := by
    rw [List.nodup_append]
    refine ⟨hnodup, List.nodup_singleton x, ?_⟩
    intro a ha hb
    rw [List.mem_singleton.mp hb] at ha
    exact hx ha
  have hlast : (s ++ [x]).getLast?.getD 0 = x := by
    rw [List.getLast?_append]
    rfl
  cases s with
  | nil =>
    have ht : l.tail = 0 := htail
    refine ⟨?_, hnodup1, ?_, ?_⟩
    · simp only [ht, ne_eq, not_true_eq_false, if_false, List.nil_append]
      exact ⟨rfl, hx0, Function.update_same _ _ _⟩
    · exact hlast.symm
    · simp only [hnum, List.length_nil, List.nil_append, List.length_singleton]
  | cons a rest =>
    have hne : a :: rest ≠ [] := List.cons_ne_nil _ _
    have ht : l.tail ≠ 0 := fun h0 => hne (hz.1.mp h0)
    have htl : l.tail = (a :: rest).getLast hne := by
      rw [htail, List.getLast?_eq_getLast _ hne]
      rfl
    refine ⟨?_, hnodup1, ?_, ?_⟩
    · simp only [if_pos ht]
      rw [htl]
      exact isChain_append l.succ x (a :: rest) l.head hne hnodup hx hx0 hchain
    · exact hlast.symm
    · simp only [hnum, List.length_append, List.length_singleton]

theorem pop_front_represents (l : LinkedPacketList) (first : Nat) (rest : List Nat)
    (h : l.Represents (first :: rest)) :
    ∃ l1, l.pop_front = Except.ok (first, l1) ∧ l1.succ first = 0 ∧ l1.Represents rest := by
  obtain ⟨⟨h1, h2, h3⟩, hnodup, htail, hnum⟩ := h
  have hnd := List.nodup_cons.mp hnodup
  unfold LinkedPacketList.pop_front
  simp only []
  rw [if_neg (by rw [h1]; exact h2), h1]
  refine ⟨_, rfl, Function.update_same _ _ _, ?_, hnd.2, ?_, ?_⟩
  · exact isChain_update l.succ first 0 rest _ hnd.1 h3
  · cases rest with
    | nil =>
      have h0 : l.succ first = 0 := h3
      simp only [h0, if_true]
      rfl
    | cons c rest2 =>
      obtain ⟨hc, hc0, _⟩ := h3
      have hne : l.succ first ≠ 0 := by rw [hc]; exact hc0
      simp only [if_neg hne]
      rw [htail, List.getLast?_cons_cons]
  · simp only [hnum, List.length_cons, Nat.add_sub_cancel]

theorem run_represents (ops : List ListOp) (l : LinkedPacketList) (s : List Nat)
    (h : l.Represents s) (hadm : Admissible s ops) :
    ∃ l1, l.run ops = Except.ok (l1, (fifo s ops).2.map (fun a => (a, 0))) ∧
      l1.Represents (fifo s ops).1 := by
  induction ops generalizing l s with
  | nil => exact ⟨l, rfl, h⟩
  | cons op rest ih =>
    cases op with
    | push_back x =>
      obtain ⟨hx0, hx, hrest⟩ := hadm
      obtain ⟨l1, hpush, hrep⟩ := push_back_represents l s x h hx0 hx
      obtain ⟨l2, hrun, hrep2⟩ := ih l1 (s ++ [x]) hrep hrest
      refine ⟨l2, ?_, hrep2⟩
      simp only [LinkedPacketList.run, hpush, fifo]
      exact hrun
    | pop_front =>
      obtain ⟨hne, hrest⟩ := hadm
      cases s with
      | nil => exact absurd rfl hne
      | cons first s1 =>
        obtain ⟨l1, hpop, hsucc, hrep⟩ := pop_front_represents l first s1 h
        obtain ⟨l2, hrun, hrep2⟩ := ih l1 s1 hrep hrest
        refine ⟨l2, ?_, hrep2⟩
        simp only [LinkedPacketList.run, hpop, fifo, List.tail_cons] at hrun ⊢
        rw [hrun, hsucc]
        rfl

/-- C17: a packet list that holds the sequence `s0` (a newly constructed list holds the empty
sequence), after any calls of `push_back` and `pop_front` in which every pushed packet is a
packet that is not in the list and `pop_front` is never called on an empty list: all calls
return; the packets reachable from `head` are the FIFO queue `s0` with every pushed packet
added at the end and every popped packet removed from the front; the `pop_front` calls
returned the packets removed from the front, in that order, each with its `succ` cleared;
`numPackets` is the length of the queue; `head` is null exactly when `tail` is null exactly
when `numPackets` is 0; and `tail` is the last packet of the queue. -/
theorem packetList_is_fifo (succ0 : Nat → Nat) (l0 : LinkedPacketList) (s0 : List Nat)
    (ops : List ListOp) (hrep : l0.Represents s0) (hadm : Admissible s0 ops) :
    (LinkedPacketList.new succ0).Represents [] ∧
      ∃ l, l0.run ops = Except.ok (l, (fifo s0 ops).2.map (fun a => (a, 0))) ∧
        IsChain l.succ l.head (fifo s0 ops).1 ∧
        l.numPackets = (fifo s0 ops).1.length ∧
        (l.head = 0 ↔ l.tail = 0) ∧ (l.tail = 0 ↔ l.numPackets = 0) ∧
        l.tail = (fifo s0 ops).1.getLast?.getD 0 := by
  refine ⟨⟨rfl, List.nodup_nil, rfl, rfl⟩, ?_⟩
  obtain ⟨l, hrun, hl⟩ := run_represents ops l0 s0 hrep hadm
  obtain ⟨hz1, hz2⟩ := represents_tail_zero l _ hl
  obtain ⟨hchain, _, htail, hnum⟩ := hl
  refine ⟨l, hrun, hchain, hnum, hz2.trans hz1.symm, hz1.trans ?_, htail⟩
  rw [hnum]
  exact List.length_eq_zero.symm

/-- C17 (witness): on a new list, packets 5, 3 and 8 are pushed, one is popped, 5 is pushed
again and two are popped: the calls return 5, 3 and 8, each with `succ` cleared, and the list
holds packet 5 alone. -/
theorem packetList_is_fifo_witness :
    Admissible [] pushPop ∧ fifo [] pushPop = ([5], [5, 3, 8]) ∧
      (match (LinkedPacketList.new (fun _ => 77)).run pushPop with
        | Except.ok (l, popped) => some (l.numPackets, l.head, l.tail, l.succ 5, popped)
        | Except.error _ => none) = some (1, 5, 5, 0, [(5, 0), (3, 0), (8, 0)]) ∧
      ∃ l, (LinkedPacketList.new (fun _ => 77)).run pushPop =
          Except.ok (l, (fifo [] pushPop).2.map (fun a => (a, 0))) ∧
        IsChain l.succ l.head (fifo [] pushPop).1 ∧
        l.numPackets = (fifo [] pushPop).1.length ∧
        (l.head = 0 ↔ l.tail = 0) ∧ (l.tail = 0 ↔ l.numPackets = 0) ∧
        l.tail = (fifo [] pushPop).1.getLast?.getD 0 :=
  ⟨by decide, by decide, rfl,
   (packetList_is_fifo (fun _ => 77) (LinkedPacketList.new (fun _ => 77)) [] pushPop
     ⟨rfl, List.nodup_nil, rfl, rfl⟩ (by decide)).2⟩

/-! ## The advance of the send window -/

theorem discardAcknowledged_accepted (l : List Packet) (n d0 m : Nat) :
    (discardAcknowledged n d0 m l).acknowledged = acceptedPrefix m l := by
  induction l generalizing n d0 m with
  | nil => rfl
  | cons p rest ih =>
    unfold discardAcknowledged acceptedPrefix
    by_cases h : p.packetSize ≤ m
    · rw [if_pos h, if_pos h]
      simp only []
      rw [ih]
    · rw [if_neg h, if_neg h]

theorem processAcknowledgment_advance (ps : PipeState) (pool : List Packet) (i r : Nat)
    (hzero : ps.slaveStreamPosOffsets[i]? = some 0)
    (hpos : 0 < sub32 r ps.headStreamPos) (hone : ps.numHeadSlaves = 1) :
    minimumOf (reportedOffsets ps i r) = Except.ok (reportedMinimum ps i r) ∧
      reportedMinimum ps i r ∈ reportedOffsets ps i r ∧
      (∀ o ∈ reportedOffsets ps i r, reportedMinimum ps i r ≤ o) ∧
      processAcknowledgment ps pool i r =
        Except.ok
          ({ ps with
              packetList :=
                { numPackets :=
                    (discardAcknowledged ps.packetList.numPackets 0 (reportedMinimum ps i r)
                      ps.packetList.packets).numPackets,
                  packets :=
                    (discardAcknowledged ps.packetList.numPackets 0 (reportedMinimum ps i r)
                      ps.packetList.packets).remaining }
              headStreamPos := add32 ps.headStreamPos
                (discardAcknowledged ps.packetList.numPackets 0 (reportedMinimum ps i r)
                  ps.packetList.packets).numDiscarded
              slaveStreamPosOffsets := (reportedOffsets ps i r).map (fun o => sub32 o
                (discardAcknowledged ps.packetList.numPackets 0 (reportedMinimum ps i r)
                  ps.packetList.packets).numDiscarded)
              numHeadSlaves := 0 + ((reportedOffsets ps i r).map (fun o => sub32 o
                (discardAcknowledged ps.packetList.numPackets 0 (reportedMinimum ps i r)
                  ps.packetList.packets).numDiscarded)).count 0 },
           (discardAcknowledged ps.packetList.numPackets 0 (reportedMinimum ps i r)
              ps.packetList.packets).acknowledged ++ pool) := by
  have hi : i < ps.slaveStreamPosOffsets.length := by
    by_contra hc
    rw [List.getElem?_eq_none (by omega)] at hzero
    exact absurd hzero (by simp)
  have hne : reportedOffsets ps i r ≠ [] := by
    intro h
    have := congrArg List.length h
    unfold reportedOffsets at this
    rw [List.length_set] at this
    simp only [List.length_nil] at this
    omega
  obtain ⟨m, hm, hmem, hle⟩ := minimumOf_spec _ hne
  have hmin : reportedMinimum ps i r = m := by
    unfold reportedMinimum
    rw [hm]
  rw [hmin]
  refine ⟨hm, hmem, hle, ?_⟩
  have hsub : sub32 ps.numHeadSlaves 1 = 0 := by rw [hone]; decide
  unfold reportedOffsets at hm ⊢
  unfold processAcknowledgment
  simp only [if_pos hpos, hzero, if_true, hsub, hm]

theorem detachedBy_advance (ps : PipeState) (pool : List Packet) (i r : Nat)
    (hzero : ps.slaveStreamPosOffsets[i]? = some 0)
    (hpos : 0 < sub32 r ps.headStreamPos) (hone : ps.numHeadSlaves = 1) :
    detachedBy ps pool i r =
      (discardAcknowledged ps.packetList.numPackets 0 (reportedMinimum ps i r)
        ps.packetList.packets).acknowledged := by
  obtain ⟨_, _, _, hproc⟩ := processAcknowledgment_advance ps pool i r hzero hpos hone
  obtain ⟨happ, _⟩ := discardAcknowledged_spec ps.packetList.packets
    ps.packetList.numPackets 0 (reportedMinimum ps i r) (by decide)
  have hlen := congrArg List.length happ
  rw [List.length_append] at hlen
  have htake := @List.take_left _
    (discardAcknowledged ps.packetList.numPackets 0 (reportedMinimum ps i r)
      ps.packetList.packets).acknowledged
    (discardAcknowledged ps.packetList.numPackets 0 (reportedMinimum ps i r)
      ps.packetList.packets).remaining
  rw [happ] at htake
  unfold detachedBy
  rw [hproc]
  show List.take (ps.packetList.packets.length -
    (discardAcknowledged ps.packetList.numPackets 0 (reportedMinimum ps i r)
      ps.packetList.packets).remaining.length) ps.packetList.packets = _
  have hk : ps.packetList.packets.length -
      (discardAcknowledged ps.packetList.numPackets 0 (reportedMinimum ps i r)
        ps.packetList.packets).remaining.length =
      (discardAcknowledged ps.packetList.numPackets 0 (reportedMinimum ps i r)
        ps.packetList.packets).acknowledged.length := by omega
  rw [hk]
  exact htake

/-- C20: on a master pipe state in which every offset is a 32-bit value, when an acknowledgment
advances the window (it comes from a slave at offset zero, its position is at a positive 32-bit
distance from `headStreamPos`, and `numHeadSlaves` is 1, so that it reaches zero) and `D` is
the total size of the packets detached: `D` is at most the least slave offset (so at most every
slave's offset), `headStreamPos` grows by `D` in 32-bit arithmetic (by exactly `D` when that
does not pass 2^32), every slave's offset is its offset after the report minus `D`,
`numHeadSlaves` is the number of slaves whose offset is now zero, and `streamPos`,
`packetLossMode` and the barrier and gather fields are unchanged. -/
theorem processAcknowledgment_advance_accounts (ps : PipeState) (pool : List Packet)
    (i r : Nat) (hzero : ps.slaveStreamPosOffsets[i]? = some 0)
    (hone : ps.numHeadSlaves = 1)
    (hpos : 0 < sub32 r ps.headStreamPos)
    (hwords : ∀ o ∈ ps.slaveStreamPosOffsets, o < wordSize) :
    ∃ ps1 pool1,
      processAcknowledgment ps pool i r = Except.ok (ps1, pool1) ∧
        totalSize (detachedBy ps pool i r) ≤ reportedMinimum ps i r ∧
        (∀ o ∈ reportedOffsets ps i r, totalSize (detachedBy ps pool i r) ≤ o) ∧
        ps1.headStreamPos = add32 ps.headStreamPos (totalSize (detachedBy ps pool i r)) ∧
        (ps.headStreamPos + totalSize (detachedBy ps pool i r) < wordSize →
          ps1.headStreamPos = ps.headStreamPos + totalSize (detachedBy ps pool i r)) ∧
        ps1.slaveStreamPosOffsets =
          (reportedOffsets ps i r).map (fun o => o - totalSize (detachedBy ps pool i r)) ∧
        ps1.numHeadSlaves = ps1.slaveStreamPosOffsets.count 0 ∧
        ps1.streamPos = ps.streamPos ∧ ps1.packetLossMode = ps.packetLossMode ∧
        ps1.barrierId = ps.barrierId ∧ ps1.slaveBarrierIds = ps.slaveBarrierIds ∧
        ps1.minSlaveBarrierId = ps.minSlaveBarrierId ∧
        ps1.slaveGatherValues = ps.slaveGatherValues ∧
        ps1.masterGatherValue = ps.masterGatherValue := by
  obtain ⟨_, hmem, hle, hproc⟩ := processAcknowledgment_advance ps pool i r hzero hpos hone
  obtain ⟨_, _, htot, _, hdisc⟩ := discardAcknowledged_spec ps.packetList.packets
    ps.packetList.numPackets 0 (reportedMinimum ps i r) (by decide)
  have hdet := detachedBy_advance ps pool i r hzero hpos hone
  rw [← hdet] at htot hdisc
  have hbound : ∀ o ∈ reportedOffsets ps i r, o < wordSize := by
    intro o ho
    rcases List.mem_or_eq_of_mem_set ho with h | h
    · exact hwords o h
    · rw [h]
      exact Nat.mod_lt _ (by decide)
  have hD : (discardAcknowledged ps.packetList.numPackets 0 (reportedMinimum ps i r)
      ps.packetList.packets).numDiscarded = totalSize (detachedBy ps pool i r) := by
    rw [hdisc, Nat.zero_add]
    exact Nat.mod_eq_of_lt (lt_of_le_of_lt htot (hbound _ hmem))
  have hoffs : (reportedOffsets ps i r).map (fun o => sub32 o
      (discardAcknowledged ps.packetList.numPackets 0 (reportedMinimum ps i r)
        ps.packetList.packets).numDiscarded) =
      (reportedOffsets ps i r).map (fun o => o - totalSize (detachedBy ps pool i r)) := by
    apply List.map_congr_left
    intro o ho
    rw [hD]
    exact sub32_eq_of_le (le_trans htot (hle o ho)) (hbound o ho)
  refine ⟨_, _, hproc, htot, fun o ho => le_trans htot (hle o ho), ?_, ?_, ?_, ?_,
    rfl, rfl, rfl, rfl, rfl, rfl, rfl⟩
  · show add32 _ _ = _
    rw [hD]
  · intro hlt
    show add32 _ _ = _
    rw [hD]
    exact Nat.mod_eq_of_lt hlt
  · exact hoffs
  · show 0 + _ = _
    rw [Nat.zero_add]

/-- C20 (witness): slave 1 is at offset 4 and slave 2, the only one at the window head 4,
reports position 9: packets of 2 and 1 bytes are detached, `headStreamPos` becomes 7 and the
offsets 4 and 5 become 1 and 2, so no slave is at offset zero. -/
theorem processAcknowledgment_advance_accounts_witness :
    totalSize (detachedBy oneAtHead [] 1 9) = 3 ∧ reportedOffsets oneAtHead 1 9 = [4, 5] ∧
      ∃ ps1 pool1,
        processAcknowledgment oneAtHead [] 1 9 = Except.ok (ps1, pool1) ∧
          ps1.headStreamPos = add32 oneAtHead.headStreamPos (totalSize (detachedBy oneAtHead [] 1 9)) ∧
          ps1.slaveStreamPosOffsets =
            (reportedOffsets oneAtHead 1 9).map
              (fun o => o - totalSize (detachedBy oneAtHead [] 1 9)) ∧
          ps1.numHeadSlaves = ps1.slaveStreamPosOffsets.count 0 :=
  ⟨by decide, by decide,
   (processAcknowledgment_advance_accounts oneAtHead [] 1 9
      (by decide) (by decide) (by decide) (by decide)).imp
     fun _ h1 => h1.imp fun _ h2 => ⟨h2.1, h2.2.2.2.1, h2.2.2.2.2.2.1, h2.2.2.2.2.2.2.1⟩⟩

/-! ## The discard loop on pointers -/

theorem scanAcknowledged_spec (succ : Nat → Nat) (packetAt : Nat → Packet) (s : List Nat)
    (fuel : Nat) (st : Scan) (hchain : IsChain succ st.pPtr s) (hfuel : s.length ≤ fuel) :
    ∃ ack rem, s = ack ++ rem ∧
      (discardAcknowledged st.numPackets st.numDiscarded st.minStreamPosOffset
        (s.map packetAt)).acknowledged = ack.map packetAt ∧
      (discardAcknowledged st.numPackets st.numDiscarded st.minStreamPosOffset
        (s.map packetAt)).remaining = rem.map packetAt ∧
      scanAcknowledged succ (fun a => (packetAt a).packetSize) fuel st =
        { numPackets :=
            (discardAcknowledged st.numPackets st.numDiscarded st.minStreamPosOffset
              (s.map packetAt)).numPackets,
          numDiscarded :=
            (discardAcknowledged st.numPackets st.numDiscarded st.minStreamPosOffset
              (s.map packetAt)).numDiscarded,
          minStreamPosOffset :=
            (discardAcknowledged st.numPackets st.numDiscarded st.minStreamPosOffset
              (s.map packetAt)).minStreamPosOffset,
          lastAcknowledged := ack.getLast?.getD st.lastAcknowledged,
          pPtr := rem.head?.getD 0 } := by
  induction s generalizing fuel st with
  | nil =>
    have hp : st.pPtr = 0 := hchain
    refine ⟨[], [], rfl, rfl, rfl, ?_⟩
    cases fuel with
    | zero =>
      simp only [scanAcknowledged, List.map_nil, discardAcknowledged, List.getLast?_nil,
        List.head?_nil, Option.getD_none]
      rw [← hp]
    | succ f =>
      simp only [scanAcknowledged, hp, ne_eq, not_true_eq_false, false_and, if_false,
        List.map_nil, discardAcknowledged, List.getLast?_nil, List.head?_nil, Option.getD_none]
      rw [← hp]
  | cons a rest ih =>
    obtain ⟨hpa, ha0, hrest⟩ := hchain
    cases fuel with
    | zero => simp only [List.length_cons] at hfuel; omega
    | succ f =>
      have hf : rest.length ≤ f := by simp only [List.length_cons] at hfuel; omega
      by_cases hfit : st.minStreamPosOffset ≥ (packetAt a).packetSize
      · have hcond : st.pPtr ≠ 0 ∧ st.minStreamPosOffset ≥ (packetAt st.pPtr).packetSize := by
          rw [hpa]; exact ⟨ha0, hfit⟩
        obtain ⟨ack, rem, hs, hack, hrem, hscan⟩ := ih f
          { numPackets := st.numPackets - 1,
            numDiscarded := add32 st.numDiscarded (packetAt st.pPtr).packetSize,
            minStreamPosOffset := st.minStreamPosOffset - (packetAt st.pPtr).packetSize,
            lastAcknowledged := st.pPtr,
            pPtr := succ st.pPtr }
          (by rw [hpa]; exact hrest) hf
        simp only [hpa] at hack hrem hscan
        refine ⟨a :: ack, rem, by rw [hs]; rfl, ?_, ?_, ?_⟩
        · simp only [List.map_cons, discardAcknowledged, if_pos hfit]
          rw [hack]
        · simp only [List.map_cons, discardAcknowledged, if_pos hfit]
          rw [hrem]
        · simp only [scanAcknowledged, if_pos hcond]
          simp only [hpa]
          rw [hscan]
          simp only [List.map_cons, discardAcknowledged, if_pos hfit]
          congr 1
          cases ack with
          | nil => rfl
          | cons b ack2 =>
            rw [List.getLast?_cons_cons, List.getLast?_eq_getLast _ (List.cons_ne_nil b ack2)]
            rfl
      · have hcond : ¬ (st.pPtr ≠ 0 ∧ st.minStreamPosOffset ≥ (packetAt st.pPtr).packetSize) := by
          rw [hpa]; exact fun h => hfit h.2
        refine ⟨[], a :: rest, rfl, ?_, ?_, ?_⟩
        · simp only [List.map_cons, discardAcknowledged, if_neg hfit, List.map_nil]
        · simp only [List.map_cons, discardAcknowledged, if_neg hfit]
        · simp only [scanAcknowledged, if_neg hcond, List.map_cons, discardAcknowledged,
            if_neg hfit, List.getLast?_nil, Option.getD_none, List.head?_cons, Option.getD_some]
          rw [← hpa]

theorem isChain_after (succ : Nat → Nat) (ack rem : List Nat) (p : Nat) (hne : ack ≠ [])
    (h : IsChain succ p (ack ++ rem)) : IsChain succ (succ (ack.getLast hne)) rem := by
  induction ack generalizing p with
  | nil => exact absurd rfl hne
  | cons a rest ih =>
    obtain ⟨_, _, h3⟩ := h
    cases rest with
    | nil => exact h3
    | cons b rest2 =>
      rw [List.getLast_cons (List.cons_ne_nil _ _)]
      exact ih _ (List.cons_ne_nil _ _) h3

theorem isChain_relink (succ : Nat → Nat) (ack rem c : List Nat) (p q : Nat) (hne : ack ≠ [])
    (h : IsChain succ p (ack ++ rem)) (hnodup : ack.Nodup) (hc : IsChain succ q c)
    (hdisj : ∀ x ∈ ack, x ∉ c) :
    IsChain (Function.update succ (ack.getLast hne) q) p (ack ++ c) := by
  induction ack generalizing p with
  | nil => exact absurd rfl hne
  | cons a rest ih =>
    obtain ⟨h1, h2, h3⟩ := h
    have hnd := List.nodup_cons.mp hnodup
    cases rest with
    | nil =>
      refine ⟨h1, h2, ?_⟩
      show IsChain _ (Function.update succ a q a) c
      rw [Function.update_same]
      exact isChain_update succ a q c q (hdisj a (List.mem_cons_self _ _)) hc
    | cons b rest2 =>
      have hne2 : b :: rest2 ≠ [] := List.cons_ne_nil _ _
      have hal : a ≠ (b :: rest2).getLast hne2 :=
        fun h => hnd.1 (by rw [h]; exact List.getLast_mem hne2)
      refine ⟨h1, h2, ?_⟩
      rw [List.getLast_cons hne2, Function.update_noteq hal]
      exact ih _ hne2 h3 hnd.2 (fun x hx => hdisj x (List.mem_cons_of_mem _ hx))

theorem linked_discard_refines (l : LinkedPacketList) (addrs : List Nat)
    (packetPoolHead : Nat) (poolAddrs : List Nat) (packetAt : Nat → Packet)
    (minStreamPosOffset fuel : Nat) (hrep : l.Represents addrs)
    (hpool : IsChain l.succ packetPoolHead poolAddrs)
    (hdisj : ∀ a ∈ addrs, a ∉ poolAddrs) (hfuel : addrs.length ≤ fuel) :
    ∃ ack rem, addrs = ack ++ rem ∧
      (discardAcknowledged l.numPackets 0 minStreamPosOffset
        (addrs.map packetAt)).acknowledged = ack.map packetAt ∧
      (discardAcknowledged l.numPackets 0 minStreamPosOffset
        (addrs.map packetAt)).remaining = rem.map packetAt ∧
      (l.discardAcknowledged packetPoolHead (fun a => (packetAt a).packetSize)
        minStreamPosOffset fuel).packetList.Represents rem ∧
      IsChain
        (l.discardAcknowledged packetPoolHead (fun a => (packetAt a).packetSize)
          minStreamPosOffset fuel).packetList.succ
        (l.discardAcknowledged packetPoolHead (fun a => (packetAt a).packetSize)
          minStreamPosOffset fuel).packetPoolHead (ack ++ poolAddrs) ∧
      (l.discardAcknowledged packetPoolHead (fun a => (packetAt a).packetSize)
        minStreamPosOffset fuel).numDiscarded =
        (discardAcknowledged l.numPackets 0 minStreamPosOffset
          (addrs.map packetAt)).numDiscarded := by
  obtain ⟨hchain, hnodup, htail, hnum⟩ := hrep
  obtain ⟨ack, rem, hs, hack, hrem, hscan⟩ := scanAcknowledged_spec l.succ packetAt addrs fuel
    { numPackets := l.numPackets, numDiscarded := 0, minStreamPosOffset := minStreamPosOffset,
      lastAcknowledged := 0, pPtr := l.head } hchain hfuel
  simp only at hack hrem hscan
  have hcount := (discardAcknowledged_spec (addrs.map packetAt) l.numPackets 0
    minStreamPosOffset (by decide)).2.1
  rw [hack, List.length_map] at hcount
  have hlen : addrs.length = ack.length + rem.length := by rw [hs, List.length_append]
  refine ⟨ack, rem, hs, hack, hrem, ?_⟩
  rw [hs] at hchain hnodup htail
  have hnz := isChain_ne_zero _ _ _ hchain
  unfold LinkedPacketList.discardAcknowledged
  simp only [hscan]
  cases hackc : ack with
  | nil =>
    rw [hackc] at hs hchain hnodup htail hlen
    simp only [List.nil_append, List.length_nil, Nat.zero_add] at hs hchain hnodup htail hlen
    simp only [List.getLast?_nil, Option.getD_none, ne_eq, not_true_eq_false, if_false,
      List.nil_append]
    refine ⟨⟨hchain, hnodup, htail, ?_⟩, hpool, trivial⟩
    show (discardAcknowledged _ _ _ _).numPackets = _
    rw [hcount, hackc]
    simp only [List.length_nil]
    omega
  | cons a ack2 =>
    have hne : ack ≠ [] := by rw [hackc]; exact List.cons_ne_nil _ _
    have hlastq : ack.getLast?.getD 0 = ack.getLast hne := by
      rw [List.getLast?_eq_getLast _ hne]; rfl
    have hlast0 : ack.getLast hne ≠ 0 :=
      hnz _ (List.mem_append_left _ (List.getLast_mem hne))
    have hnd := List.nodup_append.mp hnodup
    have hafter := isChain_after l.succ ack rem l.head hne hchain
    have hlastrem : ack.getLast hne ∉ rem := fun hm => hnd.2.2 (List.getLast_mem hne) hm
    rw [← hackc, hlastq]
    simp only [if_pos hlast0]
    refine ⟨⟨?_, hnd.2.1, ?_, ?_⟩, ?_, trivial⟩
    · exact isChain_update l.succ _ packetPoolHead rem _ hlastrem hafter
    · cases hremc : rem with
      | nil =>
        rw [hremc] at hafter
        have h0 : l.succ (ack.getLast hne) = 0 := hafter
        simp only [h0, if_true]
        rfl
      | cons b rem2 =>
        rw [hremc] at hafter
        obtain ⟨hb, hb0, _⟩ := hafter
        have hsn : l.succ (ack.getLast hne) ≠ 0 := by rw [hb]; exact hb0
        simp only [if_neg hsn]
        rw [htail, hremc, List.getLast?_append_of_ne_nil _ (List.cons_ne_nil _ _)]
    · show (discardAcknowledged _ _ _ _).numPackets = _
      rw [hcount]
      omega
    · have hhead : l.head = a := by
        rw [hackc] at hchain
        exact hchain.1
      have := isChain_relink l.succ ack rem poolAddrs l.head packetPoolHead hne hchain hnd.1
        hpool (fun x hx => hdisj x (by rw [hs]; exact List.mem_append_left _ hx))
      exact this

/-- C19: on a master pipe state in which exactly one slave is at offset zero, an acknowledgment
from that slave with a position different from `headStreamPos` (its 32-bit distance to
`headStreamPos` is positive) makes `processAcknowledgment` return.  With `m` the least slave
offset after the report, the packets it detaches are the prefix of the window that the scan
accepts from `m`: their sizes sum to at most `m` and the first packet left, if any, is larger
than what is left of `m`.  On the pointers (the window is the chain `addrs` from `head`, the
pool the chain `poolAddrs` from `packetPoolHead`, the two without a common packet), the loop
and the relinking leave the chain of the detached packets, in window order, followed by the
old pool as the new pool, and the remaining packets, in order, as the window; `numPackets` has
dropped by the number detached and `tail` is null exactly when the window is empty. -/
theorem processAcknowledgment_detaches_accepted_packets (ps : PipeState) (i r : Nat)
    (l : LinkedPacketList) (addrs : List Nat) (packetPoolHead : Nat) (poolAddrs : List Nat)
    (packetAt : Nat → Packet) (fuel : Nat)
    (hrep : l.Represents addrs) (hwin : ps.packetList.packets = addrs.map packetAt)
    (hnum : ps.packetList.numPackets = l.numPackets)
    (hpool : IsChain l.succ packetPoolHead poolAddrs)
    (hdisj : ∀ a ∈ addrs, a ∉ poolAddrs) (hfuel : addrs.length ≤ fuel)
    (hzero : ps.slaveStreamPosOffsets[i]? = some 0)
    (hcount : ps.slaveStreamPosOffsets.count 0 = 1)
    (hhead : ps.numHeadSlaves = ps.slaveStreamPosOffsets.count 0)
    (hpos : 0 < sub32 r ps.headStreamPos) :
    ∃ ps1 pool1 ack rem,
      processAcknowledgment ps (poolAddrs.map packetAt) i r = Except.ok (ps1, pool1) ∧
        addrs = ack ++ rem ∧
        detachedBy ps (poolAddrs.map packetAt) i r = ack.map packetAt ∧
        ack.map packetAt = acceptedPrefix (reportedMinimum ps i r) ps.packetList.packets ∧
        totalSize (ack.map packetAt) ≤ reportedMinimum ps i r ∧
        (∀ q rest, rem = q :: rest →
          reportedMinimum ps i r - totalSize (ack.map packetAt) < (packetAt q).packetSize) ∧
        ps1.packetList.packets = rem.map packetAt ∧
        pool1 = (ack ++ poolAddrs).map packetAt ∧
        ps1.packetList.numPackets + ack.length = ps.packetList.numPackets ∧
        (l.discardAcknowledged packetPoolHead (fun a => (packetAt a).packetSize)
          (reportedMinimum ps i r) fuel).packetList.Represents rem ∧
        IsChain
          (l.discardAcknowledged packetPoolHead (fun a => (packetAt a).packetSize)
            (reportedMinimum ps i r) fuel).packetList.succ
          (l.discardAcknowledged packetPoolHead (fun a => (packetAt a).packetSize)
            (reportedMinimum ps i r) fuel).packetPoolHead (ack ++ poolAddrs) ∧
        (l.discardAcknowledged packetPoolHead (fun a => (packetAt a).packetSize)
          (reportedMinimum ps i r) fuel).packetList.numPackets = ps1.packetList.numPackets ∧
        ((l.discardAcknowledged packetPoolHead (fun a => (packetAt a).packetSize)
          (reportedMinimum ps i r) fuel).packetList.tail = 0 ↔ rem = []) := by
  have hone : ps.numHeadSlaves = 1 := by rw [hhead, hcount]
  obtain ⟨_, _, _, hproc⟩ :=
    processAcknowledgment_advance ps (poolAddrs.map packetAt) i r hzero hpos hone
  have hdet := detachedBy_advance ps (poolAddrs.map packetAt) i r hzero hpos hone
  obtain ⟨_, hcnt, htot, hleft, _⟩ := discardAcknowledged_spec ps.packetList.packets
    ps.packetList.numPackets 0 (reportedMinimum ps i r) (by decide)
  have hstop := discardAcknowledged_stop ps.packetList.packets ps.packetList.numPackets 0
    (reportedMinimum ps i r)
  have hacc := discardAcknowledged_accepted ps.packetList.packets ps.packetList.numPackets 0
    (reportedMinimum ps i r)
  obtain ⟨ack, rem, hs, hack, hrem, hrep1, hchain1, _⟩ :=
    linked_discard_refines l addrs packetPoolHead poolAddrs packetAt (reportedMinimum ps i r)
      fuel hrep hpool hdisj hfuel
  rw [← hnum, ← hwin] at hack hrem
  rw [hack] at hdet hacc htot hleft hcnt
  rw [hrem] at hstop
  have hlen : ps.packetList.numPackets = ack.length + rem.length := by
    rw [hnum, hrep.2.2.2, hs, List.length_append]
  rw [List.length_map] at hcnt
  refine ⟨_, _, ack, rem, hproc, hs, hdet, hacc, htot, ?_, hrem, ?_, ?_, hrep1, hchain1, ?_,
    (represents_tail_zero _ rem hrep1).1⟩
  · intro q rest hq
    rw [← hleft]
    exact hstop (packetAt q) (rest.map packetAt) (by rw [hq]; rfl)
  · show _ ++ _ = _
    rw [hack, List.map_append]
  · show (discardAcknowledged _ _ _ _).numPackets + _ = _
    rw [hcnt]
    omega
  · rw [hrep1.2.2.2]
    show _ = (discardAcknowledged _ _ _ _).numPackets
    rw [hcnt]
    omega

/-- C19 (witness): the window holds the packets at addresses 10, 20 and 30 (2, 1 and 3 bytes)
and the pool the packet at address 40; slave 1 is at offset 4 and slave 2, the only one at
offset zero, reports position 9 (offset 5).  The least offset is 4, the packets at 10 and 20
are detached and linked in front of the pool, the packet at 30 stays. -/
theorem processAcknowledgment_detaches_accepted_packets_witness :
    reportedMinimum oneAtHead 1 9 = 4 ∧
      detachedBy oneAtHead [⟨9, 9, 0, []⟩] 1 9 = [⟨1, 4, 2, [1, 2]⟩, ⟨1, 6, 1, [3]⟩] ∧
      IsChain (threeLinked.discardAcknowledged 40 threeLinkedSize 4 3).packetList.succ
        (threeLinked.discardAcknowledged 40 threeLinkedSize 4 3).packetList.head [30] ∧
      IsChain (threeLinked.discardAcknowledged 40 threeLinkedSize 4 3).packetList.succ
        (threeLinked.discardAcknowledged 40 threeLinkedSize 4 3).packetPoolHead [10, 20, 40] ∧
      ∃ ps1 pool1 ack rem,
        processAcknowledgment oneAtHead ([40].map threeLinkedPacket) 1 9 =
            Except.ok (ps1, pool1) ∧
          [10, 20, 30] = ack ++ rem ∧
          detachedBy oneAtHead ([40].map threeLinkedPacket) 1 9 = ack.map threeLinkedPacket ∧
          ps1.packetList.packets = rem.map threeLinkedPacket ∧
          pool1 = (ack ++ [40]).map threeLinkedPacket :=
  ⟨by decide, by decide, by decide, by decide,
   (processAcknowledgment_detaches_accepted_packets oneAtHead 1 9 threeLinked [10, 20, 30] 40
      [40] threeLinkedPacket 3 (by decide) (by decide) (by decide) (by decide) (by decide)
      (by decide) (by decide) (by decide) (by decide) (by decide)).imp
     fun _ h1 => h1.imp fun _ h2 => h2.imp fun _ h3 => h3.imp fun _ h4 =>
       ⟨h4.1, h4.2.1, h4.2.2.1, h4.2.2.2.2.2.2.1, h4.2.2.2.2.2.2.2.1⟩⟩

theorem flush_linked (l : LinkedPacketList) (addrs : List Nat) (packetPoolHead : Nat)
    (poolAddrs : List Nat) (hrep : l.Represents addrs)
    (hpool : IsChain l.succ packetPoolHead poolAddrs) (hdisj : ∀ a ∈ addrs, a ∉ poolAddrs) :
    ∃ l1 pool1, l.flush packetPoolHead = Except.ok (l1, pool1) ∧ l1.Represents [] ∧
      IsChain l1.succ pool1 (addrs ++ poolAddrs) := by
  have hz := represents_tail_zero l addrs hrep
  obtain ⟨hchain, hnodup, htail, hnum⟩ := hrep
  unfold LinkedPacketList.flush
  cases haddrs : addrs with
  | nil =>
    rw [haddrs] at hnum
    have h0 : ¬ l.numPackets > 0 := by simp only [List.length_nil] at hnum; omega
    rw [if_neg h0]
    rw [haddrs] at hchain hnodup htail
    exact ⟨l, packetPoolHead, rfl, ⟨hchain, hnodup, htail, hnum⟩, hpool⟩
  | cons a rest =>
    have hne : addrs ≠ [] := by rw [haddrs]; exact List.cons_ne_nil _ _
    have hpos : l.numPackets > 0 := by rw [hnum, haddrs]; exact Nat.succ_pos _
    have ht : l.tail ≠ 0 := fun h0 => hne (hz.1.mp h0)
    have htl : l.tail = addrs.getLast hne := by
      rw [htail, List.getLast?_eq_getLast _ hne]; rfl
    rw [if_pos hpos, if_neg ht]
    refine ⟨_, _, rfl, ⟨rfl, List.nodup_nil, rfl, rfl⟩, ?_⟩
    rw [← haddrs]
    show IsChain (Function.update l.succ l.tail packetPoolHead) l.head (addrs ++ poolAddrs)
    rw [htl]
    have hchain2 : IsChain l.succ l.head (addrs ++ []) := by rw [List.append_nil]; exact hchain
    exact isChain_relink l.succ addrs [] poolAddrs l.head packetPoolHead hne hchain2 hnodup
      hpool hdisj

/-! ## Invariants of the pipes of the master -/

theorem tableInv_writePipe (P : Nat → PipeState → Prop) (m : Multiplexer) (pipeId : Nat)
    (ps : PipeState) (pool : List Packet) (hinv : TableInv P m) (hps : P pipeId ps) :
    TableInv P (m.writePipe pipeId ps pool) := by
  intro e he
  simp only [Multiplexer.writePipe, List.mem_map] at he
  obtain ⟨x, hx, hxe⟩ := he
  by_cases hp : x.1 = pipeId
  · rw [if_pos hp] at hxe
    rw [← hxe, hp]
    exact hps
  · rw [if_neg hp] at hxe
    rw [← hxe]
    exact hinv x hx

theorem tableInv_step (numSlaves : Nat) (P : Nat → PipeState → Prop)
    (hP : Preserved numSlaves P) (m : Multiplexer) (e : ApiEvent)
    (hN : m.numSlaves = numSlaves) (h0 : m.nodeIndex = 0) (hwf : e.FromSlaves numSlaves)
    (hinv : TableInv P m) :
    TableInv P (m.step e) ∧ (m.step e).numSlaves = numSlaves ∧ (m.step e).nodeIndex = 0 := by
  cases e with
  | openPipeBegin uninitialised =>
    refine ⟨?_, hN, h0⟩
    intro e he
    simp only [Multiplexer.step, Multiplexer.openPipeBegin, List.mem_append, List.mem_filter,
      List.mem_singleton] at he
    rcases he with ⟨h, _⟩ | h
    · exact hinv e h
    · rw [h, hN, h0]
      exact hP.created _ _
  | openPipeFinish newPipeId =>
    simp only [Multiplexer.step, Multiplexer.openPipeFinish]
    cases hf : m.findEntry newPipeId with
    | none => exact ⟨hinv, hN, h0⟩
    | some ps =>
      have hps := hinv _ (lookup_mem _ _ _ hf)
      simp only [h0, if_true]
      split
      · exact ⟨hinv, hN, h0⟩
      · exact ⟨tableInv_writePipe P m newPipeId _ _ hinv (hP.marked _ _ hps), hN, h0⟩
  | sendPacket pipeId packet =>
    simp only [Multiplexer.step, Multiplexer.sendPacket]
    cases hf : m.findEntry pipeId with
    | none => exact ⟨hinv, hN, h0⟩
    | some ps =>
      have hps := hinv _ (lookup_mem _ _ _ hf)
      exact ⟨tableInv_writePipe P m pipeId _ _ hinv (hP.sendPacket _ _ _ _ _ hps), hN, h0⟩
  | message msg =>
    simp only [Multiplexer.step, Multiplexer.handleSlaveMessage]
    split
    · exact ⟨hinv, hN, h0⟩
    · exact ⟨hinv, hN, h0⟩
    · cases hf : m.findEntry msg.pipeId with
      | none => exact ⟨hinv, hN, h0⟩
      | some ps =>
        have hps := hinv _ (lookup_mem _ _ _ hf)
        exact ⟨tableInv_writePipe P m msg.pipeId _ _ hinv
          (hP.message _ _ _ _ hwf.1 hwf.2 rfl hps), hN, h0⟩
  | barrier pipeId =>
    simp only [Multiplexer.step, Multiplexer.barrier]
    cases hf : m.findEntry pipeId with
    | none => exact ⟨hinv, hN, h0⟩
    | some ps =>
      have hps := hinv _ (lookup_mem _ _ _ hf)
      simp only [h0, if_true, hN]
      exact ⟨tableInv_writePipe P m pipeId _ _ hinv (hP.barrier _ _ _ hps), hN, h0⟩
  | gather pipeId value op =>
    simp only [Multiplexer.step, Multiplexer.gather]
    cases hf : m.findEntry pipeId with
    | none => exact ⟨hinv, hN, h0⟩
    | some ps =>
      have hps := hinv _ (lookup_mem _ _ _ hf)
      simp only [h0, if_true, hN]
      exact ⟨tableInv_writePipe P m pipeId _ _ hinv (hP.gather _ _ _ _ _ hps), hN, h0⟩
  | setSendBufferSize n => exact ⟨hinv, hN, h0⟩

theorem tableInv_run (numSlaves : Nat) (P : Nat → PipeState → Prop)
    (hP : Preserved numSlaves P) (events : List ApiEvent) (m : Multiplexer)
    (hN : m.numSlaves = numSlaves) (h0 : m.nodeIndex = 0)
    (hwf : ∀ e ∈ events, e.FromSlaves numSlaves) (hinv : TableInv P m) :
    TableInv P (m.run events) := by
  induction events generalizing m with
  | nil => exact hinv
  | cons e rest ih =>
    obtain ⟨h1, h2, h3⟩ := tableInv_step numSlaves P hP m e hN h0
      (hwf e (List.mem_cons_self _ _)) hinv
    exact ih (m.step e) h2 h3 (fun x hx => hwf x (List.mem_cons_of_mem _ hx)) h1

theorem tableInv_new (numSlaves : Nat) (P : Nat → PipeState → Prop)
    (hP : Preserved numSlaves P) (events : List ApiEvent)
    (hwf : ∀ e ∈ events, e.FromSlaves numSlaves) :
    TableInv P ((Multiplexer.new numSlaves 0).run events) :=
  tableInv_run numSlaves P hP events _ rfl rfl hwf
    (fun _ he => absurd he (List.not_mem_nil _))

theorem flushSendWindow_flow (numSlaves : Nat) (ps : PipeState) (pool : List Packet)
    (ps1 : PipeState) (pool1 : List Packet)
    (h : flushSendWindow numSlaves ps pool = Except.ok (ps1, pool1)) :
    ps1.streamPos = ps.streamPos ∧ ps1.headStreamPos = ps.streamPos ∧
      ps1.slaveStreamPosOffsets = ps.slaveStreamPosOffsets.map (fun _ => 0) ∧
      ps1.numHeadSlaves = numSlaves ∧
      (ps1.packetList = { numPackets := 0, packets := [] } ∨
        (ps.packetList.numPackets = 0 ∧ ps1.packetList = ps.packetList)) := by
  unfold flushSendWindow at h
  simp only [] at h
  split at h
  · split at h
    · exact absurd h (by simp)
    · simp only [Except.ok.injEq, Prod.mk.injEq] at h
      rw [← h.1]
      exact ⟨rfl, rfl, rfl, rfl, Or.inl rfl⟩
  · rename_i hz
    simp only [Except.ok.injEq, Prod.mk.injEq] at h
    rw [← h.1]
    exact ⟨rfl, rfl, rfl, rfl, Or.inr ⟨by omega, rfl⟩⟩

theorem barrierMaster_flow (numSlaves pipeId : Nat) (ps : PipeState) (pool : List Packet) :
    SameFlow ps (barrierMaster numSlaves pipeId ps pool).pipeState ∨
      ∃ ps1 pool1, flushSendWindow numSlaves ps pool = Except.ok (ps1, pool1) ∧
        SameFlow ps1 (barrierMaster numSlaves pipeId ps pool).pipeState := by
  unfold barrierMaster
  simp only []
  split
  · exact Or.inl (sameFlow_refl ps)
  · cases hf : flushSendWindow numSlaves ps pool with
    | error f => exact Or.inl (sameFlow_refl ps)
    | ok r =>
      obtain ⟨ps1, pool1⟩ := r
      exact Or.inr ⟨ps1, pool1, rfl, ⟨rfl, rfl, rfl, rfl, rfl⟩⟩

theorem gatherMaster_flow (numSlaves pipeId : Nat) (ps : PipeState) (pool : List Packet)
    (value : Nat) (op : OpCode) :
    SameFlow ps (gatherMaster numSlaves pipeId ps pool value op).pipeState ∨
      ∃ ps0 ps1 pool1, SameFlow ps ps0 ∧
        flushSendWindow numSlaves ps0 pool = Except.ok (ps1, pool1) ∧
        SameFlow ps1 (gatherMaster numSlaves pipeId ps pool value op).pipeState := by
  unfold gatherMaster
  simp only []
  split
  · exact Or.inl (sameFlow_refl ps)
  · cases hf : flushSendWindow numSlaves
        { ps with masterGatherValue := gatherValue op value ps.slaveGatherValues } pool with
    | error f => exact Or.inl ⟨rfl, rfl, rfl, rfl, rfl⟩
    | ok r =>
      obtain ⟨ps1, pool1⟩ := r
      exact Or.inr ⟨{ ps with masterGatherValue := gatherValue op value ps.slaveGatherValues },
        ps1, pool1, ⟨rfl, rfl, rfl, rfl, rfl⟩, hf, ⟨rfl, rfl, rfl, rfl, rfl⟩⟩

theorem sendPacketOn_flow (size pipeId : Nat) (ps : PipeState) (pool : List Packet)
    (packet : Packet) :
    (sendPacketOn size pipeId ps pool packet).pipeState.headStreamPos = ps.headStreamPos ∧
      (sendPacketOn size pipeId ps pool packet).pipeState.slaveStreamPosOffsets =
        ps.slaveStreamPosOffsets ∧
      (sendPacketOn size pipeId ps pool packet).pipeState.numHeadSlaves = ps.numHeadSlaves ∧
      (sendPacketOn size pipeId ps pool packet).pipeState.barrierId = ps.barrierId ∧
      (sendPacketOn size pipeId ps pool packet).pipeState.slaveBarrierIds =
        ps.slaveBarrierIds ∧
      (sendPacketOn size pipeId ps pool packet).pipeState.minSlaveBarrierId =
        ps.minSlaveBarrierId := by
  unfold sendPacketOn
  split <;> exact ⟨rfl, rfl, rfl, rfl, rfl, rfl⟩

theorem count_zero_set (l : List Nat) (i v : Nat) (hv : v ≠ 0) (hi : i < l.length) :
    (l.set i v).count 0 + (if l[i]? = some 0 then 1 else 0) = l.count 0 := by
  induction l generalizing i with
  | nil => simp only [List.length_nil] at hi; omega
  | cons a rest ih =>
    cases i with
    | zero =>
      simp only [List.set_cons_zero, List.getElem?_cons_zero, Option.some.injEq]
      rw [List.count_cons, List.count_cons]
      have hv0 : (v == 0) = false := by simp [hv]
      rw [hv0]
      by_cases ha : a = 0
      · simp [ha]
      · have ha0 : (a == 0) = false := by simp [ha]
        rw [ha0]
        simp [ha]
    | succ k =>
      simp only [List.length_cons] at hi
      simp only [List.set_cons_succ, List.getElem?_cons_succ]
      rw [List.count_cons, List.count_cons]
      have := ih k (by omega)
      omega

theorem processAcknowledgment_counted (numSlaves : Nat) (ps : PipeState) (pool : List Packet)
    (i r : Nat) (ps1 : PipeState) (pool1 : List Packet) (hN : numSlaves < wordSize)
    (hc : HeadSlavesCounted numSlaves ps)
    (h : processAcknowledgment ps pool i r = Except.ok (ps1, pool1)) :
    HeadSlavesCounted numSlaves ps1 := by
  obtain ⟨hlen, hcount⟩ := hc
  unfold processAcknowledgment at h
  simp only [] at h
  split at h
  · rename_i hpos
    cases hi : ps.slaveStreamPosOffsets[i]? with
    | none => rw [hi] at h; exact absurd h (by simp)
    | some slaveOffset =>
      rw [hi] at h
      simp only [] at h
      have hilt : i < ps.slaveStreamPosOffsets.length := by
        by_contra hc
        rw [List.getElem?_eq_none (by omega)] at hi
        exact absurd hi (by simp)
      have hset := count_zero_set ps.slaveStreamPosOffsets i (sub32 r ps.headStreamPos)
        (by omega) hilt
      rw [hi] at hset
      split at h
      · rename_i hz
        rw [hz] at hset
        simp only [if_true] at hset
        have hle : ps.slaveStreamPosOffsets.count 0 ≤ ps.slaveStreamPosOffsets.length :=
          List.count_le_length _ _
        have hsub : sub32 ps.numHeadSlaves 1 = ps.numHeadSlaves - 1 :=
          sub32_eq_of_le (by omega) (by omega)
        split at h
        · rename_i hzero
          split at h
          · exact absurd h (by simp)
          · simp only [Except.ok.injEq, Prod.mk.injEq] at h
            rw [← h.1]
            refine ⟨?_, ?_⟩
            · show (List.map _ _).length = _
              rw [List.length_map, List.length_set]
              exact hlen
            · show sub32 ps.numHeadSlaves 1 + _ = _
              rw [hzero, Nat.zero_add]
        · simp only [Except.ok.injEq, Prod.mk.injEq] at h
          rw [← h.1]
          refine ⟨?_, ?_⟩
          · show (List.set _ _ _).length = _
            rw [List.length_set]
            exact hlen
          · show sub32 ps.numHeadSlaves 1 = (List.set _ _ _).count 0
            rw [hsub]
            omega
      · rename_i hnz
        simp only [Except.ok.injEq, Prod.mk.injEq] at h
        rw [← h.1]
        have hne : ¬ (some slaveOffset = some 0) := by
          intro hs
          exact hnz (Option.some.inj hs)
        rw [if_neg hne] at hset
        refine ⟨?_, ?_⟩
        · show (List.set _ _ _).length = _
          rw [List.length_set]
          exact hlen
        · show ps.numHeadSlaves = (List.set _ _ _).count 0
          omega
  · simp only [Except.ok.injEq, Prod.mk.injEq] at h
    rw [← h.1]
    exact ⟨hlen, hcount⟩

theorem headSlavesCounted_of_sameFlow (numSlaves : Nat) (a b : PipeState) (h : SameFlow a b)
    (hc : HeadSlavesCounted numSlaves a) : HeadSlavesCounted numSlaves b := by
  obtain ⟨_, _, _, h4, h5⟩ := h
  unfold HeadSlavesCounted
  rw [h4, h5]
  exact hc

theorem headSlavesCounted_of_flush (numSlaves : Nat) (ps : PipeState) (pool : List Packet)
    (ps1 : PipeState) (pool1 : List Packet)
    (h : flushSendWindow numSlaves ps pool = Except.ok (ps1, pool1))
    (hc : HeadSlavesCounted numSlaves ps) : HeadSlavesCounted numSlaves ps1 := by
  obtain ⟨_, _, h3, h4, _⟩ := flushSendWindow_flow numSlaves ps pool ps1 pool1 h
  unfold HeadSlavesCounted
  rw [h3, h4, List.length_map]
  refine ⟨hc.1, ?_⟩
  rw [← hc.1]
  generalize ps.slaveStreamPosOffsets = l
  induction l with
  | nil => rfl
  | cons a rest ih =>
    simp only [List.length_cons, List.map_cons, List.count_cons_self]
    omega

theorem headSlavesCounted_preserved (numSlaves : Nat) (hN : numSlaves < wordSize) :
    Preserved numSlaves (fun _ ps => HeadSlavesCounted numSlaves ps) where
  created := by
    intro id u
    simp only [newPipeState, if_true]
    exact ⟨List.length_replicate _ _, (List.count_replicate_self _ _).symm⟩
  marked := fun _ _ h => h
  sendPacket := by
    intro id size ps pool packet h
    obtain ⟨_, h2, h3, _⟩ := sendPacketOn_flow size id ps pool packet
    unfold HeadSlavesCounted
    rw [h2, h3]
    exact h
  message := by
    intro id ps pool msg _ _ _ h
    rcases handleSlaveMessageOn_cases ps pool msg with ⟨hs, _⟩ | ⟨_, hack⟩
    · exact headSlavesCounted_of_sameFlow numSlaves _ _ hs h
    · exact processAcknowledgment_counted numSlaves ps pool _ _ _ _ hN h hack
  barrier := by
    intro id ps pool h
    rcases barrierMaster_flow numSlaves id ps pool with hs | ⟨ps1, pool1, hf, hs⟩
    · exact headSlavesCounted_of_sameFlow numSlaves _ _ hs h
    · exact headSlavesCounted_of_sameFlow numSlaves _ _ hs
        (headSlavesCounted_of_flush numSlaves ps pool ps1 pool1 hf h)
  gather := by
    intro id ps pool value op h
    rcases gatherMaster_flow numSlaves id ps pool value op with
      hs | ⟨ps0, ps1, pool1, hs0, hf, hs⟩
    · exact headSlavesCounted_of_sameFlow numSlaves _ _ hs h
    · exact headSlavesCounted_of_sameFlow numSlaves _ _ hs
        (headSlavesCounted_of_flush numSlaves ps0 pool ps1 pool1 hf
          (headSlavesCounted_of_sameFlow numSlaves _ _ hs0 h))

/-- C21: on a master with `numSlaves` slaves (a 32-bit value), after any sequence of
`openPipe`, `sendPacket`, `barrier` and `gather` calls and of slave messages with a node index
in 1..`numSlaves` (acknowledgments and loss reports of any stream position among them), every
pipe in the table has `numSlaves` slave offsets and its `numHeadSlaves` is the number of
offsets that are zero. -/
theorem numHeadSlaves_counts_zero_offsets (numSlaves : Nat) (events : List ApiEvent)
    (hN : numSlaves < wordSize) (hwf : ∀ e ∈ events, e.FromSlaves numSlaves) :
    ∀ e ∈ ((Multiplexer.new numSlaves 0).run events).pipeStateTable,
      e.2.slaveStreamPosOffsets.length = numSlaves ∧
        e.2.numHeadSlaves = e.2.slaveStreamPosOffsets.count 0 :=
  tableInv_new numSlaves (fun _ ps => HeadSlavesCounted numSlaves ps)
    (headSlavesCounted_preserved numSlaves hN) events hwf

/-- C21 (witness): two slaves, three packets, acknowledgments of positions 3 and 6, a loss
report at position 3 and a late acknowledgment of position 1: the window head is 3, the
offsets are 0 and 4294967294, and one slave is at the window head. -/
theorem numHeadSlaves_counts_zero_offsets_witness :
    (((Multiplexer.new 2 0).run twoSlavesTraffic).findEntry 1).map
        (fun ps => (ps.slaveStreamPosOffsets, ps.numHeadSlaves)) =
        some ([0, 4294967294], 1) ∧
      ∀ e ∈ ((Multiplexer.new 2 0).run twoSlavesTraffic).pipeStateTable,
        e.2.slaveStreamPosOffsets.length = 2 ∧
          e.2.numHeadSlaves = e.2.slaveStreamPosOffsets.count 0 :=
  ⟨by decide, numHeadSlaves_counts_zero_offsets 2 twoSlavesTraffic (by decide) (by decide)⟩

/-! ## The send window is a run of the stream -/

theorem windowIsRun_of_sameFlow (pipeId : Nat) (a b : PipeState) (h : SameFlow a b)
    (hw : WindowIsRun pipeId a) : WindowIsRun pipeId b := by
  obtain ⟨h1, h2, h3, _, _⟩ := h
  unfold WindowIsRun
  rw [h1, h2, h3]
  exact hw

theorem windowIsRun_of_flush (numSlaves pipeId : Nat) (ps : PipeState) (pool : List Packet)
    (ps1 : PipeState) (pool1 : List Packet)
    (h : flushSendWindow numSlaves ps pool = Except.ok (ps1, pool1))
    (hw : WindowIsRun pipeId ps) : WindowIsRun pipeId ps1 := by
  obtain ⟨h1, h2, _, _, h5⟩ := flushSendWindow_flow numSlaves ps pool ps1 pool1 h
  obtain ⟨hcons, hhead, hcont, hpos, hid⟩ := hw
  have hlt : ps.streamPos < wordSize := by
    rw [hpos]; exact Nat.mod_lt _ (by decide)
  have hempty : ps1.packetList.packets = [] ∧ ps1.packetList.Consistent := by
    rcases h5 with h5 | ⟨hz, h5⟩
    · rw [h5]; exact ⟨rfl, rfl⟩
    · rw [h5]
      unfold PacketList.Consistent at hcons ⊢
      exact ⟨List.eq_nil_of_length_eq_zero (by omega), hcons⟩
  unfold WindowIsRun
  rw [h1, h2, hempty.1]
  refine ⟨hempty.2, hlt, trivial, ?_, fun p hp => absurd hp (List.not_mem_nil _)⟩
  show ps.streamPos = (ps.streamPos + 0) % wordSize
  rw [Nat.add_zero, Nat.mod_eq_of_lt hlt]

theorem windowIsRun_of_ack (pipeId : Nat) (ps : PipeState) (pool : List Packet) (i r : Nat)
    (ps1 : PipeState) (pool1 : List Packet)
    (h : processAcknowledgment ps pool i r = Except.ok (ps1, pool1))
    (hw : WindowIsRun pipeId ps) : WindowIsRun pipeId ps1 := by
  obtain ⟨ack, hwin, _, hnum, hhead1, hsp, _⟩ := processAcknowledgment_shape ps pool i r ps1 pool1 h
  obtain ⟨hcons, hhead, hcont, hpos, hid⟩ := hw
  unfold PacketList.Consistent at hcons
  rw [hwin] at hcont hpos hid hcons
  rw [List.length_append] at hcons
  rw [totalSize_append] at hpos
  have hc := (contiguous_append ack ps1.packetList.packets ps.headStreamPos).mp hcont
  have hmod : (ps.headStreamPos + totalSize ack) % wordSize = ps1.headStreamPos % wordSize ∧
      ps1.headStreamPos < wordSize := by
    rcases hhead1 with ⟨hnil, he⟩ | he
    · rw [he, hnil]
      exact ⟨rfl, hhead⟩
    · rw [he]
      unfold add32
      refine ⟨?_, Nat.mod_lt _ (by decide)⟩
      rw [Nat.mod_mod, Nat.add_mod_mod]
  refine ⟨?_, hmod.2, ?_, ?_, ?_⟩
  · unfold PacketList.Consistent
    omega
  · exact (contiguous_mod _ _ _ hmod.1).mp hc.2
  · rw [hsp, hpos, ← Nat.add_assoc, Nat.add_mod (ps.headStreamPos + totalSize ack), hmod.1,
      ← Nat.add_mod]
  · intro p hp
    exact hid p (List.mem_append_right _ hp)

theorem windowIsRun_preserved (numSlaves : Nat) : Preserved numSlaves WindowIsRun where
  created := by
    intro id u
    simp only [newPipeState, if_true]
    exact ⟨rfl, (by decide : (0 : Nat) < wordSize), trivial, rfl,
      fun p hp => absurd hp (List.not_mem_nil _)⟩
  marked := fun _ _ h => h
  sendPacket := by
    intro id size ps pool packet h
    obtain ⟨hcons, hhead, hcont, hpos, hid⟩ := h
    unfold sendPacketOn
    split
    · exact ⟨hcons, hhead, hcont, hpos, hid⟩
    · unfold PacketList.Consistent at hcons
      refine ⟨?_, hhead, ?_, ?_, ?_⟩
      · simp only [PacketList.Consistent, PacketList.push_back, List.length_append,
          List.length_singleton]
        omega
      · show Contiguous ps.headStreamPos (ps.packetList.packets ++ [_])
        rw [contiguous_append]
        refine ⟨hcont, ?_, trivial⟩
        exact hpos
      · show add32 ps.streamPos packet.packetSize =
          (ps.headStreamPos + totalSize (ps.packetList.packets ++ [_])) % wordSize
        rw [totalSize_append, hpos]
        unfold add32
        rw [Nat.mod_add_mod, Nat.add_assoc]
        rfl
      · intro p hp
        rcases List.mem_append.mp hp with h1 | h1
        · exact hid p h1
        · rw [List.mem_singleton.mp h1]
  message := by
    intro id ps pool msg _ _ _ h
    rcases handleSlaveMessageOn_cases ps pool msg with ⟨hs, _⟩ | ⟨_, hack⟩
    · exact windowIsRun_of_sameFlow id _ _ hs h
    · exact windowIsRun_of_ack id ps pool _ _ _ _ hack h
  barrier := by
    intro id ps pool h
    rcases barrierMaster_flow numSlaves id ps pool with hs | ⟨ps1, pool1, hf, hs⟩
    · exact windowIsRun_of_sameFlow id _ _ hs h
    · exact windowIsRun_of_sameFlow id _ _ hs
        (windowIsRun_of_flush numSlaves id ps pool ps1 pool1 hf h)
  gather := by
    intro id ps pool value op h
    rcases gatherMaster_flow numSlaves id ps pool value op with
      hs | ⟨ps0, ps1, pool1, hs0, hf, hs⟩
    · exact windowIsRun_of_sameFlow id _ _ hs h
    · exact windowIsRun_of_sameFlow id _ _ hs
        (windowIsRun_of_flush numSlaves id ps0 pool ps1 pool1 hf
          (windowIsRun_of_sameFlow id _ _ hs0 h))

theorem contiguous_chain (l : List Packet) (s : Nat) (h : Contiguous s l) :
    (∀ p, l.head? = some p → p.streamPos = s % wordSize) ∧
      List.Chain' (fun a b => b.streamPos = add32 a.streamPos a.packetSize) l := by
  induction l generalizing s with
  | nil => exact ⟨fun p hp => absurd hp (by simp), List.chain'_nil⟩
  | cons a rest ih =>
    obtain ⟨ha, hrest⟩ := h
    obtain ⟨h1, h2⟩ := ih _ hrest
    refine ⟨?_, ?_⟩
    · intro p hp
      simp only [List.head?_cons, Option.some.injEq] at hp
      rw [← hp]; exact ha
    · cases rest with
      | nil => exact List.chain'_singleton a
      | cons b rest2 =>
        rw [List.chain'_cons]
        refine ⟨?_, h2⟩
        rw [h1 b rfl, ha]
        unfold add32
        rw [Nat.mod_add_mod]

/-- C22: on a master, after any sequence of `openPipe`, `sendPacket`, `barrier` and `gather`
calls and of slave messages with a node index in 1..`numSlaves`, the send window of every pipe
in the table is a run of the stream: the first packet is stamped `headStreamPos`, every later
packet is stamped with its predecessor's position plus its predecessor's size (in 32-bit
arithmetic), every packet carries the pipe's id, `headStreamPos` plus the sizes of all packets
of the window is `streamPos` modulo 2^32, and with an empty window `headStreamPos` is
`streamPos`. -/
theorem send_window_is_run (numSlaves : Nat) (events : List ApiEvent)
    (hwf : ∀ e ∈ events, e.FromSlaves numSlaves) :
    ∀ e ∈ ((Multiplexer.new numSlaves 0).run events).pipeStateTable,
      (∀ p, e.2.packetList.packets.head? = some p → p.streamPos = e.2.headStreamPos) ∧
        List.Chain' (fun a b => b.streamPos = add32 a.streamPos a.packetSize)
          e.2.packetList.packets ∧
        (∀ p ∈ e.2.packetList.packets, p.pipeId = e.1) ∧
        e.2.streamPos =
          (e.2.headStreamPos + totalSize e.2.packetList.packets) % wordSize ∧
        (e.2.packetList.packets = [] → e.2.headStreamPos = e.2.streamPos) := by
  intro e he
  obtain ⟨_, hhead, hcont, hpos, hid⟩ :=
    tableInv_new numSlaves WindowIsRun (windowIsRun_preserved numSlaves) events hwf e he
  obtain ⟨h1, h2⟩ := contiguous_chain _ _ hcont
  rw [Nat.mod_eq_of_lt hhead] at h1
  refine ⟨h1, h2, hid, hpos, ?_⟩
  intro hnil
  rw [hpos, hnil]
  show _ = (_ + 0) % wordSize
  rw [Nat.add_zero, Nat.mod_eq_of_lt hhead]

/-- C22 (witness): two slaves, packets of 2, 1 and 3 bytes, and reports that detach the first
two packets: the window holds the packet stamped 3 and `headStreamPos` 3 plus its 3 bytes is
`streamPos` 6. -/
theorem send_window_is_run_witness :
    (((Multiplexer.new 2 0).run twoSlavesTraffic).findEntry 1).map
        (fun ps => (ps.headStreamPos, ps.packetList.packets, ps.streamPos)) =
        some (3, [⟨1, 3, 3, [4, 5, 6]⟩], 6) ∧
      ∀ e ∈ ((Multiplexer.new 2 0).run twoSlavesTraffic).pipeStateTable,
        (∀ p, e.2.packetList.packets.head? = some p → p.streamPos = e.2.headStreamPos) ∧
          List.Chain' (fun a b => b.streamPos = add32 a.streamPos a.packetSize)
            e.2.packetList.packets ∧
          (∀ p ∈ e.2.packetList.packets, p.pipeId = e.1) ∧
          e.2.streamPos =
            (e.2.headStreamPos + totalSize e.2.packetList.packets) % wordSize ∧
          (e.2.packetList.packets = [] → e.2.headStreamPos = e.2.streamPos) :=
  ⟨by decide, send_window_is_run 2 twoSlavesTraffic (by decide)⟩

/-! ## The minimum of the slave barrier ids -/

theorem recordBarrierId_minimum (numSlaves : Nat) (ps : PipeState) (nodeIndex barrierId : Nat)
    (ps1 : PipeState) (h : recordBarrierId ps nodeIndex barrierId = Except.ok ps1)
    (hm : MinimumRecorded numSlaves ps) : MinimumRecorded numSlaves ps1 := by
  unfold recordBarrierId at h
  simp only [] at h
  split at h
  · cases hmin : minimumOf (ps.slaveBarrierIds.set (sub32 nodeIndex 1) barrierId) with
    | error f => rw [hmin] at h; exact absurd h (by simp)
    | ok m =>
      rw [hmin] at h
      simp only [Except.ok.injEq] at h
      rw [← h]
      exact ⟨by show (List.set _ _ _).length = _; rw [List.length_set]; exact hm.1, hmin⟩
  · exact absurd h (by simp)

theorem ofExcept_minimum (numSlaves : Nat) (ps : PipeState) (pool : List Packet)
    (r : Except Fault PipeState) (hm : MinimumRecorded numSlaves ps)
    (h : ∀ ps1, r = Except.ok ps1 → MinimumRecorded numSlaves ps1) :
    MinimumRecorded numSlaves (PipeResult.ofExcept ps pool r).pipeState := by
  unfold PipeResult.ofExcept
  cases r with
  | error f => exact hm
  | ok ps1 => exact h ps1 rfl

theorem handleSlaveMessageOn_minimum (numSlaves : Nat) (ps : PipeState) (pool : List Packet)
    (msg : SlaveMessage) (hm : MinimumRecorded numSlaves ps) :
    MinimumRecorded numSlaves (handleSlaveMessageOn ps pool msg).pipeState := by
  have hreport : ∀ ps1 pool1,
      processAcknowledgment ps pool (sub32 msg.nodeIndex 1) msg.streamPos =
        Except.ok (ps1, pool1) → MinimumRecorded numSlaves ps1 := by
    intro ps1 pool1 h
    obtain ⟨_, _, _, _, _, _, _, _, h1, h2, _⟩ := processAcknowledgment_shape ps pool _ _ ps1 pool1 h
    unfold MinimumRecorded
    rw [h1, h2]
    exact hm
  unfold handleSlaveMessageOn
  split
  · unfold handleCreatePipe
    split
    · exact hm
    · exact ofExcept_minimum numSlaves ps pool _ hm
        (fun ps1 h => recordBarrierId_minimum numSlaves ps _ _ ps1 h hm)
  · rcases handleAcknowledgment_cases ps pool msg with ⟨h, _⟩ | h
    · rw [h]; exact hm
    · exact hreport _ _ h
  · rcases handlePacketLoss_cases ps pool msg with ⟨h, _⟩ | h
    · rw [h]; exact hm
    · exact hreport _ _ h
  · unfold handleBarrier
    split
    · exact hm
    · exact ofExcept_minimum numSlaves ps pool _ hm
        (fun ps1 h => recordBarrierId_minimum numSlaves ps _ _ ps1 h hm)
  · unfold handleGather
    split
    · exact hm
    · simp only []
      split
      · split
        · apply ofExcept_minimum numSlaves ps pool _ hm
          intro ps1 h
          cases hmin : minimumOf (ps.slaveBarrierIds.set (sub32 msg.nodeIndex 1) msg.barrierId) with
          | error f => rw [hmin] at h; exact absurd h (by simp)
          | ok m =>
            rw [hmin] at h
            simp only [Except.ok.injEq] at h
            rw [← h]
            exact ⟨by show (List.set _ _ _).length = _; rw [List.length_set]; exact hm.1, hmin⟩
        · exact hm
      · exact hm
  · exact hm

theorem minimumRecorded_of_fields (numSlaves : Nat) (a b : PipeState)
    (h1 : b.slaveBarrierIds = a.slaveBarrierIds)
    (h2 : b.minSlaveBarrierId = a.minSlaveBarrierId) (hm : MinimumRecorded numSlaves a) :
    MinimumRecorded numSlaves b := by
  unfold MinimumRecorded
  rw [h1, h2]
  exact hm

theorem barrierMaster_ids (numSlaves pipeId : Nat) (ps : PipeState) (pool : List Packet) :
    (barrierMaster numSlaves pipeId ps pool).pipeState.slaveBarrierIds = ps.slaveBarrierIds ∧
      (barrierMaster numSlaves pipeId ps pool).pipeState.minSlaveBarrierId =
        ps.minSlaveBarrierId := by
  unfold barrierMaster
  simp only []
  split
  · exact ⟨rfl, rfl⟩
  · cases hf : flushSendWindow numSlaves ps pool with
    | error f => exact ⟨rfl, rfl⟩
    | ok r =>
      obtain ⟨ps1, pool1⟩ := r
      obtain ⟨_, h2, h3, _⟩ := flushSendWindow_barrier_fields numSlaves ps pool ps1 pool1 hf
      exact ⟨h2, h3⟩

theorem gatherMaster_ids (numSlaves pipeId : Nat) (ps : PipeState) (pool : List Packet)
    (value : Nat) (op : OpCode) :
    (gatherMaster numSlaves pipeId ps pool value op).pipeState.slaveBarrierIds =
        ps.slaveBarrierIds ∧
      (gatherMaster numSlaves pipeId ps pool value op).pipeState.minSlaveBarrierId =
        ps.minSlaveBarrierId := by
  unfold gatherMaster
  simp only []
  split
  · exact ⟨rfl, rfl⟩
  · cases hf : flushSendWindow numSlaves
        { ps with masterGatherValue := gatherValue op value ps.slaveGatherValues } pool with
    | error f => exact ⟨rfl, rfl⟩
    | ok r =>
      obtain ⟨ps1, pool1⟩ := r
      obtain ⟨_, h2, h3, _⟩ := flushSendWindow_barrier_fields numSlaves _ pool ps1 pool1 hf
      exact ⟨h2, h3⟩

theorem minimumRecorded_preserved (numSlaves : Nat) (hN : 1 ≤ numSlaves) :
    Preserved numSlaves (fun _ ps => MinimumRecorded numSlaves ps) where
  created := by
    intro id u
    simp only [newPipeState, if_true]
    have hne : List.replicate numSlaves 0 ≠ [] := by
      intro h
      have := congrArg List.length h
      rw [List.length_replicate] at this
      simp only [List.length_nil] at this
      omega
    obtain ⟨m, hm, hmem, _⟩ := minimumOf_spec _ hne
    have h0 : m = 0 := (List.mem_replicate.mp hmem).2
    rw [h0] at hm
    exact ⟨List.length_replicate _ _, hm⟩
  marked := fun _ _ h => h
  sendPacket := by
    intro id size ps pool packet h
    obtain ⟨_, _, _, _, h5, h6⟩ := sendPacketOn_flow size id ps pool packet
    exact minimumRecorded_of_fields numSlaves _ _ h5 h6 h
  message := fun _ ps pool msg _ _ _ h => handleSlaveMessageOn_minimum numSlaves ps pool msg h
  barrier := by
    intro id ps pool h
    obtain ⟨h1, h2⟩ := barrierMaster_ids numSlaves id ps pool
    exact minimumRecorded_of_fields numSlaves _ _ h1 h2 h
  gather := by
    intro id ps pool value op h
    obtain ⟨h1, h2⟩ := gatherMaster_ids numSlaves id ps pool value op
    exact minimumRecorded_of_fields numSlaves _ _ h1 h2 h

/-- C28: on a master with at least one slave, after any sequence of `openPipe`, `sendPacket`,
`barrier` and `gather` calls and of slave messages with a node index in 1..`numSlaves`
(`CREATEPIPE`, `BARRIER` and `GATHER` messages among them), every pipe in the table has
`numSlaves` slave barrier ids and its `minSlaveBarrierId` is their minimum: it is one of them
and no slave barrier id is below it. -/
theorem minSlaveBarrierId_is_minimum (numSlaves : Nat) (events : List ApiEvent)
    (hN : 1 ≤ numSlaves) (hwf : ∀ e ∈ events, e.FromSlaves numSlaves) :
    ∀ e ∈ ((Multiplexer.new numSlaves 0).run events).pipeStateTable,
      e.2.slaveBarrierIds.length = numSlaves ∧
        e.2.minSlaveBarrierId ∈ e.2.slaveBarrierIds ∧
        ∀ id ∈ e.2.slaveBarrierIds, e.2.minSlaveBarrierId ≤ id := by
  intro e he
  obtain ⟨hlen, hmin⟩ := tableInv_new numSlaves (fun _ ps => MinimumRecorded numSlaves ps)
    (minimumRecorded_preserved numSlaves hN) events hwf e he
  have hne : e.2.slaveBarrierIds ≠ [] := by
    intro h
    have := congrArg List.length h
    rw [hlen] at this
    simp only [List.length_nil] at this
    omega
  obtain ⟨m, hm, hmem, hle⟩ := minimumOf_spec _ hne
  rw [hmin] at hm
  simp only [Except.ok.injEq] at hm
  rw [hm]
  exact ⟨hlen, hmem, hle⟩

/-- C28 (witness): two slaves complete barrier 2 and slave 2 enters the gather of barrier 3:
the slave barrier ids are 2 and 3 and `minSlaveBarrierId` is 2. -/
theorem minSlaveBarrierId_is_minimum_witness :
    (((Multiplexer.new 2 0).run twoSlavesBarriers).findEntry 1).map
        (fun ps => (ps.barrierId, ps.slaveBarrierIds, ps.minSlaveBarrierId)) =
        some (2, [2, 3], 2) ∧
      ∀ e ∈ ((Multiplexer.new 2 0).run twoSlavesBarriers).pipeStateTable,
        e.2.slaveBarrierIds.length = 2 ∧
          e.2.minSlaveBarrierId ∈ e.2.slaveBarrierIds ∧
          ∀ id ∈ e.2.slaveBarrierIds, e.2.minSlaveBarrierId ≤ id :=
  ⟨by decide, minSlaveBarrierId_is_minimum 2 twoSlavesBarriers (by decide) (by decide)⟩

/-! ## C23: a data packet that arrives out of order -/

theorem lossMode_writePipe (m : Multiplexer) (p q : Nat) (ps ps1 : PipeState)
    (pool : List Packet) (h : m.findEntry p = some ps)
    (hl : ps1.packetLossMode = ps.packetLossMode) :
    ((m.writePipe p ps1 pool).findEntry q).map (fun s => s.packetLossMode) =
      (m.findEntry q).map (fun s => s.packetLossMode) := by
  by_cases hq : q = p
  · subst hq
    rw [findEntry_writePipe_same _ _ ps _ _ h, h]
    simp only [Option.map_some', hl]
  · rw [findEntry_writePipe_other _ _ _ _ _ hq]

theorem flushSendWindow_lossMode (numSlaves : Nat) (ps : PipeState) (pool : List Packet)
    (ps1 : PipeState) (pool1 : List Packet)
    (h : flushSendWindow numSlaves ps pool = Except.ok (ps1, pool1)) :
    ps1.packetLossMode = ps.packetLossMode := by
  unfold flushSendWindow at h
  simp only at h
  split at h
  · split at h
    · exact absurd h (by simp)
    · simp only [Except.ok.injEq, Prod.mk.injEq] at h
      rw [← h.1]
  · simp only [Except.ok.injEq, Prod.mk.injEq] at h
    rw [← h.1]

theorem barrierMaster_lossMode (numSlaves pipeId : Nat) (ps : PipeState) (pool : List Packet) :
    (barrierMaster numSlaves pipeId ps pool).pipeState.packetLossMode = ps.packetLossMode := by
  unfold barrierMaster
  simp only []
  split
  · rfl
  · cases hf : flushSendWindow numSlaves ps pool with
    | error f => rfl
    | ok r =>
      obtain ⟨ps1, pool1⟩ := r
      exact flushSendWindow_lossMode numSlaves ps pool ps1 pool1 hf

theorem gatherMaster_lossMode (numSlaves pipeId : Nat) (ps : PipeState) (pool : List Packet)
    (value : Nat) (op : OpCode) :
    (gatherMaster numSlaves pipeId ps pool value op).pipeState.packetLossMode =
      ps.packetLossMode := by
  unfold gatherMaster
  simp only []
  split
  · rfl
  · cases hf : flushSendWindow numSlaves
        { ps with masterGatherValue := gatherValue op value ps.slaveGatherValues } pool with
    | error f => rfl
    | ok r =>
      obtain ⟨ps1, pool1⟩ := r
      exact flushSendWindow_lossMode numSlaves
        { ps with masterGatherValue := gatherValue op value ps.slaveGatherValues } pool ps1 pool1 hf

theorem receivePacketOn_lossMode (nodeIndex burst pipeId : Nat) (ps : PipeState)
    (timedOut : Bool) :
    (receivePacketOn nodeIndex burst pipeId ps timedOut).1.packetLossMode =
      ps.packetLossMode := by
  unfold receivePacketOn
  split
  · rfl
  · split <;> rfl

theorem handleMasterMessage_lossMode (ps : PipeState) (msg : MasterMessage) :
    (handleMasterMessage ps msg).1.packetLossMode = ps.packetLossMode := by
  unfold handleMasterMessage
  split
  · rfl
  · rfl
  · rfl
  · rfl
  · split <;> rfl

/-- An event at a slave other than a data packet leaves the flag `packetLossMode` of every pipe
and the burst size as they are. -/
theorem slave_call_lossMode (n : Node) (e : NodeEvent) (q : Nat) (hs : e.atSlave = true)
    (hd : ∀ pipeId streamPos payload constructed,
      e ≠ NodeEvent.dataPacket pipeId streamPos payload constructed) :
    (n.step e).lossMode q = n.lossMode q ∧
      (n.step e).multiplexer.slaveMessageBurstSize = n.multiplexer.slaveMessageBurstSize := by
  unfold Node.lossMode
  cases e with
  | openPipeBegin u => exact absurd hs (by simp [NodeEvent.atSlave])
  | openPipeFinish id s => exact absurd hs (by simp [NodeEvent.atSlave])
  | closePipe id s => exact absurd hs (by simp [NodeEvent.atSlave])
  | setSendBufferSize k => exact absurd hs (by simp [NodeEvent.atSlave])
  | sendPacket id packet => exact absurd hs (by simp [NodeEvent.atSlave])
  | slaveMessage msg => exact absurd hs (by simp [NodeEvent.atSlave])
  | dataPacket id pos payload c => exact absurd rfl (hd id pos payload c)
  | receivePacket id t =>
    simp only [Node.step, Multiplexer.receivePacket]
    cases h : n.multiplexer.findEntry id with
    | none => exact ⟨rfl, rfl⟩
    | some ps =>
      exact ⟨lossMode_writePipe _ _ _ ps _ _ h (receivePacketOn_lossMode _ _ _ _ _), rfl⟩
  | barrier id s =>
    simp only [Node.step, Multiplexer.barrier]
    cases h : n.multiplexer.findEntry id with
    | none => exact ⟨rfl, rfl⟩
    | some ps =>
      simp only []
      split
      · exact ⟨lossMode_writePipe _ _ _ ps _ _ h (barrierMaster_lossMode _ _ _ _), rfl⟩
      · refine ⟨lossMode_writePipe _ _ _ ps _ _ h ?_, rfl⟩
        unfold barrierSlave completeBarrier
        simp only []
        split <;> rfl
  | gather id v op s =>
    simp only [Node.step, Multiplexer.gather]
    cases h : n.multiplexer.findEntry id with
    | none => exact ⟨rfl, rfl⟩
    | some ps =>
      simp only []
      split
      · exact ⟨lossMode_writePipe _ _ _ ps _ _ h (gatherMaster_lossMode _ _ _ _ _ _), rfl⟩
      · refine ⟨lossMode_writePipe _ _ _ ps _ _ h ?_, rfl⟩
        unfold gatherSlave completeBarrier
        simp only []
        split <;> rfl
  | masterMessage msg =>
    simp only [Node.step]
    split
    · exact ⟨rfl, rfl⟩
    · simp only [Multiplexer.handleMasterMessage]
      split
      · exact ⟨rfl, rfl⟩
      · exact ⟨rfl, rfl⟩
      · cases h : n.multiplexer.findEntry msg.pipeId with
        | none => exact ⟨rfl, rfl⟩
        | some ps =>
          exact ⟨lossMode_writePipe _ _ _ ps _ _ h (handleMasterMessage_lossMode _ _), rfl⟩
/-- A data packet that does not arrive in order on pipe `q` either sends nothing for `q` and
leaves the flag `packetLossMode` of `q`, or finds the flag clear, sets it, and sends one burst
of `PACKETLOSS` messages. -/
theorem data_step_reports (n : Node) (q id pos : Nat) (payload : List Nat) (c : Packet)
    (hno : ¬ (NodeEvent.dataPacket id pos payload c).DeliversOn q n) :
    (n.step (NodeEvent.dataPacket id pos payload c)).multiplexer.slaveMessageBurstSize =
        n.multiplexer.slaveMessageBurstSize ∧
      ((sentFor q n (NodeEvent.dataPacket id pos payload c) = [] ∧
          (n.step (NodeEvent.dataPacket id pos payload c)).lossMode q = n.lossMode q) ∨
        (n.lossMode q = some false ∧
          (n.step (NodeEvent.dataPacket id pos payload c)).lossMode q = some true ∧
          ∃ msg : SlaveMessage, msg.messageId = SlaveMessageId.PACKETLOSS ∧
            sentFor q n (NodeEvent.dataPacket id pos payload c) =
              List.replicate n.multiplexer.slaveMessageBurstSize msg)) := by
  cases hr : n.receiverEnded with
  | true =>
    have hstep : n.step (NodeEvent.dataPacket id pos payload c) = n := by
      simp only [Node.step, hr, if_true]
    have hsent : sentFor q n (NodeEvent.dataPacket id pos payload c) = [] := by
      simp only [sentFor, hr]
      rw [if_neg (fun h => absurd h.1 (by simp))]
    rw [hstep, hsent]
    exact ⟨rfl, Or.inl ⟨rfl, rfl⟩⟩
  | false =>
    have hstep : n.step (NodeEvent.dataPacket id pos payload c) =
        if id = 0 then n else (n.handleDataPacket id pos payload c).1 := by
      simp only [Node.step, hr, Bool.false_eq_true, if_false]
    have hsent : sentFor q n (NodeEvent.dataPacket id pos payload c) =
        if id = q ∧ id ≠ 0 then (n.handleDataPacket id pos payload c).2 else [] := by
      simp only [sentFor, hr, true_and]
    rw [hstep, hsent]
    by_cases hz : id = 0
    · rw [if_pos hz, if_neg (fun h => h.2 hz)]
      exact ⟨rfl, Or.inl ⟨rfl, rfl⟩⟩
    rw [if_neg hz]
    by_cases hq : id = q
    · subst hq
      simp only [NodeEvent.DeliversOn, hr, true_and] at hno
      rw [if_pos ⟨rfl, hz⟩]
      unfold Node.lossMode Node.handleDataPacket
      simp only []
      cases h : n.multiplexer.findEntry id with
      | none => exact ⟨rfl, Or.inl ⟨rfl, by simp only [h]⟩⟩
      | some ps =>
        rw [h] at hno
        simp only [Option.map_some', Option.some.injEq] at hno
        have hne : ps.streamPos ≠ (Packet.received id pos payload).streamPos := hno
        simp only []
        unfold Cluster.handleDataPacket
        rw [if_pos hne]
        by_cases ha : ps.streamPos < (Packet.received id pos payload).streamPos ∧
            ps.packetLossMode = false
        · rw [if_pos ha]
          simp only [Bool.false_eq_true, if_false]
          refine ⟨rfl, Or.inr ⟨?_, ?_, _, rfl, rfl⟩⟩
          · simp only [Option.map_some', ha.2]
          · rw [findEntry_writePipe_same _ _ ps _ _ h]
            rfl
        · rw [if_neg ha]
          simp only [Bool.false_eq_true, if_false]
          refine ⟨rfl, Or.inl ⟨trivial, ?_⟩⟩
          rw [findEntry_writePipe_same _ _ ps _ _ h]
    · rw [if_neg (fun h => hq h.1)]
      have hstep2 : (n.handleDataPacket id pos payload c).1 =
          n.step (NodeEvent.dataPacket id pos payload c) := by
        rw [hstep, if_neg hz]
      rw [hstep2]
      obtain ⟨⟨_, _, _, _, h5⟩, hentry⟩ :=
        step_onlyPipe n (NodeEvent.dataPacket id pos payload c) id rfl
      refine ⟨h5, Or.inl ⟨rfl, ?_⟩⟩
      unfold Node.lossMode
      rw [hentry q (fun h => hq h.symm)]

theorem slave_step_reports (n : Node) (e : NodeEvent) (q : Nat) (hs : e.atSlave = true)
    (hno : ¬ e.DeliversOn q n) :
    (n.step e).multiplexer.slaveMessageBurstSize = n.multiplexer.slaveMessageBurstSize ∧
      ((sentFor q n e = [] ∧ (n.step e).lossMode q = n.lossMode q) ∨
        (n.lossMode q = some false ∧ (n.step e).lossMode q = some true ∧
          ∃ msg : SlaveMessage, msg.messageId = SlaveMessageId.PACKETLOSS ∧
            sentFor q n e = List.replicate n.multiplexer.slaveMessageBurstSize msg)) := by
  by_cases hd : ∃ id pos payload c, e = NodeEvent.dataPacket id pos payload c
  · obtain ⟨id, pos, payload, c, rfl⟩ := hd
    exact data_step_reports n q id pos payload c hno
  · have hd1 : ∀ id pos payload c, e ≠ NodeEvent.dataPacket id pos payload c :=
      fun id pos payload c h => hd ⟨id, pos, payload, c, h⟩
    obtain ⟨h1, h2⟩ := slave_call_lossMode n e q hs hd1
    refine ⟨h2, Or.inl ⟨?_, h1⟩⟩
    cases e with
    | dataPacket id pos payload c => exact absurd rfl (hd1 id pos payload c)
    | _ => rfl

theorem no_reports_in_loss_mode (q : Nat) (events : List NodeEvent) :
    ∀ n : Node, (∀ e ∈ events, e.atSlave = true) → NoDeliveryOn q n events →
      n.lossMode q ≠ some false → reportsOn q n events = [] := by
  induction events with
  | nil => intro n _ _ _; rfl
  | cons e rest ih =>
    intro n hs hno hm
    simp only [NoDeliveryOn] at hno
    simp only [reportsOn]
    rcases (slave_step_reports n e q (hs e (List.mem_cons_self _ _)) hno.1).2 with h | h
    · rw [h.1, List.nil_append]
      exact ih _ (fun x hx => hs x (List.mem_cons_of_mem _ hx)) hno.2 (by rw [h.2]; exact hm)
    · exact absurd h.1 hm

theorem at_most_one_burst (q : Nat) (events : List NodeEvent) :
    ∀ n : Node, (∀ e ∈ events, e.atSlave = true) → NoDeliveryOn q n events →
      reportsOn q n events = [] ∨
        ∃ msg : SlaveMessage, msg.messageId = SlaveMessageId.PACKETLOSS ∧
          reportsOn q n events = List.replicate n.multiplexer.slaveMessageBurstSize msg := by
  induction events with
  | nil => intro n _ _; exact Or.inl rfl
  | cons e rest ih =>
    intro n hs hno
    simp only [NoDeliveryOn] at hno
    simp only [reportsOn]
    obtain ⟨hb, h⟩ := slave_step_reports n e q (hs e (List.mem_cons_self _ _)) hno.1
    have hrest : ∀ x ∈ rest, x.atSlave = true := fun x hx => hs x (List.mem_cons_of_mem _ hx)
    rcases h with h | h
    · rw [h.1, List.nil_append, ← hb]
      exact ih _ hrest hno.2
    · obtain ⟨_, hm, msg, hmsg, hsent⟩ := h
      rw [hsent, no_reports_in_loss_mode q rest _ hrest hno.2 (by rw [hm]; simp),
        List.append_nil]
      exact Or.inr ⟨msg, hmsg, rfl⟩

/-- C23: a data packet whose stream position is not the pipe's is neither queued nor
acknowledged, and the pipe's stream position and delivery queue stay as they are.  When the
packet is ahead of the pipe and `packetLossMode` is clear, the receiver thread sets the flag and
sends `slaveMessageBurstSize` `PACKETLOSS` messages that carry the pipe's stream position and
the packet's; otherwise it sends nothing and changes nothing.  Hence along any sequence of
events at a slave in which no data packet arrives in order on pipe `q`, the receiver thread
sends at most one such burst for `q`. -/
theorem out_of_order_packet_reports_once (numSlaves nodeIndex burst : Nat) (ps : PipeState)
    (sendAckIn : Nat) (packet : Packet) (hne : ps.streamPos ≠ packet.streamPos)
    (n : Node) (q : Nat) (events : List NodeEvent)
    (hs : ∀ e ∈ events, e.atSlave = true) (hno : NoDeliveryOn q n events) :
    (handleDataPacket numSlaves nodeIndex burst ps sendAckIn packet).queued = false ∧
      (handleDataPacket numSlaves nodeIndex burst ps sendAckIn packet).pipeState.streamPos =
        ps.streamPos ∧
      (handleDataPacket numSlaves nodeIndex burst ps sendAckIn packet).pipeState.packetList =
        ps.packetList ∧
      (handleDataPacket numSlaves nodeIndex burst ps sendAckIn packet).sendAckIn = sendAckIn ∧
      (∀ msg ∈ (handleDataPacket numSlaves nodeIndex burst ps sendAckIn packet).sent,
        msg.messageId ≠ SlaveMessageId.ACKNOWLEDGMENT) ∧
      (ps.streamPos < packet.streamPos ∧ ps.packetLossMode = false →
        (handleDataPacket numSlaves nodeIndex burst ps sendAckIn packet).sent =
            List.replicate burst
              (packetLossMessage nodeIndex packet.pipeId ps.streamPos packet.streamPos) ∧
          (handleDataPacket numSlaves nodeIndex burst ps sendAckIn packet).pipeState =
            { ps with packetLossMode := true }) ∧
      (¬ (ps.streamPos < packet.streamPos ∧ ps.packetLossMode = false) →
        (handleDataPacket numSlaves nodeIndex burst ps sendAckIn packet).sent = [] ∧
          (handleDataPacket numSlaves nodeIndex burst ps sendAckIn packet).pipeState = ps) ∧
      (reportsOn q n events = [] ∨
        ∃ msg : SlaveMessage, msg.messageId = SlaveMessageId.PACKETLOSS ∧
          reportsOn q n events = List.replicate n.multiplexer.slaveMessageBurstSize msg) := by
  unfold handleDataPacket
  rw [if_pos hne]
  by_cases ha : ps.streamPos < packet.streamPos ∧ ps.packetLossMode = false
  · rw [if_pos ha]
    refine ⟨rfl, rfl, rfl, rfl, ?_, fun _ => ⟨rfl, rfl⟩, fun h => absurd ha h,
      at_most_one_burst q events n hs hno⟩
    intro msg hmsg
    rw [List.eq_of_mem_replicate hmsg]
    simp
  · rw [if_neg ha]
    refine ⟨rfl, rfl, rfl, rfl, ?_, fun h => absurd h ha, fun _ => ⟨rfl, rfl⟩,
      at_most_one_burst q events n hs hno⟩
    intro msg hmsg
    exact absurd hmsg (List.not_mem_nil _)

theorem out_of_order_packet_reports_once_witness :
    (handleDataPacket 2 1 3 { streamPos := 4, barrierId := 1 } 0 ⟨1, 6, 1, [9]⟩).sent =
        List.replicate 3 (packetLossMessage 1 1 4 6) ∧
      (handleDataPacket 2 1 3 { streamPos := 4, barrierId := 1 } 0 ⟨1, 6, 1, [9]⟩).pipeState =
        { streamPos := 4, barrierId := 1, packetLossMode := true } ∧
      (reportsOn 1 slaveAtFour outOfOrderTraffic = [] ∨
        ∃ msg : SlaveMessage, msg.messageId = SlaveMessageId.PACKETLOSS ∧
          reportsOn 1 slaveAtFour outOfOrderTraffic = List.replicate 3 msg) :=
  have h := out_of_order_packet_reports_once 2 1 3 { streamPos := 4, barrierId := 1 } 0
    ⟨1, 6, 1, [9]⟩ (by decide) slaveAtFour 1 outOfOrderTraffic (by decide) (by decide)
  ⟨(h.2.2.2.2.2.1 ⟨by decide, rfl⟩).1, (h.2.2.2.2.2.1 ⟨by decide, rfl⟩).2, h.2.2.2.2.2.2.2⟩

/-! ## C24: the stagger of the acknowledgments -/

theorem newPacket_numSlaves (m : Multiplexer) (constructed : Packet) :
    (m.newPacket constructed).2.numSlaves = m.numSlaves := by
  unfold Multiplexer.newPacket
  split <;> rfl

theorem closePipe_numSlaves (m : Multiplexer) (pipeId : Nat) (signalled : Bool) :
    (m.closePipe pipeId signalled).multiplexer.numSlaves = m.numSlaves := by
  have hb : (m.barrier pipeId signalled).multiplexer.numSlaves = m.numSlaves := by
    unfold Multiplexer.barrier
    split
    · rfl
    · split <;> rfl
  unfold Multiplexer.closePipe
  simp only []
  split
  · exact hb
  · exact hb
  · split
    · exact hb
    · split
      · split
        · exact hb
        · exact hb
      · exact hb

theorem openPipeFinish_numSlaves (m : Multiplexer) (newPipeId : Nat) (signalled : Bool) :
    (m.openPipeFinish newPipeId signalled).multiplexer.numSlaves = m.numSlaves := by
  unfold Multiplexer.openPipeFinish
  split
  · rfl
  · split
    · split <;> rfl
    · simp only []
      split <;> rfl

theorem handleDataPacket_numSlaves (n : Node) (pipeId streamPos : Nat) (payload : List Nat)
    (constructed : Packet) :
    (n.handleDataPacket pipeId streamPos payload constructed).1.multiplexer.numSlaves =
      n.multiplexer.numSlaves := by
  unfold Node.handleDataPacket
  simp only []
  split
  · rfl
  · split
    · exact newPacket_numSlaves _ _
    · rfl

/-- No event at a node changes `numSlaves`. -/
theorem step_numSlaves (n : Node) (e : NodeEvent) :
    (n.step e).multiplexer.numSlaves = n.multiplexer.numSlaves := by
  cases e with
  | openPipeBegin u => rfl
  | openPipeFinish id s => exact openPipeFinish_numSlaves _ _ _
  | closePipe id s => exact closePipe_numSlaves _ _ _
  | sendPacket id p =>
    simp only [Node.step, Multiplexer.sendPacket]
    split <;> rfl
  | receivePacket id t =>
    simp only [Node.step, Multiplexer.receivePacket]
    split <;> rfl
  | barrier id s =>
    simp only [Node.step, Multiplexer.barrier]
    split
    · rfl
    · split <;> rfl
  | gather id v op s =>
    simp only [Node.step, Multiplexer.gather]
    split
    · rfl
    · split <;> rfl
  | setSendBufferSize k => rfl
  | slaveMessage msg =>
    simp only [Node.step]
    split
    · rfl
    · simp only [Multiplexer.handleSlaveMessage]
      split
      · rfl
      · rfl
      · split <;> rfl
  | masterMessage msg =>
    simp only [Node.step]
    split
    · rfl
    · simp only [Multiplexer.handleMasterMessage]
      split
      · rfl
      · rfl
      · split <;> rfl
  | dataPacket id pos payload c =>
    simp only [Node.step]
    split
    · rfl
    · split
      · rfl
      · exact handleDataPacket_numSlaves _ _ _ _ _

/-- An event that is not an accepted data packet leaves `sendAckIn` as it is. -/
theorem step_sendAckIn (n : Node) (e : NodeEvent) (h : ¬ e.Accepted n) :
    (n.step e).sendAckIn = n.sendAckIn := by
  cases e with
  | dataPacket id pos payload c =>
    simp only [Node.step]
    split
    · rfl
    · rename_i hr
      split
      · rfl
      · rename_i hz
        have hr1 : n.receiverEnded = false := by
          cases hb : n.receiverEnded with
          | false => rfl
          | true => exact absurd hb hr
        simp only [NodeEvent.Accepted, hr1, true_and] at h
        unfold Node.handleDataPacket
        simp only []
        cases hf : n.multiplexer.findEntry id with
        | none => rfl
        | some ps =>
          rw [hf] at h
          simp only [Option.map_some', Option.some.injEq] at h
          have hne : ps.streamPos ≠ (Packet.received id pos payload).streamPos :=
            fun heq => h ⟨hz, heq⟩
          simp only []
          unfold Cluster.handleDataPacket
          rw [if_pos hne]
          split <;> rfl
  | slaveMessage msg =>
    simp only [Node.step]
    split <;> rfl
  | masterMessage msg =>
    simp only [Node.step]
    split <;> rfl
  | _ => rfl

/-- An accepted data packet counts `sendAckIn` up; when the counter reaches `numSlaves` the
receiver thread sends one `ACKNOWLEDGMENT` and resets the counter, else it sends nothing. -/
theorem step_accepted (n : Node) (e : NodeEvent) (h : e.Accepted n) :
    (n.step e).sendAckIn =
        (if add32 n.sendAckIn 1 = n.multiplexer.numSlaves then 0 else add32 n.sendAckIn 1) ∧
      ((add32 n.sendAckIn 1 = n.multiplexer.numSlaves ∧
          ∃ msg : SlaveMessage, msg.messageId = SlaveMessageId.ACKNOWLEDGMENT ∧
            receiverSent n e = [msg]) ∨
        (add32 n.sendAckIn 1 ≠ n.multiplexer.numSlaves ∧ receiverSent n e = [])) := by
  cases e with
  | dataPacket id pos payload c =>
    simp only [NodeEvent.Accepted] at h
    obtain ⟨hr, hz, hpos⟩ := h
    have hstep : n.step (NodeEvent.dataPacket id pos payload c) =
        (n.handleDataPacket id pos payload c).1 := by
      simp only [Node.step, hr, Bool.false_eq_true, if_false, if_neg hz]
    have hsent : receiverSent n (NodeEvent.dataPacket id pos payload c) =
        (n.handleDataPacket id pos payload c).2 := by
      simp only [receiverSent, hr, Bool.false_eq_true, false_or, if_neg hz]
    rw [hstep, hsent]
    unfold Node.handleDataPacket
    simp only []
    cases hf : n.multiplexer.findEntry id with
    | none => rw [hf] at hpos; exact absurd hpos (by simp)
    | some ps =>
      rw [hf] at hpos
      simp only [Option.map_some', Option.some.injEq] at hpos
      have heq : ¬ ps.streamPos ≠ (Packet.received id pos payload).streamPos :=
        fun hne => hne hpos
      simp only []
      unfold Cluster.handleDataPacket
      rw [if_neg heq]
      simp only [if_true]
      refine ⟨trivial, ?_⟩
      by_cases hc : add32 n.sendAckIn 1 = n.multiplexer.numSlaves
      · left
        rw [if_pos hc]
        exact ⟨hc, _, rfl, rfl⟩
      · right
        rw [if_neg hc]
        exact ⟨hc, rfl⟩
  | openPipeBegin u => exact absurd h (by simp [NodeEvent.Accepted])
  | openPipeFinish id s => exact absurd h (by simp [NodeEvent.Accepted])
  | closePipe id s => exact absurd h (by simp [NodeEvent.Accepted])
  | sendPacket id p => exact absurd h (by simp [NodeEvent.Accepted])
  | receivePacket id t => exact absurd h (by simp [NodeEvent.Accepted])
  | barrier id s => exact absurd h (by simp [NodeEvent.Accepted])
  | gather id v op s => exact absurd h (by simp [NodeEvent.Accepted])
  | setSendBufferSize k => exact absurd h (by simp [NodeEvent.Accepted])
  | slaveMessage msg => exact absurd h (by simp [NodeEvent.Accepted])
  | masterMessage msg => exact absurd h (by simp [NodeEvent.Accepted])

/-- With the counter at `sendAckIn < numSlaves`, the accepted packet number `i + 1` from here is
acknowledged, by one message, exactly when `numSlaves` divides `sendAckIn + i + 1`. -/
theorem ackLog_counter (N : Nat) (hN : N < wordSize) (events : List NodeEvent) :
    ∀ n : Node, n.multiplexer.numSlaves = N → n.sendAckIn < N →
      ∀ i l, (ackLog n events)[i]? = some l →
        l.length = (if (n.sendAckIn + i + 1) % N = 0 then 1 else 0) ∧
          ∀ m ∈ l, m.messageId = SlaveMessageId.ACKNOWLEDGMENT := by
  induction events with
  | nil => intro n _ _ i l h; simp [ackLog] at h
  | cons e rest ih =>
    intro n hn hs i l h
    simp only [ackLog] at h
    have hn1 : (n.step e).multiplexer.numSlaves = N := by rw [step_numSlaves, hn]
    by_cases ha : e.Accepted n
    · rw [if_pos ha] at h
      obtain ⟨hstep, hsent⟩ := step_accepted n e ha
      rw [hn] at hstep hsent
      have hadd : add32 n.sendAckIn 1 = n.sendAckIn + 1 :=
        add32_eq_of_lt (by omega)
      rw [hadd] at hstep hsent
      cases i with
      | zero =>
        simp only [List.singleton_append, List.getElem?_cons_zero, Option.some.injEq] at h
        subst h
        rcases hsent with ⟨hc, msg, hmsg, hl⟩ | ⟨hc, hl⟩
        · rw [hl]
          have : (n.sendAckIn + 0 + 1) % N = 0 := by
            rw [Nat.add_zero, hc]; exact Nat.mod_self N
          rw [if_pos this]
          refine ⟨rfl, ?_⟩
          intro m hm
          rw [List.mem_singleton] at hm
          rw [hm]; exact hmsg
        · rw [hl]
          have : ¬ (n.sendAckIn + 0 + 1) % N = 0 := by
            rw [Nat.add_zero, Nat.mod_eq_of_lt (by omega)]; omega
          rw [if_neg this]
          exact ⟨rfl, fun m hm => absurd hm (List.not_mem_nil _)⟩
      | succ i =>
        simp only [List.singleton_append, List.getElem?_cons_succ] at h
        by_cases hc : n.sendAckIn + 1 = N
        · rw [if_pos hc] at hstep
          have hres := ih (n.step e) hn1 (by rw [hstep]; omega) i l h
          rw [hstep] at hres
          have hmod : (n.sendAckIn + (i + 1) + 1) % N = (0 + i + 1) % N := by
            have : n.sendAckIn + (i + 1) + 1 = N + (i + 1) := by omega
            rw [this, Nat.add_mod_left, Nat.zero_add]
          rw [hmod]
          exact hres
        · rw [if_neg hc] at hstep
          have hres := ih (n.step e) hn1 (by rw [hstep]; omega) i l h
          rw [hstep] at hres
          have hmod : n.sendAckIn + (i + 1) + 1 = n.sendAckIn + 1 + i + 1 := by omega
          rw [hmod]
          exact hres
    · rw [if_neg ha, List.nil_append] at h
      have hres := ih (n.step e) hn1 (by rw [step_sendAckIn n e ha]; exact hs) i l h
      rw [step_sendAckIn n e ha] at hres
      exact hres

/-- The log of a slave with node index `k` of `N`: the `j`-th accepted packet is acknowledged,
by one message, exactly when `N` divides `j + k - 1`. -/
theorem ackLog_new (N k : Nat) (hk : 1 ≤ k) (hkN : k ≤ N) (hN : N < wordSize)
    (scratch : Packet) (events : List NodeEvent) (j : Nat) (l : List SlaveMessage)
    (hj : 1 ≤ j) (h : (ackLog (Node.new N k scratch) events)[j - 1]? = some l) :
    l.length = (if (j + k - 1) % N = 0 then 1 else 0) ∧
      ∀ m ∈ l, m.messageId = SlaveMessageId.ACKNOWLEDGMENT := by
  have hs : (Node.new N k scratch).sendAckIn = k - 1 := by
    show sub32 k 1 = k - 1
    exact sub32_eq_of_le hk (by omega)
  have hres := ackLog_counter N hN events (Node.new N k scratch) rfl (by rw [hs]; omega)
    (j - 1) l h
  rw [hs] at hres
  have : k - 1 + (j - 1) + 1 = j + k - 1 := by omega
  rw [this] at hres
  exact hres

/-- Among `N` consecutive ordinals exactly one has `N` dividing `j + k - 1`. -/
theorem one_ordinal_in_window (N k a : Nat) (hN : 0 < N) :
    ∃ j, a < j ∧ j ≤ a + N ∧ (j + k - 1) % N = 0 ∧
      ∀ j2, a < j2 → j2 ≤ a + N → (j2 + k - 1) % N = 0 → j2 = j := by
  have hlt : (a + k) % N < N := Nat.mod_lt _ hN
  have hex : ∃ t, t < N ∧ (a + k + t) % N = 0 := by
    by_cases hz : (a + k) % N = 0
    · exact ⟨0, hN, by rw [Nat.add_zero]; exact hz⟩
    · refine ⟨N - (a + k) % N, by omega, ?_⟩
      rw [← Nat.mod_add_mod]
      have : (a + k) % N + (N - (a + k) % N) = N := by omega
      rw [this]
      exact Nat.mod_self N
  obtain ⟨t, ht, hmod⟩ := hex
  refine ⟨a + 1 + t, by omega, by omega, ?_, ?_⟩
  · have : a + 1 + t + k - 1 = a + k + t := by omega
    rw [this]; exact hmod
  · intro j2 h1 h2 h3
    have h4 : (a + k + (j2 - (a + 1))) % N = 0 := by
      have : a + k + (j2 - (a + 1)) = j2 + k - 1 := by omega
      rw [this]; exact h3
    have hme : Nat.ModEq N (a + k + (j2 - (a + 1))) (a + k + t) := by
      unfold Nat.ModEq
      rw [h4, hmod]
    have hc := Nat.ModEq.add_left_cancel' (a + k) hme
    unfold Nat.ModEq at hc
    rw [Nat.mod_eq_of_lt (by omega), Nat.mod_eq_of_lt ht] at hc
    omega

/-- Two node indices in 1..`N` that acknowledge the same ordinal are equal. -/
theorem same_ordinal_same_index (N k1 k2 j : Nat) (hj : 1 ≤ j) (h1 : 1 ≤ k1) (h1N : k1 ≤ N)
    (h2 : 1 ≤ k2) (h2N : k2 ≤ N) (hm1 : (j + k1 - 1) % N = 0) (hm2 : (j + k2 - 1) % N = 0) :
    k1 = k2 := by
  have e1 : j + k1 - 1 = (j - 1) + k1 := by omega
  have e2 : j + k2 - 1 = (j - 1) + k2 := by omega
  rw [e1] at hm1
  rw [e2] at hm2
  have hme : Nat.ModEq N ((j - 1) + k1) ((j - 1) + k2) := by
    unfold Nat.ModEq
    rw [hm1, hm2]
  have hc := Nat.ModEq.add_left_cancel' (j - 1) hme
  unfold Nat.ModEq at hc
  by_cases c1 : k1 = N
  · by_cases c2 : k2 = N
    · rw [c1, c2]
    · rw [c1, Nat.mod_self, Nat.mod_eq_of_lt (by omega)] at hc
      omega
  · by_cases c2 : k2 = N
    · rw [c2, Nat.mod_self, Nat.mod_eq_of_lt (by omega)] at hc
      omega
    · rw [Nat.mod_eq_of_lt (by omega), Nat.mod_eq_of_lt (by omega)] at hc
      exact hc

/-- C24: a slave with node index `k` of `N` slaves starts its counter `sendAckIn` at `k - 1`;
the counter is one for the thread, whatever pipe a packet belongs to.  Over any sequence of
events at the slave, the `j`-th data packet its receiver thread accepts is answered by exactly
one `ACKNOWLEDGMENT` when `N` divides `j + k - 1` and by no message otherwise.  So of any `N`
consecutive accepted packets exactly one is acknowledged, and two slaves with different node
indices never acknowledge packets of the same ordinal. -/
theorem acknowledgments_are_staggered (N k : Nat) (hk : 1 ≤ k) (hkN : k ≤ N)
    (hN : N < wordSize) (scratch : Packet) (events : List NodeEvent) :
    (∀ j l, 1 ≤ j → (ackLog (Node.new N k scratch) events)[j - 1]? = some l →
        l.length = (if (j + k - 1) % N = 0 then 1 else 0) ∧
          ∀ m ∈ l, m.messageId = SlaveMessageId.ACKNOWLEDGMENT) ∧
      (∀ a, a + N ≤ (ackLog (Node.new N k scratch) events).length →
        ∃ j, a < j ∧ j ≤ a + N ∧
          (∃ msg, (ackLog (Node.new N k scratch) events)[j - 1]? = some [msg]) ∧
          ∀ j2, a < j2 → j2 ≤ a + N → j2 ≠ j →
            (ackLog (Node.new N k scratch) events)[j2 - 1]? = some []) ∧
      (∀ k2 scratch2 events2 j l l2, 1 ≤ k2 → k2 ≤ N → k2 ≠ k → 1 ≤ j →
        (ackLog (Node.new N k scratch) events)[j - 1]? = some l →
        (ackLog (Node.new N k2 scratch2) events2)[j - 1]? = some l2 → l = [] ∨ l2 = []) := by
  refine ⟨fun j l hj h => ackLog_new N k hk hkN hN scratch events j l hj h, ?_, ?_⟩
  · intro a ha
    obtain ⟨j, h1, h2, hmod, huniq⟩ := one_ordinal_in_window N k a (by omega)
    refine ⟨j, h1, h2, ?_, ?_⟩
    · have hlt : j - 1 < (ackLog (Node.new N k scratch) events).length := by omega
      have hget := List.getElem?_eq_getElem hlt
      have hl := (ackLog_new N k hk hkN hN scratch events j _ (by omega) hget).1
      rw [if_pos hmod] at hl
      obtain ⟨msg, hmsg⟩ := List.length_eq_one.mp hl
      exact ⟨msg, by rw [hget, hmsg]⟩
    · intro j2 h3 h4 hne
      have hlt : j2 - 1 < (ackLog (Node.new N k scratch) events).length := by omega
      have hget := List.getElem?_eq_getElem hlt
      have hl := (ackLog_new N k hk hkN hN scratch events j2 _ (by omega) hget).1
      rw [if_neg (fun hm => hne (huniq j2 h3 h4 hm))] at hl
      rw [hget, List.length_eq_zero.mp hl]
  · intro k2 scratch2 events2 j l l2 h1 h2 hne hj hl hl2
    have r1 := (ackLog_new N k hk hkN hN scratch events j l hj hl).1
    have r2 := (ackLog_new N k2 h1 h2 hN scratch2 events2 j l2 hj hl2).1
    by_cases c1 : (j + k - 1) % N = 0
    · by_cases c2 : (j + k2 - 1) % N = 0
      · exact absurd (same_ordinal_same_index N k2 k j hj h1 h2 hk hkN c2 c1) hne
      · rw [if_neg c2] at r2
        exact Or.inr (List.length_eq_zero.mp r2)
    · rw [if_neg c1] at r1
      exact Or.inl (List.length_eq_zero.mp r1)

theorem acknowledgments_are_staggered_witness :
    (ackLog (Node.new 3 2 ⟨0, 0, 0, []⟩) staggerTraffic).length = 5 ∧
      (∀ j l, 1 ≤ j → (ackLog (Node.new 3 2 ⟨0, 0, 0, []⟩) staggerTraffic)[j - 1]? = some l →
        l.length = (if (j + 2 - 1) % 3 = 0 then 1 else 0) ∧
          ∀ m ∈ l, m.messageId = SlaveMessageId.ACKNOWLEDGMENT) ∧
      (ackLog (Node.new 3 2 ⟨0, 0, 0, []⟩) staggerTraffic).map List.length = [0, 1, 0, 0, 1] ∧
      (ackLog (Node.new 3 3 ⟨0, 0, 0, []⟩) staggerTraffic).map List.length = [1, 0, 0, 1, 0] :=
  ⟨by decide,
    (acknowledgments_are_staggered 3 2 (by decide) (by decide) (by decide) ⟨0, 0, 0, []⟩
      staggerTraffic).1,
    by decide, by decide⟩

/-! ## C25: the stream position an acknowledgment carries -/

/-- C25 (counterexample): the only slave of a cluster accepts a packet of 2 bytes stamped 4 on
a pipe at stream position 4.  The pipe moves to position 6, and the acknowledgment the receiver
thread sends carries stream position 4, not 6. -/
theorem acknowledgment_carries_old_position :
    (handleDataPacket 1 1 1 { streamPos := 4, barrierId := 1 } 0 ⟨1, 4, 2, [1, 2]⟩).queued =
        true ∧
      (handleDataPacket 1 1 1 { streamPos := 4, barrierId := 1 } 0
        ⟨1, 4, 2, [1, 2]⟩).pipeState.streamPos = 6 ∧
      (handleDataPacket 1 1 1 { streamPos := 4, barrierId := 1 } 0 ⟨1, 4, 2, [1, 2]⟩).sent =
        [{ nodeIndex := 1, messageId := SlaveMessageId.ACKNOWLEDGMENT, pipeId := 1,
           streamPos := 4, packetPos := 4 }] := by
  decide

/-- C25 (amended): whenever the slave receiver sends an `ACKNOWLEDGMENT` for a data packet, the
packet has arrived in order and has been queued, and the message's `streamPos` field is the
stream position the pipe held before the packet was appended, which is the packet's own
`streamPos` and also the message's `packetPos`; the pipe's new stream position is that position
plus the packet's size, and it differs from the acknowledged position whenever the packet holds
between 1 and 2^32 - 1 bytes. -/
theorem acknowledgment_carries_packet_position (numSlaves nodeIndex burst : Nat)
    (ps : PipeState) (sendAckIn : Nat) (packet : Packet) (msg : SlaveMessage)
    (hmem : msg ∈ (handleDataPacket numSlaves nodeIndex burst ps sendAckIn packet).sent)
    (hack : msg.messageId = SlaveMessageId.ACKNOWLEDGMENT) :
    ps.streamPos = packet.streamPos ∧
      (handleDataPacket numSlaves nodeIndex burst ps sendAckIn packet).queued = true ∧
      msg.streamPos = ps.streamPos ∧ msg.streamPos = packet.streamPos ∧
      msg.packetPos = packet.streamPos ∧ msg.pipeId = packet.pipeId ∧
      msg.nodeIndex = nodeIndex ∧
      (handleDataPacket numSlaves nodeIndex burst ps sendAckIn packet).pipeState.streamPos =
        add32 packet.streamPos packet.packetSize ∧
      (ps.streamPos < wordSize → 0 < packet.packetSize → packet.packetSize < wordSize →
        msg.streamPos ≠
          (handleDataPacket numSlaves nodeIndex burst ps sendAckIn packet).pipeState.streamPos) := by
  unfold handleDataPacket at hmem ⊢
  by_cases hne : ps.streamPos ≠ packet.streamPos
  · rw [if_pos hne] at hmem
    split at hmem
    · rw [List.eq_of_mem_replicate hmem] at hack
      exact absurd hack (by simp)
    · exact absurd hmem (List.not_mem_nil _)
  · have heq : ps.streamPos = packet.streamPos := Decidable.of_not_not hne
    rw [if_neg hne] at hmem ⊢
    simp only [] at hmem ⊢
    split at hmem
    · rw [List.mem_singleton] at hmem
      subst hmem
      refine ⟨heq, trivial, rfl, heq, rfl, rfl, rfl, by rw [heq], ?_⟩
      intro h1 h2 h3
      show ps.streamPos ≠ add32 ps.streamPos packet.packetSize
      simp only [add32, wordSize] at h1 h3 ⊢
      omega
    · exact absurd hmem (List.not_mem_nil _)

theorem acknowledgment_carries_packet_position_witness :
    ({ nodeIndex := 1, messageId := SlaveMessageId.ACKNOWLEDGMENT, pipeId := 1,
       streamPos := 4, packetPos := 4 } : SlaveMessage).streamPos = 4 ∧
      (handleDataPacket 1 1 1 { streamPos := 4, barrierId := 1 } 0
        ⟨1, 4, 2, [1, 2]⟩).pipeState.streamPos = add32 4 2 :=
  have h := acknowledgment_carries_packet_position 1 1 1 { streamPos := 4, barrierId := 1 } 0
    ⟨1, 4, 2, [1, 2]⟩
    { nodeIndex := 1, messageId := SlaveMessageId.ACKNOWLEDGMENT, pipeId := 1,
      streamPos := 4, packetPos := 4 } (by decide) rfl
  ⟨h.2.2.2.1, h.2.2.2.2.2.2.2.1⟩

/-! ## C26: a loss report at the pipe's stream position -/

/-- C26: a `PACKETLOSS` message whose reported stream position is the pipe's stream position
is handled as the `ACKNOWLEDGMENT` of that position is handled: the handler sends no datagram,
raises neither the fatal packet-loss error nor a null-pointer fault, and leaves the pipe state
and the packet pool as `processAcknowledgment` leaves them for that slave and that position;
for a node index in 1..`numSlaves` it returns. -/
theorem packetLoss_at_stream_position_acknowledges (ps : PipeState) (pool : List Packet)
    (msg : SlaveMessage) (hid : msg.messageId = SlaveMessageId.PACKETLOSS)
    (hpos : msg.streamPos = ps.streamPos) :
    handleSlaveMessageOn ps pool msg = handleAcknowledgment ps pool msg ∧
      (handleSlaveMessageOn ps pool msg).sent = [] ∧
      (handleSlaveMessageOn ps pool msg).status ≠ Status.failed Fault.fatalPacketLoss ∧
      (handleSlaveMessageOn ps pool msg).status ≠ Status.failed Fault.nullPointer ∧
      (∀ ps1 pool1,
        processAcknowledgment ps pool (sub32 msg.nodeIndex 1) msg.streamPos =
            Except.ok (ps1, pool1) →
          (handleSlaveMessageOn ps pool msg).pipeState = ps1 ∧
            (handleSlaveMessageOn ps pool msg).packetPoolHead = pool1 ∧
            (handleSlaveMessageOn ps pool msg).status = Status.returned ()) ∧
      (sub32 msg.nodeIndex 1 < ps.slaveStreamPosOffsets.length →
        (handleSlaveMessageOn ps pool msg).status = Status.returned ()) := by
  have hloss : handleSlaveMessageOn ps pool msg = handlePacketLoss ps pool msg := by
    unfold handleSlaveMessageOn
    rw [hid]
  have hsame : handlePacketLoss ps pool msg = handleAcknowledgment ps pool msg := by
    unfold handlePacketLoss handleAcknowledgment
    cases h : processAcknowledgment ps pool (sub32 msg.nodeIndex 1) msg.streamPos with
    | error f => rfl
    | ok v =>
      obtain ⟨ps1, pool1⟩ := v
      obtain ⟨_, _, _, _, _, hsp, _⟩ := processAcknowledgment_shape ps pool _ _ ps1 pool1 h
      have hnot : ¬ msg.streamPos < ps1.streamPos := by rw [hsp, hpos]; exact Nat.lt_irrefl _
      simp only [if_neg hnot]
  have hok : ∀ ps1 pool1,
      processAcknowledgment ps pool (sub32 msg.nodeIndex 1) msg.streamPos =
          Except.ok (ps1, pool1) →
        (handleAcknowledgment ps pool msg).pipeState = ps1 ∧
          (handleAcknowledgment ps pool msg).packetPoolHead = pool1 ∧
          (handleAcknowledgment ps pool msg).status = Status.returned () := by
    intro ps1 pool1 h
    unfold handleAcknowledgment
    rw [h]
    exact ⟨rfl, rfl, rfl⟩
  have hstatus : (∃ f, processAcknowledgment ps pool (sub32 msg.nodeIndex 1) msg.streamPos =
        Except.error f ∧ f = Fault.outOfBounds) ∨
      ∃ ps1 pool1, processAcknowledgment ps pool (sub32 msg.nodeIndex 1) msg.streamPos =
        Except.ok (ps1, pool1) := by
    cases h : processAcknowledgment ps pool (sub32 msg.nodeIndex 1) msg.streamPos with
    | ok v => exact Or.inr ⟨v.1, v.2, rfl⟩
    | error f =>
      left
      refine ⟨f, rfl, ?_⟩
      unfold processAcknowledgment at h
      simp only [] at h
      split at h
      · split at h
        · simp only [Except.error.injEq] at h
          exact h.symm
        · rename_i slaveOffset hget
          have hi : sub32 msg.nodeIndex 1 < ps.slaveStreamPosOffsets.length := by
            by_contra hge
            rw [List.getElem?_eq_none (by omega)] at hget
            exact absurd hget (by simp)
          split at h
          · split at h
            · have hne : ps.slaveStreamPosOffsets.set (sub32 msg.nodeIndex 1)
                  (sub32 msg.streamPos ps.headStreamPos) ≠ [] := by
                intro hnil
                have := congrArg List.length hnil
                rw [List.length_set] at this
                simp only [List.length_nil] at this
                omega
              obtain ⟨m, hm, _⟩ := minimumOf_spec _ hne
              rw [hm] at h
              exact absurd h (by simp)
            · exact absurd h (by simp)
          · exact absurd h (by simp)
      · exact absurd h (by simp)
  rw [hloss, hsame]
  refine ⟨rfl, ?_, ?_, ?_, hok, ?_⟩
  · unfold handleAcknowledgment
    split <;> rfl
  · rcases hstatus with ⟨f, hf, hfo⟩ | ⟨ps1, pool1, h⟩
    · unfold handleAcknowledgment
      rw [hf, hfo]
      simp
    · rw [(hok ps1 pool1 h).2.2]
      simp
  · rcases hstatus with ⟨f, hf, hfo⟩ | ⟨ps1, pool1, h⟩
    · unfold handleAcknowledgment
      rw [hf, hfo]
      simp
    · rw [(hok ps1 pool1 h).2.2]
      simp
  · intro hi
    obtain ⟨ps1, pool1, h⟩ := processAcknowledgment_returns ps pool _ msg.streamPos hi
    exact (hok ps1 pool1 h).2.2

theorem packetLoss_at_stream_position_acknowledges_witness :
    (handleSlaveMessageOn threeInWindow [] (packetLossMessage 1 1 10 10)).sent = [] ∧
      (handleSlaveMessageOn threeInWindow [] (packetLossMessage 1 1 10 10)).status =
        Status.returned () ∧
      handleSlaveMessageOn threeInWindow [] (packetLossMessage 1 1 10 10) =
        handleAcknowledgment threeInWindow [] (packetLossMessage 1 1 10 10) :=
  have h := packetLoss_at_stream_position_acknowledges threeInWindow []
    (packetLossMessage 1 1 10 10) rfl rfl
  ⟨h.2.1, h.2.2.2.2.2 (by decide), h.1⟩

/-! ## C27: the master's handling of a `BARRIER` message -/

/-- C27: on a valid pipe, a `BARRIER` message whose barrier id is at most the pipe's makes the
master's receiver thread send exactly one `BARRIER` master message with the pipe id and the
barrier id of the message, and changes neither the pipe state nor the packet pool.  A message
with a higher barrier id, from a node index in 1..`numSlaves`, sends nothing: it stores the
barrier id in that slave's entry of `slaveBarrierIds` and recomputes `minSlaveBarrierId`, and
every other field of the pipe state stays. -/
theorem barrier_message_resends_or_records (ps : PipeState) (pool : List Packet)
    (msg : SlaveMessage) (hid : msg.messageId = SlaveMessageId.BARRIER) :
    (msg.barrierId ≤ ps.barrierId →
        (handleSlaveMessageOn ps pool msg).sent =
            [Datagram.master
              { messageId := MasterMessageId.BARRIER, pipeId := msg.pipeId,
                barrierId := msg.barrierId }] ∧
          (handleSlaveMessageOn ps pool msg).pipeState = ps ∧
          (handleSlaveMessageOn ps pool msg).packetPoolHead = pool ∧
          (handleSlaveMessageOn ps pool msg).status = Status.returned ()) ∧
      (ps.barrierId < msg.barrierId → 1 ≤ msg.nodeIndex →
        msg.nodeIndex ≤ ps.slaveBarrierIds.length → ps.slaveBarrierIds.length < wordSize →
        (handleSlaveMessageOn ps pool msg).sent = [] ∧
          (handleSlaveMessageOn ps pool msg).packetPoolHead = pool ∧
          (handleSlaveMessageOn ps pool msg).status = Status.returned () ∧
          (ps.slaveBarrierIds.set (msg.nodeIndex - 1) msg.barrierId)[msg.nodeIndex - 1]? =
            some msg.barrierId ∧
          ∃ m, minimumOf (ps.slaveBarrierIds.set (msg.nodeIndex - 1) msg.barrierId) =
              Except.ok m ∧
            (handleSlaveMessageOn ps pool msg).pipeState =
              { ps with
                slaveBarrierIds := ps.slaveBarrierIds.set (msg.nodeIndex - 1) msg.barrierId
                minSlaveBarrierId := m }) := by
  have hb : handleSlaveMessageOn ps pool msg = handleBarrier ps pool msg := by
    unfold handleSlaveMessageOn
    rw [hid]
  rw [hb]
  unfold handleBarrier
  constructor
  · intro hle
    rw [if_pos hle]
    exact ⟨rfl, rfl, rfl, rfl⟩
  · intro hlt h1 hN hW
    rw [if_neg (by omega)]
    have hidx : sub32 msg.nodeIndex 1 = msg.nodeIndex - 1 :=
      sub32_eq_of_le h1 (by omega)
    have hne : ps.slaveBarrierIds.set (msg.nodeIndex - 1) msg.barrierId ≠ [] := by
      intro hnil
      have := congrArg List.length hnil
      rw [List.length_set] at this
      simp only [List.length_nil] at this
      omega
    obtain ⟨m, hm, _⟩ := minimumOf_spec _ hne
    unfold recordBarrierId
    simp only [hidx]
    rw [if_pos (by omega), hm]
    refine ⟨rfl, rfl, rfl, ?_, m, rfl, rfl⟩
    rw [List.getElem?_set_self (by omega)]

theorem barrier_message_resends_or_records_witness :
    (handleSlaveMessageOn threeInWindow []
        { nodeIndex := 2, messageId := SlaveMessageId.BARRIER, pipeId := 1,
          barrierId := 1 }).sent =
        [Datagram.master
          { messageId := MasterMessageId.BARRIER, pipeId := 1, barrierId := 1 }] ∧
      (handleSlaveMessageOn threeInWindow []
        { nodeIndex := 2, messageId := SlaveMessageId.BARRIER, pipeId := 1,
          barrierId := 1 }).pipeState = threeInWindow ∧
      (handleSlaveMessageOn threeInWindow []
        { nodeIndex := 2, messageId := SlaveMessageId.BARRIER, pipeId := 1,
          barrierId := 2 }).sent = [] ∧
      (handleSlaveMessageOn threeInWindow []
        { nodeIndex := 2, messageId := SlaveMessageId.BARRIER, pipeId := 1,
          barrierId := 2 }).status = Status.returned () :=
  have h1 := (barrier_message_resends_or_records threeInWindow []
    { nodeIndex := 2, messageId := SlaveMessageId.BARRIER, pipeId := 1, barrierId := 1 }
    rfl).1 (by decide)
  have h2 := (barrier_message_resends_or_records threeInWindow []
    { nodeIndex := 2, messageId := SlaveMessageId.BARRIER, pipeId := 1, barrierId := 2 }
    rfl).2 (by decide) (by decide) (by decide) (by decide)
  ⟨h1.1, h1.2.1, h2.1, h2.2.2.1⟩

/-! ## C29: the node index of a slave message -/

/-- C29: the master's receiver thread indexes the per-slave arrays with `msg.nodeIndex-1`
without a range check.  On a master with two slaves whose pipe 1 is open and holds three sent
packets, an `ACKNOWLEDGMENT` or a `PACKETLOSS` with node index 3 indexes
`slaveStreamPosOffsets` at 2, and with node index 0 at the wrapped value of `0-1`; a `BARRIER`
with node index 3 indexes `slaveBarrierIds` at 2, a `GATHER` with node index 0 indexes it at
the wrapped value of `0-1`, and on a pipe that is being opened a `CREATEPIPE` with node index 3
indexes `slaveBarrierIds` at 2: each access is outside the array of two elements. -/
theorem nodeIndex_is_not_range_checked :
    (((Multiplexer.new 2 0).run (twoSlavesTraffic.take 7)).findEntry 1).map
        (fun ps => (ps.slaveStreamPosOffsets.length, ps.slaveBarrierIds.length,
          ps.slaveGatherValues.length)) = some (2, 2, 2) ∧
      sub32 3 1 = 2 ∧ sub32 0 1 = 4294967295 ∧
      (((Multiplexer.new 2 0).run (twoSlavesTraffic.take 7)).handleSlaveMessage
        (ackMessage 3 1 6)).status = Status.failed Fault.outOfBounds ∧
      (((Multiplexer.new 2 0).run (twoSlavesTraffic.take 7)).handleSlaveMessage
        (ackMessage 0 1 6)).status = Status.failed Fault.outOfBounds ∧
      (((Multiplexer.new 2 0).run (twoSlavesTraffic.take 7)).handleSlaveMessage
        (packetLossMessage 3 1 3 6)).status = Status.failed Fault.outOfBounds ∧
      (((Multiplexer.new 2 0).run (twoSlavesTraffic.take 7)).handleSlaveMessage
        { nodeIndex := 3, messageId := SlaveMessageId.BARRIER, pipeId := 1,
          barrierId := 2 }).status = Status.failed Fault.outOfBounds ∧
      (((Multiplexer.new 2 0).run (twoSlavesTraffic.take 7)).handleSlaveMessage
        { nodeIndex := 0, messageId := SlaveMessageId.GATHER, pipeId := 1, barrierId := 2,
          slaveValue := 5 }).status = Status.failed Fault.outOfBounds ∧
      (((Multiplexer.new 2 0).openPipeBegin []).1.handleSlaveMessage
        (createPipeMessage 3 1)).status = Status.failed Fault.outOfBounds := by
  decide

/-! ## C30: a send window no acknowledgment advances -/

/-- In a stuck state `processAcknowledgment` only overwrites the offset of the reporting slave
with a non-zero offset, or does nothing. -/
theorem processAcknowledgment_stuck (ps : PipeState) (pool : List Packet) (i r : Nat)
    (hs : ps.Stuck) (ps1 : PipeState) (pool1 : List Packet)
    (h : processAcknowledgment ps pool i r = Except.ok (ps1, pool1)) :
    pool1 = pool ∧ ps1.packetList = ps.packetList ∧ ps1.headStreamPos = ps.headStreamPos ∧
      ps1.streamPos = ps.streamPos ∧ ps1.Stuck := by
  unfold processAcknowledgment at h
  simp only [] at h
  split at h
  · rename_i hpos
    split at h
    · exact absurd h (by simp)
    · rename_i slaveOffset hget
      have hne : slaveOffset ≠ 0 := hs.2 slaveOffset (List.getElem?_mem hget)
      rw [if_neg hne] at h
      simp only [Except.ok.injEq, Prod.mk.injEq] at h
      rw [← h.1, ← h.2]
      refine ⟨rfl, rfl, rfl, rfl, hs.1, ?_⟩
      intro o ho
      rcases List.mem_or_eq_of_mem_set ho with hmem | heq
      · exact hs.2 o hmem
      · rw [heq]; omega
  · simp only [Except.ok.injEq, Prod.mk.injEq] at h
    rw [← h.1, ← h.2]
    exact ⟨rfl, rfl, rfl, rfl, hs⟩

theorem sendPacketOn_window (size pipeId : Nat) (ps : PipeState) (pool : List Packet)
    (packet : Packet) :
    (sendPacketOn size pipeId ps pool packet).packetPoolHead = pool ∧
      ps.packetList.packets <+: (sendPacketOn size pipeId ps pool packet).pipeState.packetList.packets := by
  unfold sendPacketOn
  split
  · exact ⟨rfl, List.prefix_refl _⟩
  · exact ⟨rfl, List.prefix_append _ _⟩

/-- An event other than `barrier` and `gather` keeps a stuck window stuck: the window head and
the packet pool stay and the window keeps its packets. -/
theorem masterStep_stuck (numSlaves pipeId sendBufferSize : Nat) (t : MasterTrace)
    (e : MasterEvent) (he : e.isFlush = false) (hs : t.pipeState.Stuck) :
    (masterStep numSlaves pipeId sendBufferSize t e).pipeState.Stuck ∧
      (masterStep numSlaves pipeId sendBufferSize t e).pipeState.headStreamPos =
        t.pipeState.headStreamPos ∧
      (masterStep numSlaves pipeId sendBufferSize t e).packetPoolHead = t.packetPoolHead ∧
      t.pipeState.packetList.packets <+:
        (masterStep numSlaves pipeId sendBufferSize t e).pipeState.packetList.packets := by
  cases e with
  | barrier => exact absurd he (by simp [MasterEvent.isFlush])
  | gather v op => exact absurd he (by simp [MasterEvent.isFlush])
  | sendPacket packet =>
    simp only [masterStep]
    obtain ⟨h1, h2, h3, _⟩ :=
      sendPacketOn_flow sendBufferSize pipeId t.pipeState t.packetPoolHead packet
    obtain ⟨h4, h5⟩ :=
      sendPacketOn_window sendBufferSize pipeId t.pipeState t.packetPoolHead packet
    refine ⟨⟨by rw [h3]; exact hs.1, by rw [h2]; exact hs.2⟩, h1, h4, h5⟩
  | message msg =>
    simp only [masterStep]
    split
    · simp only []
      rcases handleSlaveMessageOn_cases t.pipeState t.packetPoolHead msg with h | h
      · obtain ⟨⟨_, h2, h3, h4, h5⟩, hp⟩ := h
        refine ⟨⟨by rw [h5]; exact hs.1, by rw [h4]; exact hs.2⟩, h3, hp, ?_⟩
        rw [h2]
      · obtain ⟨hp, hl, hh, _, hst⟩ :=
          processAcknowledgment_stuck _ _ _ _ hs _ _ h.2
        refine ⟨hst, hh, hp, ?_⟩
        rw [hl]
    · exact ⟨hs, rfl, rfl, List.prefix_refl _⟩

theorem masterRun_stuck (numSlaves pipeId sendBufferSize : Nat) (events : List MasterEvent) :
    ∀ t : MasterTrace, (∀ e ∈ events, e.isFlush = false) → t.pipeState.Stuck →
      (masterRun numSlaves pipeId sendBufferSize t events).pipeState.Stuck ∧
        (masterRun numSlaves pipeId sendBufferSize t events).pipeState.headStreamPos =
          t.pipeState.headStreamPos ∧
        (masterRun numSlaves pipeId sendBufferSize t events).packetPoolHead =
          t.packetPoolHead ∧
        t.pipeState.packetList.packets <+:
          (masterRun numSlaves pipeId sendBufferSize t events).pipeState.packetList.packets := by
  induction events with
  | nil => intro t _ hs; exact ⟨hs, rfl, rfl, List.prefix_refl _⟩
  | cons e rest ih =>
    intro t he hs
    obtain ⟨h1, h2, h3, h4⟩ :=
      masterStep_stuck numSlaves pipeId sendBufferSize t e (he e (List.mem_cons_self _ _)) hs
    obtain ⟨g1, g2, g3, g4⟩ :=
      ih (masterStep numSlaves pipeId sendBufferSize t e)
        (fun x hx => he x (List.mem_cons_of_mem _ hx)) h1
    have hrun : masterRun numSlaves pipeId sendBufferSize t (e :: rest) =
        masterRun numSlaves pipeId sendBufferSize
          (masterStep numSlaves pipeId sendBufferSize t e) rest := rfl
    rw [hrun]
    exact ⟨g1, g2.trans h2, g3.trans h3, h4.trans g4⟩

/-- C30: on a pipe state of the master in which `numHeadSlaves` is 0 and every slave offset is
non-zero, `processAcknowledgment` returns for every slave index of the pipe and every reported
stream position, detaches no packet, leaves the send window, `headStreamPos`, `numHeadSlaves`
and the packet pool unchanged, and leaves every slave offset non-zero.  So along any sequence
of `sendPacket` calls and slave messages the window head and the pool stay and the window keeps
all its packets; the flush of a `barrier` or `gather` that passes moves the window to the pool
and puts every slave at the head again. -/
theorem stuck_window_never_advances (ps : PipeState) (pool : List Packet)
    (hhead : ps.numHeadSlaves = 0) (hoff : ∀ o ∈ ps.slaveStreamPosOffsets, o ≠ 0) :
    (∀ i r, i < ps.slaveStreamPosOffsets.length →
        ∃ ps1, processAcknowledgment ps pool i r = Except.ok (ps1, pool) ∧
          ps1.packetList = ps.packetList ∧ ps1.headStreamPos = ps.headStreamPos ∧
          ps1.numHeadSlaves = 0 ∧ (∀ o ∈ ps1.slaveStreamPosOffsets, o ≠ 0) ∧
          detachedBy ps pool i r = []) ∧
      (∀ numSlaves pipeId sendBufferSize sentSizes reported (events : List MasterEvent),
        (∀ e ∈ events, e.isFlush = false) →
          (masterRun numSlaves pipeId sendBufferSize
              { pipeState := ps, packetPoolHead := pool, sentSizes := sentSizes,
                reported := reported } events).pipeState.Stuck ∧
            (masterRun numSlaves pipeId sendBufferSize
              { pipeState := ps, packetPoolHead := pool, sentSizes := sentSizes,
                reported := reported } events).pipeState.headStreamPos = ps.headStreamPos ∧
            (masterRun numSlaves pipeId sendBufferSize
              { pipeState := ps, packetPoolHead := pool, sentSizes := sentSizes,
                reported := reported } events).packetPoolHead = pool ∧
            ps.packetList.packets <+:
              (masterRun numSlaves pipeId sendBufferSize
                { pipeState := ps, packetPoolHead := pool, sentSizes := sentSizes,
                  reported := reported } events).pipeState.packetList.packets) ∧
      (∀ numSlaves pipeId, ps.packetList.Consistent →
        ¬ ps.minSlaveBarrierId < add32 ps.barrierId 1 →
          (barrierMaster numSlaves pipeId ps pool).pipeState.packetList.packets = [] ∧
            (barrierMaster numSlaves pipeId ps pool).packetPoolHead =
              ps.packetList.packets ++ pool ∧
            (barrierMaster numSlaves pipeId ps pool).pipeState.numHeadSlaves = numSlaves ∧
            ∀ value op,
              (gatherMaster numSlaves pipeId ps pool value op).pipeState.packetList.packets =
                  [] ∧
                (gatherMaster numSlaves pipeId ps pool value op).packetPoolHead =
                  ps.packetList.packets ++ pool ∧
                (gatherMaster numSlaves pipeId ps pool value op).pipeState.numHeadSlaves =
                  numSlaves) := by
  have hs : ps.Stuck := ⟨hhead, hoff⟩
  refine ⟨?_, ?_, ?_⟩
  · intro i r hi
    obtain ⟨ps1, pool1, h⟩ := processAcknowledgment_returns ps pool i r hi
    obtain ⟨hp, hl, hh, _, hst⟩ := processAcknowledgment_stuck ps pool i r hs ps1 pool1 h
    subst hp
    refine ⟨ps1, h, hl, hh, hst.1, hst.2, ?_⟩
    unfold detachedBy
    rw [h]
    simp only [hl, Nat.sub_self, List.take_zero]
  · intro numSlaves pipeId sendBufferSize sentSizes reported events he
    exact masterRun_stuck numSlaves pipeId sendBufferSize events
      { pipeState := ps, packetPoolHead := pool, sentSizes := sentSizes,
        reported := reported } he hs
  · intro numSlaves pipeId hcons hnot
    rw [barrierMaster_passes numSlaves pipeId ps pool hcons hnot]
    refine ⟨rfl, rfl, rfl, ?_⟩
    intro value op
    rw [gatherMaster_passes numSlaves pipeId ps pool value op hcons hnot]
    exact ⟨rfl, rfl, rfl⟩

theorem stuck_window_never_advances_witness :
    (processAcknowledgment oneAtHead [] 1 9).toOption =
        some (stuckWindow, [⟨1, 4, 2, [1, 2]⟩, ⟨1, 6, 1, [3]⟩]) ∧
      (masterRun 2 1 20
        { pipeState := stuckWindow, packetPoolHead := [], sentSizes := [], reported := [] }
        stuckTraffic).pipeState.headStreamPos = 7 ∧
      (masterRun 2 1 20
        { pipeState := stuckWindow, packetPoolHead := [], sentSizes := [], reported := [] }
        stuckTraffic).pipeState.slaveStreamPosOffsets = [3, 3] ∧
      (masterRun 2 1 20
        { pipeState := stuckWindow, packetPoolHead := [], sentSizes := [], reported := [] }
        stuckTraffic).packetPoolHead = [] ∧
      ∃ ps1, processAcknowledgment stuckWindow [] 0 10 = Except.ok (ps1, []) ∧
        ps1.packetList = stuckWindow.packetList :=
  have h := stuck_window_never_advances stuckWindow [] (by decide) (by decide)
  have hrun := h.2.1 2 1 20 [] [] stuckTraffic (by decide)
  have hack := h.1 0 10 (by decide)
  ⟨by decide, hrun.2.1, by decide, hrun.2.2.1,
    hack.elim (fun ps1 hp => ⟨ps1, hp.1, hp.2.1⟩)⟩

/-! ## C13: the pipe ids of `openPipe` -/

theorem newPacket_nodeIndex (m : Multiplexer) (constructed : Packet) :
    (m.newPacket constructed).2.nodeIndex = m.nodeIndex := by
  unfold Multiplexer.newPacket
  split <;> rfl

theorem closePipe_nodeIndex (m : Multiplexer) (pipeId : Nat) (signalled : Bool) :
    (m.closePipe pipeId signalled).multiplexer.nodeIndex = m.nodeIndex := by
  have hb : (m.barrier pipeId signalled).multiplexer.nodeIndex = m.nodeIndex := by
    unfold Multiplexer.barrier
    split
    · rfl
    · split <;> rfl
  unfold Multiplexer.closePipe
  simp only []
  split
  · exact hb
  · exact hb
  · split
    · exact hb
    · split
      · split
        · exact hb
        · exact hb
      · exact hb

theorem openPipeFinish_nodeIndex (m : Multiplexer) (newPipeId : Nat) (signalled : Bool) :
    (m.openPipeFinish newPipeId signalled).multiplexer.nodeIndex = m.nodeIndex := by
  unfold Multiplexer.openPipeFinish
  split
  · rfl
  · split
    · split <;> rfl
    · simp only []
      split <;> rfl

theorem handleDataPacket_nodeIndex (n : Node) (pipeId streamPos : Nat) (payload : List Nat)
    (constructed : Packet) :
    (n.handleDataPacket pipeId streamPos payload constructed).1.multiplexer.nodeIndex =
      n.multiplexer.nodeIndex := by
  unfold Node.handleDataPacket
  simp only []
  split
  · rfl
  · split
    · exact newPacket_nodeIndex _ _
    · rfl

/-- No event at a node changes `nodeIndex`. -/
theorem step_nodeIndex (n : Node) (e : NodeEvent) :
    (n.step e).multiplexer.nodeIndex = n.multiplexer.nodeIndex := by
  cases e with
  | openPipeBegin u => rfl
  | openPipeFinish id s => exact openPipeFinish_nodeIndex _ _ _
  | closePipe id s => exact closePipe_nodeIndex _ _ _
  | sendPacket id p =>
    simp only [Node.step, Multiplexer.sendPacket]
    split <;> rfl
  | receivePacket id t =>
    simp only [Node.step, Multiplexer.receivePacket]
    split <;> rfl
  | barrier id s =>
    simp only [Node.step, Multiplexer.barrier]
    split
    · rfl
    · split <;> rfl
  | gather id v op s =>
    simp only [Node.step, Multiplexer.gather]
    split
    · rfl
    · split <;> rfl
  | setSendBufferSize k => rfl
  | slaveMessage msg =>
    simp only [Node.step]
    split
    · rfl
    · simp only [Multiplexer.handleSlaveMessage]
      split
      · rfl
      · rfl
      · split <;> rfl
  | masterMessage msg =>
    simp only [Node.step]
    split
    · rfl
    · simp only [Multiplexer.handleMasterMessage]
      split
      · rfl
      · rfl
      · split <;> rfl
  | dataPacket id pos payload c =>
    simp only [Node.step]
    split
    · rfl
    · split
      · rfl
      · exact handleDataPacket_nodeIndex _ _ _ _ _


theorem run_numSlaves (events : List NodeEvent) (n : Node) :
    (n.run events).multiplexer.numSlaves = n.multiplexer.numSlaves := by
  induction events generalizing n with
  | nil => rfl
  | cons e rest ih => exact (ih (n.step e)).trans (step_numSlaves n e)

theorem run_nodeIndex (events : List NodeEvent) (n : Node) :
    (n.run events).multiplexer.nodeIndex = n.multiplexer.nodeIndex := by
  induction events generalizing n with
  | nil => rfl
  | cons e rest ih => exact (ih (n.step e)).trans (step_nodeIndex n e)

theorem run_nextPipeId (events : List NodeEvent) (n : Node)
    (h : n.multiplexer.nextPipeId + openPipeCalls events < wordSize) :
    (n.run events).multiplexer.nextPipeId = n.multiplexer.nextPipeId + openPipeCalls events := by
  induction events generalizing n with
  | nil => rfl
  | cons e rest ih =>
    have hstep := step_nextPipeId n e
    have hrun : n.run (e :: rest) = (n.step e).run rest := rfl
    rw [hrun]
    cases e with
    | openPipeBegin u =>
      simp only [openPipeCalls] at h ⊢
      simp only at hstep
      have hadd : add32 n.multiplexer.nextPipeId 1 = n.multiplexer.nextPipeId + 1 :=
        add32_eq_of_lt (by omega)
      rw [hadd] at hstep
      rw [ih _ (by rw [hstep]; omega), hstep]
      omega
    | openPipeFinish id s =>
      simp only [openPipeCalls] at h ⊢
      rw [ih _ (by rw [hstep]; exact h), hstep]
    | closePipe id s =>
      simp only [openPipeCalls] at h ⊢
      rw [ih _ (by rw [hstep]; exact h), hstep]
    | sendPacket id p =>
      simp only [openPipeCalls] at h ⊢
      rw [ih _ (by rw [hstep]; exact h), hstep]
    | receivePacket id t =>
      simp only [openPipeCalls] at h ⊢
      rw [ih _ (by rw [hstep]; exact h), hstep]
    | barrier id s =>
      simp only [openPipeCalls] at h ⊢
      rw [ih _ (by rw [hstep]; exact h), hstep]
    | gather id v op s =>
      simp only [openPipeCalls] at h ⊢
      rw [ih _ (by rw [hstep]; exact h), hstep]
    | setSendBufferSize k =>
      simp only [openPipeCalls] at h ⊢
      rw [ih _ (by rw [hstep]; exact h), hstep]
    | slaveMessage msg =>
      simp only [openPipeCalls] at h ⊢
      rw [ih _ (by rw [hstep]; exact h), hstep]
    | masterMessage msg =>
      simp only [openPipeCalls] at h ⊢
      rw [ih _ (by rw [hstep]; exact h), hstep]
    | dataPacket id pos payload c =>
      simp only [openPipeCalls] at h ⊢
      rw [ih _ (by rw [hstep]; exact h), hstep]

/-- The second block of `openPipe` returns the id it is passed once its wait has ended. -/
theorem openPipeFinish_returns (m : Multiplexer) (newPipeId : Nat) (signalled : Bool)
    (ps : PipeState) (hentry : m.findEntry newPipeId = some ps)
    (hmaster : m.nodeIndex = 0 → ps.minSlaveBarrierId ≠ 0)
    (hslave : m.nodeIndex ≠ 0 → signalled = true) :
    (m.openPipeFinish newPipeId signalled).status = Status.returned newPipeId := by
  unfold Multiplexer.openPipeFinish
  rw [hentry]
  simp only []
  by_cases h0 : m.nodeIndex = 0
  · rw [if_pos h0, if_neg (hmaster h0)]
  · rw [if_neg h0, hslave h0]
    rfl

theorem findEntry_openPipeBegin (m : Multiplexer) (uninitialised : List Nat) :
    (m.openPipeBegin uninitialised).1.findEntry m.nextPipeId =
      some (newPipeState m.numSlaves m.nodeIndex uninitialised) := by
  show (m.pipeStateTable.filter (fun e => e.1 ≠ m.nextPipeId) ++
    [(m.nextPipeId, newPipeState m.numSlaves m.nodeIndex uninitialised)]).lookup
      m.nextPipeId = _
  have hnone := lookup_filter_self m.pipeStateTable m.nextPipeId
  generalize m.pipeStateTable.filter (fun e => e.1 ≠ m.nextPipeId) = l at hnone
  induction l with
  | nil => simp [List.lookup]
  | cons e rest ih =>
    obtain ⟨a, b⟩ := e
    simp only [List.cons_append, List.lookup_cons] at hnone ⊢
    cases hk : (m.nextPipeId == a) with
    | true => rw [hk] at hnone; exact absurd hnone (by simp)
    | false => rw [hk] at hnone; exact ih hnone

/-- State of the master's second block of `openPipe` while the `CREATEPIPE` messages of the
slaves come in: the slaves `1..j` have been recorded. -/
theorem createPipe_messages_recorded (id N : Nat) (hN : N < wordSize) (k : Nat) :
    ∀ (j : Nat) (n : Node), j + k = N → n.receiverEnded = false →
      n.multiplexer.nodeIndex = 0 →
      (∃ ps, n.multiplexer.findEntry id = some ps ∧ ps.barrierId = 0 ∧
        ps.slaveBarrierIds.length = N ∧ (∀ i, i < j → ps.slaveBarrierIds[i]? = some 1) ∧
        (1 ≤ j → minimumOf ps.slaveBarrierIds = Except.ok ps.minSlaveBarrierId)) →
      (n.run ((List.range' j k).map
          (fun i => NodeEvent.slaveMessage (createPipeMessage (i + 1) id)))).multiplexer.nodeIndex
          = 0 ∧
        ∃ ps, (n.run ((List.range' j k).map
            (fun i => NodeEvent.slaveMessage (createPipeMessage (i + 1) id)))).multiplexer.findEntry
              id = some ps ∧
          (∀ i, i < N → ps.slaveBarrierIds[i]? = some 1) ∧ ps.slaveBarrierIds.length = N ∧
          (1 ≤ N → minimumOf ps.slaveBarrierIds = Except.ok ps.minSlaveBarrierId) := by
  induction k with
  | zero =>
    intro j n hj _ hidx h
    obtain ⟨ps, h1, _, h3, h4, h5⟩ := h
    have hjN : j = N := by omega
    subst hjN
    exact ⟨hidx, ps, h1, h4, h3, h5⟩
  | succ k ih =>
    intro j n hj hend hidx h
    obtain ⟨ps, h1, h2, h3, h4, h5⟩ := h
    have hsub : sub32 (j + 1) 1 = j := by
      have := @sub32_eq_of_le (j + 1) 1 (by omega) (by omega)
      rw [this]; omega
    have hne : ps.slaveBarrierIds.set j 1 ≠ [] := by
      intro hnil
      have := congrArg List.length hnil
      rw [List.length_set] at this
      simp only [List.length_nil] at this
      omega
    obtain ⟨m, hm, _⟩ := minimumOf_spec _ hne
    have hon : handleSlaveMessageOn ps n.multiplexer.packetPoolHead
        (createPipeMessage (j + 1) id) =
        { pipeState := { ps with slaveBarrierIds := ps.slaveBarrierIds.set j 1,
                                 minSlaveBarrierId := m },
          packetPoolHead := n.multiplexer.packetPoolHead, sent := [],
          status := Status.returned () } := by
      show handleCreatePipe ps n.multiplexer.packetPoolHead (createPipeMessage (j + 1) id) = _
      unfold handleCreatePipe
      rw [if_neg (by omega)]
      unfold recordBarrierId
      show PipeResult.ofExcept ps n.multiplexer.packetPoolHead
        (if sub32 (j + 1) 1 < ps.slaveBarrierIds.length then
          match minimumOf (ps.slaveBarrierIds.set (sub32 (j + 1) 1) 1) with
          | Except.error f => Except.error f
          | Except.ok m => Except.ok { ps with
              slaveBarrierIds := ps.slaveBarrierIds.set (sub32 (j + 1) 1) 1,
              minSlaveBarrierId := m }
        else Except.error Fault.outOfBounds) = _
      rw [hsub, if_pos (by omega), hm]
      rfl
    have hmsg : n.multiplexer.handleSlaveMessage (createPipeMessage (j + 1) id) =
        n.multiplexer.store id (handleSlaveMessageOn ps n.multiplexer.packetPoolHead
          (createPipeMessage (j + 1) id)) := by
      show (match n.multiplexer.findEntry id with
        | none => _
        | some pipeState => _) = _
      rw [h1]
      rfl
    have hstep : n.step (NodeEvent.slaveMessage (createPipeMessage (j + 1) id)) =
        { n with
          multiplexer := n.multiplexer.writePipe id
            { ps with slaveBarrierIds := ps.slaveBarrierIds.set j 1, minSlaveBarrierId := m }
            n.multiplexer.packetPoolHead
          receiverEnded := false } := by
      simp only [Node.step, hend, Bool.false_eq_true, if_false, hmsg, hon, Multiplexer.store,
        Status.isFailure]
    have hrange : List.range' j (k + 1) = j :: List.range' (j + 1) k := rfl
    rw [hrange, List.map_cons]
    have hrun : ∀ rest, n.run (NodeEvent.slaveMessage (createPipeMessage (j + 1) id) :: rest) =
        (n.step (NodeEvent.slaveMessage (createPipeMessage (j + 1) id))).run rest :=
      fun _ => rfl
    rw [hrun, hstep]
    refine ih (j + 1)
      { n with
        multiplexer := n.multiplexer.writePipe id
          { ps with slaveBarrierIds := ps.slaveBarrierIds.set j 1, minSlaveBarrierId := m }
          n.multiplexer.packetPoolHead
        receiverEnded := false } (by omega) rfl hidx ?_
    refine ⟨_, findEntry_writePipe_same _ _ ps _ _ h1, h2, ?_, ?_, fun _ => hm⟩
    · show (ps.slaveBarrierIds.set j 1).length = N
      rw [List.length_set]; exact h3
    · intro i hi
      show (ps.slaveBarrierIds.set j 1)[i]? = some 1
      by_cases hij : i = j
      · subst hij
        rw [List.getElem?_set_self (by omega)]
      · rw [List.getElem?_set_ne (fun h => hij h.symm)]
        exact h4 i (by omega)

/-- On the master, once the receiver thread has handled the `CREATEPIPE` message of every
slave, the call of `openPipe` returns the id it took. -/
theorem openPipe_master_returns (n : Node) (uninitialised : List Nat) (signalled : Bool)
    (hidx : n.multiplexer.nodeIndex = 0) (hend : n.receiverEnded = false)
    (hN1 : 1 ≤ n.multiplexer.numSlaves) (hN : n.multiplexer.numSlaves < wordSize) :
    (n.openPipe uninitialised
      ((List.range n.multiplexer.numSlaves).map
        (fun i => NodeEvent.slaveMessage (createPipeMessage (i + 1) n.multiplexer.nextPipeId)))
      signalled).2 = Status.returned n.multiplexer.nextPipeId := by
  unfold Node.openPipe
  simp only []
  have hid : (n.multiplexer.openPipeBegin uninitialised).2 = n.multiplexer.nextPipeId := rfl
  rw [hid, List.range_eq_range']
  have hstart : ∃ ps, (n.step (NodeEvent.openPipeBegin uninitialised)).multiplexer.findEntry
      n.multiplexer.nextPipeId = some ps ∧ ps.barrierId = 0 ∧
      ps.slaveBarrierIds.length = n.multiplexer.numSlaves ∧
      (∀ i, i < 0 → ps.slaveBarrierIds[i]? = some 1) ∧
      (1 ≤ 0 → minimumOf ps.slaveBarrierIds = Except.ok ps.minSlaveBarrierId) := by
    refine ⟨_, findEntry_openPipeBegin n.multiplexer uninitialised, ?_, ?_,
      fun i hi => absurd hi (Nat.not_lt_zero i), fun h => absurd h (by omega)⟩
    · unfold newPipeState; rw [if_pos hidx]
    · unfold newPipeState; rw [if_pos hidx]; simp
  obtain ⟨hidx1, ps, hentry, hall, hlen, hmin⟩ :=
    createPipe_messages_recorded n.multiplexer.nextPipeId n.multiplexer.numSlaves hN
      n.multiplexer.numSlaves 0 (n.step (NodeEvent.openPipeBegin uninitialised))
      (by omega) hend hidx hstart
  apply openPipeFinish_returns _ _ _ ps hentry
  · intro _
    obtain ⟨m, hm, hmem, _⟩ := minimumOf_spec ps.slaveBarrierIds (by
      intro hnil
      rw [hnil] at hlen
      simp only [List.length_nil] at hlen
      omega)
    have hmin1 := hmin hN1
    rw [hm] at hmin1
    have hm1 : m = 1 := by
      obtain ⟨i, hi, hget⟩ := List.getElem_of_mem hmem
      have := hall i (by omega)
      rw [List.getElem?_eq_getElem hi, hget] at this
      exact Option.some.inj this
    have : ps.minSlaveBarrierId = 1 := by
      rw [hm1] at hmin1
      exact (Except.ok.inj hmin1).symm
    omega
  · intro h
    exact absurd hidx1 h

/-- C13: on a node constructed with any cluster size and node index, along any sequence of
calls and handled datagrams (`closePipe` calls included) with fewer than 2^32 `openPipe` calls,
the ids the `openPipe` calls take are 1, 2, ..., one for each call in call order: the `k`-th
call takes id `k`, no id is 0, no id is taken twice.  The next call, the `k`-th with `k` one
more than the calls so far and below 2^32, returns `k` as soon as its wait has ended (on the
master the minimum of the slaves' barrier ids of the new pipe is no longer 0, on a slave the
timed wait was signalled), whatever the node handles while the call waits; on a master with
1 to 2^32 - 1 slaves whose receiver thread is running the wait has ended once the thread has
handled the `CREATEPIPE` message of every slave, and the call returns `k`; and no `openPipe`
call returns anything but the id it took. -/
theorem openPipe_ids_count_from_one (numSlaves nodeIndex : Nat) (slaveThreadPacket : Packet)
    (events : List NodeEvent) (hcalls : openPipeCalls events < wordSize) :
    openPipeIds (Node.new numSlaves nodeIndex slaveThreadPacket) events =
        List.range' 1 (openPipeCalls events) ∧
      (∀ k, 1 ≤ k → k ≤ openPipeCalls events →
        (openPipeIds (Node.new numSlaves nodeIndex slaveThreadPacket) events)[k - 1]? =
          some k) ∧
      0 ∉ openPipeIds (Node.new numSlaves nodeIndex slaveThreadPacket) events ∧
      (openPipeIds (Node.new numSlaves nodeIndex slaveThreadPacket) events).Nodup ∧
      (∀ (uninitialised : List Nat) (during : List NodeEvent) (signalled : Bool)
          (ps : PipeState),
        openPipeCalls events + 1 < wordSize →
        ((((Node.new numSlaves nodeIndex slaveThreadPacket).run events).step
            (NodeEvent.openPipeBegin uninitialised)).run during).multiplexer.findEntry
              (openPipeCalls events + 1) = some ps →
        (((((Node.new numSlaves nodeIndex slaveThreadPacket).run events).step
            (NodeEvent.openPipeBegin uninitialised)).run during).multiplexer.nodeIndex = 0 →
          ps.minSlaveBarrierId ≠ 0) →
        (((((Node.new numSlaves nodeIndex slaveThreadPacket).run events).step
            (NodeEvent.openPipeBegin uninitialised)).run during).multiplexer.nodeIndex ≠ 0 →
          signalled = true) →
        (((Node.new numSlaves nodeIndex slaveThreadPacket).run events).openPipe uninitialised
          during signalled).2 = Status.returned (openPipeCalls events + 1)) ∧
      (nodeIndex = 0 → 1 ≤ numSlaves → numSlaves < wordSize →
        openPipeCalls events + 1 < wordSize →
        ((Node.new numSlaves nodeIndex slaveThreadPacket).run events).receiverEnded = false →
        ∀ (uninitialised : List Nat) (signalled : Bool),
          (((Node.new numSlaves nodeIndex slaveThreadPacket).run events).openPipe uninitialised
            ((List.range numSlaves).map
              (fun i =>
                NodeEvent.slaveMessage (createPipeMessage (i + 1) (openPipeCalls events + 1))))
            signalled).2 = Status.returned (openPipeCalls events + 1)) ∧
      ∀ (m : Multiplexer) (newPipeId : Nat) (signalled : Bool) (v : Nat),
        (m.openPipeFinish newPipeId signalled).status = Status.returned v → v = newPipeId := by
  have hids : openPipeIds (Node.new numSlaves nodeIndex slaveThreadPacket) events =
      List.range' 1 (openPipeCalls events) := by
    rw [openPipeIds_eq, List.range'_eq_map_range]
    apply List.map_congr_left
    intro i hi
    have hi := List.mem_range.mp hi
    show (if i = 0 then 1 else (1 + i) % wordSize) = 1 + i
    split
    · omega
    · exact Nat.mod_eq_of_lt (by omega)
  rw [hids]
  have hnext : openPipeCalls events + 1 < wordSize →
      ((Node.new numSlaves nodeIndex slaveThreadPacket).run
        events).multiplexer.nextPipeId = openPipeCalls events + 1 := by
    intro hk
    rw [run_nextPipeId events _ (by show 1 + openPipeCalls events < wordSize; omega)]
    show 1 + openPipeCalls events = openPipeCalls events + 1
    omega
  refine ⟨rfl, ?_, ?_, List.nodup_range' _ _, ?_, ?_, openPipeFinish_returns_id⟩
  · intro k hk1 hk2
    rw [List.getElem?_range' _ _ (by omega)]
    simp only [Nat.one_mul]
    congr 1
    omega
  · intro h
    have := List.mem_range'_1.mp h
    omega
  · intro uninitialised during signalled ps hk hentry hmaster hslave
    unfold Node.openPipe
    simp only []
    have hid : (((Node.new numSlaves nodeIndex slaveThreadPacket).run
        events).multiplexer.openPipeBegin uninitialised).2 = openPipeCalls events + 1 :=
      hnext hk
    rw [hid]
    exact openPipeFinish_returns _ _ _ ps hentry hmaster hslave
  · intro hidx hN1 hN hk hend uninitialised signalled
    have h := openPipe_master_returns
      ((Node.new numSlaves nodeIndex slaveThreadPacket).run events) uninitialised signalled
      (by rw [run_nodeIndex]; exact hidx) hend
      (by rw [run_numSlaves]; exact hN1) (by rw [run_numSlaves]; exact hN)
    rw [run_numSlaves, hnext hk] at h
    exact h

/-- C13 (witness): a master opens pipe 1, closes it, and opens two more pipes: the ids are 1, 2
and 3, and the closed pipe's id is not given out again.  Its next call, the fourth, returns 4
once the `CREATEPIPE` message of its slave has been handled; before that it waits.  On a slave
the first call returns 1 when its timed wait is signalled. -/
theorem openPipe_ids_count_from_one_witness :
    openPipeCalls openCloseOpen < wordSize ∧
      ((Node.new 1 0 ⟨0, 0, 0, []⟩).run openCloseOpen).multiplexer.findEntry 1 = none ∧
      openPipeIds (Node.new 1 0 ⟨0, 0, 0, []⟩) openCloseOpen = [1, 2, 3] ∧
      (((Node.new 1 0 ⟨0, 0, 0, []⟩).run openCloseOpen).openPipe []
        [NodeEvent.slaveMessage (createPipeMessage 1 4)] false).2 = Status.returned 4 ∧
      (((Node.new 1 0 ⟨0, 0, 0, []⟩).run openCloseOpen).openPipe [] [] false).2 =
        Status.blocked ∧
      (((Node.new 1 0 ⟨0, 0, 0, []⟩).run openCloseOpen).openPipe []
        ((List.range 1).map (fun i => NodeEvent.slaveMessage (createPipeMessage (i + 1) 4)))
        false).2 = Status.returned 4 ∧
      ((Node.new 2 1 ⟨0, 0, 0, []⟩).openPipe []
        [NodeEvent.openPipeFinish 1 false,
         NodeEvent.masterMessage { messageId := MasterMessageId.CREATEPIPE, pipeId := 1 }]
        true).2 = Status.returned 1 :=
  have h := openPipe_ids_count_from_one 1 0 ⟨0, 0, 0, []⟩ openCloseOpen (by decide)
  have hslave := openPipe_ids_count_from_one 2 1 ⟨0, 0, 0, []⟩ [] (by decide)
  ⟨by decide, by decide, h.1,
   h.2.2.2.2.1 [] [NodeEvent.slaveMessage (createPipeMessage 1 4)] false
     { slaveStreamPosOffsets := [0], numHeadSlaves := 1, slaveBarrierIds := [1],
       minSlaveBarrierId := 1, slaveGatherValues := [0] }
     (by decide) (by decide) (by decide) (by decide),
   by decide,
   h.2.2.2.2.2.1 rfl (by decide) (by decide) (by decide) (by decide) [] false,
   hslave.2.2.2.2.1 []
     [NodeEvent.openPipeFinish 1 false,
      NodeEvent.masterMessage { messageId := MasterMessageId.CREATEPIPE, pipeId := 1 }]
     true {} (by decide) (by decide) (by decide) (by decide)⟩

end Cluster
